import Mathlib

/-!
# Stage-sequence analysis of `timeline/hypno.cpp`

A shallow embedding of `hypnogram_t::calc_stats` and of the stage predicates
it uses.  The member vector `stages` is a `List sleep_stage_t`; epoch indices
and counts are `Nat`, differences of indices are taken in `Int` as the C++
`int` arithmetic does; every quantity that the source holds in a `double`
(`epoch_mins`, the minute totals, the percentages) is an exact rational.
-/

set_option autoImplicit false

namespace Hypno

/-- Modelled from the spec: the enumeration `sleep_stage_t` is declared in
`defs/defs.h`, which is not among the sources; its members are the eleven
labels that `timeline/hypno.cpp` names (the spec's StageLabel, with Absent
split into its four labels). -/
inductive sleep_stage_t where
  | WAKE
  | NREM1
  | NREM2
  | NREM3
  | NREM4
  | REM
  | LIGHTS_ON
  | UNSCORED
  | UNKNOWN
  | MOVEMENT
  | ARTIFACT
  deriving DecidableEq, Repr

open sleep_stage_t

/-! ## Stage predicates (hypno.cpp, lines 42-52) -/

def is_rem (s : sleep_stage_t) : Bool := s == REM

def is_nrem (s : sleep_stage_t) : Bool := s == NREM1 || s == NREM2 || s == NREM3 || s == NREM4

def is_nrem1 (s : sleep_stage_t) : Bool := s == NREM1

def is_nrem234 (s : sleep_stage_t) : Bool := s == NREM2 || s == NREM3 || s == NREM4

def is_wake (s : sleep_stage_t) : Bool := s == WAKE

def is_wake_or_lights (s : sleep_stage_t) : Bool := s == WAKE || s == LIGHTS_ON

def is_sleep (s : sleep_stage_t) : Bool :=
  s == NREM1 || s == NREM2 || s == NREM3 || s == NREM4 || s == REM

def is_absent (s : sleep_stage_t) : Bool :=
  s == UNSCORED || s == UNKNOWN || s == MOVEMENT || s == LIGHTS_ON || s == ARTIFACT

/-! ## Vector access -/

/-- The read `stages[e]`.  An index outside the vector, which the C++ read
leaves undefined, yields the filler UNKNOWN here; the statements below only
speak about epochs inside the vector. -/
def stage_at (stages : List sleep_stage_t) (e : Nat) : sleep_stage_t :=
  stages.getD e UNKNOWN

/-! ## Edge recoding (lines 249-263) -/

/-- The forward loop `for (e = 0; e < ne; e++)`: an UNKNOWN epoch is overwritten
with LIGHTS_ON, and the loop breaks at the first epoch that (after the
overwrite) is neither UNKNOWN nor LIGHTS_ON. -/
def recode_leading : List sleep_stage_t → List sleep_stage_t
  | [] => []
  | s :: rest =>
    let s1 := if s = UNKNOWN then LIGHTS_ON else s
    if s1 ≠ UNKNOWN ∧ s1 ≠ LIGHTS_ON then s1 :: rest
    else s1 :: recode_leading rest

/-- The backward loop `for (e = ne - 1; e != 0; e--)`: the same body, run from
the last epoch down to epoch 1; epoch 0 is never visited.  (For an empty vector
the loop would start at index -1; `calc_stats` below does not reach this
function in that case.) -/
def recode_trailing : List sleep_stage_t → List sleep_stage_t
  | [] => []
  | s0 :: rest => s0 :: (recode_leading rest.reverse).reverse

/-- Both recoding loops, in source order. -/
def recode_edges (stages : List sleep_stage_t) : List sleep_stage_t :=
  recode_trailing (recode_leading stages)

/-! ## Stage minutes (lines 270-288) -/

/-- The seven accumulators `mins_wake .. mins_other`. -/
structure stage_minutes where
  mins_wake : ℚ
  mins_n1 : ℚ
  mins_n2 : ℚ
  mins_n3 : ℚ
  mins_n4 : ℚ
  mins_rem : ℚ
  mins_other : ℚ
  deriving DecidableEq

/-- One pass of the body of the loop at lines 275-284. -/
def add_epoch_minutes (epoch_mins : ℚ) (m : stage_minutes) (s : sleep_stage_t) : stage_minutes :=
  if s = WAKE then { m with mins_wake := m.mins_wake + epoch_mins }
  else if s = NREM1 then { m with mins_n1 := m.mins_n1 + epoch_mins }
  else if s = NREM2 then { m with mins_n2 := m.mins_n2 + epoch_mins }
  else if s = NREM3 then { m with mins_n3 := m.mins_n3 + epoch_mins }
  else if s = NREM4 then { m with mins_n4 := m.mins_n4 + epoch_mins }
  else if s = REM then { m with mins_rem := m.mins_rem + epoch_mins }
  else if s ≠ LIGHTS_ON then { m with mins_other := m.mins_other + epoch_mins }
  else m

/-- The loop at lines 275-284, started from all accumulators at 0, with exact
sums. -/
def count_stage_minutes (epoch_mins : ℚ) (stages : List sleep_stage_t) : stage_minutes :=
  stages.foldl (add_epoch_minutes epoch_mins) ⟨0, 0, 0, 0, 0, 0, 0⟩

/-! ## Lights out/on check (lines 290-304) -/

/-- The loop `for (e = 1; e < ne-1; e++)` over the epochs still to visit, with
the flag `lights_back_on`; the result is `true` when `Helper::halt` is reached. -/
def lights_check_loop (stages : List sleep_stage_t) : List Nat → Bool → Bool
  | [], _ => false
  | e :: es, lights_back_on =>
    let lights_back_on1 :=
      if stage_at stages (e - 1) ≠ LIGHTS_ON ∧ stage_at stages e = LIGHTS_ON then true
      else lights_back_on
    if lights_back_on1 = true ∧ stage_at stages e = LIGHTS_ON ∧ stage_at stages (e + 1) ≠ LIGHTS_ON
    then true
    else lights_check_loop stages es lights_back_on1

/-- Whether the lights check halts: epochs 1 .. ne-2 are visited in order. -/
def lights_check_halts (stages : List sleep_stage_t) : Bool :=
  lights_check_loop stages (List.range' 1 (stages.length - 2)) false

/-! ## Boundary epochs (lines 307-382) -/

/-- Lines 308-312: the first epoch among 0 .. ne-2 that is not LIGHTS_ON, and 0
when the loop finds none. -/
def lights_out_epoch (stages : List sleep_stage_t) : Nat :=
  match (List.range (stages.length - 1)).find? (fun e => stage_at stages e ≠ LIGHTS_ON) with
  | some e => e
  | none => 0

/-- Lines 314-316: one past the last epoch among ne-1 .. 1 that is not
LIGHTS_ON, and ne when the loop finds none. -/
def lights_on_epoch (stages : List sleep_stage_t) : Nat :=
  match (List.range' 1 (stages.length - 1)).reverse.find?
      (fun e => stage_at stages e ≠ LIGHTS_ON) with
  | some e => e + 1
  | none => stages.length

/-- Lines 330-332: scanning down from `lights_on_epoch - 1` to 0, one past the
first epoch met that is not WAKE; `lights_on_epoch` when the loop finds none. -/
def final_wake_epoch (stages : List sleep_stage_t) : Nat :=
  match (List.range (lights_on_epoch stages)).reverse.find?
      (fun e => stage_at stages e ≠ WAKE) with
  | some e => e + 1
  | none => lights_on_epoch stages

/-- Lines 338-340. -/
def first_rem_epoch (stages : List sleep_stage_t) : Nat :=
  match (List.range stages.length).find? (fun e => stage_at stages e = REM) with
  | some e => e
  | none => stages.length

/-- The conversion of a `double` to `int`: truncation toward zero. -/
def to_int (q : ℚ) : Int :=
  if 0 ≤ q then Rat.floor q else - Rat.floor (-q)

/-- Line 345: `int lps_required = 10.0 / (double)epoch_mins`. -/
def lps_required (epoch_mins : ℚ) : Int := to_int (10 / epoch_mins)

/-- The inner loop at lines 363-369: `e2` runs over `e .. e + lps_required - 1`
and `lps` stays true only if every such `e2` is inside the vector and a sleep
epoch. -/
def lps_at (stages : List sleep_stage_t) (lps_req : Int) (e : Nat) : Bool :=
  (List.range' e lps_req.toNat).all
    (fun e2 => decide (e2 < stages.length) && is_sleep (stage_at stages e2))

/-- The loop at lines 352-377 over the epochs still to visit; the state is
`found_first_sleep` and `first_sleep_epoch`, the result is the pair
(`first_sleep_epoch`, `first_persistent_sleep_epoch`).  The loop breaks at the
first sleep epoch that starts `lps_required` epochs of sleep. -/
def first_sleep_loop (stages : List sleep_stage_t) (lps_req : Int) :
    List Nat → Bool → Nat → Nat × Nat
  | [], _, first_sleep => (first_sleep, stages.length)
  | e :: es, found_first_sleep, first_sleep =>
    if is_sleep (stage_at stages e) then
      let first_sleep1 := if found_first_sleep then first_sleep else e
      if lps_at stages lps_req e then (first_sleep1, e)
      else first_sleep_loop stages lps_req es true first_sleep1
    else first_sleep_loop stages lps_req es found_first_sleep first_sleep

def first_sleep_epoch (stages : List sleep_stage_t) (lps_req : Int) : Nat :=
  (first_sleep_loop stages lps_req (List.range stages.length) false stages.length).1

def first_persistent_sleep_epoch (stages : List sleep_stage_t) (lps_req : Int) : Nat :=
  (first_sleep_loop stages lps_req (List.range stages.length) false stages.length).2

/-- Lines 380-382: the last sleep epoch among ne-1 .. 1, and 0 when the loop
finds none. -/
def last_sleep_epoch (stages : List sleep_stage_t) : Nat :=
  match (List.range' 1 (stages.length - 1)).reverse.find?
      (fun e => is_sleep (stage_at stages e)) with
  | some e => e
  | none => 0

/-- Lines 422-424: the number of WAKE epochs met by
`for (e = first_sleep_epoch; e <= last_sleep_epoch; e++)`. -/
def waso_epochs (stages : List sleep_stage_t) (first_sleep last_sleep : Nat) : Nat :=
  ((List.range' first_sleep (last_sleep + 1 - first_sleep)).filter
    (fun e => stage_at stages e = WAKE)).length

/-! ## Thresholds in epochs (lines 507-530) -/

/-- The five `def_*_epochs` constants. -/
structure thresholds where
  def_persistent_sleep_epochs : Int
  def_rem_period_interuption_epochs : Int
  def_min_nrem_duration_epochs : Int
  def_terminating_waso_duration_epochs : Int
  def_min_rem_duration_epochs : Int
  deriving DecidableEq

/-- Lines 510-530: each duration in minutes divided by `epoch_mins` and
converted to `int`. -/
def thresholds_of (epoch_mins : ℚ) : thresholds where
  def_persistent_sleep_epochs := to_int (10 / epoch_mins)
  def_rem_period_interuption_epochs := to_int (15 / epoch_mins)
  def_min_nrem_duration_epochs := to_int (15 / epoch_mins)
  def_terminating_waso_duration_epochs := to_int (15 / epoch_mins)
  def_min_rem_duration_epochs := to_int (5 / epoch_mins)

/-- The epochs visited by `for (e2 = e; e2 <= elimit; e2++)` where
`elimit = ne-1 < e + d - 1 ? ne-1 : e + d - 1`. -/
def lookahead (ne e : Nat) (d : Int) : List Nat :=
  let elimit : Int := if (ne : Int) - 1 < (e : Int) + d - 1 then (ne : Int) - 1 else (e : Int) + d - 1
  List.range' e (elimit - (e : Int) + 1).toNat

/-- A vector filled from epoch 0 upward: entry `e` is computed by `step` from
`e` and the entries written so far (those of the epochs before `e`). -/
def fill_epochs {α : Type} (ne : Nat) (step : Nat → List α → α) : List α :=
  (List.range ne).foldl (fun prev e => prev ++ [step e prev]) []

/-- The call `v.resize(ne, 0)` on a vector holding `old`. -/
def resize_zero (old : List Int) (ne : Nat) : List Int :=
  old.take ne ++ List.replicate (ne - old.length) 0

/-! ## Persistent sleep (lines 538-571) -/

/-- The body of the loop at lines 545-571 for epoch `e`, with
`P = def_persistent_sleep_epochs`: `some true` for "S", `some false` for "W".
A WAKE, LIGHTS_ON or UNKNOWN epoch is "W".  Otherwise the `while` loop starts at
`ec = e - P` and walks upward.  For `P >= 1` it stops with "W" if `ec < 0` or at
the first WAKE or LIGHTS_ON epoch among `e-P .. e-1`, and with "S" when `ec`
reaches `e`.  For `P <= 0` the index starts at or after `e` and never meets `e`
again: the loop stops with "W" at the first WAKE or LIGHTS_ON epoch from `e - P`
on, and when there is none it reads `stages[ne]`, outside the vector (`none`). -/
def persistent_sleep_at (stages : List sleep_stage_t) (P : Int) (e : Nat) : Option Bool :=
  if stage_at stages e = WAKE ∨ stage_at stages e = LIGHTS_ON ∨ stage_at stages e = UNKNOWN
  then some false
  else if 1 ≤ P then
    some (decide (P ≤ (e : Int)) &&
      (List.range' (e - P.toNat) P.toNat).all (fun ec => !is_wake_or_lights (stage_at stages ec)))
  else if (List.range' (e + (-P).toNat) (stages.length - (e + (-P).toNat))).any
      (fun ec => is_wake_or_lights (stage_at stages ec))
  then some false
  else none

/-- Whether the loop at lines 545-571 reads outside the vector at some epoch. -/
def persistent_sleep_overruns (stages : List sleep_stage_t) (P : Int) : Bool :=
  (List.range stages.length).any (fun e => (persistent_sleep_at stages P e).isNone)

/-! ## Sleep onset and final wake (lines 575-593, 630-641) -/

/-- Lines 581-585: entry `e` is "S" (`true`) once a sleep epoch has been met. -/
def sleep_onset_forward : List sleep_stage_t → Bool → List Bool
  | [], _ => []
  | s :: rest, found_sleep =>
    let found_sleep1 := if is_sleep s then true else found_sleep
    found_sleep1 :: sleep_onset_forward rest found_sleep1

/-- Lines 589-593 on the reversed vectors: entries are reset to "W" (`false`)
until the first sleep epoch from the end, where the loop breaks. -/
def sleep_onset_backward : List (sleep_stage_t × Bool) → List Bool
  | [] => []
  | (s, b) :: rest =>
    if is_sleep s then b :: rest.map Prod.snd
    else false :: sleep_onset_backward rest

/-- The vector `sleep_onset`, `true` for "S" and `false` for "W". -/
def sleep_onset (stages : List sleep_stage_t) : List Bool :=
  (sleep_onset_backward (stages.zip (sleep_onset_forward stages false)).reverse).reverse

/-- Lines 635-641 on the reversed vector: from the end, wake or lights-on epochs
are flagged until the first sleep epoch, where the loop breaks. -/
def wata_backward : List sleep_stage_t → List Bool
  | [] => []
  | s :: rest =>
    if is_sleep s then List.replicate (rest.length + 1) false
    else is_wake_or_lights s :: wata_backward rest

/-- The vector `wata`. -/
def wata (stages : List sleep_stage_t) : List Bool :=
  (wata_backward stages.reverse).reverse

/-! ## Sleep period and cycle-ending WASO (lines 647-735) -/

/-- The three values that an entry of `sleep_period` takes: "", "NREM", "REM". -/
inductive period_t where
  | undefined
  | NREM
  | REM
  deriving DecidableEq, Repr

/-- The body of the loop at lines 650-735 for epoch `e`; `prev` holds the pairs
(`sleep_period`, `cycle_ending_waso`) of the epochs before `e`. -/
def sleep_period_step (thr : thresholds) (stages : List sleep_stage_t) (onset : List Bool)
    (e : Nat) (prev : List (period_t × Bool)) : period_t × Bool :=
  let ne := stages.length
  let s := stage_at stages e
  let period_prev := (prev.getD (e - 1) (period_t.undefined, false)).1
  let ending_prev := (prev.getD (e - 1) (period_t.undefined, false)).2
  if onset.getD e false = false then (period_t.undefined, false)
  else
    let previous_epoch_defined := if e = 0 then false else decide (period_prev ≠ period_t.undefined)
    let period : period_t :=
      if is_rem s && previous_epoch_defined then period_t.REM
      else
        let has_another_rem :=
          (lookahead ne e thr.def_rem_period_interuption_epochs).any
            (fun e2 => is_rem (stage_at stages e2))
        if (decide (e > 0) && decide (period_prev = period_t.REM)) && has_another_rem
        then period_t.REM
        else if ((decide (e > 0) && decide (period_prev = period_t.REM))
                  || (decide (e > 0) && ending_prev))
                && (is_wake s || is_nrem1 s)
        then period_t.undefined
        else
          let has_another_rem2 :=
            (lookahead ne e thr.def_min_nrem_duration_epochs).any
              (fun e2 => is_rem (stage_at stages e2))
          if (decide (e = 0) || decide (period_prev = period_t.undefined))
              && (is_wake s || is_nrem1 s || has_another_rem2)
          then period_t.undefined
          else period_t.NREM
    let no_near_sleep :=
      !(lookahead ne e thr.def_terminating_waso_duration_epochs).any
        (fun e2 => is_nrem234 (stage_at stages e2) || is_rem (stage_at stages e2))
    let ending : Bool :=
      if decide (period = period_t.NREM) && no_near_sleep then true
      else if decide (e > 0) && ending_prev && is_wake s then true
      else false
    (period, ending)

/-- The vectors `sleep_period` and `cycle_ending_waso`, entry by entry. -/
def sleep_period_pairs (thr : thresholds) (stages : List sleep_stage_t) :
    List (period_t × Bool) :=
  fill_epochs stages.length (sleep_period_step thr stages (sleep_onset stages))

def sleep_period (thr : thresholds) (stages : List sleep_stage_t) : List period_t :=
  (sleep_period_pairs thr stages).map Prod.fst

def cycle_ending_waso (thr : thresholds) (stages : List sleep_stage_t) : List Bool :=
  (sleep_period_pairs thr stages).map Prod.snd

/-! ## Sleep code (lines 742-825) -/

/-- Lines 748-752: the first epoch whose period is "REM", 99999 when none. -/
def first_sleep_period_rem (period : List period_t) : Nat :=
  match (List.range period.length).find? (fun e => period.getD e period_t.undefined = period_t.REM) with
  | some e => e
  | none => 99999

/-- Lines 749-755: the first epoch flagged as cycle-ending WASO, 99999 when none. -/
def first_cycle_ending_waso (ending : List Bool) : Nat :=
  match (List.range ending.length).find? (fun e => ending.getD e false) with
  | some e => e
  | none => 99999

/-- The body of the loop at lines 757-825 for epoch `e`; `old` is the content of
`sleep_code` after `resize`, `prev` the entries written for the epochs before `e`. -/
def sleep_code_step (thr : thresholds) (ne : Nat) (period : List period_t) (ending : List Bool)
    (wata_v : List Bool) (old : List Int) (e : Nat) (prev : List Int) : Int :=
  let period_at := fun (i : Nat) => period.getD i period_t.undefined
  let code_prev := prev.getD (e - 1) 0
  if ending.getD e false then old.getD e 0
  else if period_at e = period_t.NREM then 1
  else if period_at e = period_t.REM then
    if e > 0 ∧ period_at (e - 1) = period_t.NREM then
      if e ≤ first_sleep_period_rem period ∧ e ≤ first_cycle_ending_waso ending then 5
      else
        let count_rem : Int :=
          ((lookahead ne e thr.def_min_rem_duration_epochs).filter
            (fun e2 => period_at e2 = period_t.REM)).length
        if count_rem ≥ thr.def_min_rem_duration_epochs then 5 else 1
    else
      if e > 0 ∧ period_at (e - 1) = period_t.REM ∧ code_prev = 5 then 5 else 1
  else
    if e > 0 ∧ period_at (e - 1) = period_t.REM ∧ code_prev = 1 then 1
    else if wata_v.getD e false then 0
    else if period_at e = period_t.undefined ∧ e > 0 ∧ code_prev = 1 ∧ ending.getD e false = false
    then 1
    else 0

/-- The vector `sleep_code` after the loop at lines 757-825. -/
def sleep_code_from (old : List Int) (thr : thresholds) (stages : List sleep_stage_t) : List Int :=
  fill_epochs stages.length
    (sleep_code_step thr stages.length (sleep_period thr stages) (cycle_ending_waso thr stages)
      (wata stages) (resize_zero old stages.length))

/-! ## Cycle numbers (lines 834-874) -/

/-- The body of the loop at lines 836-874 for epoch `e`.  `prev` holds, for the
epochs before `e`, the pair (`sleep_cycle_number[e]`, value of `cnt_cycle` after
that epoch); `old` is the content of `sleep_cycle_number` after `resize`. -/
def cycle_number_step (thr : thresholds) (stages : List sleep_stage_t) (code : List Int)
    (old : List Int) (e : Nat) (prev : List (Int × Int)) : Int × Int :=
  let ne := stages.length
  let cnt_cycle : Int := if e = 0 then 0 else (prev.getD (e - 1) (0, 0)).2
  if code.getD e 0 = 0 then (0, cnt_cycle)
  else
    let previous_code : Int := if e = 0 then 0 else code.getD (e - 1) 0
    if code.getD e 0 - previous_code = 1 ∨ previous_code - code.getD e 0 = 4 then
      let elimit : Nat :=
        match (List.range' e (ne - e)).find? (fun e2 => code.getD e2 0 = 0 ∨ code.getD e2 0 = 5) with
        | some e2 => e2
        | none => ne - 1
      let cnt_nrem : Int :=
        ((List.range' e (elimit + 1 - e)).filter (fun e2 => is_nrem (stage_at stages e2))).length
      if cnt_nrem ≥ thr.def_min_nrem_duration_epochs then (cnt_cycle + 1, cnt_cycle + 1)
      else (old.getD e 0, cnt_cycle)
    else ((if e = 0 then 0 else (prev.getD (e - 1) (0, 0)).1), cnt_cycle)

/-- The vector `sleep_cycle_number` after the loop at lines 836-874. -/
def sleep_cycle_number_from (old_code old_number : List Int) (thr : thresholds)
    (stages : List sleep_stage_t) : List Int :=
  (fill_epochs stages.length
    (cycle_number_step thr stages (sleep_code_from old_code thr stages)
      (resize_zero old_number stages.length))).map Prod.fst

/-! ## Cycle statistics (lines 896-941) -/

/-- The read `m[k]` of a `std::map<int,int>` held as a key-sorted association
list: the stored value, or 0 for a key that is not yet present. -/
def map_at (m : List (Int × Int)) (k : Int) : Int :=
  match m.lookup k with
  | some v => v
  | none => 0

/-- The assignment `m[k] = v` on a key-sorted association list. -/
def map_set {β : Type} (m : List (Int × β)) (k : Int) (v : β) : List (Int × β) :=
  match m with
  | [] => [(k, v)]
  | (k1, v1) :: rest =>
    if k < k1 then (k, v) :: (k1, v1) :: rest
    else if k = k1 then (k, v) :: rest
    else (k1, v1) :: map_set rest k v

/-- The state of the loop at lines 905-915. -/
structure cycle_counts where
  num_nremc : Int
  cmin : List (Int × Int)
  cmax : List (Int × Int)
  counts_rem : List (Int × Int)
  counts_nrem : List (Int × Int)
  counts_other : List (Int × Int)
  deriving DecidableEq

/-- The body of the loop at lines 905-915 for epoch `e`. -/
def cycle_counts_step (stages : List sleep_stage_t) (number : List Int)
    (c : cycle_counts) (e : Nat) : cycle_counts :=
  let sn := number.getD e 0
  if sn = 0 then c
  else
    let num1 := if sn > c.num_nremc then sn else c.num_nremc
    let cmin1 := if c.cmin.lookup sn = none then map_set c.cmin sn e else c.cmin
    let cmax1 := map_set c.cmax sn e
    if is_rem (stage_at stages e) then
      { c with num_nremc := num1, cmin := cmin1, cmax := cmax1,
               counts_rem := map_set c.counts_rem sn (map_at c.counts_rem sn + 1) }
    else if is_nrem (stage_at stages e) then
      { c with num_nremc := num1, cmin := cmin1, cmax := cmax1,
               counts_nrem := map_set c.counts_nrem sn (map_at c.counts_nrem sn + 1) }
    else
      { c with num_nremc := num1, cmin := cmin1, cmax := cmax1,
               counts_other := map_set c.counts_other sn (map_at c.counts_other sn + 1) }

/-- The loop at lines 905-915. -/
def cycle_counts_of (stages : List sleep_stage_t) (number : List Int) : cycle_counts :=
  (List.range stages.length).foldl (cycle_counts_step stages number) ⟨0, [], [], [], [], []⟩

/-! ## The analysis (lines 237-961) -/

/-- The summary and cycle members of `hypnogram_t` that `calc_stats` sets.  Every
`double` is held as an exact rational (the binary64 values are the subject of
`calc_stats_double` below).  The members `slp_main_pct`, `slp_eff2_pct`,
`pct_n1 .. pct_rem`, `TpST` and the two cycle position vectors are held in
`summary_rest_t`, the epoch-level vectors in `epoch_level_t` and the clock times
in `clocks_t`.  The maps `nremc_*` are key-sorted association lists. -/
structure hypnogram_t where
  stages : List sleep_stage_t
  mins : stage_minutes
  any_sleep : Bool
  final_wake_epoch : Nat
  first_sleep_epoch : Nat
  first_persistent_sleep_epoch : Nat
  TIB : ℚ
  TRT : ℚ
  TWT : ℚ
  FWT : ℚ
  rem_lat_mins : ℚ
  TST : ℚ
  slp_lat : ℚ
  per_slp_lat : ℚ
  SPT : ℚ
  WASO : ℚ
  slp_eff_pct : ℚ
  sleep_code : List Int
  sleep_cycle_number : List Int
  num_nremc : Int
  nremc_mean_duration : ℚ
  nremc_duration : List (Int × ℚ)
  nremc_nrem_duration : List (Int × ℚ)
  nremc_rem_duration : List (Int × ℚ)
  nremc_start_epoch : List (Int × Int)
  nremc_epoch_duration : List (Int × Int)

/-- The ways in which `calc_stats` fails to return. -/
inductive calc_error where
  | index_out_of_range
  | lights_on_halt
  deriving DecidableEq, Repr

/-- The statements of `calc_stats` after the lights check, on the recoded
vector `stages`, in exact arithmetic; `old_code` and `old_number` are the
contents of `sleep_code` and `sleep_cycle_number` before the call. -/
def calc_stats_body (old_code old_number : List Int) (epoch_mins : ℚ)
    (stages : List sleep_stage_t) : hypnogram_t :=
  let ne := stages.length
  let mins := count_stage_minutes epoch_mins stages
  let lights_out := lights_out_epoch stages
  let lights_on := lights_on_epoch stages
  let final_wake := final_wake_epoch stages
  let first_rem := first_rem_epoch stages
  let first_sleep := first_sleep_epoch stages (lps_required epoch_mins)
  let first_persistent := first_persistent_sleep_epoch stages (lps_required epoch_mins)
  let last_sleep := last_sleep_epoch stages
  let TRT : ℚ := (((lights_on : Int) - (lights_out : Int) : Int) : ℚ) * epoch_mins
  let TWT : ℚ := mins.mins_wake
  let TST : ℚ := TRT - TWT - mins.mins_other
  let slp_lat : ℚ := (((first_sleep : Int) - (lights_out : Int) : Int) : ℚ) * epoch_mins
  let thr := thresholds_of epoch_mins
  let number := sleep_cycle_number_from old_code old_number thr stages
  let c := cycle_counts_of stages number
  let counts := fun (sn : Int) =>
    map_at c.counts_rem sn + map_at c.counts_nrem sn + map_at c.counts_other sn
  let sum_dur : ℚ :=
    (c.cmin.map (fun kv => (((map_at c.cmax kv.1 - kv.2 + 1 : Int) : ℚ)) * epoch_mins)).sum
  { stages := stages
    mins := mins
    any_sleep := decide (mins.mins_n1 + mins.mins_n2 + mins.mins_n3 + mins.mins_n4 + mins.mins_rem > 0)
    final_wake_epoch := final_wake
    first_sleep_epoch := first_sleep
    first_persistent_sleep_epoch := first_persistent
    TIB := (ne : ℚ) * epoch_mins
    TRT := TRT
    TWT := TWT
    FWT := (((lights_on : Int) - (final_wake : Int) : Int) : ℚ) * epoch_mins
    rem_lat_mins := (((first_rem : Int) - (first_sleep : Int) : Int) : ℚ) * epoch_mins
    TST := TST
    slp_lat := slp_lat
    per_slp_lat := (((first_persistent : Int) - (lights_out : Int) : Int) : ℚ) * epoch_mins
    SPT := TRT - slp_lat
    WASO := (waso_epochs stages first_sleep last_sleep : ℚ) * epoch_mins
    slp_eff_pct := (TST / TRT) * 100
    sleep_code := sleep_code_from old_code thr stages
    sleep_cycle_number := number
    num_nremc := c.num_nremc
    nremc_mean_duration := if c.num_nremc > 0 then sum_dur / (c.num_nremc : ℚ) else sum_dur
    nremc_duration := c.cmin.map (fun kv => (kv.1, ((counts kv.1 : Int) : ℚ) * epoch_mins))
    nremc_nrem_duration :=
      c.cmin.map (fun kv => (kv.1, ((map_at c.counts_nrem kv.1 : Int) : ℚ) * epoch_mins))
    nremc_rem_duration :=
      c.cmin.map (fun kv => (kv.1, ((map_at c.counts_rem kv.1 : Int) : ℚ) * epoch_mins))
    nremc_start_epoch := c.cmin.map (fun kv => (kv.1, kv.2 + 1))
    nremc_epoch_duration := c.cmin.map (fun kv => (kv.1, counts kv.1)) }

/-- The method `hypnogram_t::calc_stats` on a hypnogram whose `sleep_code` and
`sleep_cycle_number` hold `old_code` and `old_number`.  On an empty vector the
backward recoding loop starts at index -1 and reads outside the vector, which is
reported as `index_out_of_range`; `Helper::halt` in the lights check is
reported as `lights_on_halt`; a persistent-sleep loop that leaves the vector
(possible only when `def_persistent_sleep_epochs` is below 1) is reported as
`index_out_of_range` as well. -/
def calc_stats_from (old_code old_number : List Int) (epoch_mins : ℚ)
    (stages : List sleep_stage_t) : Except calc_error hypnogram_t :=
  if stages.isEmpty then Except.error calc_error.index_out_of_range
  else if lights_check_halts (recode_edges stages) then Except.error calc_error.lights_on_halt
  else if persistent_sleep_overruns (recode_edges stages)
      (thresholds_of epoch_mins).def_persistent_sleep_epochs
  then Except.error calc_error.index_out_of_range
  else Except.ok (calc_stats_body old_code old_number epoch_mins (recode_edges stages))

/-- The method `calc_stats` as `construct` calls it, on a new hypnogram
(`sleep_code` and `sleep_cycle_number` empty before the call). -/
def calc_stats (epoch_mins : ℚ) (stages : List sleep_stage_t) : Except calc_error hypnogram_t :=
  calc_stats_from [] [] epoch_mins stages

/-- A Boolean test on the result of a run that returned. -/
def returns_with (r : Except calc_error hypnogram_t) (p : hypnogram_t → Bool) : Bool :=
  match r with
  | Except.ok h => p h
  | Except.error _ => false

/-! ## Spec-side predicate and the nights used as instances -/

/-- An epoch that is neither sleep, WAKE nor LIGHTS_ON (the epochs that line 283
adds to `mins_other`). -/
def is_other (s : sleep_stage_t) : Bool := !is_sleep s && !is_wake s && !(s == LIGHTS_ON)

/-- The night of 58 epochs: 4 WAKE, 40 NREM2, 10 REM, 4 WAKE. -/
def cycle_scenario : List sleep_stage_t :=
  List.replicate 4 WAKE ++ List.replicate 40 NREM2 ++ List.replicate 10 REM
    ++ List.replicate 4 WAKE

/-- A night of 51 epochs, all WAKE except LIGHTS_ON at epochs 0, 5 and 50. -/
def lights_scenario : List sleep_stage_t :=
  [LIGHTS_ON] ++ List.replicate 4 WAKE ++ [LIGHTS_ON] ++ List.replicate 44 WAKE ++ [LIGHTS_ON]

/-- A short night with wake, sleep, a movement epoch and a lights-on tail. -/
def short_night : List sleep_stage_t :=
  [UNKNOWN, WAKE, NREM1, NREM2, MOVEMENT, WAKE, REM, WAKE, LIGHTS_ON]

/-! ## Three-class comparison (lines 54-60) -/

def is_same_3class (s1 s2 : sleep_stage_t) : Bool :=
  if s1 = s2 then true
  else if (s1 == NREM1 || s1 == NREM2 || s1 == NREM3 || s1 == NREM4)
      && (s2 == NREM1 || s2 == NREM2 || s2 == NREM3 || s2 == NREM4) then true
  else false

/-- The comparison of two stages in the flanking loops: `is_same_3class` when
the member `flanking_3class` is set, equality of the stages otherwise. -/
def same_class (flanking_3class : Bool) (a b : sleep_stage_t) : Bool :=
  if flanking_3class then is_same_3class a b else a == b

/-! ## Flanking epochs and nearest wake (lines 1120-1186) -/

/-- Lines 1128-1147, the value `sim` for epoch `e`: `j` runs over 1 .. ne-1 and
the loop breaks with `sim = j-1` at the first `j` for which `e-j` or `e+j` is
outside the vector or one of the two epochs is not of the class of `e`; `sim`
stays 0 when the loop ends without a break. -/
def flanking_at (flanking_3class : Bool) (stages : List sleep_stage_t) (e : Nat) : Int :=
  match (List.range' 1 (stages.length - 1)).find? (fun j =>
      decide (e < j) || decide (stages.length ≤ e + j)
        || !same_class flanking_3class (stage_at stages (e - j)) (stage_at stages e)
        || !same_class flanking_3class (stage_at stages (e + j)) (stage_at stages e)) with
  | some j => (j : Int) - 1
  | none => 0

/-- Lines 1153-1159: the number of increments of `sim_all` in the forward loop,
which runs from `e+1` and breaks at the first epoch not of the class of `e`. -/
def run_forward (flanking_3class : Bool) (stages : List sleep_stage_t) (e : Nat) : Nat :=
  match (List.range' (e + 1) (stages.length - (e + 1))).find? (fun ee =>
      !same_class flanking_3class (stage_at stages ee) (stage_at stages e)) with
  | some ee => ee - (e + 1)
  | none => stages.length - (e + 1)

/-- Lines 1162-1168: the number of increments of `sim_all` in the backward loop,
which runs from `e-1` down to 0 and breaks at the first epoch not of the class
of `e`. -/
def run_backward (flanking_3class : Bool) (stages : List sleep_stage_t) (e : Nat) : Nat :=
  match (List.range' 0 e).reverse.find? (fun ee =>
      !same_class flanking_3class (stage_at stages ee) (stage_at stages e)) with
  | some ee => e - 1 - ee
  | none => e

/-- Lines 1150-1168, the value `sim_all` for epoch `e`: 1 for the epoch itself
plus the increments of the two loops. -/
def flanking_tot_at (flanking_3class : Bool) (stages : List sleep_stage_t) (e : Nat) : Int :=
  1 + (run_forward flanking_3class stages e : Int) + (run_backward flanking_3class stages e : Int)

/-- Lines 1170-1182, the value `nw` for epoch `e`: 0 for a WAKE epoch; otherwise
`j` runs over 1 .. ne-1 and the loop breaks with `nw = j` at the first `j` for
which `e-j` or `e+j` is outside the vector or one of the two epochs is WAKE. -/
def nearest_wake_at (stages : List sleep_stage_t) (e : Nat) : Int :=
  if stage_at stages e ≠ WAKE then
    match (List.range' 1 (stages.length - 1)).find? (fun j =>
        decide (e < j) || decide (stages.length ≤ e + j)
          || decide (stage_at stages (e - j) = WAKE)
          || decide (stage_at stages (e + j) = WAKE)) with
    | some j => (j : Int)
    | none => 0
  else 0

/-- The vector `flanking` after the loop at lines 1120-1206 (every entry is
assigned). -/
def flanking (flanking_3class : Bool) (stages : List sleep_stage_t) : List Int :=
  (List.range stages.length).map (flanking_at flanking_3class stages)

/-- The vector `flanking_tot` after the loop at lines 1120-1206. -/
def flanking_tot (flanking_3class : Bool) (stages : List sleep_stage_t) : List Int :=
  (List.range stages.length).map (flanking_tot_at flanking_3class stages)

/-- The vector `nearest_wake` after the loop at lines 1120-1206. -/
def nearest_wake (stages : List sleep_stage_t) : List Int :=
  (List.range stages.length).map (nearest_wake_at stages)

/-! ## Transition counts (lines 1118, 1188-1203) -/

/-- The map `transitions` (a `std::map` of `std::map` of `int`, in which a missing
entry reads as 0) as a table of counts. -/
abbrev transitions_t := sleep_stage_t → sleep_stage_t → Nat

/-- The statement `++transitions[ss1][ss2]`. -/
def bump_transition (t : transitions_t) (ss1 ss2 : sleep_stage_t) : transitions_t :=
  fun a b => if a = ss1 ∧ b = ss2 then t a b + 1 else t a b

/-- Lines 1197-1198: under `flanking_3class` every NREM stage is counted as
NREM2; the stage itself otherwise. -/
def transition_class (flanking_3class : Bool) (s : sleep_stage_t) : sleep_stage_t :=
  if flanking_3class then (if is_nrem s then NREM2 else s) else s

/-- Lines 1192-1203 for epoch `e`. -/
def transitions_step (flanking_3class : Bool) (stages : List sleep_stage_t)
    (t : transitions_t) (e : Nat) : transitions_t :=
  if e ≠ 0 then
    bump_transition t (transition_class flanking_3class (stage_at stages (e - 1)))
      (transition_class flanking_3class (stage_at stages e))
  else t

/-- The map `transitions` after `transitions.clear()` and the loop at lines
1120-1206. -/
def transitions (flanking_3class : Bool) (stages : List sleep_stage_t) : transitions_t :=
  (List.range stages.length).foldl (transitions_step flanking_3class stages) (fun _ _ => 0)

/-- The eleven stage labels. -/
def all_stages : List sleep_stage_t :=
  [WAKE, NREM1, NREM2, NREM3, NREM4, REM, LIGHTS_ON, UNSCORED, UNKNOWN, MOVEMENT, ARTIFACT]

/-! ## Ascending/descending N2 (lines 1006-1081) -/

/-- Line 1006. -/
def n2_ascdesc_k : Int := 10

/-- One of the two `while` loops at lines 1022-1042 and 1052-1072 over the epochs
`k` still to visit, with the state (`wgt`, `n`): an NREM3/NREM4 epoch adds `deep`
to the weight, an NREM1/REM/WAKE epoch subtracts `deep`, each of them is
counted, and the loop breaks once more than `n2_ascdesc_k` epochs are counted. -/
def n2_scan (stages : List sleep_stage_t) (deep : ℚ) : List Nat → ℚ → Int → ℚ × Int
  | [], wgt, n => (wgt, n)
  | k :: ks, wgt, n =>
    let s := stage_at stages k
    let wgt1 := if s = NREM3 ∨ s = NREM4 then wgt + deep else wgt
    let n1 := if s = NREM3 ∨ s = NREM4 then n + 1 else n
    let wgt2 := if s = NREM1 ∨ s = REM ∨ s = WAKE then wgt1 - deep else wgt1
    let n2 := if s = NREM1 ∨ s = REM ∨ s = WAKE then n1 + 1 else n1
    if n2 > n2_ascdesc_k then (wgt2, n2) else n2_scan stages deep ks wgt2 n2

/-- Lines 1018-1079 for an NREM2 epoch `e`: the left scan runs from `e-1` down
to 0 with weight +1 for deep sleep, the right scan from `e+1` up to `ne-1` with
weight -1 for deep sleep; each weight is divided by its count when that is
positive, and the score is the mean of the two. -/
def n2_score (stages : List sleep_stage_t) (e : Nat) : ℚ :=
  let left := n2_scan stages 1 (List.range' 0 e).reverse 0 0
  let right := n2_scan stages (-1) (List.range' (e + 1) (stages.length - (e + 1))) 0 0
  let left_wgt := if left.2 > 0 then left.1 / (left.2 : ℚ) else left.1
  let right_wgt := if right.2 > 0 then right.1 / (right.2 : ℚ) else right.1
  (left_wgt + right_wgt) / 2

/-- The call `v.resize(ne, d)` on a vector holding `old`. -/
def resize_with {α : Type} (old : List α) (ne : Nat) (d : α) : List α :=
  old.take ne ++ List.replicate (ne - old.length) d

/-- A vector that is resized to `ne` entries (new entries `d`) and then assigned
`value e` at exactly the epochs `e` with `guard e`; the other entries keep what
the vector held. -/
def assign_where {α : Type} (old : List α) (d : α) (ne : Nat) (guard : Nat → Bool)
    (value : Nat → α) : List α :=
  (List.range ne).map (fun e => if guard e then value e else (resize_with old ne d).getD e d)

/-- The vector `n2_ascdesc` after lines 1011-1081, on a vector that held `old`:
only the NREM2 epochs are assigned. -/
def n2_ascdesc_from (old : List ℚ) (stages : List sleep_stage_t) : List ℚ :=
  assign_where old 0 stages.length (fun e => decide (stage_at stages e = NREM2))
    (n2_score stages)

/-- The vector `n2_ascdesc` of a new hypnogram. -/
def n2_ascdesc (stages : List sleep_stage_t) : List ℚ := n2_ascdesc_from [] stages

/-- The vector `is_waso` after lines 1089-1095, on a vector that held `old`:
entries are only ever set to `true`. -/
def is_waso_from (old : List Bool) (stages : List sleep_stage_t)
    (first_sleep final_wake : Nat) : List Bool :=
  assign_where old false stages.length
    (fun e => decide (stage_at stages e = WAKE) && decide (e > first_sleep)
      && decide (e < final_wake))
    (fun _ => true)

/-! ## Directional transitions (lines 1214-1350) -/

/-- One of the six `while (1)` loops at lines 1224-1304 for an epoch `e` of the
source class: `ei` is incremented while `e + ei` is of the source class; the
result is 0 when `e + ei` reaches `ne`, `ei` when the epoch `e + ei` is of the
destination class and has `flanking_tot >= req_pre_post_epochs`, and 0
otherwise. -/
def transition_distance (source dest : sleep_stage_t → Bool) (flanking_3class : Bool)
    (req_pre_post_epochs : Int) (stages : List sleep_stage_t) (e : Nat) : Int :=
  match (List.range' (e + 1) (stages.length - (e + 1))).find? (fun k =>
      !source (stage_at stages k)) with
  | none => 0
  | some k =>
    if dest (stage_at stages k) = true
        ∧ (flanking_tot flanking_3class stages).getD k 0 ≥ req_pre_post_epochs
    then (k : Int) - (e : Int)
    else 0

/-- One of the vectors `nrem2rem .. wake2rem` after the loop at lines 1214-1308,
on a vector that held `old`: only the epochs of the source class are assigned. -/
def transition_vector_from (old : List Int) (source dest : sleep_stage_t → Bool)
    (flanking_3class : Bool) (req_pre_post_epochs : Int) (stages : List sleep_stage_t) :
    List Int :=
  assign_where old 0 stages.length (fun e => source (stage_at stages e))
    (transition_distance source dest flanking_3class req_pre_post_epochs stages)

def nrem2rem (f3 : Bool) (req : Int) (stages : List sleep_stage_t) : List Int :=
  transition_vector_from [] is_nrem is_rem f3 req stages

def nrem2wake (f3 : Bool) (req : Int) (stages : List sleep_stage_t) : List Int :=
  transition_vector_from [] is_nrem is_wake f3 req stages

def rem2nrem (f3 : Bool) (req : Int) (stages : List sleep_stage_t) : List Int :=
  transition_vector_from [] is_rem is_nrem f3 req stages

def rem2wake (f3 : Bool) (req : Int) (stages : List sleep_stage_t) : List Int :=
  transition_vector_from [] is_rem is_wake f3 req stages

def wake2nrem (f3 : Bool) (req : Int) (stages : List sleep_stage_t) : List Int :=
  transition_vector_from [] is_wake is_nrem f3 req stages

def wake2rem (f3 : Bool) (req : Int) (stages : List sleep_stage_t) : List Int :=
  transition_vector_from [] is_wake is_rem f3 req stages

/-- The loop at lines 1322-1350 for one of the six vectors, over the epochs
still to visit; `x` is the running value (`e_nrem2rem` and the like). -/
def total_loop (dist : List Int) : List Nat → Int → List Int
  | [], _ => []
  | e :: es, x =>
    let x1 := if dist.getD e 0 = 0 then 0 else if dist.getD e 0 > x then dist.getD e 0 else x
    x1 :: total_loop dist es x1

/-- One of the vectors `nrem2rem_total .. wake2rem_total` after lines 1313-1350,
on a vector that held `old`: the running value starts at `dist[0]`, the epochs
1 .. ne-1 are assigned, entry 0 is not. -/
def transition_total_from (old : List Int) (dist : List Int) (ne : Nat) : List Int :=
  if ne = 0 then []
  else (resize_with old ne 0).getD 0 0 :: total_loop dist (List.range' 1 (ne - 1)) (dist.getD 0 0)

/-- The reading of an X-to-Y transition distance `dist` at required run length
`req`: an epoch not of the source class has distance 0; at an epoch `e` of the
source class the distance is never negative, it is `d >= 1` exactly when the
epochs `e .. e+d-1` are of the source class and the epochs `e+d .. e+d+req-1`
all exist and are of the destination class, and it is 0 when no `d >= 1` is
such. -/
def distance_reading (source dest : sleep_stage_t → Bool) (req : Int)
    (stages : List sleep_stage_t) (dist : List Int) : Prop :=
  ∀ e, e < stages.length →
    (source (stage_at stages e) = false → dist.getD e 0 = 0) ∧
    (source (stage_at stages e) = true →
      0 ≤ dist.getD e 0 ∧
      (∀ d : Nat, 1 ≤ d →
        (dist.getD e 0 = (d : Int) ↔
          (∀ i, e ≤ i → i < e + d → source (stage_at stages i) = true) ∧
          (∀ i, e + d ≤ i → (i : Int) < (e : Int) + (d : Int) + req →
            i < stages.length ∧ dest (stage_at stages i) = true))) ∧
      ((¬ ∃ d : Nat, 1 ≤ d ∧
          (∀ i, e ≤ i → i < e + d → source (stage_at stages i) = true) ∧
          (∀ i, e + d ≤ i → (i : Int) < (e : Int) + (d : Int) + req →
            i < stages.length ∧ dest (stage_at stages i) = true)) →
        dist.getD e 0 = 0))

/-! ## Construction from stage labels (lines 62-77) -/

/-- The ways in which `construct` fails to return: its own check of the number
of labels, or a failure inside `calc_stats`. -/
inductive construct_error where
  | bad_number_of_stages
  | in_calc_stats (err : calc_error)
  deriving DecidableEq, Repr

/-- The method `hypnogram_t::construct` on a vector `s` of stage labels.  The
function `globals::stage` (label to stage), the value of
`timeline->num_total_epochs()` and the epoch length of the timeline are not
among the sources and are taken as the parameters `stage_of`,
`num_total_epochs` and `epoch_mins`. -/
def construct {label : Type} (stage_of : label → sleep_stage_t) (num_total_epochs : Nat)
    (epoch_mins : ℚ) (s : List label) : Except construct_error hypnogram_t :=
  if s.length ≠ num_total_epochs then Except.error construct_error.bad_number_of_stages
  else
    match calc_stats epoch_mins (s.map stage_of) with
    | Except.ok h => Except.ok h
    | Except.error err => Except.error (construct_error.in_calc_stats err)

/-! ## Spec-side reading of a running counter -/

/-- A counter `cnt` that starts at 0 and goes up by at most 1 per epoch, and
numbers `num` that are 0 or the current count and are the count where it goes
up: the shape of `cnt_cycle` and `sleep_cycle_number`. -/
structure counted (ne : Nat) (num cnt : Nat → Int) : Prop where
  nonneg : ∀ e, e < ne → 0 ≤ cnt e
  zero_or_count : ∀ e, e < ne → num e = 0 ∨ num e = cnt e
  step : ∀ e, e < ne →
    cnt e = (if e = 0 then 0 else cnt (e - 1)) ∨
    (cnt e = (if e = 0 then 0 else cnt (e - 1)) + 1 ∧ num e = cnt e)

/-- The pairs (`sleep_cycle_number[e]`, `cnt_cycle` after epoch `e`) of a run on
a new hypnogram. -/
def cycle_pairs (thr : thresholds) (st : List sleep_stage_t) : List (Int × Int) :=
  fill_epochs st.length
    (cycle_number_step thr st (sleep_code_from [] thr st) (resize_zero [] st.length))

/-! ## Epoch-level persistent sleep (lines 958-961) -/

/-- The vector `in_persistent_sleep` after lines 959-961, on a vector that held
`old`: the entries of the epochs with `persistent_sleep[e] == "S"` are set to
`true`, the others keep what the vector held (`false` after the resize of a new
vector). -/
def in_persistent_sleep_from (old : List Bool) (stages : List sleep_stage_t) (P : Int) :
    List Bool :=
  assign_where old false stages.length
    (fun e => decide (persistent_sleep_at stages P e = some true)) (fun _ => true)

/-- The vector `in_persistent_sleep` of a new hypnogram. -/
def in_persistent_sleep (stages : List sleep_stage_t) (P : Int) : List Bool :=
  in_persistent_sleep_from [] stages P

/-! ## Running totals of a new hypnogram (lines 1313-1350) -/

def nrem2rem_total (f3 : Bool) (req : Int) (stages : List sleep_stage_t) : List Int :=
  transition_total_from [] (nrem2rem f3 req stages) stages.length

/-- A night of 100001 epochs: 100000 NREM2 epochs followed by one REM epoch. -/
def long_night : List sleep_stage_t := List.replicate 100000 NREM2 ++ [REM]

/-! ## Time in persistent sleep (lines 542-571) -/

/-- The read `m[k]` of a `std::map<int,double>`: the stored value, or 0 for a
key that is not present. -/
def map_at_double (m : List (Int × ℚ)) (k : Int) : ℚ :=
  match m.lookup k with
  | some v => v
  | none => 0

/-- The value assigned to `cycle_pos_absolute[e]` at line 953: `e` minus
`cmin[sn]`, times `epoch_mins`. -/
def cycle_pos_absolute_at (epoch_mins : ℚ) (stages : List sleep_stage_t) (number : List Int)
    (e : Nat) : ℚ :=
  ((((e : Int) - map_at (cycle_counts_of stages number).cmin (number.getD e 0) : Int)) : ℚ)
    * epoch_mins

/-- The vector `cycle_pos_absolute` after lines 945-955, on a vector that held
`old`: the resize fills with -1 and only the epochs with a nonzero cycle number
are assigned. -/
def cycle_pos_absolute_from (old : List ℚ) (epoch_mins : ℚ) (stages : List sleep_stage_t)
    (number : List Int) : List ℚ :=
  assign_where old (-1) stages.length (fun e => decide (number.getD e 0 ≠ 0))
    (cycle_pos_absolute_at epoch_mins stages number)

/-- The vector `cycle_pos_relative` after lines 944-955, on a vector that held
`old`: the absolute position just assigned, divided by `nremc_duration[sn]`. -/
def cycle_pos_relative_from (old : List ℚ) (epoch_mins : ℚ) (stages : List sleep_stage_t)
    (number : List Int) (nremc_duration : List (Int × ℚ)) : List ℚ :=
  assign_where old (-1) stages.length (fun e => decide (number.getD e 0 ≠ 0))
    (fun e => cycle_pos_absolute_at epoch_mins stages number e
      / map_at_double nremc_duration (number.getD e 0))

/-- The vector `cycle_pos_absolute` of a new hypnogram after a call that
returned `h`. -/
def cycle_pos_absolute (epoch_mins : ℚ) (h : hypnogram_t) : List ℚ :=
  cycle_pos_absolute_from [] epoch_mins h.stages h.sleep_cycle_number

/-- The vector `cycle_pos_relative` of a new hypnogram after a call that
returned `h`. -/
def cycle_pos_relative (epoch_mins : ℚ) (h : hypnogram_t) : List ℚ :=
  cycle_pos_relative_from [] epoch_mins h.stages h.sleep_cycle_number h.nremc_duration

/-- The vector `is_waso` of a new hypnogram after a call that returned `h`. -/
def is_waso (h : hypnogram_t) : List Bool :=
  is_waso_from [] h.stages h.first_sleep_epoch h.final_wake_epoch

/-! ## Index traces of `calc_stats` (lines 237-1350)

Every vector that `calc_stats` indexes has `ne` entries: `stages`, the local
vectors constructed with `ne` entries (`persistent_sleep`, `sleep_onset`,
`sleep_count`, `sleep_state`, `wata`, `sleep_period`, `cycle_ending_waso`) and
the members that are resized to `ne` before they are indexed.  The definitions of
this section list, loop by loop and pass by pass, the index expressions the
source evaluates, as integers.  A pass lists an index once even when several
vectors are indexed with it, and lists the indices of a condition without regard
to short-circuit evaluation on vector contents; a guard on the index itself
(`e > 0 && ...`, `if ( e2 >= ne ) break`) is kept. -/

/-- The read `stages[x]` for an `int` index: the value that steers the loops.
The traces record the index `x` itself; the value read with an index outside
the vector is the filler of `stage_at` (for a negative index, the entry 0). -/
def stage_int (stages : List sleep_stage_t) (x : Int) : sleep_stage_t :=
  stage_at stages x.toNat

/-- The values of the loop variable of `for (x = a; x < b; x++)`. -/
def up_to (a b : Int) : List Int :=
  (List.range (b - a).toNat).map (fun (i : Nat) => a + (i : Int))

/-- The values of the loop variable of `for (x = a; x >= b; x--)`. -/
def down_to (a b : Int) : List Int :=
  (List.range (a + 1 - b).toNat).map (fun (i : Nat) => a - (i : Int))

/-- The passes of a loop that are run when a pass for which `brk` holds ends
with `break`: the values up to and including the first such one. -/
def until_break (brk : Int → Bool) : List Int → List Int
  | [] => []
  | x :: xs => if brk x then [x] else x :: until_break brk xs

/-- A loop whose end is not fixed by an order test on an unmodified counter
(`e != 0`, `while ( okay )`, `while ( 1 )`, a counter with a second state).  The
body maps the state to the indices of the pass and to the next state, `none`
when the loop ends; the loop is run for at most `fuel` passes and the result is
`none` when it has not ended by then. -/
def run_loop {σ : Type} (body : σ → List Int × Option σ) : Nat → σ → Option (List Int)
  | 0, _ => none
  | fuel + 1, s =>
    match body s with
    | (reads, none) => some reads
    | (reads, some s1) =>
      match run_loop body fuel s1 with
      | none => none
      | some tr => some (reads ++ tr)

/-- The traces of consecutive pieces of code, `none` when one of them does not
end. -/
def collect : List (Option (List Int)) → Option (List Int)
  | [] => some []
  | none :: _ => none
  | some tr :: rest =>
    match collect rest with
    | none => none
    | some tr2 => some (tr ++ tr2)

/-- The epochs visited by `for (e2 = e; e2 <= elimit; e2++)` where
`elimit = ne-1 < e + d - 1 ? ne-1 : e + d - 1`. -/
def window (ne e d : Int) : List Int :=
  let elimit : Int := if ne - 1 < e + d - 1 then ne - 1 else e + d - 1
  up_to e (elimit + 1)

/-- Lines 253-263, on the vector as passed in: the forward loop, then the
backward loop `for (e = ne - 1; e != 0; e--)` on the vector the forward loop
left. -/
def recode_accesses (fuel : Nat) (stages : List sleep_stage_t) : Option (List Int) :=
  let ne : Int := stages.length
  let recoded := fun (s : sleep_stage_t) => if s = UNKNOWN then LIGHTS_ON else s
  let st1 := recode_leading stages
  collect
    [some (until_break
      (fun e => decide (recoded (stage_int stages e) ≠ UNKNOWN
        ∧ recoded (stage_int stages e) ≠ LIGHTS_ON)) (up_to 0 ne)),
     run_loop (fun (e : Int) =>
        if e = 0 then ([], none)
        else ([e],
          if recoded (stage_int st1 e) ≠ UNKNOWN ∧ recoded (stage_int st1 e) ≠ LIGHTS_ON
          then none else some (e - 1)))
      fuel (ne - 1)]

/-- A loop `for (e = 0; e < ne; e++)` whose pass indexes with `e` only: lines
275-284, 581-585, 603-608, 616-626, 905-915, 947-955, 959-961, 1089-1095. -/
def epoch_loop_accesses (stages : List sleep_stage_t) : List Int :=
  up_to 0 (stages.length : Int)

/-- Lines 296-305: the state is (`e`, `lights_back_on`); the pass indexes with
`e-1`, `e` and `e+1`, and the loop is left when `Helper::halt` is reached. -/
def lights_check_accesses (fuel : Nat) (stages : List sleep_stage_t) : Option (List Int) :=
  let ne : Int := stages.length
  run_loop (fun (s : Int × Bool) =>
      let e := s.1
      if e < ne - 1 then
        let lights_back_on1 :=
          if stage_int stages (e - 1) ≠ LIGHTS_ON ∧ stage_int stages e = LIGHTS_ON then true
          else s.2
        ([e - 1, e, e + 1],
          if lights_back_on1 = true ∧ stage_int stages e = LIGHTS_ON
              ∧ stage_int stages (e + 1) ≠ LIGHTS_ON
          then none else some (e + 1, lights_back_on1))
      else ([], none))
    fuel (1, false)

/-- Lines 308-340: the loops that find `lights_out_epoch`, `lights_on_epoch`,
`final_wake_epoch` and `first_rem_epoch`. -/
def boundary_accesses (stages : List sleep_stage_t) : List Int :=
  let ne : Int := stages.length
  until_break (fun e => decide (stage_int stages e ≠ LIGHTS_ON)) (up_to 0 (ne - 1))
    ++ until_break (fun e => decide (stage_int stages e ≠ LIGHTS_ON)) (down_to (ne - 1) 1)
    ++ until_break (fun e => decide (stage_int stages e ≠ WAKE))
        (down_to ((lights_on_epoch stages : Int) - 1) 0)
    ++ until_break (fun e => decide (stage_int stages e = REM)) (up_to 0 ne)

/-- Lines 352-377: the pass for epoch `e` indexes with `e` and, for a sleep
epoch, runs `for (e2 = e; e2 < e + lps_required; e2++)`, which is left without
an access when `e2 >= ne` and after the access when the epoch is not sleep; the
outer loop is left after the pass of a sleep epoch with `lps` still true. -/
def first_sleep_accesses (stages : List sleep_stage_t) (lps_req : Int) : List Int :=
  let ne : Int := stages.length
  (until_break (fun e => is_sleep (stage_int stages e) && lps_at stages lps_req e.toNat)
    (up_to 0 ne)).flatMap (fun e =>
      e :: (if is_sleep (stage_int stages e) then
        until_break (fun e2 => !is_sleep (stage_int stages e2))
          ((up_to e (e + lps_req)).takeWhile (fun e2 => decide (e2 < ne)))
      else []))

/-- Lines 381-382: `for (e = ne - 1; e != 0; e--)`, left at the first sleep
epoch. -/
def last_sleep_accesses (fuel : Nat) (stages : List sleep_stage_t) : Option (List Int) :=
  run_loop (fun (e : Int) =>
      if e = 0 then ([], none)
      else ([e], if is_sleep (stage_int stages e) then none else some (e - 1)))
    fuel ((stages.length : Int) - 1)

/-- Lines 423-424: `for (e = first_sleep_epoch; e <= last_sleep_epoch; e++)`. -/
def waso_accesses (stages : List sleep_stage_t) (lps_req : Int) : List Int :=
  up_to (first_sleep_epoch stages lps_req : Int) ((last_sleep_epoch stages : Int) + 1)

/-- Lines 545-571: the pass for epoch `e` indexes with `e`; when the epoch is
not WAKE, LIGHTS_ON or UNKNOWN it runs the `while ( okay )` loop from
`ec = e - def_persistent_sleep_epochs`, which is left without an access when
`ec < 0`, after the access at a WAKE or LIGHTS_ON epoch, and when `++ec == e`. -/
def persistent_sleep_accesses (fuel : Nat) (stages : List sleep_stage_t) (P : Int) :
    Option (List Int) :=
  let ne : Int := stages.length
  collect ((up_to 0 ne).map (fun e =>
    if stage_int stages e = WAKE ∨ stage_int stages e = LIGHTS_ON
        ∨ stage_int stages e = UNKNOWN then some [e]
    else
      collect [some [e],
        run_loop (fun (ec : Int) =>
            if ec < 0 then ([], none)
            else ([ec],
              if stage_int stages ec = WAKE ∨ stage_int stages ec = LIGHTS_ON then none
              else if ec + 1 = e then none
              else some (ec + 1)))
          fuel (e - P),
        some [e]]))

/-- Lines 589-593 and 636-641: `for (e = ne-1; e >= 0; e--)`, left at the first
sleep epoch. -/
def from_end_accesses (stages : List sleep_stage_t) : List Int :=
  until_break (fun e => is_sleep (stage_int stages e)) (down_to ((stages.length : Int) - 1) 0)

/-- Lines 650-735, the pass for epoch `e`: `sleep_onset[e]`; for an epoch inside
the sleep span `sleep_period[e-1]` and `cycle_ending_waso[e-1]` when `e > 0`,
the look-ahead for REM over `def_rem_period_interuption_epochs` unless the epoch
continues a REM stage, the look-ahead over `def_min_nrem_duration_epochs` in the
innermost branch, and the look-ahead over
`def_terminating_waso_duration_epochs`; each look-ahead is left at the first
epoch that meets its test. -/
def sleep_period_accesses (thr : thresholds) (stages : List sleep_stage_t) : List Int :=
  let ne : Int := stages.length
  let period := fun (x : Int) => (sleep_period thr stages).getD x.toNat period_t.undefined
  let ending := fun (x : Int) => (cycle_ending_waso thr stages).getD x.toNat false
  (up_to 0 ne).flatMap (fun e =>
    if (sleep_onset stages).getD e.toNat false = false then [e]
    else
      let s := stage_int stages e
      let previous_epoch_defined :=
        if e = 0 then false else decide (period (e - 1) ≠ period_t.undefined)
      let rem_window :=
        until_break (fun e2 => is_rem (stage_int stages e2))
          (window ne e thr.def_rem_period_interuption_epochs)
      let has_another_rem := rem_window.any (fun e2 => is_rem (stage_int stages e2))
      let nrem_window :=
        until_break (fun e2 => is_rem (stage_int stages e2))
          (window ne e thr.def_min_nrem_duration_epochs)
      let waso_window :=
        until_break (fun e2 => is_nrem234 (stage_int stages e2) || is_rem (stage_int stages e2))
          (window ne e thr.def_terminating_waso_duration_epochs)
      [e] ++ (if e = 0 then [] else [e - 1]) ++
        (if is_rem s && previous_epoch_defined then []
         else rem_window ++
          (if (decide (e > 0) && decide (period (e - 1) = period_t.REM)) && has_another_rem
           then []
           else if ((decide (e > 0) && decide (period (e - 1) = period_t.REM))
                    || (decide (e > 0) && ending (e - 1)))
                  && (is_wake s || is_nrem1 s)
           then []
           else nrem_window))
        ++ waso_window ++ [e])

/-- Lines 750-754: the two scans for the first "REM" period epoch and the first
cycle-ending epoch. -/
def first_period_accesses (thr : thresholds) (stages : List sleep_stage_t) : List Int :=
  let ne : Int := stages.length
  until_break (fun e => decide ((sleep_period thr stages).getD e.toNat period_t.undefined
      = period_t.REM)) (up_to 0 ne)
    ++ until_break (fun e => (cycle_ending_waso thr stages).getD e.toNat false) (up_to 0 ne)

/-- Lines 757-825, the pass for epoch `e`: `cycle_ending_waso[e]`; unless the
epoch is flagged or an "NREM" epoch, `sleep_period[e-1]` and `sleep_code[e-1]`
when `e > 0`; and for a "REM" epoch after an "NREM" epoch that is not in the
first cycle, the look-ahead over `def_min_rem_duration_epochs`, which has no
`break`. -/
def sleep_code_accesses (thr : thresholds) (stages : List sleep_stage_t) : List Int :=
  let ne : Int := stages.length
  let period := fun (x : Int) => (sleep_period thr stages).getD x.toNat period_t.undefined
  let ending := fun (x : Int) => (cycle_ending_waso thr stages).getD x.toNat false
  (up_to 0 ne).flatMap (fun e =>
    if ending e then [e]
    else if period e = period_t.NREM then [e]
    else
      [e] ++ (if e > 0 then [e - 1] else []) ++
        (if period e = period_t.REM ∧ e > 0 ∧ period (e - 1) = period_t.NREM
            ∧ ¬ (e ≤ (first_sleep_period_rem (sleep_period thr stages) : Int)
              ∧ e ≤ (first_cycle_ending_waso (cycle_ending_waso thr stages) : Int))
         then window ne e thr.def_min_rem_duration_epochs
         else []))

/-- Lines 836-874, the pass for epoch `e`: `sleep_code[e]`; for a nonzero code
`sleep_code[e-1]` when `e > 0`; at a change into NREM the scan
`for (e2 = e; e2 < ne; e2++)`, left at the first code 0 or 5, and the count
`for (e2 = e; e2 <= elimit; e2++)`; otherwise `sleep_cycle_number[e-1]` when
`e > 0`. -/
def cycle_number_accesses (stages : List sleep_stage_t) (code : List Int) : List Int :=
  let ne : Int := stages.length
  let code_at := fun (x : Int) => code.getD x.toNat 0
  (up_to 0 ne).flatMap (fun e =>
    if code_at e = 0 then [e]
    else
      let previous_code : Int := if e = 0 then 0 else code_at (e - 1)
      [e] ++ (if e = 0 then [] else [e - 1]) ++
        (if code_at e - previous_code = 1 ∨ previous_code - code_at e = 4 then
          let elimit : Int :=
            match (up_to e ne).find? (fun e2 => decide (code_at e2 = 0 ∨ code_at e2 = 5)) with
            | some e2 => e2
            | none => ne - 1
          until_break (fun e2 => decide (code_at e2 = 0 ∨ code_at e2 = 5)) (up_to e ne)
            ++ up_to e (elimit + 1)
        else []))

/-- One of the two `while` loops at lines 1022-1042 and 1052-1072: the state is
(`k`, `n`), the loop runs while `inside k`, indexes with `k`, is left once more
than `n2_ascdesc_k` epochs are counted, and moves `k` by `step`. -/
def n2_scan_accesses (fuel : Nat) (stages : List sleep_stage_t) (inside : Int → Bool)
    (step : Int) (start : Int) : Option (List Int) :=
  run_loop (fun (s : Int × Int) =>
      let k := s.1
      if inside k then
        let st := stage_int stages k
        let n1 := if st = NREM3 ∨ st = NREM4 then s.2 + 1 else s.2
        let n2 := if st = NREM1 ∨ st = REM ∨ st = WAKE then n1 + 1 else n1
        ([k], if n2 > n2_ascdesc_k then none else some (k + step, n2))
      else ([], none))
    fuel (start, 0)

/-- Lines 1011-1081: the pass for epoch `e` indexes with `e` and, for an NREM2
epoch, runs `while ( k >= 0 )` from `e-1` downward and `while ( k < ne )` from
`e+1` upward. -/
def n2_ascdesc_accesses (fuel : Nat) (stages : List sleep_stage_t) : Option (List Int) :=
  let ne : Int := stages.length
  collect ((up_to 0 ne).map (fun e =>
    if stage_int stages e ≠ NREM2 then some [e]
    else
      collect [some [e],
        n2_scan_accesses fuel stages (fun k => decide (k ≥ 0)) (-1) (e - 1),
        n2_scan_accesses fuel stages (fun k => decide (k < ne)) 1 (e + 1),
        some [e]]))

/-- The loop `for (j = 1; j < ne; j++)` at lines 1128-1147 and 1172-1181: it is
left without an access when `e - j < 0` or `e + j >= ne`, and after the accesses
when `brk j` holds. -/
def flank_passes (ne e : Int) (brk : Int → Bool) : List Int :=
  until_break brk ((up_to 1 ne).takeWhile (fun j => !(decide (e - j < 0) || decide (e + j ≥ ne))))

/-- Lines 1120-1206, the pass for epoch `e`: the loop for `sim` over `e-j`, `e`
and `e+j`; the forward loop for `sim_all` from `e+1`; the backward loop
`for (ee = e-1; ee != -1; ee--)`; for an epoch that is not WAKE the loop for `nw`
over `e-j` and `e+j`; the three assignments at `e`; and `stages[e-1]`,
`stages[e]` for the transition count when `e != 0`. -/
def flanking_accesses (flanking_3class : Bool) (fuel : Nat) (stages : List sleep_stage_t) :
    Option (List Int) :=
  let ne : Int := stages.length
  let same := fun (x e : Int) => same_class flanking_3class (stage_int stages x) (stage_int stages e)
  collect ((up_to 0 ne).map (fun e =>
    collect [
      some ((flank_passes ne e (fun j => !same (e - j) e || !same (e + j) e)).flatMap
        (fun j => [e - j, e, e + j])),
      some ((until_break (fun ee => !same ee e) (up_to (e + 1) ne)).flatMap (fun ee => [ee, e])),
      run_loop (fun (ee : Int) =>
          if ee = -1 then ([], none)
          else ([ee, e], if same ee e then some (ee - 1) else none))
        fuel (e - 1),
      some [e],
      some (if stage_int stages e ≠ WAKE then
        (flank_passes ne e (fun j => decide (stage_int stages (e - j) = WAKE)
            || decide (stage_int stages (e + j) = WAKE))).flatMap (fun j => [e - j, e + j])
        else []),
      some [e],
      some (if e ≠ 0 then [e - 1, e] else [])]))

/-- One of the six `while ( 1 )` loops at lines 1224-1304: the state is `ei`;
the loop is left without an access when `e + ei == ne`, indexes with `e + ei`,
goes on with `ei + 1` while the epoch is of the source class and is left
otherwise. -/
def transition_scan_accesses (fuel : Nat) (stages : List sleep_stage_t)
    (source : sleep_stage_t → Bool) (e : Int) : Option (List Int) :=
  let ne : Int := stages.length
  run_loop (fun (ei : Int) =>
      if e + ei = ne then ([], none)
      else ([e + ei], if source (stage_int stages (e + ei)) then some (ei + 1) else none))
    fuel 1

/-- Lines 1214-1308, the pass for epoch `e`: `stages[e]`, and for each of the
three classes the epoch belongs to, the two scans and the two assignments at
`e`. -/
def transition_accesses (fuel : Nat) (stages : List sleep_stage_t) : Option (List Int) :=
  let ne : Int := stages.length
  let from_class := fun (source : sleep_stage_t → Bool) (e : Int) =>
    if source (stage_int stages e) then
      collect [transition_scan_accesses fuel stages source e, some [e],
        transition_scan_accesses fuel stages source e, some [e]]
    else some []
  collect ((up_to 0 ne).map (fun e =>
    collect [some [e], from_class is_nrem e, from_class is_rem e, from_class is_wake e]))

/-- Lines 1313-1350: the six reads at index 0 and the loop
`for (e = 1; e < ne; e++)`. -/
def total_accesses (stages : List sleep_stage_t) : List Int :=
  0 :: up_to 1 (stages.length : Int)

/-- The index expressions of a call of `calc_stats`, in source order, on a
hypnogram whose `sleep_code` holds `old_code`; `none` when a loop has not ended
within `fuel` passes.  After the two recoding loops the vector `stages` holds
`recode_edges stages`; when the lights check reaches `Helper::halt` nothing
after it is run. -/
def calc_stats_accesses (flanking_3class : Bool) (fuel : Nat) (old_code : List Int)
    (epoch_mins : ℚ) (stages : List sleep_stage_t) : Option (List Int) :=
  let st := recode_edges stages
  let thr := thresholds_of epoch_mins
  let lps_req := lps_required epoch_mins
  collect
    ([recode_accesses fuel stages,
      some (epoch_loop_accesses st),
      lights_check_accesses fuel st] ++
    (if lights_check_halts st then []
     else
      [some (boundary_accesses st),
       some (first_sleep_accesses st lps_req),
       last_sleep_accesses fuel st,
       some (waso_accesses st lps_req),
       persistent_sleep_accesses fuel st thr.def_persistent_sleep_epochs,
       some (epoch_loop_accesses st),
       some (from_end_accesses st),
       some (epoch_loop_accesses st),
       some (epoch_loop_accesses st),
       some (from_end_accesses st),
       some (sleep_period_accesses thr st),
       some (first_period_accesses thr st),
       some (sleep_code_accesses thr st),
       some (cycle_number_accesses st (sleep_code_from old_code thr st)),
       some (epoch_loop_accesses st),
       some (epoch_loop_accesses st),
       some (epoch_loop_accesses st),
       n2_ascdesc_accesses fuel st,
       some (epoch_loop_accesses st),
       flanking_accesses flanking_3class fuel st,
       transition_accesses fuel st,
       some (total_accesses st)]))

/-- Every index of a trace is an index of a vector with `ne` entries. -/
def all_inside (ne : Int) (l : List Int) : Prop := ∀ i ∈ l, 0 ≤ i ∧ i < ne

/-! ## More nights -/

/-- A night of 16 epochs with two cycles at 150-second epochs: WAKE, 6 NREM2,
REM, 6 NREM2, REM, WAKE. -/
def two_cycle_night : List sleep_stage_t :=
  [WAKE] ++ List.replicate 6 NREM2 ++ [REM] ++ List.replicate 6 NREM2 ++ [REM, WAKE]

/-- The power `2^k` for an integer `k`. -/
def pow2 (k : Int) : ℚ :=
  if 0 ≤ k then ((2 ^ k.toNat : Nat) : ℚ) else 1 / ((2 ^ (-k).toNat : Nat) : ℚ)

/-- The number of halvings that bring `n` below 2, at most `fuel` of them. -/
def halvings : Nat → Nat → Nat
  | 0, _ => 0
  | fuel + 1, n => if n < 2 then 0 else halvings fuel (n / 2) + 1

/-- The integer part of the binary logarithm of `n`, for `0 < n < 2^2200`. -/
def log2_floor (n : Nat) : Nat := halvings 2200 n

/-- The binary64 number nearest to `q`, ties to the even significand (IEEE 754
round-to-nearest-even, the rounding of a `double` operation).  With
`2^e <= |q| < 2^(e+1)` the spacing of binary64 numbers around `q` is
`2^(e-52)`, and `2^(-1074)` below `2^(-1022)`; `e` is found from the binary
logarithms of numerator and denominator.  Overflow to infinity (a magnitude of
`2^1024` or more) is not modelled. -/
def round_double (q : ℚ) : ℚ :=
  if q = 0 then 0
  else
    let a : ℚ := if q < 0 then -q else q
    let e0 : Int := (log2_floor a.num.natAbs : Int) - (log2_floor a.den : Int)
    let e1 : Int := if a < pow2 e0 then e0 - 1 else e0
    let e : Int := if e1 < -1022 then -1022 else e1
    let ulp : ℚ := pow2 (e - 52)
    let m : ℚ := a / ulp
    let f : Int := Rat.floor m
    let r : ℚ := m - (f : ℚ)
    let n : Int :=
      if r < 1 / 2 then f
      else if 1 / 2 < r then f + 1
      else if f % 2 = 0 then f else f + 1
    (if q < 0 then -1 else 1) * (n : ℚ) * ulp

/-- Line 244, `epoch_length() / 60.0`, for an epoch length in seconds that is
itself a binary64 number. -/
def epoch_mins_double (epoch_length : ℚ) : ℚ := round_double (epoch_length / 60)

/-- Lines 345 and 526-530: each duration in minutes divided by `epoch_mins` in
binary64 and converted to `int`. -/
def thresholds_double (epoch_mins : ℚ) : thresholds where
  def_persistent_sleep_epochs := to_int (round_double (10 / epoch_mins))
  def_rem_period_interuption_epochs := to_int (round_double (15 / epoch_mins))
  def_min_nrem_duration_epochs := to_int (round_double (15 / epoch_mins))
  def_terminating_waso_duration_epochs := to_int (round_double (15 / epoch_mins))
  def_min_rem_duration_epochs := to_int (round_double (5 / epoch_mins))

/-- One pass of the body of the loop at lines 275-284 in binary64: the sum
`mins_x += epoch_mins` is rounded. -/
def add_epoch_minutes_double (epoch_mins : ℚ) (m : stage_minutes) (s : sleep_stage_t) :
    stage_minutes :=
  if s = WAKE then { m with mins_wake := round_double (m.mins_wake + epoch_mins) }
  else if s = NREM1 then { m with mins_n1 := round_double (m.mins_n1 + epoch_mins) }
  else if s = NREM2 then { m with mins_n2 := round_double (m.mins_n2 + epoch_mins) }
  else if s = NREM3 then { m with mins_n3 := round_double (m.mins_n3 + epoch_mins) }
  else if s = NREM4 then { m with mins_n4 := round_double (m.mins_n4 + epoch_mins) }
  else if s = REM then { m with mins_rem := round_double (m.mins_rem + epoch_mins) }
  else if s ≠ LIGHTS_ON then { m with mins_other := round_double (m.mins_other + epoch_mins) }
  else m

/-- The loop at lines 275-284 in binary64, started from all accumulators at 0. -/
def count_stage_minutes_double (epoch_mins : ℚ) (stages : List sleep_stage_t) : stage_minutes :=
  stages.foldl (add_epoch_minutes_double epoch_mins) ⟨0, 0, 0, 0, 0, 0, 0⟩

/-- The members of `hypnogram_t` compared in the statements on rounding, as the
binary64 numbers that `calc_stats` stores. -/
structure rounded_t where
  epoch_mins : ℚ
  mins : stage_minutes
  TIB : ℚ
  TRT : ℚ
  TWT : ℚ
  TST : ℚ
  WASO : ℚ
  slp_eff_pct : ℚ
  sleep_cycle_number : List Int
  nremc_duration : List (Int × ℚ)
  nremc_nrem_duration : List (Int × ℚ)
  nremc_rem_duration : List (Int × ℚ)
  nremc_epoch_duration : List (Int × Int)
  deriving DecidableEq

/-- The method `calc_stats` on a new hypnogram for an epoch length in seconds,
restricted to the members of `rounded_t`, with every `double` operation rounded:
`epoch_mins` (line 244), the stage minutes (275-284), `TIB = ne * epoch_mins`,
`TRT = TRT_total_epochs * epoch_mins`, `TST = TRT - TWT - mins_other` (two
subtractions), `WASO = w * epoch_mins`, `slp_eff_pct = ( TST / TRT ) * 100` and
the cycle durations (lines 930-932).  The epochs and the counts are integers and
are computed as in `calc_stats_body`, from the thresholds in binary64; the
failures are those of `calc_stats_from`. -/
def calc_stats_double (epoch_length : ℚ) (stages0 : List sleep_stage_t) :
    Except calc_error rounded_t :=
  let epoch_mins := epoch_mins_double epoch_length
  let thr := thresholds_double epoch_mins
  let stages := recode_edges stages0
  if stages0.isEmpty then Except.error calc_error.index_out_of_range
  else if lights_check_halts stages then Except.error calc_error.lights_on_halt
  else if persistent_sleep_overruns stages thr.def_persistent_sleep_epochs
  then Except.error calc_error.index_out_of_range
  else
    let ne := stages.length
    let mins := count_stage_minutes_double epoch_mins stages
    let lights_out := lights_out_epoch stages
    let lights_on := lights_on_epoch stages
    let lps_req := to_int (round_double (10 / epoch_mins))
    let first_sleep := first_sleep_epoch stages lps_req
    let last_sleep := last_sleep_epoch stages
    let TRT : ℚ := round_double ((((lights_on : Int) - (lights_out : Int) : Int) : ℚ) * epoch_mins)
    let TWT : ℚ := mins.mins_wake
    let TST : ℚ := round_double (round_double (TRT - TWT) - mins.mins_other)
    let number := sleep_cycle_number_from [] [] thr stages
    let c := cycle_counts_of stages number
    let counts := fun (sn : Int) =>
      map_at c.counts_rem sn + map_at c.counts_nrem sn + map_at c.counts_other sn
    Except.ok
      { epoch_mins := epoch_mins
        mins := mins
        TIB := round_double ((ne : ℚ) * epoch_mins)
        TRT := TRT
        TWT := TWT
        TST := TST
        WASO := round_double ((waso_epochs stages first_sleep last_sleep : ℚ) * epoch_mins)
        slp_eff_pct := round_double (round_double (TST / TRT) * 100)
        sleep_cycle_number := number
        nremc_duration :=
          c.cmin.map (fun kv => (kv.1, round_double (((counts kv.1 : Int) : ℚ) * epoch_mins)))
        nremc_nrem_duration :=
          c.cmin.map (fun kv =>
            (kv.1, round_double (((map_at c.counts_nrem kv.1 : Int) : ℚ) * epoch_mins)))
        nremc_rem_duration :=
          c.cmin.map (fun kv =>
            (kv.1, round_double (((map_at c.counts_rem kv.1 : Int) : ℚ) * epoch_mins)))
        nremc_epoch_duration := c.cmin.map (fun kv => (kv.1, counts kv.1)) }

/-- A Boolean test on the result of a run in binary64 that returned. -/
def double_run_with (r : Except calc_error rounded_t) (p : rounded_t → Bool) : Bool :=
  match r with
  | Except.ok d => p d
  | Except.error _ => false

/-! ## The remaining members and a call on an existing hypnogram -/

theorem find_range_some (p : Nat → Bool) (n : Nat) :
    ∀ (a e : Nat), (List.range' a n).find? p = some e →
      a ≤ e ∧ e < a + n ∧ p e = true ∧ ∀ i, a ≤ i → i < e → p i = false := by
  induction n with
  | zero => intro a e h; simp at h
  | succ n ih =>
    intro a e h
    rw [List.range'_succ, List.find?_cons] at h
    cases hpa : p a with
    | true =>
      rw [hpa] at h
      have hae : a = e := by simpa using h
      subst hae
      refine ⟨le_refl _, by omega, hpa, ?_⟩
      intro i h1 h2; omega
    | false =>
      rw [hpa] at h
      obtain ⟨h1, h2, h3, h4⟩ := ih (a + 1) e h
      refine ⟨by omega, by omega, h3, ?_⟩
      intro i hi1 hi2
      by_cases hia : i = a
      · subst hia; exact hpa
      · exact h4 i (by omega) hi2

theorem find_range_none (p : Nat → Bool) (n : Nat) :
    ∀ (a : Nat), (List.range' a n).find? p = none →
      ∀ i, a ≤ i → i < a + n → p i = false := by
  induction n with
  | zero => intro a _ i h1 h2; omega
  | succ n ih =>
    intro a h i h1 h2
    rw [List.range'_succ, List.find?_cons] at h
    cases hpa : p a with
    | true => rw [hpa] at h; simp at h
    | false =>
      rw [hpa] at h
      by_cases hia : i = a
      · subst hia; exact hpa
      · exact ih (a + 1) h i (by omega) (by omega)

theorem rfind_range_some (p : Nat → Bool) (n : Nat) :
    ∀ (a e : Nat), (List.range' a n).reverse.find? p = some e →
      a ≤ e ∧ e < a + n ∧ p e = true ∧ ∀ i, e < i → i < a + n → p i = false := by
  induction n with
  | zero => intro a e h; simp at h
  | succ n ih =>
    intro a e h
    rw [List.range'_concat, List.reverse_append, List.reverse_singleton, List.singleton_append,
      List.find?_cons] at h
    simp only [one_mul] at h
    cases hpa : p (a + n) with
    | true =>
      rw [hpa] at h
      have hae : a + n = e := by simpa using h
      subst hae
      refine ⟨by omega, by omega, hpa, ?_⟩
      intro i h1 h2; omega
    | false =>
      rw [hpa] at h
      obtain ⟨h1, h2, h3, h4⟩ := ih a e h
      refine ⟨h1, by omega, h3, ?_⟩
      intro i hi1 hi2
      by_cases hia : i = a + n
      · subst hia; exact hpa
      · exact h4 i hi1 (by omega)

theorem rfind_range_none (p : Nat → Bool) (n : Nat) :
    ∀ (a : Nat), (List.range' a n).reverse.find? p = none →
      ∀ i, a ≤ i → i < a + n → p i = false := by
  induction n with
  | zero => intro a _ i h1 h2; omega
  | succ n ih =>
    intro a h i h1 h2
    rw [List.range'_concat, List.reverse_append, List.reverse_singleton, List.singleton_append,
      List.find?_cons] at h
    simp only [one_mul] at h
    cases hpa : p (a + n) with
    | true => rw [hpa] at h; simp at h
    | false =>
      rw [hpa] at h
      by_cases hia : i = a + n
      · subst hia; exact hpa
      · exact ih a h i h1 (by omega)

theorem stage_at_cons_succ (x : sleep_stage_t) (xs : List sleep_stage_t) (i : Nat) :
    stage_at (x :: xs) (i + 1) = stage_at xs i := by
  simp [stage_at]

theorem stage_at_cons_zero (x : sleep_stage_t) (xs : List sleep_stage_t) :
    stage_at (x :: xs) 0 = x := by
  simp [stage_at]

/-- The stages read at the epochs `a, a+1, .., a+n-1` are the corresponding
segment of the vector. -/
theorem map_stage_at_range (st : List sleep_stage_t) :
    ∀ (n a : Nat), a + n ≤ st.length →
      (List.range' a n).map (stage_at st) = (st.drop a).take n := by
  intro n
  induction n with
  | zero => intro a _; simp
  | succ n ih =>
    intro a h
    have ha : a < st.length := by omega
    rw [List.range'_succ, List.map_cons, ih (a + 1) (by omega)]
    have hd : st.drop a = st[a] :: st.drop (a + 1) := by
      simp
    rw [hd, List.take_succ_cons]
    congr 1
    simp [stage_at, List.getD_eq_getElem?_getD, List.getElem?_eq_getElem ha]

/-! ## Auxiliary facts: stage minutes -/

theorem foldl_minutes (em : ℚ) :
    ∀ (st : List sleep_stage_t) (m : stage_minutes),
      (st.foldl (add_epoch_minutes em) m).mins_wake = m.mins_wake + em * (st.countP is_wake : ℕ) ∧
      (st.foldl (add_epoch_minutes em) m).mins_other = m.mins_other + em * (st.countP is_other : ℕ) ∧
      (st.foldl (add_epoch_minutes em) m).mins_n1 + (st.foldl (add_epoch_minutes em) m).mins_n2
        + (st.foldl (add_epoch_minutes em) m).mins_n3 + (st.foldl (add_epoch_minutes em) m).mins_n4
        + (st.foldl (add_epoch_minutes em) m).mins_rem
        = m.mins_n1 + m.mins_n2 + m.mins_n3 + m.mins_n4 + m.mins_rem
          + em * (st.countP is_sleep : ℕ) := by
  intro st
  induction st with
  | nil => intro m; simp
  | cons x xs ih =>
    intro m
    obtain ⟨h1, h2, h3⟩ := ih (add_epoch_minutes em m x)
    rw [List.foldl_cons, h1, h2, h3]
    refine ⟨?_, ?_, ?_⟩ <;> cases x <;>
      simp [add_epoch_minutes, is_wake, is_other, is_sleep, List.countP_cons] <;> ring

theorem mins_wake_eq (em : ℚ) (st : List sleep_stage_t) :
    (count_stage_minutes em st).mins_wake = em * (st.countP is_wake : ℕ) := by
  have := (foldl_minutes em st ⟨0, 0, 0, 0, 0, 0, 0⟩).1
  simpa [count_stage_minutes] using this

theorem mins_other_eq (em : ℚ) (st : List sleep_stage_t) :
    (count_stage_minutes em st).mins_other = em * (st.countP is_other : ℕ) := by
  have := (foldl_minutes em st ⟨0, 0, 0, 0, 0, 0, 0⟩).2.1
  simpa [count_stage_minutes] using this

theorem mins_sleep_eq (em : ℚ) (st : List sleep_stage_t) :
    (count_stage_minutes em st).mins_n1 + (count_stage_minutes em st).mins_n2
      + (count_stage_minutes em st).mins_n3 + (count_stage_minutes em st).mins_n4
      + (count_stage_minutes em st).mins_rem = em * (st.countP is_sleep : ℕ) := by
  have := (foldl_minutes em st ⟨0, 0, 0, 0, 0, 0, 0⟩).2.2
  simpa [count_stage_minutes] using this

/-! ## Auxiliary facts: what a returning run computes -/

theorem calc_stats_ok_iff (em : ℚ) (s : List sleep_stage_t) (h : hypnogram_t) :
    calc_stats em s = Except.ok h ↔
      s ≠ [] ∧ lights_check_halts (recode_edges s) = false ∧
        persistent_sleep_overruns (recode_edges s)
          (thresholds_of em).def_persistent_sleep_epochs = false ∧
        h = calc_stats_body [] [] em (recode_edges s) := by
  unfold calc_stats calc_stats_from
  cases s with
  | nil => simp
  | cons x xs =>
    cases hc : lights_check_halts (recode_edges (x :: xs)) with
    | true => simp
    | false =>
      cases hp : persistent_sleep_overruns (recode_edges (x :: xs))
          (thresholds_of em).def_persistent_sleep_epochs with
      | true => simp
      | false =>
        simp only [List.isEmpty_cons, Bool.false_eq_true, if_false, Except.ok.injEq, ne_eq,
          not_false_eq_true, true_and, reduceCtorEq]
        exact eq_comm

/-- With a persistent-sleep threshold of at least one epoch the loop at lines
545-571 stays inside the vector. -/
theorem persistent_sleep_stays_inside (st : List sleep_stage_t) (P : Int) (hP : 1 ≤ P) :
    persistent_sleep_overruns st P = false := by
  unfold persistent_sleep_overruns
  rw [List.any_eq_false]
  intro e _
  unfold persistent_sleep_at
  split_ifs <;> simp

/-- An epoch of at most 10 minutes gives a persistent-sleep threshold of at
least one epoch. -/
theorem persistent_threshold_pos (em : ℚ) (h0 : 0 < em) (h10 : em ≤ 10) :
    1 ≤ (thresholds_of em).def_persistent_sleep_epochs := by
  have h1 : (1 : ℚ) ≤ 10 / em := by rw [le_div_iff₀ h0]; linarith
  show 1 ≤ to_int (10 / em)
  unfold to_int
  rw [if_pos (by linarith)]
  exact Int.le_floor.2 (by exact_mod_cast h1)

theorem calc_stats_halt_iff (em : ℚ) (s : List sleep_stage_t) :
    calc_stats em s = Except.error calc_error.lights_on_halt ↔
      s ≠ [] ∧ lights_check_halts (recode_edges s) = true := by
  unfold calc_stats calc_stats_from
  cases s with
  | nil => simp
  | cons x xs =>
    cases hc : lights_check_halts (recode_edges (x :: xs)) <;>
      cases hp : persistent_sleep_overruns (recode_edges (x :: xs))
        (thresholds_of em).def_persistent_sleep_epochs <;> simp

/-! ## Auxiliary facts: lights out and lights on -/

theorem lt_lights_on_of_not_lights (st : List sleep_stage_t) (i : Nat) (hlen : i < st.length)
    (hi : stage_at st i ≠ LIGHTS_ON) : i < lights_on_epoch st := by
  unfold lights_on_epoch
  cases hf : (List.range' 1 (st.length - 1)).reverse.find?
      (fun e => stage_at st e ≠ LIGHTS_ON) with
  | none => simpa using hlen
  | some e =>
    simp only
    obtain ⟨_, _, _, h4⟩ := rfind_range_some _ _ 1 e hf
    by_contra hlt
    have := h4 i (by omega) (by omega)
    simp at this
    exact hi this

theorem lights_on_le_length (st : List sleep_stage_t) : lights_on_epoch st ≤ st.length := by
  unfold lights_on_epoch
  cases hf : (List.range' 1 (st.length - 1)).reverse.find?
      (fun e => stage_at st e ≠ LIGHTS_ON) with
  | none => simp
  | some e =>
    simp only
    obtain ⟨_, h2, _, _⟩ := rfind_range_some _ _ 1 e hf
    omega

theorem recode_leading_cons (x : sleep_stage_t) (xs : List sleep_stage_t) :
    recode_leading (x :: xs)
      = if x = UNKNOWN ∨ x = LIGHTS_ON then LIGHTS_ON :: recode_leading xs else x :: xs := by
  rw [recode_leading]
  cases x <;> simp

theorem length_recode_leading (l : List sleep_stage_t) :
    (recode_leading l).length = l.length := by
  induction l with
  | nil => rfl
  | cons x xs ih =>
    rw [recode_leading_cons]
    split <;> simp [ih]

theorem length_recode_trailing (l : List sleep_stage_t) :
    (recode_trailing l).length = l.length := by
  cases l with
  | nil => rfl
  | cons x xs => simp [recode_trailing, length_recode_leading]

theorem length_recode_edges (s : List sleep_stage_t) : (recode_edges s).length = s.length := by
  simp [recode_edges, length_recode_trailing, length_recode_leading]

/-- The forward loop: an epoch all of whose predecessors (itself included) are
UNKNOWN or LIGHTS_ON becomes LIGHTS_ON, any other epoch is kept. -/
theorem stage_at_recode_leading (l : List sleep_stage_t) :
    ∀ e, e < l.length →
      ((∀ i, i ≤ e → stage_at l i = UNKNOWN ∨ stage_at l i = LIGHTS_ON) →
        stage_at (recode_leading l) e = LIGHTS_ON) ∧
      (¬ (∀ i, i ≤ e → stage_at l i = UNKNOWN ∨ stage_at l i = LIGHTS_ON) →
        stage_at (recode_leading l) e = stage_at l e) := by
  induction l with
  | nil => intro e he; simp at he
  | cons x xs ih =>
    intro e he
    by_cases hx : x = UNKNOWN ∨ x = LIGHTS_ON
    · have hrec : recode_leading (x :: xs) = LIGHTS_ON :: recode_leading xs := by
        rw [recode_leading_cons, if_pos hx]
      rw [hrec]
      cases e with
      | zero =>
        refine ⟨fun _ => stage_at_cons_zero _ _, fun hn => ?_⟩
        exfalso; apply hn
        intro i hi
        have : i = 0 := by omega
        subst this
        rw [stage_at_cons_zero]; exact hx
      | succ j =>
        have hj : j < xs.length := by simpa using he
        obtain ⟨ih1, ih2⟩ := ih j hj
        rw [stage_at_cons_succ, stage_at_cons_succ]
        constructor
        · intro hrun
          apply ih1
          intro i hi
          have := hrun (i + 1) (by omega)
          rwa [stage_at_cons_succ] at this
        · intro hrun
          apply ih2
          intro hrun2
          apply hrun
          intro i hi
          cases i with
          | zero => rw [stage_at_cons_zero]; exact hx
          | succ k => rw [stage_at_cons_succ]; exact hrun2 k (by omega)
    · have hrec : recode_leading (x :: xs) = x :: xs := by
        rw [recode_leading_cons, if_neg hx]
      rw [hrec]
      refine ⟨fun hrun => ?_, fun _ => rfl⟩
      exfalso; apply hx
      have := hrun 0 (Nat.zero_le _)
      rwa [stage_at_cons_zero] at this

theorem stage_at_reverse (l : List sleep_stage_t) (i : Nat) (hi : i < l.length) :
    stage_at l.reverse i = stage_at l (l.length - 1 - i) := by
  simp [stage_at, List.getD_eq_getElem?_getD, List.getElem?_reverse hi]

/-- The backward loop: an epoch other than epoch 0 all of whose successors
(itself included) are UNKNOWN or LIGHTS_ON becomes LIGHTS_ON, any other epoch
is kept. -/
theorem stage_at_recode_trailing (l : List sleep_stage_t) :
    ∀ e, e < l.length →
      ((1 ≤ e ∧ ∀ i, e ≤ i → i < l.length → stage_at l i = UNKNOWN ∨ stage_at l i = LIGHTS_ON) →
        stage_at (recode_trailing l) e = LIGHTS_ON) ∧
      (¬ (1 ≤ e ∧ ∀ i, e ≤ i → i < l.length → stage_at l i = UNKNOWN ∨ stage_at l i = LIGHTS_ON) →
        stage_at (recode_trailing l) e = stage_at l e) := by
  cases l with
  | nil => intro e he; simp at he
  | cons x xs =>
    intro e he
    cases e with
    | zero =>
      refine ⟨fun h => ?_, fun _ => ?_⟩
      · omega
      · simp [recode_trailing, stage_at_cons_zero]
    | succ j =>
      have hj : j < xs.length := by simpa using he
      have hj2 : xs.length - 1 - j < xs.reverse.length := by simp; omega
      have hrev : stage_at (recode_trailing (x :: xs)) (j + 1)
          = stage_at (recode_leading xs.reverse) (xs.length - 1 - j) := by
        simp only [recode_trailing, stage_at_cons_succ]
        rw [stage_at_reverse _ _ (by rw [length_recode_leading]; simpa using hj)]
        simp [length_recode_leading]
      have hback : stage_at xs.reverse (xs.length - 1 - j) = stage_at xs j := by
        rw [stage_at_reverse _ _ (by omega)]
        congr 1; omega
      obtain ⟨h1, h2⟩ := stage_at_recode_leading xs.reverse _ hj2
      have hiff : (∀ i, i ≤ xs.length - 1 - j →
            stage_at xs.reverse i = UNKNOWN ∨ stage_at xs.reverse i = LIGHTS_ON) ↔
          (∀ i, j + 1 ≤ i → i < (x :: xs).length →
            stage_at (x :: xs) i = UNKNOWN ∨ stage_at (x :: xs) i = LIGHTS_ON) := by
        constructor
        · intro H i hi1 hi2
          cases i with
          | zero => omega
          | succ k =>
            have hk : k < xs.length := by simpa using hi2
            have := H (xs.length - 1 - k) (by omega)
            rw [stage_at_reverse _ _ (by omega)] at this
            rw [stage_at_cons_succ]
            have hk2 : xs.length - 1 - (xs.length - 1 - k) = k := by omega
            rwa [hk2] at this
        · intro H i hi
          have := H (xs.length - 1 - i + 1) (by omega) (by simp; omega)
          rw [stage_at_cons_succ] at this
          rw [stage_at_reverse _ _ (by omega)]
          exact this
      rw [hrev, stage_at_cons_succ, ← hback]
      constructor
      · intro hrun
        exact h1 (hiff.2 hrun.2)
      · intro hrun
        apply h2
        intro hrun2
        exact hrun ⟨by omega, hiff.1 hrun2⟩

/-- Both loops together, epoch by epoch. -/
theorem stage_at_recode_edges (s : List sleep_stage_t) (e : Nat) (he : e < s.length) :
    (((∀ i, i ≤ e → stage_at s i = UNKNOWN ∨ stage_at s i = LIGHTS_ON) ∨
        (∀ i, e ≤ i → i < s.length → stage_at s i = UNKNOWN ∨ stage_at s i = LIGHTS_ON)) →
      stage_at (recode_edges s) e = LIGHTS_ON) ∧
    (¬ ((∀ i, i ≤ e → stage_at s i = UNKNOWN ∨ stage_at s i = LIGHTS_ON) ∨
        (∀ i, e ≤ i → i < s.length → stage_at s i = UNKNOWN ∨ stage_at s i = LIGHTS_ON)) →
      stage_at (recode_edges s) e = stage_at s e) := by
  have hlen := length_recode_leading s
  -- the forward loop keeps membership in {UNKNOWN, LIGHTS_ON}
  have hUL : ∀ i, i < s.length →
      ((stage_at (recode_leading s) i = UNKNOWN ∨ stage_at (recode_leading s) i = LIGHTS_ON) ↔
        (stage_at s i = UNKNOWN ∨ stage_at s i = LIGHTS_ON)) := by
    intro i hi
    obtain ⟨h1, h2⟩ := stage_at_recode_leading s i hi
    by_cases hrun : ∀ k, k ≤ i → stage_at s k = UNKNOWN ∨ stage_at s k = LIGHTS_ON
    · rw [h1 hrun]
      exact ⟨fun _ => hrun i (le_refl _), fun _ => Or.inr rfl⟩
    · rw [h2 hrun]
  have hB : (∀ i, e ≤ i → i < (recode_leading s).length →
        stage_at (recode_leading s) i = UNKNOWN ∨ stage_at (recode_leading s) i = LIGHTS_ON) ↔
      (∀ i, e ≤ i → i < s.length → stage_at s i = UNKNOWN ∨ stage_at s i = LIGHTS_ON) := by
    rw [hlen]
    constructor
    · intro H i h1 h2; exact (hUL i h2).1 (H i h1 h2)
    · intro H i h1 h2; exact (hUL i h2).2 (H i h1 h2)
  obtain ⟨l1, l2⟩ := stage_at_recode_leading s e he
  obtain ⟨t1, t2⟩ := stage_at_recode_trailing (recode_leading s) e (by rw [hlen]; exact he)
  unfold recode_edges
  by_cases hA : ∀ i, i ≤ e → stage_at s i = UNKNOWN ∨ stage_at s i = LIGHTS_ON
  · refine ⟨fun _ => ?_, fun hn => absurd (Or.inl hA) hn⟩
    by_cases hT : 1 ≤ e ∧ ∀ i, e ≤ i → i < (recode_leading s).length →
        stage_at (recode_leading s) i = UNKNOWN ∨ stage_at (recode_leading s) i = LIGHTS_ON
    · exact t1 hT
    · rw [t2 hT]; exact l1 hA
  · by_cases hBs : ∀ i, e ≤ i → i < s.length → stage_at s i = UNKNOWN ∨ stage_at s i = LIGHTS_ON
    · refine ⟨fun _ => ?_, fun hn => absurd (Or.inr hBs) hn⟩
      have he1 : 1 ≤ e := by
        by_contra h0
        have h00 : e = 0 := by omega
        apply hA
        intro i hi
        have hi0 : i = 0 := by omega
        rw [hi0]
        exact hBs 0 (by omega) (by omega)
      exact t1 ⟨he1, hB.2 hBs⟩
    · refine ⟨fun h => ?_, fun _ => ?_⟩
      · rcases h with h | h
        · exact absurd h hA
        · exact absurd h hBs
      · rw [t2 (fun hT => hBs (hB.1 hT.2))]
        exact l2 hA

/-- Recoding changes an epoch only from UNKNOWN to LIGHTS_ON. -/
theorem stage_at_recode_edges_cases (s : List sleep_stage_t) (e : Nat) (he : e < s.length) :
    stage_at (recode_edges s) e = stage_at s e ∨
      (stage_at s e = UNKNOWN ∧ stage_at (recode_edges s) e = LIGHTS_ON) := by
  obtain ⟨h1, h2⟩ := stage_at_recode_edges s e he
  by_cases hrun : (∀ i, i ≤ e → stage_at s i = UNKNOWN ∨ stage_at s i = LIGHTS_ON) ∨
      (∀ i, e ≤ i → i < s.length → stage_at s i = UNKNOWN ∨ stage_at s i = LIGHTS_ON)
  · have hse : stage_at s e = UNKNOWN ∨ stage_at s e = LIGHTS_ON := by
      rcases hrun with h | h
      · exact h e (le_refl _)
      · exact h e (le_refl _) he
    rcases hse with hU | hL
    · exact Or.inr ⟨hU, h1 hrun⟩
    · left; rw [h1 hrun, hL]
  · exact Or.inl (h2 hrun)

/-! ## Auxiliary facts: the lights check -/

theorem lights_check_loop_iff (st : List sleep_stage_t) (n : Nat) :
    ∀ (a : Nat) (lbo : Bool),
      lights_check_loop st (List.range' a n) lbo = true ↔
        ∃ e, a ≤ e ∧ e < a + n ∧ stage_at st e = LIGHTS_ON ∧ stage_at st (e + 1) ≠ LIGHTS_ON ∧
          (lbo = true ∨ ∃ e1, a ≤ e1 ∧ e1 ≤ e ∧
            stage_at st (e1 - 1) ≠ LIGHTS_ON ∧ stage_at st e1 = LIGHTS_ON) := by
  induction n with
  | zero =>
    intro a lbo
    simp only [List.range'_zero, lights_check_loop, Bool.false_eq_true, false_iff, not_exists]
    intro e h
    omega
  | succ n ih =>
    intro a lbo
    rw [List.range'_succ, lights_check_loop]
    by_cases hT : stage_at st (a - 1) ≠ LIGHTS_ON ∧ stage_at st a = LIGHTS_ON
    · rw [if_pos hT]
      by_cases hH : stage_at st a = LIGHTS_ON ∧ stage_at st (a + 1) ≠ LIGHTS_ON
      · rw [if_pos ⟨rfl, hH⟩]
        simp only [true_iff]
        exact ⟨a, le_refl _, by omega, hH.1, hH.2, Or.inr ⟨a, le_refl _, le_refl _, hT⟩⟩
      · rw [if_neg (fun h => hH h.2), ih (a + 1) true]
        constructor
        · rintro ⟨e, h1, h2, h3, h4, _⟩
          exact ⟨e, by omega, by omega, h3, h4, Or.inr ⟨a, le_refl _, by omega, hT⟩⟩
        · rintro ⟨e, h1, h2, h3, h4, _⟩
          have hea : e ≠ a := by
            intro h; subst h; exact hH ⟨h3, h4⟩
          exact ⟨e, by omega, by omega, h3, h4, Or.inl rfl⟩
    · rw [if_neg hT]
      by_cases hH : lbo = true ∧ stage_at st a = LIGHTS_ON ∧ stage_at st (a + 1) ≠ LIGHTS_ON
      · rw [if_pos hH]
        simp only [true_iff]
        exact ⟨a, le_refl _, by omega, hH.2.1, hH.2.2, Or.inl hH.1⟩
      · rw [if_neg hH, ih (a + 1) lbo]
        constructor
        · rintro ⟨e, h1, h2, h3, h4, h5⟩
          refine ⟨e, by omega, by omega, h3, h4, ?_⟩
          rcases h5 with h5 | ⟨e1, g1, g2, g3⟩
          · exact Or.inl h5
          · exact Or.inr ⟨e1, by omega, g2, g3⟩
        · rintro ⟨e, h1, h2, h3, h4, h5⟩
          have hea : e ≠ a := by
            intro h; subst h
            rcases h5 with h5 | ⟨e1, g1, g2, g3⟩
            · exact hH ⟨h5, h3, h4⟩
            · have : e1 = e := by omega
              subst this; exact hT g3
          refine ⟨e, by omega, by omega, h3, h4, ?_⟩
          rcases h5 with h5 | ⟨e1, g1, g2, g3⟩
          · exact Or.inl h5
          · have : e1 ≠ a := by
              intro h; subst h; exact hT g3
            exact Or.inr ⟨e1, by omega, g2, g3⟩

/-- Between an epoch where `P` fails and a later one where it holds there is a
step at which `P` starts to hold. -/
theorem exists_step_up (P : Nat → Prop) :
    ∀ (j i : Nat), i < j → ¬ P i → P j → ∃ e, i < e ∧ e ≤ j ∧ ¬ P (e - 1) ∧ P e := by
  intro j
  induction j with
  | zero => intro i h; omega
  | succ j ih =>
    intro i hij hi hj
    by_cases hPj : P j
    · have hne : i ≠ j := by intro h; subst h; exact hi hPj
      obtain ⟨e, h1, h2, h3⟩ := ih i (by omega) hi hPj
      exact ⟨e, h1, by omega, h3⟩
    · exact ⟨j + 1, hij, le_refl _, by simpa using hPj, hj⟩

/-- Between an epoch where `P` holds and a later one where it fails there is a
step at which `P` stops to hold. -/
theorem exists_step_down (P : Nat → Prop) :
    ∀ (k j : Nat), j < k → P j → ¬ P k → ∃ e, j ≤ e ∧ e < k ∧ P e ∧ ¬ P (e + 1) := by
  intro k
  induction k with
  | zero => intro j h; omega
  | succ k ih =>
    intro j hjk hj hk
    by_cases hPk : P k
    · exact ⟨k, by omega, by omega, hPk, hk⟩
    · have hne : j ≠ k := by intro h; subst h; exact hPk hj
      obtain ⟨e, h1, h2, h3⟩ := ih j (by omega) hj hPk
      exact ⟨e, h1, by omega, h3⟩

/-- The lights check halts exactly when a LIGHTS_ON epoch lies strictly between
two epochs that are not LIGHTS_ON. -/
theorem lights_check_halts_iff (st : List sleep_stage_t) :
    lights_check_halts st = true ↔
      ∃ i j k, i < j ∧ j < k ∧ k < st.length ∧ stage_at st j = LIGHTS_ON ∧
        stage_at st i ≠ LIGHTS_ON ∧ stage_at st k ≠ LIGHTS_ON := by
  unfold lights_check_halts
  rw [lights_check_loop_iff]
  constructor
  · rintro ⟨e, h1, h2, h3, h4, h5⟩
    rcases h5 with h5 | ⟨e1, g1, g2, g3, g4⟩
    · simp at h5
    · exact ⟨e1 - 1, e, e + 1, by omega, by omega, by omega, h3, g3, h4⟩
  · rintro ⟨i, j, k, hij, hjk, hk, hj, hi, hkL⟩
    obtain ⟨e1, a1, a2, a3, a4⟩ :=
      exists_step_up (fun e => stage_at st e = LIGHTS_ON) j i hij hi hj
    obtain ⟨e, b1, b2, b3, b4⟩ :=
      exists_step_down (fun e => stage_at st e = LIGHTS_ON) k j hjk hj hkL
    exact ⟨e, by omega, by omega, b3, b4, Or.inr ⟨e1, by omega, by omega, a3, a4⟩⟩

theorem returns_with_ok {r : Except calc_error hypnogram_t} {p : hypnogram_t → Bool}
    (h : returns_with r p = true) : ∃ x, r = Except.ok x ∧ p x = true := by
  cases r with
  | error e => simp [returns_with] at h
  | ok x => exact ⟨x, rfl, by simpa [returns_with] using h⟩

/-! ## The claims -/

/-- C1: for the 58-epoch night 4 WAKE, 40 NREM2, 10 REM, 4 WAKE with 30-second
epochs the thresholds are 20, 30, 30, 30 and 10 epochs, `calc_stats` returns,
records exactly one cycle (`num_nremc = 1`, one entry in the cycle maps) with 20
minutes of NREM and 5 minutes of REM, and `sleep_cycle_number` is 0 on epochs
0-3, 1 on epochs 4-53 and 0 on epochs 54-57. -/
theorem single_cycle_scenario :
    cycle_scenario.length = 58 ∧
    thresholds_of (30 / 60) =
      { def_persistent_sleep_epochs := 20
        def_rem_period_interuption_epochs := 30
        def_min_nrem_duration_epochs := 30
        def_terminating_waso_duration_epochs := 30
        def_min_rem_duration_epochs := 10 } ∧
    ∃ h, calc_stats (30 / 60) cycle_scenario = Except.ok h ∧
      h.num_nremc = 1 ∧
      h.nremc_nrem_duration = [(1, 20)] ∧
      h.nremc_rem_duration = [(1, 5)] ∧
      h.sleep_cycle_number = List.replicate 4 0 ++ List.replicate 50 1 ++ List.replicate 4 0 := by
  refine ⟨by decide, by decide!, ?_⟩
  have hrun : returns_with (calc_stats (30 / 60) cycle_scenario) (fun h =>
      decide (h.num_nremc = 1) && decide (h.nremc_nrem_duration = [(1, 20)])
        && decide (h.nremc_rem_duration = [(1, 5)])
        && decide (h.sleep_cycle_number
            = List.replicate 4 0 ++ List.replicate 50 1 ++ List.replicate 4 0)) = true := by
    decide!
  obtain ⟨h, hok, hp⟩ := returns_with_ok hrun
  simp only [Bool.and_eq_true, decide_eq_true_eq] at hp
  exact ⟨h, hok, hp.1.1.1, hp.1.1.2, hp.1.2, hp.2⟩

/-- C6: for 20 WAKE epochs of 30 seconds `calc_stats` returns with TST = 0,
TWT = 10 minutes, `any_sleep` false, no cycle (`num_nremc = 0`) and
`sleep_cycle_number` 0 at each of the 20 epochs. -/
theorem all_wake_scenario :
    ∃ h, calc_stats (30 / 60) (List.replicate 20 WAKE) = Except.ok h ∧
      h.TST = 0 ∧ h.TWT = 10 ∧ h.any_sleep = false ∧ h.num_nremc = 0 ∧
      h.sleep_cycle_number = List.replicate 20 0 := by
  have hrun : returns_with (calc_stats (30 / 60) (List.replicate 20 WAKE)) (fun h =>
      decide (h.TST = 0) && decide (h.TWT = 10) && decide (h.any_sleep = false)
        && decide (h.num_nremc = 0)
        && decide (h.sleep_cycle_number = List.replicate 20 0)) = true := by
    decide!
  obtain ⟨h, hok, hp⟩ := returns_with_ok hrun
  simp only [Bool.and_eq_true, decide_eq_true_eq] at hp
  exact ⟨h, hok, hp.1.1.1.1, hp.1.1.1.2, hp.1.1.2, hp.1.2, hp.2⟩

/-- C3: for a night on which `calc_stats` returns (it passed the lights check),
TWT is epoch-minutes times the number of WAKE epochs, minutes-other is
epoch-minutes times the number of epochs that are neither sleep, WAKE nor
LIGHTS_ON (both counted on the recoded vector), and TST + TWT + minutes-other
equals TRT exactly. -/
theorem tst_twt_other_eq_trt (epoch_mins : ℚ) (s : List sleep_stage_t) (h : hypnogram_t)
    (hrun : calc_stats epoch_mins s = Except.ok h) :
    h.stages = recode_edges s ∧
    h.TWT = epoch_mins * (h.stages.countP is_wake : ℕ) ∧
    h.mins.mins_other = epoch_mins * (h.stages.countP is_other : ℕ) ∧
    h.TST + epoch_mins * (h.stages.countP is_wake : ℕ)
      + epoch_mins * (h.stages.countP is_other : ℕ) = h.TRT := by
  obtain ⟨_, _, _, hh⟩ := (calc_stats_ok_iff epoch_mins s h).1 hrun
  subst hh
  have hw := mins_wake_eq epoch_mins (recode_edges s)
  have ho := mins_other_eq epoch_mins (recode_edges s)
  refine ⟨rfl, hw, ho, ?_⟩
  show (calc_stats_body [] [] epoch_mins (recode_edges s)).TRT
      - (count_stage_minutes epoch_mins (recode_edges s)).mins_wake
      - (count_stage_minutes epoch_mins (recode_edges s)).mins_other
      + epoch_mins * ((recode_edges s).countP is_wake : ℕ)
      + epoch_mins * ((recode_edges s).countP is_other : ℕ) = _
  rw [hw, ho]
  ring

theorem tst_twt_other_eq_trt_witness :
    calc_stats (1 / 2) short_night
        = Except.ok (calc_stats_body [] [] (1 / 2) (recode_edges short_night)) ∧
    (calc_stats_body [] [] (1 / 2) (recode_edges short_night)).TST
      + (1 / 2) * ((calc_stats_body [] [] (1 / 2) (recode_edges short_night)).stages.countP
          is_wake : ℕ)
      + (1 / 2) * ((calc_stats_body [] [] (1 / 2) (recode_edges short_night)).stages.countP
          is_other : ℕ)
      = (calc_stats_body [] [] (1 / 2) (recode_edges short_night)).TRT :=
  have hrun : calc_stats (1 / 2) short_night
      = Except.ok (calc_stats_body [] [] (1 / 2) (recode_edges short_night)) :=
    (calc_stats_ok_iff _ _ _).2 ⟨by decide, by decide, by decide!, rfl⟩
  ⟨hrun, (tst_twt_other_eq_trt (1 / 2) short_night _ hrun).2.2.2⟩

theorem first_sleep_loop_fst (st : List sleep_stage_t) (lps_req : Int) :
    ∀ (es : List Nat) (found : Bool) (fs : Nat),
      (first_sleep_loop st lps_req es found fs).1 =
        if found = true then fs
        else match es.find? (fun e => is_sleep (stage_at st e)) with
          | some e => e
          | none => fs := by
  intro es
  induction es with
  | nil => intro found fs; cases found <;> simp [first_sleep_loop]
  | cons e es ih =>
    intro found fs
    rw [first_sleep_loop]
    cases hs : is_sleep (stage_at st e) with
    | true =>
      simp only [if_true, List.find?_cons, hs]
      cases hl : lps_at st lps_req e with
      | true => cases found <;> simp
      | false =>
        simp only [Bool.false_eq_true, if_false]
        rw [ih]
        cases found <;> simp
    | false =>
      simp only [Bool.false_eq_true, if_false, List.find?_cons, hs]
      rw [ih]

theorem first_sleep_epoch_eq (st : List sleep_stage_t) (lps_req : Int) :
    first_sleep_epoch st lps_req =
      match (List.range' 0 st.length).find? (fun e => is_sleep (stage_at st e)) with
      | some e => e
      | none => st.length := by
  unfold first_sleep_epoch
  rw [first_sleep_loop_fst, List.range_eq_range']
  simp

theorem first_sleep_epoch_of_first (st : List sleep_stage_t) (lps_req : Int) (f : Nat)
    (hf : f < st.length) (hsf : is_sleep (stage_at st f) = true)
    (hbefore : ∀ i, i < f → is_sleep (stage_at st i) = false) :
    first_sleep_epoch st lps_req = f := by
  rw [first_sleep_epoch_eq]
  cases hfind : (List.range' 0 st.length).find? (fun e => is_sleep (stage_at st e)) with
  | none =>
    have := find_range_none _ _ 0 hfind f (Nat.zero_le _) (by omega)
    simp only at this
    rw [hsf] at this
    exact absurd this (by simp)
  | some e =>
    obtain ⟨_, h2, h3, h4⟩ := find_range_some _ _ 0 e hfind
    simp only at h3 h4 ⊢
    rcases Nat.lt_trichotomy e f with hlt | heq | hgt
    · rw [hbefore e hlt] at h3; exact absurd h3 (by simp)
    · exact heq
    · have := h4 f (Nat.zero_le _) hgt
      rw [hsf] at this; exact absurd this (by simp)

theorem first_sleep_epoch_le (st : List sleep_stage_t) (lps_req : Int) :
    first_sleep_epoch st lps_req ≤ st.length := by
  rw [first_sleep_epoch_eq]
  cases hfind : (List.range' 0 st.length).find? (fun e => is_sleep (stage_at st e)) with
  | none => simp
  | some e =>
    obtain ⟨_, h2, _, _⟩ := find_range_some _ _ 0 e hfind
    simp only
    omega

theorem first_sleep_epoch_of_none (st : List sleep_stage_t) (lps_req : Int)
    (hnone : ∀ i, i < st.length → is_sleep (stage_at st i) = false) :
    first_sleep_epoch st lps_req = st.length := by
  rw [first_sleep_epoch_eq]
  cases hfind : (List.range' 0 st.length).find? (fun e => is_sleep (stage_at st e)) with
  | none => rfl
  | some e =>
    obtain ⟨_, h2, h3, _⟩ := find_range_some _ _ 0 e hfind
    rw [hnone e (by omega)] at h3
    exact absurd h3 (by simp)

theorem last_sleep_epoch_of_last (st : List sleep_stage_t) (l : Nat)
    (hl : l < st.length) (hsl : is_sleep (stage_at st l) = true)
    (hafter : ∀ i, l < i → i < st.length → is_sleep (stage_at st i) = false) :
    last_sleep_epoch st = l := by
  unfold last_sleep_epoch
  cases hfind : (List.range' 1 (st.length - 1)).reverse.find?
      (fun e => is_sleep (stage_at st e)) with
  | none =>
    simp only
    by_contra hne
    have := rfind_range_none _ _ 1 hfind l (by omega) (by omega)
    simp only at this
    rw [hsl] at this
    exact absurd this (by simp)
  | some e =>
    obtain ⟨h1, h2, h3, h4⟩ := rfind_range_some _ _ 1 e hfind
    simp only at h3 h4 ⊢
    rcases Nat.lt_trichotomy e l with hlt | heq | hgt
    · have := h4 l hlt (by omega)
      rw [hsl] at this; exact absurd this (by simp)
    · exact heq
    · rw [hafter e hgt (by omega)] at h3; exact absurd h3 (by simp)

theorem last_sleep_epoch_lt (st : List sleep_stage_t) (hne : 0 < st.length) :
    last_sleep_epoch st < st.length := by
  unfold last_sleep_epoch
  cases hfind : (List.range' 1 (st.length - 1)).reverse.find?
      (fun e => is_sleep (stage_at st e)) with
  | none => simpa using hne
  | some e =>
    obtain ⟨_, h2, _, _⟩ := rfind_range_some _ _ 1 e hfind
    simp only
    omega

/-- The WAKE epochs counted by the WASO loop are among the WAKE epochs of the
vector. -/
theorem waso_epochs_le_wake (st : List sleep_stage_t) (f l : Nat)
    (h : f + (l + 1 - f) ≤ st.length) :
    waso_epochs st f l ≤ st.countP is_wake := by
  unfold waso_epochs
  rw [← List.countP_eq_length_filter]
  have hmap : List.countP (fun e => decide (stage_at st e = WAKE)) (List.range' f (l + 1 - f))
      = List.countP is_wake ((List.range' f (l + 1 - f)).map (stage_at st)) := by
    rw [List.countP_map]
    apply List.countP_congr
    intro x _
    simp [is_wake]
  rw [hmap, map_stage_at_range st _ _ h]
  exact List.Sublist.countP_le _ ((List.take_sublist _ _).trans (List.drop_sublist _ _))

/-- The WASO loop counts the WAKE epochs `e` with `f <= e <= l`. -/
theorem waso_epochs_eq_filter (st : List sleep_stage_t) (q : Nat → Bool) (f l n : Nat)
    (hfl : f ≤ l) (hl : l < n)
    (hq : ∀ e, e < n → (q e = true ↔ stage_at st e = WAKE)) :
    waso_epochs st f l
      = ((List.range n).filter (fun e => decide (f ≤ e) && decide (e ≤ l) && q e)).length := by
  unfold waso_epochs
  have hsplit : List.range n
      = List.range' 0 f ++ (List.range' f (l + 1 - f) ++ List.range' (l + 1) (n - (l + 1))) := by
    have h1 := List.range'_append_1 f (l + 1 - f) (n - (l + 1))
    have h2 : f + (l + 1 - f) = l + 1 := by omega
    rw [h2] at h1
    rw [h1]
    have h3 := List.range'_append_1 0 f (n - (l + 1) + (l + 1 - f))
    rw [Nat.zero_add] at h3
    rw [h3, List.range_eq_range']
    congr 1
    omega
  rw [hsplit, List.filter_append, List.filter_append]
  have hA : (List.range' 0 f).filter (fun e => decide (f ≤ e) && decide (e ≤ l) && q e) = [] := by
    rw [List.filter_eq_nil_iff]
    intro a ha
    rw [List.mem_range'_1] at ha
    have : ¬ f ≤ a := by omega
    simp [this]
  have hC : (List.range' (l + 1) (n - (l + 1))).filter
      (fun e => decide (f ≤ e) && decide (e ≤ l) && q e) = [] := by
    rw [List.filter_eq_nil_iff]
    intro a ha
    rw [List.mem_range'_1] at ha
    have : ¬ a ≤ l := by omega
    simp [this]
  have hB : (List.range' f (l + 1 - f)).filter (fun e => decide (f ≤ e) && decide (e ≤ l) && q e)
      = (List.range' f (l + 1 - f)).filter (fun e => decide (stage_at st e = WAKE)) := by
    apply List.filter_congr
    intro a ha
    rw [List.mem_range'_1] at ha
    have h1 : f ≤ a := ha.1
    have h2 : a ≤ l := by omega
    have h3 := hq a (by omega)
    by_cases hw : stage_at st a = WAKE
    · simp [h1, h2, hw, h3.2 hw]
    · have : q a = false := by
        cases hqa : q a with
        | true => exact absurd (h3.1 hqa) hw
        | false => rfl
      simp [h1, h2, hw, this]
  rw [hA, hC, hB]
  simp

theorem is_sleep_recode_edges (s : List sleep_stage_t) (e : Nat) (he : e < s.length) :
    is_sleep (stage_at (recode_edges s) e) = is_sleep (stage_at s e) := by
  rcases stage_at_recode_edges_cases s e he with h | ⟨h1, h2⟩
  · rw [h]
  · rw [h1, h2]; rfl

theorem wake_recode_edges (s : List sleep_stage_t) (e : Nat) (he : e < s.length) :
    stage_at (recode_edges s) e = WAKE ↔ stage_at s e = WAKE := by
  rcases stage_at_recode_edges_cases s e he with h | ⟨h1, h2⟩
  · rw [h]
  · rw [h1, h2]; simp

/-- C9, in exact arithmetic: on a run that returns, with `f` and `l` the first
and the last sleep epoch of the night, WASO is epoch-minutes times the number of
WAKE epochs `e` with `f <= e <= l`; a night without sleep epoch has WASO = 0;
and for a non-negative epoch duration WASO <= TWT. The minutes are exact
rationals here; with binary64 sums `waso_exceeds_wake_time_in_double` shows
`TWT < WASO`. -/
theorem waso_counts_wake_between_sleep (epoch_mins : ℚ) (s : List sleep_stage_t)
    (h : hypnogram_t) (hem : 0 ≤ epoch_mins) (hrun : calc_stats epoch_mins s = Except.ok h) :
    (∀ f l, f < s.length → is_sleep (stage_at s f) = true →
        (∀ i, i < f → is_sleep (stage_at s i) = false) →
        l < s.length → is_sleep (stage_at s l) = true →
        (∀ i, l < i → i < s.length → is_sleep (stage_at s i) = false) →
        h.WASO = epoch_mins * (((List.range s.length).filter
          (fun e => decide (f ≤ e) && decide (e ≤ l) && decide (stage_at s e = WAKE))).length : ℕ)) ∧
    ((∀ i, i < s.length → is_sleep (stage_at s i) = false) → h.WASO = 0) ∧
    h.WASO ≤ h.TWT := by
  obtain ⟨hs, _, _, hh⟩ := (calc_stats_ok_iff epoch_mins s h).1 hrun
  have hlen := length_recode_edges s
  have hpos : 0 < (recode_edges s).length := by
    rw [hlen]; exact List.length_pos.2 hs
  have hWASO : h.WASO = (waso_epochs (recode_edges s)
      (first_sleep_epoch (recode_edges s) (lps_required epoch_mins))
      (last_sleep_epoch (recode_edges s)) : ℚ) * epoch_mins := by
    subst hh; rfl
  have hTWT : h.TWT = epoch_mins * ((recode_edges s).countP is_wake : ℕ) := by
    subst hh; exact mins_wake_eq epoch_mins (recode_edges s)
  refine ⟨?_, ?_, ?_⟩
  · intro f l hf hsf hbefore hl hsl hafter
    have hf1 : first_sleep_epoch (recode_edges s) (lps_required epoch_mins) = f := by
      apply first_sleep_epoch_of_first
      · rw [hlen]; exact hf
      · rw [is_sleep_recode_edges s f hf]; exact hsf
      · intro i hi
        rw [is_sleep_recode_edges s i (by omega)]; exact hbefore i hi
    have hl1 : last_sleep_epoch (recode_edges s) = l := by
      apply last_sleep_epoch_of_last
      · rw [hlen]; exact hl
      · rw [is_sleep_recode_edges s l hl]; exact hsl
      · intro i hi1 hi2
        rw [hlen] at hi2
        rw [is_sleep_recode_edges s i hi2]; exact hafter i hi1 hi2
    have hfl : f ≤ l := by
      by_contra hgt
      have := hafter f (by omega) hf
      rw [hsf] at this; exact absurd this (by simp)
    rw [hWASO, hf1, hl1,
      waso_epochs_eq_filter (recode_edges s) (fun e => decide (stage_at s e = WAKE)) f l s.length
        hfl hl (fun e he => by simpa using (wake_recode_edges s e he).symm)]
    ring
  · intro hnone
    have hf1 : first_sleep_epoch (recode_edges s) (lps_required epoch_mins)
        = (recode_edges s).length := by
      apply first_sleep_epoch_of_none
      intro i hi
      rw [hlen] at hi
      rw [is_sleep_recode_edges s i hi]; exact hnone i hi
    have hl1 := last_sleep_epoch_lt (recode_edges s) hpos
    have hz : waso_epochs (recode_edges s) (recode_edges s).length
        (last_sleep_epoch (recode_edges s)) = 0 := by
      unfold waso_epochs
      have : last_sleep_epoch (recode_edges s) + 1 - (recode_edges s).length = 0 := by omega
      rw [this]; simp
    rw [hWASO, hf1, hz]
    simp
  · rw [hWASO, hTWT]
    have hle := waso_epochs_le_wake (recode_edges s)
      (first_sleep_epoch (recode_edges s) (lps_required epoch_mins))
      (last_sleep_epoch (recode_edges s)) (by
        have a1 := first_sleep_epoch_le (recode_edges s) (lps_required epoch_mins)
        have a2 := last_sleep_epoch_lt (recode_edges s) hpos
        omega)
    have hq : ((waso_epochs (recode_edges s)
        (first_sleep_epoch (recode_edges s) (lps_required epoch_mins))
        (last_sleep_epoch (recode_edges s)) : ℕ) : ℚ)
        ≤ (((recode_edges s).countP is_wake : ℕ) : ℚ) := by
      exact_mod_cast hle
    rw [mul_comm]
    exact mul_le_mul_of_nonneg_left hq hem

theorem waso_counts_wake_between_sleep_witness :
    (0 : ℚ) ≤ 1 / 2 ∧
    calc_stats (1 / 2) short_night
        = Except.ok (calc_stats_body [] [] (1 / 2) (recode_edges short_night)) ∧
    (calc_stats_body [] [] (1 / 2) (recode_edges short_night)).WASO
      = (1 / 2) * (((List.range short_night.length).filter
          (fun e => decide (2 ≤ e) && decide (e ≤ 6)
            && decide (stage_at short_night e = WAKE))).length : ℕ) ∧
    (calc_stats_body [] [] (1 / 2) (recode_edges short_night)).WASO
      ≤ (calc_stats_body [] [] (1 / 2) (recode_edges short_night)).TWT :=
  have hrun : calc_stats (1 / 2) short_night
      = Except.ok (calc_stats_body [] [] (1 / 2) (recode_edges short_night)) :=
    (calc_stats_ok_iff _ _ _).2 ⟨by decide, by decide, by decide!, rfl⟩
  have hw := waso_counts_wake_between_sleep (1 / 2) short_night _ (by norm_num) hrun
  ⟨by norm_num, hrun,
    hw.1 2 6 (by decide) (by decide) (by decide) (by decide) (by decide)
      (by intro i h1 h2
          have h3 : i < 9 := h2
          interval_cases i <;> rfl),
    hw.2.2⟩

/-- C2: for a non-empty night, `calc_stats` stops with the error "LIGHTS_ON
periods can only be at start and end of recording" exactly when the recoded
vector has epochs i < j < k with epoch j LIGHTS_ON and epochs i and k not
LIGHTS_ON, and otherwise, for an epoch of at most 10 minutes, it returns; in
particular a night whose recoded vector
has LIGHTS_ON at exactly the epochs 0, 5 and 50 stops with that error. -/
theorem lights_on_halt_iff (epoch_mins : ℚ) (s : List sleep_stage_t) (hs : s ≠ []) :
    (calc_stats epoch_mins s = Except.error calc_error.lights_on_halt ↔
      ∃ i j k, i < j ∧ j < k ∧ k < s.length ∧
        stage_at (recode_edges s) j = LIGHTS_ON ∧
        stage_at (recode_edges s) i ≠ LIGHTS_ON ∧
        stage_at (recode_edges s) k ≠ LIGHTS_ON) ∧
    (0 < epoch_mins → epoch_mins ≤ 10 →
      calc_stats epoch_mins s ≠ Except.error calc_error.lights_on_halt →
      ∃ h, calc_stats epoch_mins s = Except.ok h) ∧
    (50 < s.length →
      (∀ e, e < s.length →
        (stage_at (recode_edges s) e = LIGHTS_ON ↔ e = 0 ∨ e = 5 ∨ e = 50)) →
      calc_stats epoch_mins s = Except.error calc_error.lights_on_halt) := by
  have hiff : calc_stats epoch_mins s = Except.error calc_error.lights_on_halt ↔
      ∃ i j k, i < j ∧ j < k ∧ k < s.length ∧
        stage_at (recode_edges s) j = LIGHTS_ON ∧
        stage_at (recode_edges s) i ≠ LIGHTS_ON ∧
        stage_at (recode_edges s) k ≠ LIGHTS_ON := by
    rw [calc_stats_halt_iff, lights_check_halts_iff, length_recode_edges]
    exact ⟨fun h => h.2, fun h => ⟨hs, h⟩⟩
  refine ⟨hiff, ?_, ?_⟩
  · intro h0 h10 hne
    refine ⟨calc_stats_body [] [] epoch_mins (recode_edges s), ?_⟩
    rw [calc_stats_ok_iff]
    refine ⟨hs, ?_,
      persistent_sleep_stays_inside _ _ (persistent_threshold_pos epoch_mins h0 h10), rfl⟩
    cases hc : lights_check_halts (recode_edges s) with
    | false => rfl
    | true => exact absurd ((calc_stats_halt_iff epoch_mins s).2 ⟨hs, hc⟩) hne
  · intro hlen hpos
    rw [hiff]
    refine ⟨1, 5, 6, by omega, by omega, by omega, ?_, ?_, ?_⟩
    · exact (hpos 5 (by omega)).2 (Or.inr (Or.inl rfl))
    · intro h1
      have := (hpos 1 (by omega)).1 h1
      omega
    · intro h6
      have := (hpos 6 (by omega)).1 h6
      omega

theorem lights_on_halt_iff_witness :
    lights_scenario ≠ [] ∧ 50 < lights_scenario.length ∧
    (∀ e, e < lights_scenario.length →
      (stage_at (recode_edges lights_scenario) e = LIGHTS_ON ↔ e = 0 ∨ e = 5 ∨ e = 50)) ∧
    calc_stats (1 / 2) lights_scenario = Except.error calc_error.lights_on_halt :=
  ⟨by decide, by decide, by decide,
    (lights_on_halt_iff (1 / 2) lights_scenario (by decide)).2.2 (by decide) (by decide)⟩

/-- C5 at the night UNKNOWN, UNKNOWN, WAKE with 30-second epochs: there is no
sleep epoch, `any_sleep` is false and WASO is 0, but the two recoded LIGHTS_ON
epochs are counted in TRT, so that TST is 1 minute and the sleep efficiency is
200/3 percent. -/
theorem no_sleep_positive_tst :
    (∀ x ∈ [UNKNOWN, UNKNOWN, WAKE], is_sleep x = false) ∧
    ∃ h, calc_stats (30 / 60) [UNKNOWN, UNKNOWN, WAKE] = Except.ok h ∧
      h.stages = [LIGHTS_ON, LIGHTS_ON, WAKE] ∧
      h.any_sleep = false ∧ h.WASO = 0 ∧ h.TST = 1 ∧ h.slp_eff_pct = 200 / 3 := by
  refine ⟨by decide, ?_⟩
  have hrun : returns_with (calc_stats (30 / 60) [UNKNOWN, UNKNOWN, WAKE]) (fun h =>
      decide (h.stages = [LIGHTS_ON, LIGHTS_ON, WAKE]) && decide (h.any_sleep = false)
        && decide (h.WASO = 0) && decide (h.TST = 1)
        && decide (h.slp_eff_pct = 200 / 3)) = true := by
    decide!
  obtain ⟨h, hok, hp⟩ := returns_with_ok hrun
  simp only [Bool.and_eq_true, decide_eq_true_eq] at hp
  exact ⟨h, hok, hp.1.1.1.1, hp.1.1.1.2, hp.1.1.2, hp.1.2, hp.2⟩

/-- C7 at the night UNKNOWN, UNKNOWN, WAKE with 30-second epochs: in the recoded
vector the first and the last epoch that is not LIGHTS_ON are both epoch 2, yet
`lights_out_epoch` is 0 (its loop stops before the last epoch),
`lights_on_epoch` is 3 and TRT is 3/2 minutes, three epochs instead of one. -/
theorem trt_counts_leading_lights :
    ∃ h, calc_stats (30 / 60) [UNKNOWN, UNKNOWN, WAKE] = Except.ok h ∧
      h.stages = [LIGHTS_ON, LIGHTS_ON, WAKE] ∧
      lights_out_epoch h.stages = 0 ∧ lights_on_epoch h.stages = 3 ∧
      h.TRT = 3 / 2 := by
  have hrun : returns_with (calc_stats (30 / 60) [UNKNOWN, UNKNOWN, WAKE]) (fun h =>
      decide (h.stages = [LIGHTS_ON, LIGHTS_ON, WAKE])
        && decide (lights_out_epoch h.stages = 0) && decide (lights_on_epoch h.stages = 3)
        && decide (h.TRT = 3 / 2)) = true := by
    decide!
  obtain ⟨h, hok, hp⟩ := returns_with_ok hrun
  simp only [Bool.and_eq_true, decide_eq_true_eq] at hp
  exact ⟨h, hok, hp.1.1.1, hp.1.1.2, hp.1.2, hp.2⟩

/-- C8 at the night of 20 WAKE epochs of 30 seconds: every epoch before
`lights_on_epoch` (20) is WAKE, the loop for `final_wake_epoch` meets no other
stage and leaves it at 20, so that FWT is 0 while TRT is 10 minutes; with a
LIGHTS_ON epoch in front of two WAKE epochs the loop stops and FWT equals TRT. -/
theorem all_wake_final_wake_time :
    (∃ h, calc_stats (30 / 60) (List.replicate 20 WAKE) = Except.ok h ∧
      lights_on_epoch h.stages = 20 ∧ h.final_wake_epoch = 20 ∧ h.FWT = 0 ∧ h.TRT = 10) ∧
    (∃ h, calc_stats (30 / 60) [LIGHTS_ON, WAKE, WAKE] = Except.ok h ∧
      h.final_wake_epoch = 1 ∧ h.FWT = 1 ∧ h.TRT = 1) := by
  have hrun : returns_with (calc_stats (30 / 60) (List.replicate 20 WAKE)) (fun h =>
      decide (lights_on_epoch h.stages = 20) && decide (h.final_wake_epoch = 20)
        && decide (h.FWT = 0) && decide (h.TRT = 10)) = true := by
    decide!
  have hrun2 : returns_with (calc_stats (30 / 60) [LIGHTS_ON, WAKE, WAKE]) (fun h =>
      decide (h.final_wake_epoch = 1) && decide (h.FWT = 1) && decide (h.TRT = 1)) = true := by
    decide!
  obtain ⟨h, hok, hp⟩ := returns_with_ok hrun
  obtain ⟨h2, hok2, hp2⟩ := returns_with_ok hrun2
  simp only [Bool.and_eq_true, decide_eq_true_eq] at hp hp2
  exact ⟨⟨h, hok, hp.1.1.1, hp.1.1.2, hp.1.2, hp.2⟩, ⟨h2, hok2, hp2.1.1, hp2.1.2, hp2.2⟩⟩

/-- C10, as stated, fails: in the night UNSCORED, WAKE epoch 0 is the whole
leading run of absent labels, and the recoding leaves it UNSCORED. -/
theorem recode_keeps_unscored :
    is_absent (stage_at [UNSCORED, WAKE] 0) = true ∧
    is_absent (stage_at [UNSCORED, WAKE] 1) = false ∧
    stage_at (recode_edges [UNSCORED, WAKE]) 0 = UNSCORED ∧
    stage_at (recode_edges [UNSCORED, WAKE]) 0 ≠ LIGHTS_ON := by
  decide

/-- C10, amended: after the recoding step every epoch of the maximal leading
run of UNKNOWN-or-LIGHTS_ON labels and every epoch of the maximal trailing such
run is LIGHTS_ON, every other epoch (UNSCORED, MOVEMENT and ARTIFACT epochs
included) keeps its label, and the length is unchanged. -/
theorem recode_edges_unknown_runs (s : List sleep_stage_t) :
    (recode_edges s).length = s.length ∧
    ∀ e, e < s.length →
      (((∀ i, i ≤ e → stage_at s i = UNKNOWN ∨ stage_at s i = LIGHTS_ON) ∨
          (∀ i, e ≤ i → i < s.length → stage_at s i = UNKNOWN ∨ stage_at s i = LIGHTS_ON)) →
        stage_at (recode_edges s) e = LIGHTS_ON) ∧
      (¬ ((∀ i, i ≤ e → stage_at s i = UNKNOWN ∨ stage_at s i = LIGHTS_ON) ∨
          (∀ i, e ≤ i → i < s.length → stage_at s i = UNKNOWN ∨ stage_at s i = LIGHTS_ON)) →
        stage_at (recode_edges s) e = stage_at s e) :=
  ⟨length_recode_edges s, fun e he => stage_at_recode_edges s e he⟩

theorem recode_edges_unknown_runs_witness :
    (recode_edges short_night).length = short_night.length ∧
    stage_at (recode_edges short_night) 0 = LIGHTS_ON ∧
    stage_at (recode_edges short_night) 4 = MOVEMENT :=
  ⟨(recode_edges_unknown_runs short_night).1,
    ((recode_edges_unknown_runs short_night).2 0 (by decide)).1
      (Or.inl (by intro i hi
                  have h0 : i = 0 := by omega
                  subst h0
                  exact Or.inl rfl)),
    ((recode_edges_unknown_runs short_night).2 4 (by decide)).2
      (by
        intro h
        rcases h with h | h
        · have := h 1 (by omega)
          revert this; decide
        · have := h 4 (le_refl _) (by decide)
          revert this; decide)⟩

/-! ## Auxiliary facts: flanking runs -/

theorem getD_map_range {α : Type} (f : Nat → α) (n e : Nat) (d : α) (h : e < n) :
    ((List.range n).map f).getD e d = f e := by
  simp [List.getD_eq_getElem?_getD, List.getElem?_map, List.getElem?_range h]

theorem getD_map_range_ge {α : Type} (f : Nat → α) (n e : Nat) (d : α) (h : n ≤ e) :
    ((List.range n).map f).getD e d = d := by
  simp [List.getD_eq_getElem?_getD, List.getElem?_eq_none, h]

theorem is_same_3class_iff (a b : sleep_stage_t) :
    is_same_3class a b = true ↔ transition_class true a = transition_class true b := by
  cases a <;> cases b <;> decide

theorem same_class_iff (f3 : Bool) (a b : sleep_stage_t) :
    same_class f3 a b = true ↔ transition_class f3 a = transition_class f3 b := by
  cases f3
  · simp [same_class, transition_class]
  · simp only [same_class, if_true]
    exact is_same_3class_iff a b

theorem same_class_congr (f3 : Bool) (x y z : sleep_stage_t)
    (h : same_class f3 y z = true) : same_class f3 x y = same_class f3 x z := by
  rw [same_class_iff] at h
  rw [Bool.eq_iff_iff, same_class_iff, same_class_iff, h]

theorem same_class_self (f3 : Bool) (x : sleep_stage_t) : same_class f3 x x = true := by
  rw [same_class_iff]

/-- The forward loop stops at the first epoch after `e` that is not of the class
of `e`, or at the end of the vector. -/
theorem run_forward_spec (f3 : Bool) (st : List sleep_stage_t) (e : Nat) (he : e < st.length) :
    e + run_forward f3 st e < st.length ∧
    (∀ i, e < i → i ≤ e + run_forward f3 st e →
      same_class f3 (stage_at st i) (stage_at st e) = true) ∧
    (e + run_forward f3 st e + 1 = st.length ∨
      same_class f3 (stage_at st (e + run_forward f3 st e + 1)) (stage_at st e) = false) := by
  unfold run_forward
  cases hf : (List.range' (e + 1) (st.length - (e + 1))).find? (fun ee =>
      !same_class f3 (stage_at st ee) (stage_at st e)) with
  | none =>
    have hn := find_range_none _ _ _ hf
    simp only
    refine ⟨by omega, ?_, Or.inl (by omega)⟩
    intro i h1 h2
    have := hn i (by omega) (by omega)
    simpa using this
  | some k =>
    obtain ⟨h1, h2, h3, h4⟩ := find_range_some _ _ _ _ hf
    simp only
    refine ⟨by omega, ?_, Or.inr ?_⟩
    · intro i hi1 hi2
      have := h4 i (by omega) (by omega)
      simpa using this
    · have hk : e + (k - (e + 1)) + 1 = k := by omega
      rw [hk]
      simpa using h3

/-- The backward loop stops at the first epoch before `e` that is not of the
class of `e`, or at epoch 0. -/
theorem run_backward_spec (f3 : Bool) (st : List sleep_stage_t) (e : Nat) :
    run_backward f3 st e ≤ e ∧
    (∀ i, e - run_backward f3 st e ≤ i → i < e →
      same_class f3 (stage_at st i) (stage_at st e) = true) ∧
    (run_backward f3 st e = e ∨
      same_class f3 (stage_at st (e - run_backward f3 st e - 1)) (stage_at st e) = false) := by
  unfold run_backward
  cases hf : (List.range' 0 e).reverse.find? (fun ee =>
      !same_class f3 (stage_at st ee) (stage_at st e)) with
  | none =>
    have hn := rfind_range_none _ _ _ hf
    simp only
    refine ⟨le_refl _, ?_, by simp⟩
    intro i _ h2
    have := hn i (Nat.zero_le _) (by omega)
    simpa using this
  | some k =>
    obtain ⟨h1, h2, h3, h4⟩ := rfind_range_some _ _ _ _ hf
    simp only
    refine ⟨by omega, ?_, Or.inr ?_⟩
    · intro i hi1 hi2
      have := h4 i (by omega) (by omega)
      simpa using this
    · have hk : e - (e - 1 - k) - 1 = k := by omega
      rw [hk]
      simpa using h3

/-- A maximal run of the class of `e` around `e` is the one the two loops find. -/
theorem run_unique (f3 : Bool) (st : List sleep_stage_t) (e a b : Nat)
    (hae : a ≤ e) (heb : e ≤ b) (hb : b < st.length)
    (hrun : ∀ i, a ≤ i → i ≤ b → same_class f3 (stage_at st i) (stage_at st e) = true)
    (hleft : a = 0 ∨ same_class f3 (stage_at st (a - 1)) (stage_at st e) = false)
    (hright : b + 1 = st.length ∨ same_class f3 (stage_at st (b + 1)) (stage_at st e) = false) :
    a = e - run_backward f3 st e ∧ b = e + run_forward f3 st e := by
  obtain ⟨f1, f2, f3'⟩ := run_forward_spec f3 st e (by omega)
  obtain ⟨b1, b2, b3⟩ := run_backward_spec f3 st e
  constructor
  · rcases Nat.lt_trichotomy a (e - run_backward f3 st e) with h | h | h
    · exfalso
      rcases b3 with b3 | b3
      · omega
      · have := hrun (e - run_backward f3 st e - 1) (by omega) (by omega)
        rw [this] at b3; exact absurd b3 (by simp)
    · exact h
    · exfalso
      rcases hleft with hl | hl
      · omega
      · have := b2 (a - 1) (by omega) (by omega)
        rw [this] at hl; exact absurd hl (by simp)
  · rcases Nat.lt_trichotomy b (e + run_forward f3 st e) with h | h | h
    · exfalso
      rcases hright with hr | hr
      · omega
      · have := f2 (b + 1) (by omega) (by omega)
        rw [this] at hr; exact absurd hr (by simp)
    · exact h
    · exfalso
      rcases f3' with f3' | f3'
      · omega
      · have := hrun (e + run_forward f3 st e + 1) (by omega) (by omega)
        rw [this] at f3'; exact absurd f3' (by simp)

theorem flanking_tot_getD (f3 : Bool) (st : List sleep_stage_t) (e : Nat) (he : e < st.length) :
    (flanking_tot f3 st).getD e 0
      = 1 + (run_forward f3 st e : Int) + (run_backward f3 st e : Int) := by
  unfold flanking_tot
  rw [getD_map_range _ _ _ _ he]
  rfl

/-- The value `sim` is at most the number of increments of the forward loop. -/
theorem flanking_at_le_run_forward (f3 : Bool) (st : List sleep_stage_t) (e : Nat)
    (he : e < st.length) : flanking_at f3 st e ≤ (run_forward f3 st e : Int) := by
  obtain ⟨f1, f2, f3'⟩ := run_forward_spec f3 st e he
  unfold flanking_at
  cases hf : (List.range' 1 (st.length - 1)).find? (fun j =>
      decide (e < j) || decide (st.length ≤ e + j)
        || !same_class f3 (stage_at st (e - j)) (stage_at st e)
        || !same_class f3 (stage_at st (e + j)) (stage_at st e)) with
  | none => simp
  | some j =>
    obtain ⟨h1, h2, _, h4⟩ := find_range_some _ _ _ _ hf
    simp only
    by_contra hlt
    have hlt2 : run_forward f3 st e + 1 < j := by omega
    have hgood := h4 (run_forward f3 st e + 1) (by omega) hlt2
    simp only [Bool.or_eq_false_iff, decide_eq_false_iff_not, Bool.not_eq_false'] at hgood
    obtain ⟨⟨⟨_, g2⟩, _⟩, g4⟩ := hgood
    rcases f3' with f3' | f3'
    · omega
    · rw [Nat.add_assoc] at f3'
      rw [g4] at f3'; exact absurd f3' (by simp)

/-- C13: at every epoch `flanking` (FLANKING_MIN) is at most `flanking_tot`
(FLANKING_ALL), whatever `flanking_3class` is. -/
theorem flanking_le_flanking_tot (flanking_3class : Bool) (stages : List sleep_stage_t)
    (e : Nat) :
    (flanking flanking_3class stages).getD e 0 ≤ (flanking_tot flanking_3class stages).getD e 0 := by
  by_cases he : e < stages.length
  · rw [flanking_tot_getD _ _ _ he]
    unfold flanking
    rw [getD_map_range _ _ _ _ he]
    have := flanking_at_le_run_forward flanking_3class stages e he
    omega
  · unfold flanking flanking_tot
    rw [getD_map_range_ge _ _ _ _ (by omega), getD_map_range_ge _ _ _ _ (by omega)]

/-- C19: for every epoch `e` there is a maximal run `a .. b` of consecutive
epochs of the class of `e` that contains `e`; `flanking_tot[e]` is the length
`b - a + 1` of any such run; and every epoch joined to `e` by epochs of the
class of `e` has the same `flanking_tot`. -/
theorem flanking_tot_is_run_length (flanking_3class : Bool) (stages : List sleep_stage_t)
    (e : Nat) (he : e < stages.length) :
    (∃ a b, a ≤ e ∧ e ≤ b ∧ b < stages.length ∧
      (∀ i, a ≤ i → i ≤ b →
        same_class flanking_3class (stage_at stages i) (stage_at stages e) = true) ∧
      (a = 0 ∨ same_class flanking_3class (stage_at stages (a - 1)) (stage_at stages e) = false) ∧
      (b + 1 = stages.length ∨
        same_class flanking_3class (stage_at stages (b + 1)) (stage_at stages e) = false)) ∧
    (∀ a b, a ≤ e → e ≤ b → b < stages.length →
      (∀ i, a ≤ i → i ≤ b →
        same_class flanking_3class (stage_at stages i) (stage_at stages e) = true) →
      (a = 0 ∨ same_class flanking_3class (stage_at stages (a - 1)) (stage_at stages e) = false) →
      (b + 1 = stages.length ∨
        same_class flanking_3class (stage_at stages (b + 1)) (stage_at stages e) = false) →
      (flanking_tot flanking_3class stages).getD e 0 = (b : Int) - (a : Int) + 1) ∧
    (∀ e2, e2 < stages.length →
      (∀ i, min e e2 ≤ i → i ≤ max e e2 →
        same_class flanking_3class (stage_at stages i) (stage_at stages e) = true) →
      (flanking_tot flanking_3class stages).getD e2 0
        = (flanking_tot flanking_3class stages).getD e 0) := by
  obtain ⟨f1, f2, f3'⟩ := run_forward_spec flanking_3class stages e he
  obtain ⟨b1, b2, b3⟩ := run_backward_spec flanking_3class stages e
  have hin : ∀ i, e - run_backward flanking_3class stages e ≤ i →
      i ≤ e + run_forward flanking_3class stages e →
      same_class flanking_3class (stage_at stages i) (stage_at stages e) = true := by
    intro i h1 h2
    rcases Nat.lt_trichotomy i e with h | h | h
    · exact b2 i h1 h
    · rw [h]; exact same_class_self _ _
    · exact f2 i h h2
  have hleft : e - run_backward flanking_3class stages e = 0 ∨
      same_class flanking_3class
        (stage_at stages (e - run_backward flanking_3class stages e - 1)) (stage_at stages e)
        = false := by
    rcases b3 with h | h
    · left; omega
    · exact Or.inr h
  have hlen : ∀ a b, a ≤ e → e ≤ b → b < stages.length →
      (∀ i, a ≤ i → i ≤ b →
        same_class flanking_3class (stage_at stages i) (stage_at stages e) = true) →
      (a = 0 ∨ same_class flanking_3class (stage_at stages (a - 1)) (stage_at stages e) = false) →
      (b + 1 = stages.length ∨
        same_class flanking_3class (stage_at stages (b + 1)) (stage_at stages e) = false) →
      (flanking_tot flanking_3class stages).getD e 0 = (b : Int) - (a : Int) + 1 := by
    intro a b h1 h2 h3 h4 h5 h6
    obtain ⟨ha, hb⟩ := run_unique flanking_3class stages e a b h1 h2 h3 h4 h5 h6
    rw [flanking_tot_getD _ _ _ he]
    omega
  refine ⟨⟨e - run_backward flanking_3class stages e, e + run_forward flanking_3class stages e,
    by omega, by omega, f1, hin, hleft, f3'⟩, hlen, ?_⟩
  intro e2 he2 hjoin
  -- `e2` lies in the run of `e`
  have hsame2 : same_class flanking_3class (stage_at stages e2) (stage_at stages e) = true :=
    hjoin e2 (by omega) (by omega)
  have hlo : e - run_backward flanking_3class stages e ≤ e2 := by
    by_contra hlt
    rcases b3 with h | h
    · omega
    · have := hjoin (e - run_backward flanking_3class stages e - 1) (by omega) (by omega)
      rw [this] at h; exact absurd h (by simp)
  have hhi : e2 ≤ e + run_forward flanking_3class stages e := by
    by_contra hlt
    rcases f3' with h | h
    · omega
    · have := hjoin (e + run_forward flanking_3class stages e + 1) (by omega) (by omega)
      rw [this] at h; exact absurd h (by simp)
  obtain ⟨ha, hb⟩ := run_unique flanking_3class stages e2
    (e - run_backward flanking_3class stages e) (e + run_forward flanking_3class stages e)
    hlo hhi f1
    (fun i h1 h2 => by rw [same_class_congr _ _ _ _ hsame2]; exact hin i h1 h2)
    (by
      rcases hleft with h | h
      · exact Or.inl h
      · right; rw [same_class_congr _ _ _ _ hsame2]; exact h)
    (by
      rcases f3' with h | h
      · exact Or.inl h
      · right; rw [same_class_congr _ _ _ _ hsame2]; exact h)
  have hb2 := (run_backward_spec flanking_3class stages e2).1
  rw [flanking_tot_getD _ _ _ he2, flanking_tot_getD _ _ _ he]
  omega

theorem flanking_tot_is_run_length_witness :
    (2 : Nat) < short_night.length ∧
    (flanking_tot true short_night).getD 2 0 = ((3 : Nat) : Int) - ((2 : Nat) : Int) + 1 :=
  ⟨by decide,
    (flanking_tot_is_run_length true short_night 2 (by decide)).2.1 2 3 (by decide) (by decide)
      (by decide)
      (by intro i h1 h2
          have h3 : i = 2 ∨ i = 3 := by omega
          rcases h3 with h3 | h3 <;> subst h3 <;> rfl)
      (Or.inr (by rfl)) (Or.inr (by rfl))⟩

/-! ## Auxiliary facts: directional transitions -/

theorem getD_assign_where {α : Type} (old : List α) (d : α) (ne : Nat) (guard : Nat → Bool)
    (value : Nat → α) (e : Nat) (he : e < ne) :
    (assign_where old d ne guard value).getD e d
      = if guard e = true then value e else (resize_with old ne d).getD e d := by
  unfold assign_where
  rw [getD_map_range _ _ _ _ he]

theorem getD_resize_nil {α : Type} (ne e : Nat) (d : α) :
    (resize_with ([] : List α) ne d).getD e d = d := by
  simp only [resize_with, List.take_nil, List.nil_append, List.length_nil, Nat.sub_zero]
  by_cases h : e < ne
  · simp [List.getD_eq_getElem?_getD, List.getElem?_replicate, h]
  · simp [List.getD_eq_getElem?_getD, List.getElem?_replicate, h]

/-- The distance loop, read off the vector, for a pair of classes of which the
destination class is closed under `is_same_3class` and disjoint from the source
class. -/
theorem transition_vector_reading (source dest : sleep_stage_t → Bool)
    (hdisj : ∀ x, source x = true → dest x = false)
    (hcls : ∀ x y, dest y = true → (same_class true x y = true ↔ dest x = true))
    (req : Int) (hreq : 1 ≤ req) (st : List sleep_stage_t) :
    distance_reading source dest req st (transition_vector_from [] source dest true req st) := by
  intro e he
  unfold transition_vector_from
  rw [getD_assign_where _ _ _ _ _ _ he, getD_resize_nil]
  constructor
  · intro hsrc
    simp [hsrc]
  intro hsrc
  rw [if_pos hsrc]
  unfold transition_distance
  cases hf : (List.range' (e + 1) (st.length - (e + 1))).find? (fun k =>
      !source (stage_at st k)) with
  | none =>
    have hn := find_range_none _ _ _ hf
    have hall : ∀ i, e < i → i < st.length → source (stage_at st i) = true := by
      intro i h1 h2
      have := hn i (by omega) (by omega)
      simpa using this
    have hno : ∀ d : Nat, 1 ≤ d →
        ¬ ((∀ i, e ≤ i → i < e + d → source (stage_at st i) = true) ∧
          (∀ i, e + d ≤ i → (i : Int) < (e : Int) + (d : Int) + req →
            i < st.length ∧ dest (stage_at st i) = true)) := by
      intro d hd ⟨_, h2⟩
      obtain ⟨g1, g2⟩ := h2 (e + d) (le_refl _) (by push_cast; omega)
      have := hdisj _ (hall (e + d) (by omega) g1)
      rw [g2] at this; exact absurd this (by simp)
    simp only
    refine ⟨le_refl _, ?_, by simp⟩
    intro d hd
    constructor
    · intro h0
      have : (d : Int) = 0 := h0.symm
      omega
    · intro hc
      exact absurd hc (hno d hd)
  | some k =>
    obtain ⟨h1, h2, h3, h4⟩ := find_range_some _ _ _ _ hf
    have hk : source (stage_at st k) = false := by simpa using h3
    have hbefore : ∀ i, e ≤ i → i < k → source (stage_at st i) = true := by
      intro i g1 g2
      by_cases hie : i = e
      · rw [hie]; exact hsrc
      · have := h4 i (by omega) g2
        simpa using this
    have hklen : k < st.length := by omega
    -- any admissible `d` is `k - e`
    have hd_eq : ∀ d : Nat, 1 ≤ d →
        (∀ i, e ≤ i → i < e + d → source (stage_at st i) = true) →
        (∀ i, e + d ≤ i → (i : Int) < (e : Int) + (d : Int) + req →
            i < st.length ∧ dest (stage_at st i) = true) → e + d = k := by
      intro d hd c1 c2
      rcases Nat.lt_trichotomy (e + d) k with h | h | h
      · exfalso
        obtain ⟨_, g2⟩ := c2 (e + d) (le_refl _) (by push_cast; omega)
        have := hdisj _ (hbefore (e + d) (by omega) h)
        rw [g2] at this; exact absurd this (by simp)
      · exact h
      · exfalso
        have := c1 k (by omega) h
        rw [hk] at this; exact absurd this (by simp)
    obtain ⟨f1, f2, f3⟩ := run_forward_spec true st k hklen
    obtain ⟨b1, b2, b3⟩ := run_backward_spec true st k
    have hft := flanking_tot_getD true st k hklen
    by_cases hdest : dest (stage_at st k) = true
    · -- the backward loop at `k` stops at once: epoch `k-1` is of the source class
      have hB : run_backward true st k = 0 := by
        by_contra hne
        have := b2 (k - 1) (by omega) (by omega)
        rw [hcls _ _ hdest] at this
        have h2 := hdisj _ (hbefore (k - 1) (by omega) (by omega))
        rw [this] at h2; exact absurd h2 (by simp)
      have hrunY : ∀ i, k ≤ i → i ≤ k + run_forward true st k → dest (stage_at st i) = true := by
        intro i g1 g2
        by_cases hik : i = k
        · rw [hik]; exact hdest
        · exact (hcls _ _ hdest).1 (f2 i (by omega) g2)
      by_cases hR : (flanking_tot true st).getD k 0 ≥ req
      · simp only [hdest, hR, and_self, if_true]
        have hcond : (∀ i, e ≤ i → i < e + (k - e) → source (stage_at st i) = true) ∧
            (∀ i, e + (k - e) ≤ i → (i : Int) < (e : Int) + ((k - e : Nat) : Int) + req →
              i < st.length ∧ dest (stage_at st i) = true) := by
          constructor
          · intro i g1 g2; exact hbefore i g1 (by omega)
          · intro i g1 g2
            have hi : i ≤ k + run_forward true st k := by
              rw [hft, hB] at hR
              push_cast at g2 hR
              omega
            exact ⟨by omega, hrunY i (by omega) hi⟩
        refine ⟨by omega, ?_, ?_⟩
        · intro d hd
          constructor
          · intro hval
            have hdk : d = k - e := by omega
            rw [hdk]; exact hcond
          · intro ⟨c1, c2⟩
            have := hd_eq d hd c1 c2
            omega
        · intro hnone
          exact absurd ⟨k - e, by omega, hcond⟩ hnone
      · have hif : ¬ (dest (stage_at st k) = true ∧ (flanking_tot true st).getD k 0 ≥ req) :=
          fun h => hR h.2
        simp only [hif, if_false]
        have hno : ∀ d : Nat, 1 ≤ d →
            ¬ ((∀ i, e ≤ i → i < e + d → source (stage_at st i) = true) ∧
              (∀ i, e + d ≤ i → (i : Int) < (e : Int) + (d : Int) + req →
                i < st.length ∧ dest (stage_at st i) = true)) := by
          intro d hd ⟨c1, c2⟩
          have hdk := hd_eq d hd c1 c2
          apply hR
          rw [hft, hB]
          -- a short forward run would end on an epoch of the destination class
          by_contra hshort
          have hlt : (k + run_forward true st k + 1 : Int) < (e : Int) + (d : Int) + req := by
            push_cast at hshort ⊢
            omega
          obtain ⟨g1, g2⟩ := c2 (k + run_forward true st k + 1) (by omega)
            (by push_cast; exact hlt)
          rcases f3 with f3 | f3
          · omega
          · have := (hcls _ _ hdest).2 g2
            rw [this] at f3; exact absurd f3 (by simp)
        refine ⟨le_refl _, ?_, by simp⟩
        intro d hd
        constructor
        · intro h0
          have : (d : Int) = 0 := h0.symm
          omega
        · intro hc
          exact absurd hc (hno d hd)
    · have hif : ¬ (dest (stage_at st k) = true ∧ (flanking_tot true st).getD k 0 ≥ req) :=
        fun h => hdest h.1
      simp only [hif, if_false]
      have hno : ∀ d : Nat, 1 ≤ d →
          ¬ ((∀ i, e ≤ i → i < e + d → source (stage_at st i) = true) ∧
            (∀ i, e + d ≤ i → (i : Int) < (e : Int) + (d : Int) + req →
              i < st.length ∧ dest (stage_at st i) = true)) := by
        intro d hd ⟨c1, c2⟩
        have hdk := hd_eq d hd c1 c2
        obtain ⟨_, g2⟩ := c2 k (by omega) (by omega)
        exact hdest g2
      refine ⟨le_refl _, ?_, by simp⟩
      intro d hd
      constructor
      · intro h0
        have : (d : Int) = 0 := h0.symm
        omega
      · intro hc
        exact absurd hc (hno d hd)

theorem same_class_nrem (x y : sleep_stage_t) (hy : is_nrem y = true) :
    same_class true x y = true ↔ is_nrem x = true := by
  cases x <;> cases y <;> simp_all [same_class, is_same_3class, is_nrem]

theorem same_class_rem (x y : sleep_stage_t) (hy : is_rem y = true) :
    same_class true x y = true ↔ is_rem x = true := by
  cases x <;> cases y <;> simp_all [same_class, is_same_3class, is_rem]

theorem same_class_wake (x y : sleep_stage_t) (hy : is_wake y = true) :
    same_class true x y = true ↔ is_wake x = true := by
  cases x <;> cases y <;> simp_all [same_class, is_same_3class, is_wake]

/-- C20: with `flanking_3class` set and `req_pre_post_epochs >= 1`, each of the
six vectors `nrem2rem .. wake2rem` reads as the distance from its source class
to its destination class: 0 at an epoch not of the source class; at an epoch `e`
of the source class it is `d >= 1` exactly when epochs `e .. e+d-1` are of the
source class and epochs `e+d .. e+d+req-1` all exist and are of the destination
class, and 0 when there is no such `d`. -/
theorem transition_distances_reading (req : Int) (hreq : 1 ≤ req) (stages : List sleep_stage_t) :
    distance_reading is_nrem is_rem req stages (nrem2rem true req stages) ∧
    distance_reading is_nrem is_wake req stages (nrem2wake true req stages) ∧
    distance_reading is_rem is_nrem req stages (rem2nrem true req stages) ∧
    distance_reading is_rem is_wake req stages (rem2wake true req stages) ∧
    distance_reading is_wake is_nrem req stages (wake2nrem true req stages) ∧
    distance_reading is_wake is_rem req stages (wake2rem true req stages) := by
  refine ⟨?_, ?_, ?_, ?_, ?_, ?_⟩
  · exact transition_vector_reading is_nrem is_rem
      (fun x hx => by cases x <;> simp_all [is_nrem, is_rem]) same_class_rem req hreq stages
  · exact transition_vector_reading is_nrem is_wake
      (fun x hx => by cases x <;> simp_all [is_nrem, is_wake]) same_class_wake req hreq stages
  · exact transition_vector_reading is_rem is_nrem
      (fun x hx => by cases x <;> simp_all [is_nrem, is_rem]) same_class_nrem req hreq stages
  · exact transition_vector_reading is_rem is_wake
      (fun x hx => by cases x <;> simp_all [is_wake, is_rem]) same_class_wake req hreq stages
  · exact transition_vector_reading is_wake is_nrem
      (fun x hx => by cases x <;> simp_all [is_nrem, is_wake]) same_class_nrem req hreq stages
  · exact transition_vector_reading is_wake is_rem
      (fun x hx => by cases x <;> simp_all [is_wake, is_rem]) same_class_rem req hreq stages

theorem transition_distances_reading_witness :
    (1 : Int) ≤ 2 ∧
    nrem2rem true 2 [NREM2, NREM1, REM, REM, WAKE] = [2, 1, 0, 0, 0] ∧
    distance_reading is_nrem is_rem 2 [NREM2, NREM1, REM, REM, WAKE]
      (nrem2rem true 2 [NREM2, NREM1, REM, REM, WAKE]) :=
  ⟨by decide, by decide,
    (transition_distances_reading 2 (by decide) [NREM2, NREM1, REM, REM, WAKE]).1⟩

/-! ## Nearest wake -/

/-- C18, as stated, fails: in the night NREM2, NREM2, NREM2, WAKE the only WAKE
epoch is 3 steps from epoch 0, but `nearest_wake[0]` is 1, the step at which
`e - j` leaves the vector; and in the night NREM2, NREM2, which has no WAKE
epoch, `nearest_wake[0]` is 1 and not 0. -/
theorem nearest_wake_stops_at_edge :
    stage_at [NREM2, NREM2, NREM2, WAKE] 1 ≠ WAKE ∧
    stage_at [NREM2, NREM2, NREM2, WAKE] 2 ≠ WAKE ∧
    stage_at [NREM2, NREM2, NREM2, WAKE] 3 = WAKE ∧
    (nearest_wake [NREM2, NREM2, NREM2, WAKE]).getD 0 0 = 1 ∧
    (nearest_wake [NREM2, NREM2]).getD 0 0 = 1 := by
  decide

/-- C18, amended: `nearest_wake[e]` is 0 if epoch `e` is WAKE; otherwise it is
the least `j` with `1 <= j <= N-1` such that `e - j` or `e + j` lies outside the
vector or is a WAKE epoch, and 0 if there is no such `j` (a vector of one
epoch). -/
theorem nearest_wake_reading (stages : List sleep_stage_t) (e : Nat) (he : e < stages.length) :
    (stage_at stages e = WAKE → (nearest_wake stages).getD e 0 = 0) ∧
    (stage_at stages e ≠ WAKE → stages.length = 1 → (nearest_wake stages).getD e 0 = 0) ∧
    (stage_at stages e ≠ WAKE → 2 ≤ stages.length →
      ∃ j : Nat, 1 ≤ j ∧ j ≤ stages.length - 1 ∧ (nearest_wake stages).getD e 0 = (j : Int) ∧
        (e < j ∨ stages.length ≤ e + j ∨ stage_at stages (e - j) = WAKE
          ∨ stage_at stages (e + j) = WAKE) ∧
        ∀ j2, 1 ≤ j2 → j2 < j →
          ¬ (e < j2 ∨ stages.length ≤ e + j2 ∨ stage_at stages (e - j2) = WAKE
            ∨ stage_at stages (e + j2) = WAKE)) := by
  unfold nearest_wake
  rw [getD_map_range _ _ _ _ he]
  unfold nearest_wake_at
  refine ⟨fun hw => by simp [hw], ?_, ?_⟩
  · intro hw h1
    rw [if_pos hw, h1]
    rfl
  · intro hw h2
    rw [if_pos hw]
    cases hf : (List.range' 1 (stages.length - 1)).find? (fun j =>
        decide (e < j) || decide (stages.length ≤ e + j)
          || decide (stage_at stages (e - j) = WAKE)
          || decide (stage_at stages (e + j) = WAKE)) with
    | none =>
      exfalso
      have hn := find_range_none _ _ _ hf
      by_cases h0 : e = 0
      · have := hn 1 (le_refl _) (by omega)
        simp [h0] at this
      · have := hn (stages.length - e) (by omega) (by omega)
        have hle : stages.length ≤ e + (stages.length - e) := by omega
        simp [hle] at this
    | some j =>
      obtain ⟨g1, g2, g3, g4⟩ := find_range_some _ _ _ _ hf
      refine ⟨j, g1, by omega, rfl, ?_, ?_⟩
      · simpa [or_assoc] using g3
      · intro j2 a1 a2
        have := g4 j2 a1 a2
        simpa [or_assoc, and_assoc] using this

theorem nearest_wake_reading_witness :
    (1 : Nat) < short_night.length ∧
    stage_at short_night 1 = WAKE ∧ (nearest_wake short_night).getD 1 0 = 0 :=
  ⟨by decide, by decide, (nearest_wake_reading short_night 1 (by decide)).1 (by decide)⟩

/-! ## Transition counts -/

theorem sum_map_bump (t : transitions_t) (a b c : sleep_stage_t) (l : List sleep_stage_t) :
    (l.map (fun d => bump_transition t a b c d)).sum
      = (l.map (fun d => t c d)).sum + (if c = a then l.count b else 0) := by
  induction l with
  | nil => simp
  | cons x xs ih =>
    simp only [List.map_cons, List.sum_cons, ih, List.count_cons]
    by_cases hca : c = a
    · by_cases hxb : x = b
      · simp [bump_transition, hca, hxb]; omega
      · simp [bump_transition, hca, hxb]; omega
    · simp [bump_transition, hca]

theorem count_all_stages (b : sleep_stage_t) : all_stages.count b = 1 := by
  cases b <;> decide

theorem sum_map_indicator (y : sleep_stage_t) (l : List sleep_stage_t) :
    (l.map (fun c => if y = c then 1 else 0)).sum = l.count y := by
  induction l with
  | nil => simp
  | cons x xs ih =>
    simp only [List.map_cons, List.sum_cons, ih, List.count_cons]
    by_cases h : y = x
    · simp [h]; omega
    · have h2 : ¬ x = y := fun h3 => h h3.symm
      simp [h, h2]

/-- Each epoch has exactly one class. -/
theorem sum_class_counts (g : Nat → sleep_stage_t) (l : List Nat) :
    (all_stages.map (fun c => (l.filter (fun e => decide (g e = c))).length)).sum = l.length := by
  induction l with
  | nil => simp
  | cons x xs ih =>
    have hstep : ∀ c, ((x :: xs).filter (fun e => decide (g e = c))).length
        = (if g x = c then 1 else 0) + (xs.filter (fun e => decide (g e = c))).length := by
      intro c
      by_cases h : g x = c
      · simp [List.filter_cons, h]; omega
      · simp [List.filter_cons, h]
    simp only [hstep, List.sum_map_add, ih, sum_map_indicator, count_all_stages, List.length_cons]
    omega

/-- After the epochs 0 .. m the row of class `c` counts the epochs before `m`
of class `c`. -/
theorem transitions_row (f3 : Bool) (st : List sleep_stage_t) (c : sleep_stage_t) :
    ∀ m, (all_stages.map (fun d =>
        ((List.range (m + 1)).foldl (transitions_step f3 st) (fun _ _ => 0)) c d)).sum
      = ((List.range m).filter (fun e => decide (transition_class f3 (stage_at st e) = c))).length := by
  intro m
  induction m with
  | zero => simp [List.range_succ, transitions_step]
  | succ m ih =>
    rw [List.range_succ (m + 1), List.foldl_append, List.foldl_cons, List.foldl_nil]
    have hstep : transitions_step f3 st
        ((List.range (m + 1)).foldl (transitions_step f3 st) (fun _ _ => 0)) (m + 1)
        = bump_transition ((List.range (m + 1)).foldl (transitions_step f3 st) (fun _ _ => 0))
            (transition_class f3 (stage_at st m)) (transition_class f3 (stage_at st (m + 1))) := by
      simp [transitions_step]
    rw [hstep, sum_map_bump, ih, count_all_stages]
    rw [List.range_succ m, List.filter_append, List.length_append]
    by_cases h : transition_class f3 (stage_at st m) = c
    · simp [h]
    · have h2 : ¬ c = transition_class f3 (stage_at st m) := fun h3 => h h3.symm
      simp [h, h2]

/-- C14: for a vector of `N >= 1` epochs and every class `c`, the counts
`transitions[c][d]` summed over `d` give the number of epochs among `0 .. N-2`
whose class is `c` (every NREM stage counted as NREM2 under `flanking_3class`,
the stage itself otherwise); all counts together sum to `N - 1`. -/
theorem transitions_row_sums (flanking_3class : Bool) (stages : List sleep_stage_t)
    (hN : 1 ≤ stages.length) :
    (∀ c, (all_stages.map (fun d => transitions flanking_3class stages c d)).sum
      = ((List.range (stages.length - 1)).filter
          (fun e => decide (transition_class flanking_3class (stage_at stages e) = c))).length) ∧
    (all_stages.map (fun c =>
        (all_stages.map (fun d => transitions flanking_3class stages c d)).sum)).sum
      = stages.length - 1 := by
  have hlen : stages.length = (stages.length - 1) + 1 := by omega
  have hrow : ∀ c, (all_stages.map (fun d => transitions flanking_3class stages c d)).sum
      = ((List.range (stages.length - 1)).filter
          (fun e => decide (transition_class flanking_3class (stage_at stages e) = c))).length := by
    intro c
    unfold transitions
    conv_lhs => rw [hlen]
    exact transitions_row flanking_3class stages c (stages.length - 1)
  refine ⟨hrow, ?_⟩
  simp only [hrow]
  rw [sum_class_counts]
  simp

theorem transitions_row_sums_witness :
    1 ≤ short_night.length ∧
    (all_stages.map (fun d => transitions true short_night NREM2 d)).sum = 2 ∧
    (all_stages.map (fun c =>
        (all_stages.map (fun d => transitions true short_night c d)).sum)).sum
      = short_night.length - 1 :=
  ⟨by decide,
    ((transitions_row_sums true short_night (by decide)).1 NREM2).trans (by decide),
    (transitions_row_sums true short_night (by decide)).2⟩

/-! ## Ascending/descending N2 -/

/-- A scan that meets no NREM1, NREM3, NREM4, REM or WAKE epoch leaves its
state as it was. -/
theorem n2_scan_none (st : List sleep_stage_t) (deep : ℚ) :
    ∀ (ks : List Nat) (w : ℚ) (n : Int), n ≤ n2_ascdesc_k →
      (∀ k, k ∈ ks → stage_at st k ≠ NREM1 ∧ stage_at st k ≠ NREM3 ∧ stage_at st k ≠ NREM4
        ∧ stage_at st k ≠ REM ∧ stage_at st k ≠ WAKE) →
      n2_scan st deep ks w n = (w, n) := by
  intro ks
  induction ks with
  | nil => intro w n _ _; rfl
  | cons k ks ih =>
    intro w n hn hq
    obtain ⟨q1, q3, q4, q5, q6⟩ := hq k (List.mem_cons_self _ _)
    rw [n2_scan]
    simp only [q1, q3, q4, q5, q6, or_self, if_false]
    rw [if_neg (by omega)]
    exact ih w n hn (fun k2 hk2 => hq k2 (List.mem_cons_of_mem _ hk2))

/-- C15, as stated, fails: in the night WAKE followed by 20 NREM2 epochs, the 10
epochs to the left of epoch 15 and the 5 epochs to its right are all NREM2, but
the left scan runs on to the WAKE epoch 0 and `n2_ascdesc[15]` is -1/2. -/
theorem n2_ascdesc_scans_past_ten :
    (∀ i, 5 ≤ i → i ≤ 20 → stage_at (WAKE :: List.replicate 20 NREM2) i = NREM2) ∧
    (WAKE :: List.replicate 20 NREM2).length = 21 ∧
    (n2_ascdesc (WAKE :: List.replicate 20 NREM2)).getD 15 0 = -1 / 2 := by
  refine ⟨?_, by decide, by decide!⟩
  intro i h1 h2
  interval_cases i <;> rfl

/-- C15, amended: `n2_ascdesc[e]` is 0 at every epoch that is not NREM2, and at
every NREM2 epoch `e` such that no other epoch of the vector, at whatever
distance to the left or to the right, is NREM1, NREM3, NREM4, REM or WAKE. -/
theorem n2_ascdesc_zero (stages : List sleep_stage_t) (e : Nat) (he : e < stages.length) :
    (stage_at stages e ≠ NREM2 → (n2_ascdesc stages).getD e 0 = 0) ∧
    (stage_at stages e = NREM2 →
      (∀ i, i < stages.length → i ≠ e →
        stage_at stages i ≠ NREM1 ∧ stage_at stages i ≠ NREM3 ∧ stage_at stages i ≠ NREM4
          ∧ stage_at stages i ≠ REM ∧ stage_at stages i ≠ WAKE) →
      (n2_ascdesc stages).getD e 0 = 0) := by
  unfold n2_ascdesc n2_ascdesc_from
  rw [getD_assign_where _ _ _ _ _ _ he, getD_resize_nil]
  constructor
  · intro hne
    simp [hne]
  · intro h2 hq
    simp only [h2, decide_True, if_true]
    unfold n2_score
    have hl := n2_scan_none stages 1 (List.range' 0 e).reverse 0 0 (by decide) (by
      intro k hk
      rw [List.mem_reverse, List.mem_range'_1] at hk
      exact hq k (by omega) (by omega))
    have hr := n2_scan_none stages (-1) (List.range' (e + 1) (stages.length - (e + 1))) 0 0
      (by decide) (by
      intro k hk
      rw [List.mem_range'_1] at hk
      exact hq k (by omega) (by omega))
    rw [hl, hr]
    simp

theorem n2_ascdesc_zero_witness :
    (3 : Nat) < short_night.length ∧ stage_at short_night 2 ≠ NREM2 ∧
    (n2_ascdesc short_night).getD 2 0 = 0 :=
  ⟨by decide, by decide, (n2_ascdesc_zero short_night 2 (by decide)).1 (by decide)⟩

/-! ## Construction -/

/-- C17, as stated, fails: three labels for a timeline of three epochs, read as
WAKE, LIGHTS_ON, WAKE, pass the check of the number of labels, and `construct`
still stops with a fatal error, the one of the lights check in `calc_stats`. -/
theorem construct_halts_on_lights :
    [WAKE, LIGHTS_ON, WAKE].length = 3 ∧
    construct (fun s => s) 3 (1 / 2) [WAKE, LIGHTS_ON, WAKE]
      = Except.error (construct_error.in_calc_stats calc_error.lights_on_halt) := by
  refine ⟨rfl, ?_⟩
  have hhalt : calc_stats (1 / 2) ([WAKE, LIGHTS_ON, WAKE].map (fun s => s))
      = Except.error calc_error.lights_on_halt :=
    (calc_stats_halt_iff _ _).2 ⟨by decide, by decide⟩
  unfold construct
  rw [if_neg (by decide), hhalt]

/-- C17, amended: `construct` stops with the fatal error "bad number of stages"
exactly when the number of labels differs from the total epoch count of the
timeline; when they are equal the stage vector it stores has that length and
`calc_stats` is run on it, so that `construct` returns what `calc_stats`
returns and fails only where `calc_stats` fails. -/
theorem construct_length_check {label : Type} (stage_of : label → sleep_stage_t)
    (num_total_epochs : Nat) (epoch_mins : ℚ) (s : List label) :
    (construct stage_of num_total_epochs epoch_mins s
        = Except.error construct_error.bad_number_of_stages ↔ s.length ≠ num_total_epochs) ∧
    (s.length = num_total_epochs →
      (s.map stage_of).length = num_total_epochs ∧
      (∀ h, construct stage_of num_total_epochs epoch_mins s = Except.ok h ↔
        calc_stats epoch_mins (s.map stage_of) = Except.ok h) ∧
      (∀ err, construct stage_of num_total_epochs epoch_mins s
          = Except.error (construct_error.in_calc_stats err) ↔
        calc_stats epoch_mins (s.map stage_of) = Except.error err)) := by
  unfold construct
  by_cases hlen : s.length = num_total_epochs
  · have hne : ¬ s.length ≠ num_total_epochs := fun h => h hlen
    rw [if_neg hne]
    constructor
    · cases hc : calc_stats epoch_mins (s.map stage_of) <;> simp [hlen]
    · intro _
      refine ⟨by simpa using hlen, ?_, ?_⟩
      · intro h
        cases hc : calc_stats epoch_mins (s.map stage_of) <;> simp
      · intro err
        cases hc : calc_stats epoch_mins (s.map stage_of) <;> simp
  · have hne : s.length ≠ num_total_epochs := hlen
    rw [if_pos hne]
    exact ⟨by simp [hlen], fun h => absurd h hlen⟩

theorem construct_length_check_witness :
    [WAKE, NREM2, WAKE].length = 3 ∧
    ([WAKE, NREM2, WAKE].map (fun s : sleep_stage_t => s)).length = 3 ∧
    construct (fun s : sleep_stage_t => s) 4 (1 / 2) [WAKE, NREM2, WAKE]
      = Except.error construct_error.bad_number_of_stages :=
  ⟨by decide,
    ((construct_length_check (fun s : sleep_stage_t => s) 3 (1 / 2) [WAKE, NREM2, WAKE]).2
      (by decide)).1,
    (construct_length_check (fun s : sleep_stage_t => s) 4 (1 / 2) [WAKE, NREM2, WAKE]).1.2
      (by decide)⟩

/-! ## Auxiliary facts: vectors filled epoch by epoch -/

theorem fill_epochs_succ {α : Type} (n : Nat) (step : Nat → List α → α) :
    fill_epochs (n + 1) step = fill_epochs n step ++ [step n (fill_epochs n step)] := by
  simp [fill_epochs, List.range_succ, List.foldl_append]

theorem length_fill_epochs {α : Type} (step : Nat → List α → α) :
    ∀ n, (fill_epochs n step).length = n := by
  intro n
  induction n with
  | zero => rfl
  | succ n ih => rw [fill_epochs_succ, List.length_append, ih]; rfl

theorem take_fill_epochs {α : Type} (step : Nat → List α → α) (m : Nat) :
    ∀ n, m ≤ n → (fill_epochs n step).take m = fill_epochs m step := by
  intro n
  induction n with
  | zero =>
    intro h
    have : m = 0 := by omega
    subst this; rfl
  | succ n ih =>
    intro h
    by_cases hm : m = n + 1
    · rw [hm, List.take_of_length_le]
      rw [length_fill_epochs]
    · rw [fill_epochs_succ, List.take_append_of_le_length (by rw [length_fill_epochs]; omega)]
      exact ih (by omega)

theorem getD_fill_epochs {α : Type} (step : Nat → List α → α) (n e : Nat) (d : α) (he : e < n) :
    (fill_epochs n step).getD e d = step e (fill_epochs e step) := by
  have h1 : (fill_epochs n step).getD e d = ((fill_epochs n step).take (e + 1)).getD e d := by
    simp [List.getD_eq_getElem?_getD, List.getElem?_take]
  rw [h1, take_fill_epochs step (e + 1) n (by omega), fill_epochs_succ]
  simp [List.getD_eq_getElem?_getD, List.getElem?_append_right, length_fill_epochs]

theorem getD_resize_zero_nil (ne e : Nat) : (resize_zero [] ne).getD e 0 = 0 := by
  simp only [resize_zero, List.take_nil, List.nil_append, List.length_nil, Nat.sub_zero]
  by_cases h : e < ne
  · simp [List.getD_eq_getElem?_getD, List.getElem?_replicate, h]
  · simp [List.getD_eq_getElem?_getD, List.getElem?_replicate, h]

/-! ## Auxiliary facts: a counter and the numbers it hands out -/

theorem counted.mono {ne : Nat} {num cnt : Nat → Int} (h : counted ne num cnt) :
    ∀ j, j < ne → ∀ i, i ≤ j → cnt i ≤ cnt j := by
  intro j
  induction j with
  | zero =>
    intro _ i hi
    have : i = 0 := by omega
    subst this; exact le_refl _
  | succ j ih =>
    intro hj i hi
    by_cases hij : i = j + 1
    · subst hij; exact le_refl _
    · have h1 := ih (by omega) i (by omega)
      have h2 := h.step (j + 1) hj
      simp only [Nat.succ_ne_zero, if_false, Nat.add_sub_cancel] at h2
      rcases h2 with h2 | ⟨h2, _⟩ <;> omega

theorem counted.le_one_at_zero {ne : Nat} {num cnt : Nat → Int} (h : counted ne num cnt)
    (h0 : 0 < ne) : cnt 0 ≤ 1 := by
  have := h.step 0 h0
  simp only [if_true] at this
  rcases this with h2 | ⟨h2, _⟩ <;> omega

/-- Every count from 1 up to the current one has been handed out. -/
theorem counted.handed_out {ne : Nat} {num cnt : Nat → Int} (h : counted ne num cnt) :
    ∀ e, e < ne → ∀ k : Int, 1 ≤ k → k ≤ cnt e → ∃ e1, e1 ≤ e ∧ num e1 = k := by
  intro e
  induction e with
  | zero =>
    intro h0 k hk1 hk2
    have hs := h.step 0 h0
    simp only [if_true] at hs
    rcases hs with hs | ⟨hs, hn⟩
    · omega
    · exact ⟨0, le_refl _, by omega⟩
  | succ e ih =>
    intro he k hk1 hk2
    have hs := h.step (e + 1) he
    simp only [Nat.succ_ne_zero, if_false, Nat.add_sub_cancel] at hs
    by_cases hk : k ≤ cnt e
    · obtain ⟨e1, g1, g2⟩ := ih (by omega) k hk1 hk
      exact ⟨e1, by omega, g2⟩
    · rcases hs with hs | ⟨hs, hn⟩
      · omega
      · exact ⟨e + 1, le_refl _, by omega⟩

/-- The four readings of the numbers handed out by a counter. -/
theorem counted.reading {ne : Nat} {num cnt : Nat → Int} (h : counted ne num cnt) :
    (∀ i j, i < j → j < ne → num i ≠ 0 → num j ≠ 0 → num i ≤ num j) ∧
    (∀ i, i < ne → num i ≠ 0 → (∀ j, j < i → num j = 0) → num i = 1) ∧
    (∀ i j, i < j → j < ne → num i ≠ 0 → num j ≠ 0 →
      (∀ k, i < k → k < j → num k = 0) → num j = num i ∨ num j = num i + 1) ∧
    (∀ k : Int, (k ≠ 0 ∧ ∃ e, e < ne ∧ num e = k) ↔
      (1 ≤ k ∧ k ≤ (if ne = 0 then 0 else cnt (ne - 1)))) := by
  have hval : ∀ e, e < ne → num e ≠ 0 → num e = cnt e ∧ 1 ≤ cnt e := by
    intro e he hne
    rcases h.zero_or_count e he with h0 | h0
    · exact absurd h0 hne
    · have := h.nonneg e he
      exact ⟨h0, by omega⟩
  refine ⟨?_, ?_, ?_, ?_⟩
  · intro i j hij hj hi0 hj0
    rw [(hval i (by omega) hi0).1, (hval j hj hj0).1]
    exact h.mono j hj i (by omega)
  · intro i hi hi0 hbefore
    obtain ⟨hv, h1⟩ := hval i hi hi0
    by_contra hne
    have h2 : 2 ≤ cnt i := by omega
    -- the count 1 was handed out at the latest at epoch `i`
    obtain ⟨e1, g1, g2⟩ := h.handed_out i hi 1 (le_refl _) (by omega)
    by_cases he1 : e1 = i
    · rw [he1] at g2; exact hne g2
    · have := hbefore e1 (by omega)
      omega
  · intro i j hij hj hi0 hj0 hzero
    obtain ⟨hvi, h1i⟩ := hval i (by omega) hi0
    obtain ⟨hvj, h1j⟩ := hval j hj hj0
    have hmono := h.mono j hj i (by omega)
    by_contra hne
    have h2 : cnt i + 2 ≤ cnt j := by
      rw [hvi, hvj] at hne
      omega
    obtain ⟨e1, g1, g2⟩ := h.handed_out j hj (cnt i + 1) (by omega) (by omega)
    have he1 : num e1 ≠ 0 := by omega
    obtain ⟨hv1, _⟩ := hval e1 (by omega) he1
    by_cases c1 : e1 ≤ i
    · have := h.mono i (by omega) e1 c1
      omega
    · by_cases c2 : e1 = j
      · rw [c2] at g2; omega
      · have := hzero e1 (by omega) (by omega)
        exact he1 this
  · intro k
    constructor
    · rintro ⟨hk0, e, he, hek⟩
      have hne : ne ≠ 0 := by omega
      rw [if_neg hne]
      obtain ⟨hv, h1⟩ := hval e he (by rw [hek]; exact hk0)
      have := h.mono (ne - 1) (by omega) e (by omega)
      omega
    · rintro ⟨hk1, hk2⟩
      by_cases hne : ne = 0
      · rw [if_pos hne] at hk2; omega
      · rw [if_neg hne] at hk2
        obtain ⟨e1, g1, g2⟩ := h.handed_out (ne - 1) (by omega) k hk1 hk2
        exact ⟨by omega, e1, by omega, g2⟩

/-! ## Auxiliary facts: cycle numbers -/

theorem getD_map_fst {α β : Type} (l : List (α × β)) (e : Nat) (a : α) (b : β) :
    (l.map Prod.fst).getD e a = (l.getD e (a, b)).1 := by
  simp only [List.getD_eq_getElem?_getD, List.getElem?_map]
  cases l[e]? <;> rfl

/-- The four outcomes of the body of the cycle loop. -/
theorem cycle_number_step_cases (thr : thresholds) (st : List sleep_stage_t) (code old : List Int)
    (e : Nat) (prev : List (Int × Int)) :
    cycle_number_step thr st code old e prev
        = (0, if e = 0 then 0 else (prev.getD (e - 1) (0, 0)).2) ∨
    cycle_number_step thr st code old e prev
        = ((if e = 0 then 0 else (prev.getD (e - 1) (0, 0)).2) + 1,
           (if e = 0 then 0 else (prev.getD (e - 1) (0, 0)).2) + 1) ∨
    cycle_number_step thr st code old e prev
        = (old.getD e 0, if e = 0 then 0 else (prev.getD (e - 1) (0, 0)).2) ∨
    cycle_number_step thr st code old e prev
        = ((if e = 0 then 0 else (prev.getD (e - 1) (0, 0)).1),
           if e = 0 then 0 else (prev.getD (e - 1) (0, 0)).2) := by
  unfold cycle_number_step
  simp only
  split_ifs <;> simp

theorem sleep_cycle_number_eq (thr : thresholds) (st : List sleep_stage_t) :
    sleep_cycle_number_from [] [] thr st = (cycle_pairs thr st).map Prod.fst := rfl

theorem length_sleep_cycle_number (oc onum : List Int) (thr : thresholds) (st : List sleep_stage_t) :
    (sleep_cycle_number_from oc onum thr st).length = st.length := by
  simp [sleep_cycle_number_from, length_fill_epochs]

theorem cycle_pairs_counted (thr : thresholds) (st : List sleep_stage_t) :
    counted st.length (fun e => ((cycle_pairs thr st).getD e (0, 0)).1)
      (fun e => ((cycle_pairs thr st).getD e (0, 0)).2) := by
  have hget : ∀ e, e < st.length → (cycle_pairs thr st).getD e (0, 0)
      = cycle_number_step thr st (sleep_code_from [] thr st) (resize_zero [] st.length) e
          (fill_epochs e (cycle_number_step thr st (sleep_code_from [] thr st)
            (resize_zero [] st.length))) := by
    intro e he
    exact getD_fill_epochs _ _ _ _ he
  have hprev : ∀ e, e < st.length → 0 < e →
      (fill_epochs e (cycle_number_step thr st (sleep_code_from [] thr st)
        (resize_zero [] st.length))).getD (e - 1) (0, 0)
      = (cycle_pairs thr st).getD (e - 1) (0, 0) := by
    intro e he h0
    rw [hget (e - 1) (by omega), getD_fill_epochs _ _ _ _ (by omega)]
  have hall : ∀ e, e < st.length →
      0 ≤ ((cycle_pairs thr st).getD e (0, 0)).2 ∧
      (((cycle_pairs thr st).getD e (0, 0)).1 = 0 ∨
        ((cycle_pairs thr st).getD e (0, 0)).1 = ((cycle_pairs thr st).getD e (0, 0)).2) ∧
      (((cycle_pairs thr st).getD e (0, 0)).2
          = (if e = 0 then 0 else ((cycle_pairs thr st).getD (e - 1) (0, 0)).2) ∨
        (((cycle_pairs thr st).getD e (0, 0)).2
            = (if e = 0 then 0 else ((cycle_pairs thr st).getD (e - 1) (0, 0)).2) + 1 ∧
          ((cycle_pairs thr st).getD e (0, 0)).1 = ((cycle_pairs thr st).getD e (0, 0)).2)) := by
    intro e
    induction e with
    | zero =>
      intro he
      rw [hget 0 he]
      rcases cycle_number_step_cases thr st (sleep_code_from [] thr st)
        (resize_zero [] st.length) 0 (fill_epochs 0 _) with h | h | h | h <;>
        rw [h] <;> simp only [getD_resize_zero_nil, if_true] <;>
        refine ⟨?_, ?_, ?_⟩ <;> simp
    | succ e ih =>
      intro he
      obtain ⟨i1, i2, _⟩ := ih (by omega)
      rw [hget (e + 1) he]
      have hp := hprev (e + 1) he (by omega)
      simp only [Nat.add_sub_cancel] at hp
      rcases cycle_number_step_cases thr st (sleep_code_from [] thr st)
        (resize_zero [] st.length) (e + 1) (fill_epochs (e + 1) _) with h | h | h | h <;>
        rw [h] <;>
        simp only [Nat.succ_ne_zero, if_false, Nat.add_sub_cancel, hp, getD_resize_zero_nil] <;>
        refine ⟨?_, ?_, ?_⟩ <;> first | omega | exact i1 | exact i2 | simp
  exact ⟨fun e he => (hall e he).1, fun e he => (hall e he).2.1, fun e he => (hall e he).2.2⟩

/-- The field `num_nremc` of the loop state only depends on the cycle numbers. -/
theorem num_nremc_foldl (st : List sleep_stage_t) (number : List Int) :
    ∀ (l : List Nat) (c : cycle_counts),
      (l.foldl (cycle_counts_step st number) c).num_nremc
        = l.foldl (fun M e => if number.getD e 0 = 0 then M
            else if number.getD e 0 > M then number.getD e 0 else M) c.num_nremc := by
  intro l
  induction l with
  | nil => intro c; rfl
  | cons e es ih =>
    intro c
    rw [List.foldl_cons, List.foldl_cons, ih]
    congr 1
    unfold cycle_counts_step
    simp only
    split_ifs <;> rfl

/-- The largest cycle number met so far is the value of the counter. -/
theorem num_nremc_is_count {ne : Nat} {num cnt : Nat → Int} (h : counted ne num cnt)
    (number : List Int) (hnum : ∀ e, e < ne → number.getD e 0 = num e) :
    ∀ m, m ≤ ne →
      (List.range m).foldl (fun M e => if number.getD e 0 = 0 then M
          else if number.getD e 0 > M then number.getD e 0 else M) 0
        = (if m = 0 then 0 else cnt (m - 1)) := by
  intro m
  induction m with
  | zero => intro _; rfl
  | succ m ih =>
    intro hm
    rw [List.range_succ, List.foldl_append, ih (by omega)]
    simp only [List.foldl_cons, List.foldl_nil, Nat.succ_ne_zero, if_false, Nat.add_sub_cancel]
    rw [hnum m (by omega)]
    have hs := h.step m (by omega)
    have hz := h.zero_or_count m (by omega)
    have hn := h.nonneg m (by omega)
    have hprev : 0 ≤ (if m = 0 then (0 : Int) else cnt (m - 1)) := by
      by_cases h0 : m = 0
      · simp [h0]
      · simp only [h0, if_false]; exact h.nonneg (m - 1) (by omega)
    by_cases hn0 : num m = 0
    · rw [if_pos hn0]
      rcases hs with hs | ⟨hs, hs2⟩
      · exact hs.symm
      · omega
    · rw [if_neg hn0]
      rcases hz with hz | hz
      · exact absurd hz hn0
      · rcases hs with hs | ⟨hs, _⟩
        · rw [if_neg (by omega)]; omega
        · rw [if_pos (by omega)]; exact hz

/-- C11: on a run that returns, the nonzero entries of `sleep_cycle_number`,
read in epoch order, never decrease; the first of them is 1; from one nonzero
entry to the next the number stays or goes up by exactly 1; and the nonzero
numbers that occur are exactly 1 .. `num_nremc`. -/
theorem cycle_numbers_monotone (epoch_mins : ℚ) (s : List sleep_stage_t) (h : hypnogram_t)
    (hrun : calc_stats epoch_mins s = Except.ok h) :
    h.sleep_cycle_number.length = s.length ∧
    (∀ i j, i < j → j < s.length → h.sleep_cycle_number.getD i 0 ≠ 0 →
      h.sleep_cycle_number.getD j 0 ≠ 0 →
      h.sleep_cycle_number.getD i 0 ≤ h.sleep_cycle_number.getD j 0) ∧
    (∀ i, i < s.length → h.sleep_cycle_number.getD i 0 ≠ 0 →
      (∀ j, j < i → h.sleep_cycle_number.getD j 0 = 0) → h.sleep_cycle_number.getD i 0 = 1) ∧
    (∀ i j, i < j → j < s.length → h.sleep_cycle_number.getD i 0 ≠ 0 →
      h.sleep_cycle_number.getD j 0 ≠ 0 →
      (∀ k, i < k → k < j → h.sleep_cycle_number.getD k 0 = 0) →
      h.sleep_cycle_number.getD j 0 = h.sleep_cycle_number.getD i 0 ∨
      h.sleep_cycle_number.getD j 0 = h.sleep_cycle_number.getD i 0 + 1) ∧
    (∀ k : Int, (k ≠ 0 ∧ ∃ e, e < s.length ∧ h.sleep_cycle_number.getD e 0 = k) ↔
      (1 ≤ k ∧ k ≤ h.num_nremc)) := by
  obtain ⟨_, _, _, hh⟩ := (calc_stats_ok_iff epoch_mins s h).1 hrun
  have hlen := length_recode_edges s
  have hc := cycle_pairs_counted (thresholds_of epoch_mins) (recode_edges s)
  have hnum : ∀ e, h.sleep_cycle_number.getD e 0
      = ((cycle_pairs (thresholds_of epoch_mins) (recode_edges s)).getD e (0, 0)).1 := by
    intro e
    subst hh
    show (sleep_cycle_number_from [] [] (thresholds_of epoch_mins) (recode_edges s)).getD e 0 = _
    rw [sleep_cycle_number_eq, getD_map_fst _ _ 0 0]
  have hmax : h.num_nremc = (if (recode_edges s).length = 0 then 0
      else ((cycle_pairs (thresholds_of epoch_mins) (recode_edges s)).getD
        ((recode_edges s).length - 1) (0, 0)).2) := by
    subst hh
    show (cycle_counts_of (recode_edges s)
      (sleep_cycle_number_from [] [] (thresholds_of epoch_mins) (recode_edges s))).num_nremc = _
    unfold cycle_counts_of
    rw [num_nremc_foldl]
    exact num_nremc_is_count hc _ (fun e _ => by
      rw [sleep_cycle_number_eq, getD_map_fst _ _ 0 0]) _ (le_refl _)
  have hread := hc.reading
  rw [hlen] at hread hmax
  simp only [← hnum] at hread
  rw [← hmax] at hread
  refine ⟨?_, hread⟩
  subst hh
  show (sleep_cycle_number_from [] [] (thresholds_of epoch_mins) (recode_edges s)).length = _
  rw [length_sleep_cycle_number, hlen]

theorem cycle_numbers_monotone_witness :
    ∃ h, calc_stats (5 / 2) two_cycle_night = Except.ok h ∧
      h.sleep_cycle_number = [0, 1, 1, 1, 1, 1, 1, 1, 2, 2, 2, 2, 2, 2, 2, 2] ∧
      h.num_nremc = 2 ∧
      h.sleep_cycle_number.length = two_cycle_night.length ∧
      (∀ i j, i < j → j < two_cycle_night.length → h.sleep_cycle_number.getD i 0 ≠ 0 →
        h.sleep_cycle_number.getD j 0 ≠ 0 →
        h.sleep_cycle_number.getD i 0 ≤ h.sleep_cycle_number.getD j 0) ∧
      (∀ i, i < two_cycle_night.length → h.sleep_cycle_number.getD i 0 ≠ 0 →
        (∀ j, j < i → h.sleep_cycle_number.getD j 0 = 0) → h.sleep_cycle_number.getD i 0 = 1) ∧
      (∀ i j, i < j → j < two_cycle_night.length → h.sleep_cycle_number.getD i 0 ≠ 0 →
        h.sleep_cycle_number.getD j 0 ≠ 0 →
        (∀ k, i < k → k < j → h.sleep_cycle_number.getD k 0 = 0) →
        h.sleep_cycle_number.getD j 0 = h.sleep_cycle_number.getD i 0 ∨
        h.sleep_cycle_number.getD j 0 = h.sleep_cycle_number.getD i 0 + 1) ∧
      (∀ k : Int, (k ≠ 0 ∧ ∃ e, e < two_cycle_night.length ∧ h.sleep_cycle_number.getD e 0 = k) ↔
        (1 ≤ k ∧ k ≤ h.num_nremc)) :=
  have hrun : calc_stats (5 / 2) two_cycle_night
      = Except.ok (calc_stats_body [] [] (5 / 2) (recode_edges two_cycle_night)) :=
    (calc_stats_ok_iff _ _ _).2 ⟨by decide, by decide, by decide!, rfl⟩
  ⟨_, hrun, by decide!, by decide!, cycle_numbers_monotone (5 / 2) two_cycle_night _ hrun⟩

/-! ## Auxiliary facts: the cycle maps -/

theorem lookup_cons_key {β : Type} (k2 k1 : Int) (v1 : β) (rest : List (Int × β)) :
    List.lookup k2 ((k1, v1) :: rest) = if k2 = k1 then some v1 else List.lookup k2 rest := by
  by_cases h : k2 = k1
  · have hb : (k2 == k1) = true := by simpa using h
    simp [List.lookup, hb, h]
  · have hb : (k2 == k1) = false := by simpa using h
    simp [List.lookup, hb, h]

theorem lookup_map_set (m : List (Int × Int)) (k : Int) (v : Int) (k2 : Int) :
    (map_set m k v).lookup k2 = if k2 = k then some v else m.lookup k2 := by
  induction m with
  | nil =>
    rw [map_set, lookup_cons_key]
  | cons kv rest ih =>
    obtain ⟨k1, v1⟩ := kv
    rw [map_set]
    by_cases hlt : k < k1
    · rw [if_pos hlt, lookup_cons_key]
    · rw [if_neg hlt]
      by_cases heq : k = k1
      · rw [if_pos heq, lookup_cons_key, lookup_cons_key, heq]
        by_cases h : k2 = k1 <;> simp [h]
      · rw [if_neg heq, lookup_cons_key, lookup_cons_key, ih]
        by_cases h1 : k2 = k1
        · have h : ¬ k1 = k := fun h => heq h.symm
          simp [h, h1]
        · simp [h1]

theorem map_at_map_set (m : List (Int × Int)) (k : Int) (v : Int) (k2 : Int) :
    map_at (map_set m k v) k2 = if k2 = k then v else map_at m k2 := by
  unfold map_at
  rw [lookup_map_set]
  by_cases h : k2 = k <;> simp [h]

theorem lookup_map_keyed {β : Type} (f : Int → β) (l : List (Int × Int)) (k : Int) :
    (l.map (fun kv => (kv.1, f kv.1))).lookup k
      = if (l.lookup k).isSome then some (f k) else none := by
  induction l with
  | nil => simp [List.lookup]
  | cons kv rest ih =>
    obtain ⟨k1, v1⟩ := kv
    rw [List.map_cons, lookup_cons_key, lookup_cons_key, ih]
    by_cases h : k = k1
    · simp [h]
    · rw [if_neg h, if_neg h]

theorem length_filter_range_succ (q : Nat → Bool) (m : Nat) :
    ((List.range (m + 1)).filter q).length
      = ((List.range m).filter q).length + (if q m = true then 1 else 0) := by
  rw [List.range_succ, List.filter_append, List.length_append]
  by_cases h : q m = true
  · simp [List.filter_cons, h]
  · simp [List.filter_cons, h]

/-- The fields of the loop state after one pass of the body. -/
theorem cycle_counts_step_fields (st : List sleep_stage_t) (number : List Int)
    (c : cycle_counts) (m : Nat) :
    (number.getD m 0 = 0 → cycle_counts_step st number c m = c) ∧
    (number.getD m 0 ≠ 0 →
      (cycle_counts_step st number c m).cmin
        = (if c.cmin.lookup (number.getD m 0) = none then map_set c.cmin (number.getD m 0) m
            else c.cmin) ∧
      (cycle_counts_step st number c m).counts_rem
        = (if is_rem (stage_at st m) = true
            then map_set c.counts_rem (number.getD m 0) (map_at c.counts_rem (number.getD m 0) + 1)
            else c.counts_rem) ∧
      (cycle_counts_step st number c m).counts_nrem
        = (if (!is_rem (stage_at st m) && is_nrem (stage_at st m)) = true
            then map_set c.counts_nrem (number.getD m 0) (map_at c.counts_nrem (number.getD m 0) + 1)
            else c.counts_nrem) ∧
      (cycle_counts_step st number c m).counts_other
        = (if (!is_rem (stage_at st m) && !is_nrem (stage_at st m)) = true
            then map_set c.counts_other (number.getD m 0)
              (map_at c.counts_other (number.getD m 0) + 1)
            else c.counts_other)) := by
  unfold cycle_counts_step
  constructor
  · intro h0
    simp only [h0, if_true]
  · intro h0
    simp only [h0, if_false]
    cases hr : is_rem (stage_at st m) <;> cases hn : is_nrem (stage_at st m) <;> simp

/-- One more epoch in a counter of the loop. -/
theorem counter_step (cm : List (Int × Int)) (sn k : Int) (p : Bool) (cnt : Nat)
    (hprev : map_at cm k = (cnt : Int)) (q : Bool) (hq : q = (decide (sn = k) && p)) :
    map_at (if p = true then map_set cm sn (map_at cm sn + 1) else cm) k
      = ((cnt + (if q = true then 1 else 0) : Nat) : Int) := by
  subst hq
  by_cases hp : p = true
  · rw [if_pos hp, map_at_map_set]
    by_cases hk : k = sn
    · subst hk
      simp [hp, hprev]
    · have : ¬ sn = k := fun h => hk h.symm
      simp [hk, this, hprev]
  · rw [if_neg hp]
    have : p = false := by simpa using hp
    simp [this, hprev]

/-- The state of the cycle loop after the epochs before `m`: for a cycle number
`k` other than 0 the three counters hold the numbers of REM, NREM and other
epochs numbered `k`, and `cmin` has the key `k` exactly when `k` has occurred. -/
theorem cycle_counts_prefix (st : List sleep_stage_t) (number : List Int) (k : Int) (hk : k ≠ 0) :
    ∀ m,
      (map_at ((List.range m).foldl (cycle_counts_step st number) ⟨0, [], [], [], [], []⟩).counts_rem k
        = (((List.range m).filter (fun e => decide (number.getD e 0 = k)
            && is_rem (stage_at st e))).length : Int)) ∧
      (map_at ((List.range m).foldl (cycle_counts_step st number) ⟨0, [], [], [], [], []⟩).counts_nrem k
        = (((List.range m).filter (fun e => decide (number.getD e 0 = k)
            && (!is_rem (stage_at st e) && is_nrem (stage_at st e)))).length : Int)) ∧
      (map_at ((List.range m).foldl (cycle_counts_step st number) ⟨0, [], [], [], [], []⟩).counts_other k
        = (((List.range m).filter (fun e => decide (number.getD e 0 = k)
            && (!is_rem (stage_at st e) && !is_nrem (stage_at st e)))).length : Int)) ∧
      ((((List.range m).foldl (cycle_counts_step st number) ⟨0, [], [], [], [], []⟩).cmin.lookup k).isSome
        = true ↔ ∃ e, e < m ∧ number.getD e 0 = k) := by
  intro m
  induction m with
  | zero =>
    refine ⟨rfl, rfl, rfl, ?_⟩
    simp [List.lookup]
  | succ m ih =>
    obtain ⟨i1, i2, i3, i4⟩ := ih
    rw [List.range_succ, List.foldl_append, List.foldl_cons, List.foldl_nil, ← List.range_succ]
    rw [length_filter_range_succ, length_filter_range_succ, length_filter_range_succ]
    generalize (List.range m).foldl (cycle_counts_step st number) ⟨0, [], [], [], [], []⟩ = c
      at i1 i2 i3 i4 ⊢
    have hex : (∃ e, e < m + 1 ∧ number.getD e 0 = k) ↔
        ((∃ e, e < m ∧ number.getD e 0 = k) ∨ number.getD m 0 = k) := by
      constructor
      · rintro ⟨e, he, hek⟩
        by_cases hem : e = m
        · right; rw [← hem]; exact hek
        · left; exact ⟨e, by omega, hek⟩
      · rintro (⟨e, he, hek⟩ | hek)
        · exact ⟨e, by omega, hek⟩
        · exact ⟨m, by omega, hek⟩
    rw [hex, ← i4]
    obtain ⟨hz, hnz⟩ := cycle_counts_step_fields st number c m
    by_cases h0 : number.getD m 0 = 0
    · have hne : ¬ number.getD m 0 = k := fun h => hk (by rw [← h]; exact h0)
      rw [hz h0]
      simp only [hne, decide_False, Bool.false_and, Bool.false_eq_true, if_false, Nat.add_zero,
        or_false]
      exact ⟨i1, i2, i3, trivial⟩
    · obtain ⟨f1, f2, f3, f4⟩ := hnz h0
      rw [f1, f2, f3, f4]
      refine ⟨counter_step _ _ _ _ _ i1 _ rfl, counter_step _ _ _ _ _ i2 _ rfl,
        counter_step _ _ _ _ _ i3 _ rfl, ?_⟩
      by_cases hnone : c.cmin.lookup (number.getD m 0) = none
      · rw [if_pos hnone, lookup_map_set]
        by_cases hkm : k = number.getD m 0
        · simp [hkm]
        · have : ¬ number.getD m 0 = k := fun h => hkm h.symm
          simp only [hkm, if_false, this, or_false]
      · rw [if_neg hnone]
        by_cases hkm : number.getD m 0 = k
        · rw [← hkm]
          simp only [or_true, iff_true]
          cases hl : c.cmin.lookup (number.getD m 0) with
          | none => exact absurd hl hnone
          | some v => rfl
        · simp only [hkm, or_false]

theorem length_filter_split (l : List Nat) (a r n : Nat → Bool) :
    (l.filter a).length
      = (l.filter (fun e => a e && r e)).length
        + (l.filter (fun e => a e && (!r e && n e))).length
        + (l.filter (fun e => a e && (!r e && !n e))).length := by
  induction l with
  | nil => rfl
  | cons x xs ih =>
    simp only [List.filter_cons]
    cases ha : a x <;> cases hr : r x <;> cases hn : n x <;>
      simp [ih] <;> omega

/-- The four cycle maps of the result, looked up at a cycle number, written
over the state of the cycle loop. -/
theorem nremc_lookup (oc onum : List Int) (em : ℚ) (st : List sleep_stage_t) (k : Int) :
    (calc_stats_body oc onum em st).nremc_epoch_duration.lookup k
      = (if ((cycle_counts_of st
            (sleep_cycle_number_from oc onum (thresholds_of em) st)).cmin.lookup k).isSome
          then some (map_at (cycle_counts_of st
              (sleep_cycle_number_from oc onum (thresholds_of em) st)).counts_rem k
            + map_at (cycle_counts_of st
              (sleep_cycle_number_from oc onum (thresholds_of em) st)).counts_nrem k
            + map_at (cycle_counts_of st
              (sleep_cycle_number_from oc onum (thresholds_of em) st)).counts_other k)
          else none) ∧
    (calc_stats_body oc onum em st).nremc_duration.lookup k
      = (if ((cycle_counts_of st
            (sleep_cycle_number_from oc onum (thresholds_of em) st)).cmin.lookup k).isSome
          then some ((((map_at (cycle_counts_of st
              (sleep_cycle_number_from oc onum (thresholds_of em) st)).counts_rem k
            + map_at (cycle_counts_of st
              (sleep_cycle_number_from oc onum (thresholds_of em) st)).counts_nrem k
            + map_at (cycle_counts_of st
              (sleep_cycle_number_from oc onum (thresholds_of em) st)).counts_other k : Int)) : ℚ)
              * em)
          else none) ∧
    (calc_stats_body oc onum em st).nremc_nrem_duration.lookup k
      = (if ((cycle_counts_of st
            (sleep_cycle_number_from oc onum (thresholds_of em) st)).cmin.lookup k).isSome
          then some (((map_at (cycle_counts_of st
              (sleep_cycle_number_from oc onum (thresholds_of em) st)).counts_nrem k : Int) : ℚ)
              * em)
          else none) ∧
    (calc_stats_body oc onum em st).nremc_rem_duration.lookup k
      = (if ((cycle_counts_of st
            (sleep_cycle_number_from oc onum (thresholds_of em) st)).cmin.lookup k).isSome
          then some (((map_at (cycle_counts_of st
              (sleep_cycle_number_from oc onum (thresholds_of em) st)).counts_rem k : Int) : ℚ)
              * em)
          else none) :=
  ⟨lookup_map_keyed (fun sn =>
      map_at (cycle_counts_of st
        (sleep_cycle_number_from oc onum (thresholds_of em) st)).counts_rem sn
      + map_at (cycle_counts_of st
        (sleep_cycle_number_from oc onum (thresholds_of em) st)).counts_nrem sn
      + map_at (cycle_counts_of st
        (sleep_cycle_number_from oc onum (thresholds_of em) st)).counts_other sn) _ k,
   lookup_map_keyed (fun sn =>
      (((map_at (cycle_counts_of st
        (sleep_cycle_number_from oc onum (thresholds_of em) st)).counts_rem sn
      + map_at (cycle_counts_of st
        (sleep_cycle_number_from oc onum (thresholds_of em) st)).counts_nrem sn
      + map_at (cycle_counts_of st
        (sleep_cycle_number_from oc onum (thresholds_of em) st)).counts_other sn : Int)) : ℚ)
        * em) _ k,
   lookup_map_keyed (fun sn =>
      ((map_at (cycle_counts_of st
        (sleep_cycle_number_from oc onum (thresholds_of em) st)).counts_nrem sn : Int) : ℚ)
        * em) _ k,
   lookup_map_keyed (fun sn =>
      ((map_at (cycle_counts_of st
        (sleep_cycle_number_from oc onum (thresholds_of em) st)).counts_rem sn : Int) : ℚ)
        * em) _ k⟩

/-- The cycle table of the result, for a cycle number other than 0 that
occurs. -/
theorem cycle_table_body (em : ℚ) (st : List sleep_stage_t) (k : Int) (hk : k ≠ 0)
    (hocc : ∃ e, e < st.length ∧
      (sleep_cycle_number_from [] [] (thresholds_of em) st).getD e 0 = k) :
    (calc_stats_body [] [] em st).nremc_epoch_duration.lookup k
      = some ((((List.range st.length).filter
          (fun e => decide ((sleep_cycle_number_from [] [] (thresholds_of em) st).getD e 0
            = k))).length : Nat) : Int) ∧
    (calc_stats_body [] [] em st).nremc_duration.lookup k
      = some ((((List.range st.length).filter
          (fun e => decide ((sleep_cycle_number_from [] [] (thresholds_of em) st).getD e 0
            = k))).length : Nat) * em) ∧
    ∃ a b : ℚ, (calc_stats_body [] [] em st).nremc_nrem_duration.lookup k = some a ∧
      (calc_stats_body [] [] em st).nremc_rem_duration.lookup k = some b ∧
      (0 ≤ em → a + b ≤ (((List.range st.length).filter
          (fun e => decide ((sleep_cycle_number_from [] [] (thresholds_of em) st).getD e 0
            = k))).length : Nat) * em) := by
  obtain ⟨f1, f2, f3, f4⟩ := nremc_lookup [] [] em st k
  obtain ⟨p1, p2, p3, p4⟩ := cycle_counts_prefix st
    (sleep_cycle_number_from [] [] (thresholds_of em) st) k hk st.length
  have hsome : ((cycle_counts_of st
      (sleep_cycle_number_from [] [] (thresholds_of em) st)).cmin.lookup k).isSome = true :=
    p4.2 hocc
  have hsplit := length_filter_split (List.range st.length)
    (fun e => decide ((sleep_cycle_number_from [] [] (thresholds_of em) st).getD e 0 = k))
    (fun e => is_rem (stage_at st e)) (fun e => is_nrem (stage_at st e))
  have q1 : map_at (cycle_counts_of st
      (sleep_cycle_number_from [] [] (thresholds_of em) st)).counts_rem k = _ := p1
  have q2 : map_at (cycle_counts_of st
      (sleep_cycle_number_from [] [] (thresholds_of em) st)).counts_nrem k = _ := p2
  have q3 : map_at (cycle_counts_of st
      (sleep_cycle_number_from [] [] (thresholds_of em) st)).counts_other k = _ := p3
  rw [f1, f2, f3, f4, if_pos hsome, if_pos hsome, if_pos hsome, if_pos hsome, q1, q2, q3, hsplit]
  refine ⟨by push_cast; ring_nf, by push_cast; ring_nf, _, _, rfl, rfl, ?_⟩
  intro hem
  push_cast
  have h3 : (0 : ℚ) ≤ (((List.range st.length).filter (fun e =>
      decide ((sleep_cycle_number_from [] [] (thresholds_of em) st).getD e 0 = k)
      && (!is_rem (stage_at st e) && !is_nrem (stage_at st e)))).length : ℚ) := by positivity
  nlinarith [mul_nonneg h3 hem]

/-- C12, in exact arithmetic: on a run that returns, for every nonzero cycle
number `k` that occurs, `nremc_epoch_duration[k]` is the number of epochs
numbered `k`, `nremc_duration[k]` is that number times epoch-minutes, and for a
non-negative epoch duration `nremc_nrem_duration[k] + nremc_rem_duration[k]` is
at most `nremc_duration[k]`. The minutes are exact rationals here; with binary64
sums `cycle_parts_exceed_duration_in_double` shows the two parts exceeding the
stored duration. -/
theorem cycle_table_counts (epoch_mins : ℚ) (s : List sleep_stage_t) (h : hypnogram_t)
    (hrun : calc_stats epoch_mins s = Except.ok h) (k : Int) (hk : k ≠ 0)
    (hocc : ∃ e, e < s.length ∧ h.sleep_cycle_number.getD e 0 = k) :
    h.nremc_epoch_duration.lookup k
      = some ((((List.range s.length).filter
          (fun e => decide (h.sleep_cycle_number.getD e 0 = k))).length : Nat) : Int) ∧
    h.nremc_duration.lookup k
      = some ((((List.range s.length).filter
          (fun e => decide (h.sleep_cycle_number.getD e 0 = k))).length : Nat) * epoch_mins) ∧
    ∃ a b : ℚ, h.nremc_nrem_duration.lookup k = some a ∧ h.nremc_rem_duration.lookup k = some b ∧
      (0 ≤ epoch_mins → a + b ≤ (((List.range s.length).filter
          (fun e => decide (h.sleep_cycle_number.getD e 0 = k))).length : Nat) * epoch_mins) := by
  obtain ⟨_, _, _, hh⟩ := (calc_stats_ok_iff epoch_mins s h).1 hrun
  have hlen := length_recode_edges s
  subst hh
  rw [← hlen] at hocc ⊢
  exact cycle_table_body epoch_mins (recode_edges s) k hk hocc

theorem cycle_table_counts_witness :
    calc_stats (1 / 2) cycle_scenario
        = Except.ok (calc_stats_body [] [] (1 / 2) (recode_edges cycle_scenario)) ∧
    (∃ e, e < cycle_scenario.length ∧
      (calc_stats_body [] [] (1 / 2) (recode_edges cycle_scenario)).sleep_cycle_number.getD e 0
        = 1) ∧
    (calc_stats_body [] [] (1 / 2) (recode_edges cycle_scenario)).nremc_epoch_duration.lookup 1
      = some ((((List.range cycle_scenario.length).filter
          (fun e => decide ((calc_stats_body [] [] (1 / 2)
            (recode_edges cycle_scenario)).sleep_cycle_number.getD e 0 = 1))).length : Nat) :
            Int) :=
  have hrun : calc_stats (1 / 2) cycle_scenario
      = Except.ok (calc_stats_body [] [] (1 / 2) (recode_edges cycle_scenario)) :=
    (calc_stats_ok_iff _ _ _).2 ⟨by decide, by decide, by decide!, rfl⟩
  have hocc : ∃ e, e < cycle_scenario.length ∧
      (calc_stats_body [] [] (1 / 2) (recode_edges cycle_scenario)).sleep_cycle_number.getD e 0
        = 1 := ⟨10, by decide, by decide!⟩
  ⟨hrun, hocc, (cycle_table_counts (1 / 2) cycle_scenario _ hrun 1 (by decide) hocc).1⟩

/-! ## Running totals, the three-class comparison, persistent sleep -/

/-- C21 at the night NREM2, NREM2, REM (three-class comparison, one epoch
required on the far side): the NREM-to-REM distances are 2, 1, 0, so the block
of nonzero distances that ends at epoch 0 has maximum 2, but
`nrem2rem_total[0]` is 0; the loop over the totals starts at epoch 1 and entry
0 keeps the value of the resize, although the running value is seeded with the
distance of epoch 0 and epoch 1 gets the total 2. -/
theorem running_total_skips_first_epoch :
    nrem2rem true 1 [NREM2, NREM2, REM] = [2, 1, 0] ∧
    nrem2rem_total true 1 [NREM2, NREM2, REM] = [0, 2, 0] ∧
    (nrem2rem_total true 1 [NREM2, NREM2, REM]).getD 0 0
      < (nrem2rem true 1 [NREM2, NREM2, REM]).getD 0 0 := by
  decide

/-- C22: `is_same_3class` is reflexive, symmetric and transitive; it holds
exactly for equal stages and for two NREM stages; it never relates a sleep
stage to WAKE, nor REM to an NREM stage. -/
theorem is_same_3class_equivalence :
    (∀ a, is_same_3class a a = true) ∧
    (∀ a b, is_same_3class a b = true → is_same_3class b a = true) ∧
    (∀ a b c, is_same_3class a b = true → is_same_3class b c = true →
      is_same_3class a c = true) ∧
    (∀ a b, is_same_3class a b = true ↔ (a = b ∨ (is_nrem a = true ∧ is_nrem b = true))) ∧
    (∀ a, is_sleep a = true →
      is_same_3class a WAKE = false ∧ is_same_3class WAKE a = false) ∧
    (∀ b, is_nrem b = true → is_same_3class REM b = false ∧ is_same_3class b REM = false) := by
  refine ⟨?_, ?_, ?_, ?_, ?_, ?_⟩
  · intro a; cases a <;> rfl
  · intro a b h
    rw [is_same_3class_iff] at h ⊢
    exact h.symm
  · intro a b c h1 h2
    rw [is_same_3class_iff] at h1 h2 ⊢
    exact h1.trans h2
  · intro a b; cases a <;> cases b <;> decide
  · intro a; cases a <;> decide
  · intro b; cases b <;> decide

theorem is_same_3class_equivalence_witness :
    is_same_3class NREM1 NREM3 = true ∧ is_same_3class NREM3 NREM1 = true :=
  ⟨by decide, is_same_3class_equivalence.2.1 NREM1 NREM3 (by decide)⟩

/-- The flag of the persistent-sleep loop for a threshold of at least one
epoch. -/
theorem persistent_sleep_at_reading (stages : List sleep_stage_t) (P : Int) (hP : 1 ≤ P)
    (e : Nat) :
    persistent_sleep_at stages P e = some true ↔
      (stage_at stages e ≠ WAKE ∧ stage_at stages e ≠ LIGHTS_ON ∧ stage_at stages e ≠ UNKNOWN) ∧
      P ≤ (e : Int) ∧
      ∀ i : Nat, (e : Int) - P ≤ (i : Int) → i < e →
        stage_at stages i ≠ WAKE ∧ stage_at stages i ≠ LIGHTS_ON := by
  unfold persistent_sleep_at
  by_cases h1 : stage_at stages e = WAKE ∨ stage_at stages e = LIGHTS_ON
      ∨ stage_at stages e = UNKNOWN
  · rw [if_pos h1]
    constructor
    · intro h; simp at h
    · rintro ⟨⟨a, b, c⟩, _⟩
      rcases h1 with h | h | h
      · exact absurd h a
      · exact absurd h b
      · exact absurd h c
  · rw [if_neg h1, if_pos hP]
    have h1' : stage_at stages e ≠ WAKE ∧ stage_at stages e ≠ LIGHTS_ON
        ∧ stage_at stages e ≠ UNKNOWN := by
      refine ⟨fun h => h1 (Or.inl h), fun h => h1 (Or.inr (Or.inl h)),
        fun h => h1 (Or.inr (Or.inr h))⟩
    simp only [Option.some.injEq, Bool.and_eq_true, decide_eq_true_eq, List.all_eq_true,
      List.mem_range'_1, Bool.not_eq_true', and_imp]
    constructor
    · rintro ⟨hle, hall⟩
      refine ⟨h1', hle, ?_⟩
      intro i hi1 hi2
      have := hall i (by omega) (by omega)
      revert this
      unfold is_wake_or_lights
      cases stage_at stages i <;> simp
    · rintro ⟨_, hle, hall⟩
      refine ⟨hle, ?_⟩
      intro i hi1 hi2
      have := hall i (by omega) (by omega)
      revert this
      unfold is_wake_or_lights
      cases stage_at stages i <;> simp

/-- C25, as stated, fails: with a threshold of one epoch, in the night NREM2,
MOVEMENT, WAKE the MOVEMENT epoch 1 is flagged as persistent sleep; with a
threshold of two epochs, in the night NREM2, MOVEMENT, NREM2, WAKE epoch 2 is
flagged although the MOVEMENT epoch 1 before it is not a sleep epoch. -/
theorem persistent_sleep_flags_movement :
    is_absent (stage_at [NREM2, MOVEMENT, WAKE] 1) = true ∧
    (in_persistent_sleep [NREM2, MOVEMENT, WAKE] 1).getD 1 false = true ∧
    is_sleep (stage_at [NREM2, MOVEMENT, NREM2, WAKE] 1) = false ∧
    (in_persistent_sleep [NREM2, MOVEMENT, NREM2, WAKE] 2).getD 2 false = true := by
  decide

/-- C25, amended: with `P = def_persistent_sleep_epochs >= 1`,
`in_persistent_sleep[e]` is true exactly when epoch `e` is not WAKE, LIGHTS_ON
or UNKNOWN, `e >= P`, and none of the epochs `e-P .. e-1` is WAKE or
LIGHTS_ON. -/
theorem in_persistent_sleep_reading (stages : List sleep_stage_t) (P : Int) (hP : 1 ≤ P)
    (e : Nat) (he : e < stages.length) :
    (in_persistent_sleep stages P).getD e false = true ↔
      (stage_at stages e ≠ WAKE ∧ stage_at stages e ≠ LIGHTS_ON ∧ stage_at stages e ≠ UNKNOWN) ∧
      P ≤ (e : Int) ∧
      ∀ i : Nat, (e : Int) - P ≤ (i : Int) → i < e →
        stage_at stages i ≠ WAKE ∧ stage_at stages i ≠ LIGHTS_ON := by
  unfold in_persistent_sleep in_persistent_sleep_from
  rw [getD_assign_where _ _ _ _ _ _ he, getD_resize_nil,
    ← persistent_sleep_at_reading stages P hP e]
  by_cases h : persistent_sleep_at stages P e = some true
  · simp [h]
  · simp [h]

theorem in_persistent_sleep_reading_witness :
    (in_persistent_sleep [NREM2, MOVEMENT, WAKE] 1).getD 1 false = true ↔
      (stage_at [NREM2, MOVEMENT, WAKE] 1 ≠ WAKE ∧ stage_at [NREM2, MOVEMENT, WAKE] 1 ≠ LIGHTS_ON
        ∧ stage_at [NREM2, MOVEMENT, WAKE] 1 ≠ UNKNOWN) ∧
      (1 : Int) ≤ ((1 : Nat) : Int) ∧
      ∀ i : Nat, ((1 : Nat) : Int) - 1 ≤ (i : Int) → i < 1 →
        stage_at [NREM2, MOVEMENT, WAKE] i ≠ WAKE ∧ stage_at [NREM2, MOVEMENT, WAKE] i ≠ LIGHTS_ON :=
  in_persistent_sleep_reading [NREM2, MOVEMENT, WAKE] 1 (by decide) 1 (by decide)

/-! ## Latency to persistent sleep -/

theorem lps_at_iff (st : List sleep_stage_t) (L : Int) (e : Nat) :
    lps_at st L e = true ↔
      ∀ e2 : Nat, e ≤ e2 → (e2 : Int) < (e : Int) + L →
        e2 < st.length ∧ is_sleep (stage_at st e2) = true := by
  unfold lps_at
  simp only [List.all_eq_true, List.mem_range'_1, Bool.and_eq_true, decide_eq_true_eq, and_imp]
  constructor
  · intro h e2 h1 h2
    exact h e2 h1 (by omega)
  · intro h e2 h1 h2
    exact h e2 h1 (by omega)

theorem first_sleep_loop_snd (st : List sleep_stage_t) (L : Int) :
    ∀ (es : List Nat) (found : Bool) (fs : Nat),
      (first_sleep_loop st L es found fs).2 =
        match es.find? (fun e => is_sleep (stage_at st e) && lps_at st L e) with
        | some e => e
        | none => st.length := by
  intro es
  induction es with
  | nil => intro found fs; rfl
  | cons e es ih =>
    intro found fs
    rw [first_sleep_loop, List.find?_cons]
    cases hs : is_sleep (stage_at st e) with
    | false => simp only [Bool.false_eq_true, if_false, Bool.false_and]; exact ih _ _
    | true =>
      cases hl : lps_at st L e with
      | true => simp
      | false => simp only [if_true, Bool.false_eq_true, if_false, Bool.and_false]; exact ih _ _

/-- C26, as stated, fails: with 30-second epochs, in the night of 20 NREM2
epochs followed by WAKE, `first_persistent_sleep_epoch` is 0 (epoch 0 starts
20 epochs of sleep), but no epoch has the persistent-sleep flag set (the only
epoch with 20 epochs before it is WAKE), so that the first flagged epoch is
none and the claimed value is N = 21. -/
theorem persistent_sleep_rules_differ :
    (List.replicate 20 NREM2 ++ [WAKE]).length = 21 ∧
    lps_required (1 / 2) = 20 ∧ (thresholds_of (1 / 2)).def_persistent_sleep_epochs = 20 ∧
    first_persistent_sleep_epoch (List.replicate 20 NREM2 ++ [WAKE]) (lps_required (1 / 2)) = 0 ∧
    (∀ e, e < 21 →
      (in_persistent_sleep (List.replicate 20 NREM2 ++ [WAKE])
        (thresholds_of (1 / 2)).def_persistent_sleep_epochs).getD e false = false) := by
  refine ⟨by decide, by decide!, by decide!, by decide!, ?_⟩
  have h : (in_persistent_sleep (List.replicate 20 NREM2 ++ [WAKE])
      (thresholds_of (1 / 2)).def_persistent_sleep_epochs) = List.replicate 21 false := by
    decide!
  rw [h]
  intro e he
  interval_cases e <;> rfl

/-- C26, amended: `first_persistent_sleep_epoch` is the first sleep epoch `e`
such that the epochs `e .. e + lps_required - 1` all exist and are sleep
epochs, and it is N when there is no such epoch. -/
theorem first_persistent_sleep_epoch_reading (stages : List sleep_stage_t) (L : Int) :
    (∀ e, e < stages.length →
      (first_persistent_sleep_epoch stages L = e ↔
        (is_sleep (stage_at stages e) = true ∧
          ∀ e2 : Nat, e ≤ e2 → (e2 : Int) < (e : Int) + L →
            e2 < stages.length ∧ is_sleep (stage_at stages e2) = true) ∧
        ∀ e1, e1 < e →
          ¬ (is_sleep (stage_at stages e1) = true ∧
            ∀ e2 : Nat, e1 ≤ e2 → (e2 : Int) < (e1 : Int) + L →
              e2 < stages.length ∧ is_sleep (stage_at stages e2) = true))) ∧
    (first_persistent_sleep_epoch stages L = stages.length ↔
      ∀ e1, e1 < stages.length →
        ¬ (is_sleep (stage_at stages e1) = true ∧
          ∀ e2 : Nat, e1 ≤ e2 → (e2 : Int) < (e1 : Int) + L →
            e2 < stages.length ∧ is_sleep (stage_at stages e2) = true)) := by
  have hp : ∀ e, ((fun e => is_sleep (stage_at stages e) && lps_at stages L e) e = true) ↔
      (is_sleep (stage_at stages e) = true ∧
        ∀ e2 : Nat, e ≤ e2 → (e2 : Int) < (e : Int) + L →
          e2 < stages.length ∧ is_sleep (stage_at stages e2) = true) := by
    intro e
    simp only [Bool.and_eq_true, lps_at_iff]
  have hnp : ∀ e, ((fun e => is_sleep (stage_at stages e) && lps_at stages L e) e = false) ↔
      ¬ (is_sleep (stage_at stages e) = true ∧
        ∀ e2 : Nat, e ≤ e2 → (e2 : Int) < (e : Int) + L →
          e2 < stages.length ∧ is_sleep (stage_at stages e2) = true) := by
    intro e
    rw [← hp e]
    simp
  unfold first_persistent_sleep_epoch
  rw [first_sleep_loop_snd, List.range_eq_range']
  cases hf : (List.range' 0 stages.length).find?
      (fun e => is_sleep (stage_at stages e) && lps_at stages L e) with
  | none =>
    have hnone := find_range_none _ _ _ hf
    constructor
    · intro e he
      constructor
      · intro h
        simp only at h
        omega
      · rintro ⟨hg, _⟩
        exact absurd hg ((hnp e).1 (hnone e (by omega) (by omega)))
    · constructor
      · intro _ e1 he1
        exact (hnp e1).1 (hnone e1 (by omega) (by omega))
      · intro _; rfl
  | some f =>
    obtain ⟨_, hlt, hpf, hmin⟩ := find_range_some _ _ _ _ hf
    constructor
    · intro e he
      constructor
      · intro h
        simp only at h
        subst h
        exact ⟨(hp f).1 hpf, fun e1 he1 => (hnp e1).1 (hmin e1 (by omega) he1)⟩
      · rintro ⟨hg, hmin2⟩
        simp only
        rcases Nat.lt_trichotomy f e with h | h | h
        · exact absurd ((hp f).1 hpf) (hmin2 f h)
        · exact h
        · exact absurd hg ((hnp e).1 (hmin e (by omega) h))
    · constructor
      · intro h
        simp only at h
        omega
      · intro h
        exact absurd ((hp f).1 hpf) (h f (by omega))

theorem first_persistent_sleep_epoch_reading_witness :
    first_persistent_sleep_epoch [WAKE, NREM2, NREM2] 2 = 1 ∧
    ∀ e2 : Nat, 1 ≤ e2 → (e2 : Int) < ((1 : Nat) : Int) + 2 →
      e2 < [WAKE, NREM2, NREM2].length ∧ is_sleep (stage_at [WAKE, NREM2, NREM2] e2) = true :=
  ⟨by decide,
    (((first_persistent_sleep_epoch_reading [WAKE, NREM2, NREM2] 2).1 1 (by decide)).1
      (by decide)).1.2⟩

/-! ## Auxiliary facts: sleep periods, sleep codes -/

/-- An entry of a vector filled epoch by epoch, for a body that reads only the
entry of the epoch before: the body applied to the finished vector. -/
theorem getD_fill_epochs_local {α : Type} (step : Nat → List α → α) (d : α)
    (hloc : ∀ e prev1 prev2, (0 < e → prev1.getD (e - 1) d = prev2.getD (e - 1) d) →
      step e prev1 = step e prev2)
    (n e : Nat) (he : e < n) :
    (fill_epochs n step).getD e d = step e (fill_epochs n step) := by
  rw [getD_fill_epochs step n e d he]
  apply hloc
  intro h0
  rw [getD_fill_epochs step e (e - 1) d (by omega), getD_fill_epochs step n (e - 1) d (by omega)]

theorem getD_map_snd {α β : Type} (l : List (α × β)) (e : Nat) (a : α) (b : β) :
    (l.map Prod.snd).getD e b = (l.getD e (a, b)).2 := by
  simp only [List.getD_eq_getElem?_getD, List.getElem?_map]
  cases l[e]? <;> rfl

theorem mem_lookahead (ne e : Nat) (d : Int) (e2 : Nat) :
    e2 ∈ lookahead ne e d ↔ e ≤ e2 ∧ e2 < ne ∧ (e2 : Int) ≤ (e : Int) + d - 1 := by
  unfold lookahead
  simp only [List.mem_range'_1]
  split_ifs <;> omega

theorem sleep_period_step_local (thr : thresholds) (st : List sleep_stage_t) (onset : List Bool) :
    ∀ e prev1 prev2,
      (0 < e → prev1.getD (e - 1) (period_t.undefined, false)
        = prev2.getD (e - 1) (period_t.undefined, false)) →
      sleep_period_step thr st onset e prev1 = sleep_period_step thr st onset e prev2 := by
  intro e prev1 prev2 h
  cases e with
  | zero => simp [sleep_period_step]
  | succ e =>
    have h1 := h (by omega)
    unfold sleep_period_step
    simp only [h1]

/-- The pair (`sleep_period[e]`, `cycle_ending_waso[e]`) is the body of the loop
run on the finished vectors. -/
theorem sleep_period_pairs_getD (thr : thresholds) (st : List sleep_stage_t) (e : Nat)
    (he : e < st.length) :
    (sleep_period_pairs thr st).getD e (period_t.undefined, false)
      = sleep_period_step thr st (sleep_onset st) e (sleep_period_pairs thr st) :=
  getD_fill_epochs_local _ _ (sleep_period_step_local thr st (sleep_onset st)) _ e he

theorem length_sleep_period_pairs (thr : thresholds) (st : List sleep_stage_t) :
    (sleep_period_pairs thr st).length = st.length :=
  length_fill_epochs _ _

theorem sleep_period_getD (thr : thresholds) (st : List sleep_stage_t) (e : Nat) :
    (sleep_period thr st).getD e period_t.undefined
      = ((sleep_period_pairs thr st).getD e (period_t.undefined, false)).1 :=
  getD_map_fst _ _ _ _

theorem cycle_ending_waso_getD (thr : thresholds) (st : List sleep_stage_t) (e : Nat) :
    (cycle_ending_waso thr st).getD e false
      = ((sleep_period_pairs thr st).getD e (period_t.undefined, false)).2 :=
  getD_map_snd _ _ _ _

theorem sleep_code_step_local (thr : thresholds) (ne : Nat) (period : List period_t)
    (ending wata_v : List Bool) (old : List Int) :
    ∀ e prev1 prev2, (0 < e → prev1.getD (e - 1) 0 = prev2.getD (e - 1) 0) →
      sleep_code_step thr ne period ending wata_v old e prev1
        = sleep_code_step thr ne period ending wata_v old e prev2 := by
  intro e prev1 prev2 h
  cases e with
  | zero => simp [sleep_code_step]
  | succ e =>
    have h1 := h (by omega)
    unfold sleep_code_step
    simp only [h1]

/-- An entry of `sleep_code` is the body of the loop run on the finished
vector. -/
theorem sleep_code_getD (old : List Int) (thr : thresholds) (st : List sleep_stage_t) (e : Nat)
    (he : e < st.length) :
    (sleep_code_from old thr st).getD e 0
      = sleep_code_step thr st.length (sleep_period thr st) (cycle_ending_waso thr st)
          (wata st) (resize_zero old st.length) e (sleep_code_from old thr st) :=
  getD_fill_epochs_local _ _ (sleep_code_step_local _ _ _ _ _ _) _ e he

theorem cycle_number_step_local (thr : thresholds) (st : List sleep_stage_t) (code old : List Int) :
    ∀ e prev1 prev2, (0 < e → prev1.getD (e - 1) ((0 : Int), (0 : Int))
        = prev2.getD (e - 1) (0, 0)) →
      cycle_number_step thr st code old e prev1 = cycle_number_step thr st code old e prev2 := by
  intro e prev1 prev2 h
  cases e with
  | zero => simp [cycle_number_step]
  | succ e =>
    have h1 := h (by omega)
    unfold cycle_number_step
    simp only [h1]

/-- An entry of `sleep_cycle_number` is the first component of the body of the
cycle loop run on the finished vectors. -/
theorem sleep_cycle_number_getD (oc onum : List Int) (thr : thresholds)
    (st : List sleep_stage_t) (e : Nat) (he : e < st.length) :
    (sleep_cycle_number_from oc onum thr st).getD e 0
      = (cycle_number_step thr st (sleep_code_from oc thr st) (resize_zero onum st.length) e
          (fill_epochs st.length
            (cycle_number_step thr st (sleep_code_from oc thr st)
              (resize_zero onum st.length)))).1 := by
  unfold sleep_cycle_number_from
  rw [getD_map_fst _ _ _ (0 : Int)]
  rw [getD_fill_epochs_local _ _ (cycle_number_step_local _ _ _ _) _ e he]

/-- Out of range a period is undefined and a flag is unset. -/
theorem sleep_period_pairs_ge (thr : thresholds) (st : List sleep_stage_t) (e : Nat)
    (he : st.length ≤ e) :
    (sleep_period_pairs thr st).getD e (period_t.undefined, false)
      = (period_t.undefined, false) := by
  rw [List.getD_eq_default]
  rw [length_sleep_period_pairs]; exact he

/-- An epoch outside the sleep period has no period and no flag. -/
theorem sleep_period_step_outside (thr : thresholds) (st : List sleep_stage_t)
    (onset : List Bool) (e : Nat) (prev : List (period_t × Bool))
    (h1 : onset.getD e false = false) :
    sleep_period_step thr st onset e prev = (period_t.undefined, false) := by
  unfold sleep_period_step
  simp only [h1, if_true]

/-- The flag `cycle_ending_waso[e]` in terms of the period just set. -/
theorem sleep_period_step_shape (thr : thresholds) (st : List sleep_stage_t)
    (onset : List Bool) (e : Nat) (prev : List (period_t × Bool))
    (h1 : onset.getD e false = true) :
    ∃ p, sleep_period_step thr st onset e prev = (p,
      if (decide (p = period_t.NREM) &&
          !(lookahead st.length e thr.def_terminating_waso_duration_epochs).any
            (fun e2 => is_nrem234 (stage_at st e2) || is_rem (stage_at st e2))) = true then true
      else if (decide (e > 0) && (prev.getD (e - 1) (period_t.undefined, false)).2
          && is_wake (stage_at st e)) = true then true
      else false) := by
  unfold sleep_period_step
  simp only [h1, Bool.true_eq_false, if_false]
  exact ⟨_, rfl⟩

/-- The period `sleep_period[e]` of an epoch inside the sleep period. -/
theorem sleep_period_step_fst (thr : thresholds) (st : List sleep_stage_t)
    (onset : List Bool) (e : Nat) (prev : List (period_t × Bool))
    (h1 : onset.getD e false = true) :
    (sleep_period_step thr st onset e prev).1 =
      if (is_rem (stage_at st e) &&
          (if e = 0 then false
            else decide ((prev.getD (e - 1) (period_t.undefined, false)).1
              ≠ period_t.undefined))) = true
      then period_t.REM
      else if ((decide (e > 0)
            && decide ((prev.getD (e - 1) (period_t.undefined, false)).1 = period_t.REM))
          && (lookahead st.length e thr.def_rem_period_interuption_epochs).any
              (fun e2 => is_rem (stage_at st e2))) = true
      then period_t.REM
      else if (((decide (e > 0)
              && decide ((prev.getD (e - 1) (period_t.undefined, false)).1 = period_t.REM))
            || (decide (e > 0) && (prev.getD (e - 1) (period_t.undefined, false)).2))
          && (is_wake (stage_at st e) || is_nrem1 (stage_at st e))) = true
      then period_t.undefined
      else if ((decide (e = 0)
            || decide ((prev.getD (e - 1) (period_t.undefined, false)).1 = period_t.undefined))
          && (is_wake (stage_at st e) || is_nrem1 (stage_at st e)
            || (lookahead st.length e thr.def_min_nrem_duration_epochs).any
                (fun e2 => is_rem (stage_at st e2)))) = true
      then period_t.undefined
      else period_t.NREM := by
  unfold sleep_period_step
  simp only [h1, Bool.true_eq_false, if_false]

/-- What sets the flag `cycle_ending_waso[e]`. -/
theorem cycle_ending_waso_cases (thr : thresholds) (st : List sleep_stage_t) (e : Nat)
    (he : e < st.length) (hflag : (cycle_ending_waso thr st).getD e false = true) :
    ((sleep_period thr st).getD e period_t.undefined = period_t.NREM ∧
      (lookahead st.length e thr.def_terminating_waso_duration_epochs).any
        (fun e2 => is_nrem234 (stage_at st e2) || is_rem (stage_at st e2)) = false) ∨
    (0 < e ∧ (cycle_ending_waso thr st).getD (e - 1) false = true ∧
      is_wake (stage_at st e) = true) := by
  rw [cycle_ending_waso_getD, sleep_period_pairs_getD thr st e he] at hflag
  rw [sleep_period_getD, sleep_period_pairs_getD thr st e he, cycle_ending_waso_getD]
  cases h1 : (sleep_onset st).getD e false with
  | false => rw [sleep_period_step_outside _ _ _ _ _ h1] at hflag; simp at hflag
  | true =>
    obtain ⟨p, hp⟩ := sleep_period_step_shape thr st (sleep_onset st) e
      (sleep_period_pairs thr st) h1
    rw [hp] at hflag ⊢
    simp only at hflag ⊢
    split_ifs at hflag with h2 h3
    · left
      simpa using h2
    · right
      simpa [and_assoc] using h3

/-- C28, amended: with a threshold `def_terminating_waso_duration_epochs` of at
least one epoch (an epoch of at most 15 minutes), every epoch flagged
`cycle_ending_waso` has a stage that is not NREM2, NREM3, NREM4 or REM, and on a
new hypnogram its `sleep_code` and its `sleep_cycle_number` are 0. -/
theorem cycle_ending_waso_excluded (thr : thresholds) (stages : List sleep_stage_t)
    (hT : 1 ≤ thr.def_terminating_waso_duration_epochs) (e : Nat) (he : e < stages.length)
    (hflag : (cycle_ending_waso thr stages).getD e false = true) :
    (stage_at stages e ≠ NREM2 ∧ stage_at stages e ≠ NREM3 ∧ stage_at stages e ≠ NREM4
      ∧ stage_at stages e ≠ REM) ∧
    (sleep_code_from [] thr stages).getD e 0 = 0 ∧
    (sleep_cycle_number_from [] [] thr stages).getD e 0 = 0 := by
  have hcode : (sleep_code_from [] thr stages).getD e 0 = 0 := by
    rw [sleep_code_getD [] thr stages e he]
    unfold sleep_code_step
    simp only [hflag, if_true]
    exact getD_resize_zero_nil _ _
  refine ⟨?_, hcode, ?_⟩
  · rcases cycle_ending_waso_cases thr stages e he hflag with ⟨_, h2⟩ | ⟨_, _, hw⟩
    · -- no NREM2-4 or REM epoch within the window, which holds epoch `e`
      rw [List.any_eq_false] at h2
      have hmem : e ∈ lookahead stages.length e thr.def_terminating_waso_duration_epochs := by
        rw [mem_lookahead]; omega
      have := h2 e hmem
      revert this
      unfold is_nrem234 is_rem
      cases stage_at stages e <;> simp
    · revert hw
      unfold is_wake
      cases stage_at stages e <;> simp
  · rw [sleep_cycle_number_getD [] [] thr stages e he]
    unfold cycle_number_step
    simp only [hcode, if_true]

theorem cycle_ending_waso_excluded_witness :
    (cycle_ending_waso (thresholds_of (1 / 2))
        ([WAKE] ++ List.replicate 29 NREM2 ++ [NREM1])).getD 30 false = true ∧
    stage_at ([WAKE] ++ List.replicate 29 NREM2 ++ [NREM1]) 30 ≠ NREM2 ∧
    (sleep_code_from [] (thresholds_of (1 / 2))
        ([WAKE] ++ List.replicate 29 NREM2 ++ [NREM1])).getD 30 0 = 0 :=
  have hflag : (cycle_ending_waso (thresholds_of (1 / 2))
      ([WAKE] ++ List.replicate 29 NREM2 ++ [NREM1])).getD 30 false = true := by decide!
  have h := cycle_ending_waso_excluded (thresholds_of (1 / 2))
    ([WAKE] ++ List.replicate 29 NREM2 ++ [NREM1]) (by decide!) 30 (by decide) hflag
  ⟨hflag, h.1.1, h.2.1⟩

/-! ## Auxiliary facts: the sleep period `sleep_onset` -/

theorem length_sleep_onset_forward (st : List sleep_stage_t) :
    ∀ b, (sleep_onset_forward st b).length = st.length := by
  induction st with
  | nil => intro b; rfl
  | cons s rest ih => intro b; simp [sleep_onset_forward, ih]

theorem sleep_onset_forward_getD (st : List sleep_stage_t) :
    ∀ (b : Bool) (e : Nat), e < st.length →
      ((sleep_onset_forward st b).getD e false = true ↔
        (b = true ∨ ∃ i, i ≤ e ∧ is_sleep (stage_at st i) = true)) := by
  induction st with
  | nil => intro b e he; simp at he
  | cons s rest ih =>
    intro b e he
    cases e with
    | zero =>
      simp only [sleep_onset_forward, List.getD_cons_zero, Nat.le_zero_eq, exists_eq_left,
        stage_at_cons_zero]
      cases is_sleep s <;> cases b <;> simp
    | succ e =>
      simp only [sleep_onset_forward, List.getD_cons_succ]
      rw [ih _ e (by simpa using he)]
      constructor
      · rintro (h | ⟨i, hi, hs⟩)
        · cases hs : is_sleep s with
          | true => exact Or.inr ⟨0, by omega, by rw [stage_at_cons_zero]; exact hs⟩
          | false => rw [hs] at h; simp at h; exact Or.inl h
        · exact Or.inr ⟨i + 1, by omega, by rw [stage_at_cons_succ]; exact hs⟩
      · rintro (h | ⟨i, hi, hs⟩)
        · left; rw [h]; simp
        · cases i with
          | zero =>
            rw [stage_at_cons_zero] at hs
            left; rw [hs]; simp
          | succ i =>
            rw [stage_at_cons_succ] at hs
            exact Or.inr ⟨i, by omega, hs⟩

theorem length_sleep_onset_backward (l : List (sleep_stage_t × Bool)) :
    (sleep_onset_backward l).length = l.length := by
  induction l with
  | nil => rfl
  | cons x rest ih =>
    obtain ⟨s, b⟩ := x
    unfold sleep_onset_backward
    split_ifs <;> simp [ih]

theorem sleep_onset_backward_getD (l : List (sleep_stage_t × Bool)) :
    ∀ k, k < l.length →
      ((sleep_onset_backward l).getD k false = true ↔
        ((l.getD k (UNKNOWN, false)).2 = true ∧
          ∃ j, j ≤ k ∧ is_sleep (l.getD j (UNKNOWN, false)).1 = true)) := by
  induction l with
  | nil => intro k hk; simp at hk
  | cons x rest ih =>
    obtain ⟨s, b⟩ := x
    intro k hk
    unfold sleep_onset_backward
    by_cases hs : is_sleep s = true
    · rw [if_pos hs]
      have h0 : ∃ j, j ≤ k ∧ is_sleep (((s, b) :: rest).getD j (UNKNOWN, false)).1 = true :=
        ⟨0, by omega, by simpa using hs⟩
      cases k with
      | zero => simp [hs]
      | succ k =>
        simp only [List.getD_cons_succ, h0, and_true]
        rw [getD_map_snd rest k UNKNOWN false]
    · rw [if_neg hs]
      cases k with
      | zero => simp [hs]
      | succ k =>
        simp only [List.getD_cons_succ]
        rw [ih k (by simpa using hk)]
        constructor
        · rintro ⟨h1, j, hj, h2⟩
          exact ⟨h1, j + 1, by omega, by simpa using h2⟩
        · rintro ⟨h1, j, hj, h2⟩
          cases j with
          | zero => simp at h2; exact absurd h2 hs
          | succ j => exact ⟨h1, j, by omega, by simpa using h2⟩

theorem getD_reverse {α : Type} (l : List α) (d : α) (e : Nat) (he : e < l.length) :
    l.reverse.getD e d = l.getD (l.length - 1 - e) d := by
  simp only [List.getD_eq_getElem?_getD]
  rw [List.getElem?_reverse he]

theorem getD_zip_onset (st : List sleep_stage_t) (fw : List Bool) (h : fw.length = st.length)
    (k : Nat) (hk : k < st.length) :
    (st.zip fw).getD k (UNKNOWN, false) = (stage_at st k, fw.getD k false) := by
  unfold stage_at
  simp only [List.getD_eq_getElem?_getD, List.getElem?_zip_eq_some]
  rw [List.getElem?_eq_getElem (by simp [h, hk]), List.getElem?_eq_getElem hk,
    List.getElem?_eq_getElem (by omega)]
  simp

/-- The vector `sleep_onset` is "S" exactly from the first to the last sleep
epoch. -/
theorem sleep_onset_getD (st : List sleep_stage_t) (e : Nat) (he : e < st.length) :
    (sleep_onset st).getD e false = true ↔
      (∃ i, i ≤ e ∧ is_sleep (stage_at st i) = true) ∧
      (∃ j, e ≤ j ∧ j < st.length ∧ is_sleep (stage_at st j) = true) := by
  have hfw := length_sleep_onset_forward st false
  have hz : (st.zip (sleep_onset_forward st false)).length = st.length := by
    simp [hfw]
  unfold sleep_onset
  rw [getD_reverse _ _ _ (by rw [length_sleep_onset_backward, List.length_reverse, hz]; exact he),
    length_sleep_onset_backward, List.length_reverse, hz,
    sleep_onset_backward_getD _ _ (by rw [List.length_reverse, hz]; omega),
    getD_reverse _ _ _ (by rw [hz]; omega), hz, getD_zip_onset st _ hfw _ (by omega)]
  have hidx : st.length - 1 - (st.length - 1 - e) = e := by omega
  simp only [hidx]
  rw [sleep_onset_forward_getD st false e he]
  simp only [Bool.false_eq_true, false_or]
  apply and_congr_right
  intro _
  constructor
  · rintro ⟨j, hj, hs⟩
    rw [getD_reverse _ _ _ (by rw [hz]; omega), hz, getD_zip_onset st _ hfw _ (by omega)] at hs
    exact ⟨st.length - 1 - j, by omega, by omega, hs⟩
  · rintro ⟨j, hj1, hj2, hs⟩
    refine ⟨st.length - 1 - j, by omega, ?_⟩
    rw [getD_reverse _ _ _ (by rw [hz]; omega), hz, getD_zip_onset st _ hfw _ (by omega)]
    have : st.length - 1 - (st.length - 1 - j) = j := by omega
    rw [this]
    exact hs

/-- C27: for an epoch `e` from the first to the last sleep epoch whose previous
epoch has no period (or `e = 0`): the period at `e` stays undefined if the stage
of `e` is WAKE or NREM1 or if one of the epochs `e .. e + d - 1` inside the
vector is REM, with `d = def_min_nrem_duration_epochs`; otherwise `e` starts an
NREM period. -/
theorem nrem_period_onset_rule (thr : thresholds) (stages : List sleep_stage_t) (e : Nat)
    (he : e < stages.length)
    (hfirst : ∃ i, i ≤ e ∧ is_sleep (stage_at stages i) = true)
    (hlast : ∃ j, e ≤ j ∧ j < stages.length ∧ is_sleep (stage_at stages j) = true)
    (hprev : e = 0 ∨ (sleep_period thr stages).getD (e - 1) period_t.undefined
      = period_t.undefined) :
    ((stage_at stages e = WAKE ∨ stage_at stages e = NREM1 ∨
        ∃ e2, e ≤ e2 ∧ e2 < stages.length ∧
          (e2 : Int) ≤ (e : Int) + thr.def_min_nrem_duration_epochs - 1 ∧
          stage_at stages e2 = REM) →
      (sleep_period thr stages).getD e period_t.undefined = period_t.undefined) ∧
    (¬ (stage_at stages e = WAKE ∨ stage_at stages e = NREM1 ∨
        ∃ e2, e ≤ e2 ∧ e2 < stages.length ∧
          (e2 : Int) ≤ (e : Int) + thr.def_min_nrem_duration_epochs - 1 ∧
          stage_at stages e2 = REM) →
      (sleep_period thr stages).getD e period_t.undefined = period_t.NREM) := by
  have honset : (sleep_onset stages).getD e false = true :=
    (sleep_onset_getD stages e he).2 ⟨hfirst, hlast⟩
  have hrem : (lookahead stages.length e thr.def_min_nrem_duration_epochs).any
        (fun e2 => is_rem (stage_at stages e2)) = true ↔
      ∃ e2, e ≤ e2 ∧ e2 < stages.length ∧
        (e2 : Int) ≤ (e : Int) + thr.def_min_nrem_duration_epochs - 1 ∧
        stage_at stages e2 = REM := by
    simp only [List.any_eq_true, mem_lookahead, is_rem, beq_iff_eq]
    constructor
    · rintro ⟨x, ⟨a, b, c⟩, hx⟩; exact ⟨x, a, b, c, hx⟩
    · rintro ⟨x, a, b, c, hx⟩; exact ⟨x, ⟨a, b, c⟩, hx⟩
  have hw : is_wake (stage_at stages e) = true ↔ stage_at stages e = WAKE := by
    simp [is_wake]
  have hn1 : is_nrem1 (stage_at stages e) = true ↔ stage_at stages e = NREM1 := by
    simp [is_nrem1]
  have hpp : e = 0 ∨ ((sleep_period_pairs thr stages).getD (e - 1)
      (period_t.undefined, false)).1 = period_t.undefined := by
    rcases hprev with h | h
    · exact Or.inl h
    · right; rw [← sleep_period_getD]; exact h
  rw [sleep_period_getD, sleep_period_pairs_getD thr stages e he,
    sleep_period_step_fst thr stages _ e _ honset]
  -- the two REM branches need a period at the previous epoch
  have key : ∀ q : period_t × Bool, (e = 0 ∨ q.1 = period_t.undefined) →
      (is_rem (stage_at stages e) &&
        (if e = 0 then false else decide (q.1 ≠ period_t.undefined))) = false ∧
      ((decide (e > 0) && decide (q.1 = period_t.REM))
        && (lookahead stages.length e thr.def_rem_period_interuption_epochs).any
            (fun e2 => is_rem (stage_at stages e2))) = false ∧
      (decide (e = 0) || decide (q.1 = period_t.undefined)) = true := by
    intro q hq
    rcases hq with h | h
    · simp [h]
    · simp [h]
  obtain ⟨hb1, hb2, hb4⟩ := key _ hpp
  rw [hb1, hb2, hb4]
  simp only [Bool.false_eq_true, if_false, Bool.true_and]
  constructor
  · intro hc
    have hc2 : (is_wake (stage_at stages e) || is_nrem1 (stage_at stages e)
        || (lookahead stages.length e thr.def_min_nrem_duration_epochs).any
            (fun e2 => is_rem (stage_at stages e2))) = true := by
      simp only [Bool.or_eq_true, hw, hn1, hrem]
      rcases hc with h | h | h
      · exact Or.inl (Or.inl h)
      · exact Or.inl (Or.inr h)
      · exact Or.inr h
    rw [hc2]
    simp
  · intro hc
    have hc2 : (is_wake (stage_at stages e) || is_nrem1 (stage_at stages e)
        || (lookahead stages.length e thr.def_min_nrem_duration_epochs).any
            (fun e2 => is_rem (stage_at stages e2))) = false := by
      rw [Bool.eq_false_iff]
      intro h
      simp only [Bool.or_eq_true, hw, hn1, hrem] at h
      apply hc
      rcases h with (h | h) | h
      · exact Or.inl h
      · exact Or.inr (Or.inl h)
      · exact Or.inr (Or.inr h)
    rw [hc2]
    have hb3 : (is_wake (stage_at stages e) || is_nrem1 (stage_at stages e)) = false := by
      rw [Bool.eq_false_iff]
      intro h
      rw [Bool.eq_false_iff] at hc2
      apply hc2
      rw [Bool.or_eq_true]
      exact Or.inl h
    rw [hb3]
    simp

theorem nrem_period_onset_rule_witness :
    (sleep_period (thresholds_of (1 / 2)) (WAKE :: List.replicate 3 NREM2)).getD 1
      period_t.undefined = period_t.NREM :=
  (nrem_period_onset_rule (thresholds_of (1 / 2)) (WAKE :: List.replicate 3 NREM2) 1
    (by decide) ⟨1, by decide, by decide⟩ ⟨1, by decide, by decide, by decide⟩
    (Or.inr (by decide!))).2
    (by
      rintro (h | h | ⟨e2, h1, h2, _, h4⟩)
      · exact absurd h (by decide)
      · exact absurd h (by decide)
      · have h2' : e2 < 4 := h2
        interval_cases e2 <;> exact absurd h4 (by decide))

/-! ## Auxiliary facts: REM periods and their codes -/

/-- A period outside the vector is undefined. -/
theorem sleep_period_lt (thr : thresholds) (st : List sleep_stage_t) (e : Nat)
    (h : (sleep_period thr st).getD e period_t.undefined ≠ period_t.undefined) :
    e < st.length := by
  by_contra hge
  apply h
  rw [sleep_period_getD, sleep_period_pairs_ge thr st e (by omega)]

theorem period_chain_rem (c1 c2 c3 c4 : Bool)
    (h : (if c1 = true then period_t.REM else if c2 = true then period_t.REM
      else if c3 = true then period_t.undefined else if c4 = true then period_t.undefined
      else period_t.NREM) = period_t.REM) : c1 = true ∨ c2 = true := by
  cases c1 <;> cases c2 <;> cases c3 <;> cases c4 <;> simp at h ⊢

/-- The onset of a REM period: the epoch is REM and the epoch before it is in an
NREM period. -/
theorem rem_period_onset (thr : thresholds) (st : List sleep_stage_t) (e : Nat)
    (hper : (sleep_period thr st).getD e period_t.undefined = period_t.REM)
    (hprev : e = 0 ∨ (sleep_period thr st).getD (e - 1) period_t.undefined ≠ period_t.REM) :
    0 < e ∧ (sleep_period thr st).getD (e - 1) period_t.undefined = period_t.NREM ∧
      is_rem (stage_at st e) = true := by
  have he : e < st.length := sleep_period_lt thr st e (by rw [hper]; decide)
  rw [sleep_period_getD] at hper hprev ⊢
  rw [sleep_period_pairs_getD thr st e he] at hper
  cases h1 : (sleep_onset st).getD e false with
  | false => rw [sleep_period_step_outside _ _ _ _ _ h1] at hper; simp at hper
  | true =>
    rw [sleep_period_step_fst thr st _ e _ h1] at hper
    revert hper hprev
    generalize (sleep_period_pairs thr st).getD (e - 1) (period_t.undefined, false) = q
    intro hper hprev
    rcases period_chain_rem _ _ _ _ hper with c1 | c2
    · rw [Bool.and_eq_true] at c1
      obtain ⟨hr, hd⟩ := c1
      by_cases h0 : e = 0
      · rw [if_pos h0] at hd
        exact absurd hd (by decide)
      · rw [if_neg h0] at hd
        simp only [ne_eq, decide_eq_true_eq] at hd
        refine ⟨by omega, ?_, hr⟩
        rcases hprev with h | h
        · exact absurd h h0
        · cases hq : q.1 with
          | undefined => exact absurd hq hd
          | NREM => rfl
          | REM => exact absurd hq h
    · simp only [Bool.and_eq_true, decide_eq_true_eq] at c2
      rcases hprev with h | h
      · omega
      · exact absurd c2.1.2 h

/-- A flag `cycle_ending_waso` inside a REM period comes from the epoch
before. -/
theorem ending_in_rem_period (thr : thresholds) (st : List sleep_stage_t) (e : Nat)
    (hper : (sleep_period thr st).getD e period_t.undefined = period_t.REM)
    (hflag : (cycle_ending_waso thr st).getD e false = true) :
    0 < e ∧ (cycle_ending_waso thr st).getD (e - 1) false = true ∧
      is_wake (stage_at st e) = true := by
  have he : e < st.length := sleep_period_lt thr st e (by rw [hper]; decide)
  rcases cycle_ending_waso_cases thr st e he hflag with ⟨h, _⟩ | h
  · rw [hper] at h; exact absurd h (by decide)
  · exact h

/-- No epoch of a run of REM-period epochs that starts at a REM-period onset is
flagged `cycle_ending_waso`. -/
theorem rem_run_not_ending (thr : thresholds) (st : List sleep_stage_t) (f : Nat)
    (hf : (sleep_period thr st).getD f period_t.undefined = period_t.REM)
    (hprev : f = 0 ∨ (sleep_period thr st).getD (f - 1) period_t.undefined ≠ period_t.REM) :
    ∀ n, (∀ i, f ≤ i → i ≤ f + n →
        (sleep_period thr st).getD i period_t.undefined = period_t.REM) →
      (cycle_ending_waso thr st).getD (f + n) false = false := by
  intro n
  induction n with
  | zero =>
    intro _
    rw [Bool.eq_false_iff]
    intro hflag
    obtain ⟨_, _, hr⟩ := rem_period_onset thr st f hf hprev
    obtain ⟨_, _, hw⟩ := ending_in_rem_period thr st f hf hflag
    revert hr hw
    unfold is_rem is_wake
    cases stage_at st f <;> simp
  | succ n ih =>
    intro hrun
    rw [Bool.eq_false_iff]
    intro hflag
    obtain ⟨_, h2, _⟩ := ending_in_rem_period thr st (f + (n + 1))
      (hrun _ (by omega) (by omega)) hflag
    have h3 := ih (fun i h1 h2 => hrun i h1 (by omega))
    have : f + (n + 1) - 1 = f + n := by omega
    rw [this, h3] at h2
    exact absurd h2 (by decide)

/-- The code of an epoch of a REM period that is not flagged. -/
theorem sleep_code_rem (old : List Int) (thr : thresholds) (st : List sleep_stage_t) (e : Nat)
    (hper : (sleep_period thr st).getD e period_t.undefined = period_t.REM)
    (hend : (cycle_ending_waso thr st).getD e false = false) :
    (sleep_code_from old thr st).getD e 0 =
      if e > 0 ∧ (sleep_period thr st).getD (e - 1) period_t.undefined = period_t.NREM then
        if e ≤ first_sleep_period_rem (sleep_period thr st)
            ∧ e ≤ first_cycle_ending_waso (cycle_ending_waso thr st) then 5
        else if ((((lookahead st.length e thr.def_min_rem_duration_epochs).filter
            (fun e2 => (sleep_period thr st).getD e2 period_t.undefined = period_t.REM)).length
              : Nat) : Int) ≥ thr.def_min_rem_duration_epochs then 5 else 1
      else if e > 0 ∧ (sleep_period thr st).getD (e - 1) period_t.undefined = period_t.REM
          ∧ (sleep_code_from old thr st).getD (e - 1) 0 = 5 then 5 else 1 := by
  have he : e < st.length := sleep_period_lt thr st e (by rw [hper]; decide)
  rw [sleep_code_getD old thr st e he]
  unfold sleep_code_step
  simp only [hend, hper, Bool.false_eq_true, if_false, reduceCtorEq, if_true]

theorem first_sleep_period_rem_eq (period : List period_t) (f : Nat)
    (hf : period.getD f period_t.undefined = period_t.REM)
    (hfirst : ∀ i, i < f → period.getD i period_t.undefined ≠ period_t.REM) :
    first_sleep_period_rem period = f := by
  have hlt : f < period.length := by
    by_contra h
    rw [List.getD_eq_default _ _ (by omega)] at hf
    exact absurd hf (by decide)
  unfold first_sleep_period_rem
  rw [List.range_eq_range']
  cases hfind : (List.range' 0 period.length).find?
      (fun e => decide (period.getD e period_t.undefined = period_t.REM)) with
  | none =>
    have := find_range_none _ _ _ hfind f (by omega) (by omega)
    rw [decide_eq_false_iff_not] at this
    exact absurd hf this
  | some g =>
    obtain ⟨_, _, hg, hmin⟩ := find_range_some _ _ _ _ hfind
    simp only [decide_eq_true_eq] at hg
    simp only
    rcases Nat.lt_trichotomy g f with h | h | h
    · exact absurd hg (hfirst g h)
    · exact h
    · have := hmin f (by omega) h
      rw [decide_eq_false_iff_not] at this
      exact absurd hf this

theorem first_sleep_period_rem_le (period : List period_t) (g : Nat)
    (hg : period.getD g period_t.undefined = period_t.REM) :
    first_sleep_period_rem period ≤ g := by
  have hlt : g < period.length := by
    by_contra h
    rw [List.getD_eq_default _ _ (by omega)] at hg
    exact absurd hg (by decide)
  unfold first_sleep_period_rem
  rw [List.range_eq_range']
  cases hfind : (List.range' 0 period.length).find?
      (fun e => decide (period.getD e period_t.undefined = period_t.REM)) with
  | none =>
    have := find_range_none _ _ _ hfind g (by omega) (by omega)
    rw [decide_eq_false_iff_not] at this
    exact absurd hg this
  | some k =>
    obtain ⟨_, _, _, hmin⟩ := find_range_some _ _ _ _ hfind
    simp only
    by_contra hlt2
    have := hmin g (by omega) (by omega)
    rw [decide_eq_false_iff_not] at this
    exact absurd hg this

theorem first_cycle_ending_waso_le (ending : List Bool) (g : Nat)
    (hg : ending.getD g false = true) :
    first_cycle_ending_waso ending ≤ g := by
  have hlt : g < ending.length := by
    by_contra h
    rw [List.getD_eq_default _ _ (by omega)] at hg
    exact absurd hg (by decide)
  unfold first_cycle_ending_waso
  rw [List.range_eq_range']
  cases hfind : (List.range' 0 ending.length).find? (fun e => ending.getD e false) with
  | none =>
    have := find_range_none _ _ _ hfind g (by omega) (by omega)
    rw [hg] at this
    exact absurd this (by decide)
  | some k =>
    obtain ⟨_, _, _, hmin⟩ := find_range_some _ _ _ _ hfind
    simp only
    by_contra hlt2
    have := hmin g (by omega) (by omega)
    rw [hg] at this
    exact absurd this (by decide)

theorem first_cycle_ending_waso_ge (ending : List Bool) (f : Nat) (hf : f ≤ 99999)
    (hno : ∀ i, i < f → ending.getD i false = false) :
    f ≤ first_cycle_ending_waso ending := by
  unfold first_cycle_ending_waso
  rw [List.range_eq_range']
  cases hfind : (List.range' 0 ending.length).find? (fun e => ending.getD e false) with
  | none => exact hf
  | some k =>
    obtain ⟨_, _, hk, _⟩ := find_range_some _ _ _ _ hfind
    simp only
    by_contra hlt
    have := hno k (by omega)
    rw [this] at hk
    exact absurd hk (by decide)

/-- Below the value 99999 that stands for "none": in a vector of at most 100000
epochs, if `f` is the first REM-period epoch and no epoch before `f` is flagged
`cycle_ending_waso`, then every epoch of the run of consecutive REM-period
epochs that starts at `f` has `sleep_code` 5, whatever the length of the run. -/
theorem first_rem_period_code (thr : thresholds) (stages : List sleep_stage_t)
    (hN : stages.length ≤ 100000) (f : Nat)
    (hf : (sleep_period thr stages).getD f period_t.undefined = period_t.REM)
    (hfirst : ∀ i, i < f → (sleep_period thr stages).getD i period_t.undefined ≠ period_t.REM)
    (hnocew : ∀ i, i < f → (cycle_ending_waso thr stages).getD i false = false)
    (e : Nat) (hfe : f ≤ e)
    (hrun : ∀ i, f ≤ i → i ≤ e →
      (sleep_period thr stages).getD i period_t.undefined = period_t.REM) :
    (sleep_code_from [] thr stages).getD e 0 = 5 := by
  have hflt : f < stages.length := sleep_period_lt thr stages f (by rw [hf]; decide)
  have hprev : f = 0 ∨ (sleep_period thr stages).getD (f - 1) period_t.undefined
      ≠ period_t.REM := by
    by_cases h0 : f = 0
    · exact Or.inl h0
    · exact Or.inr (hfirst (f - 1) (by omega))
  obtain ⟨hpos, hnrem, _⟩ := rem_period_onset thr stages f hf hprev
  have hall : ∀ n, (∀ i, f ≤ i → i ≤ f + n →
        (sleep_period thr stages).getD i period_t.undefined = period_t.REM) →
      (sleep_code_from [] thr stages).getD (f + n) 0 = 5 := by
    intro n
    induction n with
    | zero =>
      intro _
      have hend := rem_run_not_ending thr stages f hf hprev 0 (fun i h1 h2 => by
        have : i = f := by omega
        rw [this]; exact hf)
      rw [Nat.add_zero] at hend ⊢
      rw [sleep_code_rem [] thr stages f hf hend, if_pos ⟨hpos, hnrem⟩,
        first_sleep_period_rem_eq _ f hf hfirst,
        if_pos ⟨le_refl f, first_cycle_ending_waso_ge _ f (by omega) hnocew⟩]
    | succ n ih =>
      intro hr
      have hper := hr (f + (n + 1)) (by omega) (by omega)
      have hper1 := hr (f + n) (by omega) (by omega)
      have hend := rem_run_not_ending thr stages f hf hprev (n + 1) hr
      have hc := ih (fun i h1 h2 => hr i h1 (by omega))
      have hidx : f + (n + 1) - 1 = f + n := by omega
      rw [sleep_code_rem [] thr stages _ hper hend, hidx, hper1, hc]
      simp
  have := hall (e - f) (fun i h1 h2 => hrun i h1 (by omega))
  rwa [show f + (e - f) = e by omega] at this

theorem first_rem_period_code_witness :
    (sleep_code_from [] (thresholds_of (1 / 2))
      ([WAKE] ++ List.replicate 30 NREM2 ++ [REM, NREM2])).getD 31 0 = 5 :=
  first_rem_period_code (thresholds_of (1 / 2))
    ([WAKE] ++ List.replicate 30 NREM2 ++ [REM, NREM2]) (by decide) 31 (by decide!)
    (by
      have h : sleep_period (thresholds_of (1 / 2))
          ([WAKE] ++ List.replicate 30 NREM2 ++ [REM, NREM2])
          = [period_t.undefined] ++ List.replicate 30 period_t.NREM
            ++ [period_t.REM, period_t.NREM] := by decide!
      rw [h]
      intro i hi
      interval_cases i <;> decide)
    (by
      have h : cycle_ending_waso (thresholds_of (1 / 2))
          ([WAKE] ++ List.replicate 30 NREM2 ++ [REM, NREM2])
          = List.replicate 33 false := by decide!
      rw [h]
      intro i hi
      interval_cases i <;> rfl)
    31 (le_refl _)
    (by
      intro i h1 h2
      have : i = 31 := by omega
      rw [this]
      decide!)

/-- The count of the look-ahead loop reaches `d` exactly when the `d` epochs
from `e` on all exist and satisfy `p`. -/
theorem lookahead_count_ge (ne e : Nat) (he : e < ne) (d : Int) (p : Nat → Bool) :
    ((((lookahead ne e d).filter p).length : Nat) : Int) ≥ d ↔
      ∀ i : Nat, e ≤ i → (i : Int) ≤ (e : Int) + d - 1 → i < ne ∧ p i = true := by
  have hlen : (lookahead ne e d).length
      = ((if (ne : Int) - 1 < (e : Int) + d - 1 then (ne : Int) - 1 else (e : Int) + d - 1)
          - (e : Int) + 1).toNat := by
    unfold lookahead
    simp only [List.length_range']
  have hle := List.length_filter_le p (lookahead ne e d)
  constructor
  · intro hge i h1 h2
    have hfull : ((lookahead ne e d).filter p).length = (lookahead ne e d).length := by
      rw [hlen] at hle ⊢
      split_ifs at hle ⊢ <;> omega
    rw [List.filter_length_eq_length] at hfull
    have hmem : i ∈ lookahead ne e d := by
      rw [mem_lookahead]
      refine ⟨h1, ?_, h2⟩
      rw [hlen] at hle
      split_ifs at hle <;> omega
    exact ⟨((mem_lookahead ne e d i).1 hmem).2.1, hfull i hmem⟩
  · intro hall
    have hfull : ((lookahead ne e d).filter p).length = (lookahead ne e d).length := by
      rw [List.filter_length_eq_length]
      intro a ha
      rw [mem_lookahead] at ha
      exact (hall a ha.1 ha.2.2).2
    rw [hfull, hlen]
    by_cases hd : d ≤ 0
    · split_ifs <;> omega
    · have := (hall (e + (d - 1).toNat) (by omega) (by omega)).1
      split_ifs <;> omega

/-- C30: at a REM-period onset `e` (REM period at `e`, NREM period at `e-1`) that
lies after a REM-period epoch or after an epoch flagged `cycle_ending_waso`,
`sleep_code[e]` is 5 exactly when the epochs `e .. e + d - 1` all exist and are
in a REM period, with `d = def_min_rem_duration_epochs`; otherwise it is 1, and
then every later epoch of the same run of REM-period epochs has code 1 too. -/
theorem later_rem_period_code (thr : thresholds) (stages : List sleep_stage_t) (e : Nat)
    (he0 : 0 < e)
    (hper : (sleep_period thr stages).getD e period_t.undefined = period_t.REM)
    (hprev : (sleep_period thr stages).getD (e - 1) period_t.undefined = period_t.NREM)
    (hafter : (∃ g, g < e ∧ (sleep_period thr stages).getD g period_t.undefined = period_t.REM)
      ∨ (∃ g, g < e ∧ (cycle_ending_waso thr stages).getD g false = true)) :
    ((sleep_code_from [] thr stages).getD e 0 = 5 ↔
      ∀ i : Nat, e ≤ i → (i : Int) ≤ (e : Int) + thr.def_min_rem_duration_epochs - 1 →
        i < stages.length ∧
          (sleep_period thr stages).getD i period_t.undefined = period_t.REM) ∧
    ((sleep_code_from [] thr stages).getD e 0 = 5
      ∨ (sleep_code_from [] thr stages).getD e 0 = 1) ∧
    ((sleep_code_from [] thr stages).getD e 0 = 1 →
      ∀ e2, e ≤ e2 →
        (∀ i, e ≤ i → i ≤ e2 →
          (sleep_period thr stages).getD i period_t.undefined = period_t.REM) →
        (sleep_code_from [] thr stages).getD e2 0 = 1) := by
  have he : e < stages.length := sleep_period_lt thr stages e (by rw [hper]; decide)
  have hprev2 : e = 0 ∨ (sleep_period thr stages).getD (e - 1) period_t.undefined
      ≠ period_t.REM := Or.inr (by rw [hprev]; decide)
  have hend := rem_run_not_ending thr stages e hper hprev2 0 (fun i h1 h2 => by
    have : i = e := by omega
    rw [this]; exact hper)
  rw [Nat.add_zero] at hend
  have hnotfirst : ¬ (e ≤ first_sleep_period_rem (sleep_period thr stages)
      ∧ e ≤ first_cycle_ending_waso (cycle_ending_waso thr stages)) := by
    rintro ⟨h1, h2⟩
    rcases hafter with ⟨g, hg, hgp⟩ | ⟨g, hg, hgc⟩
    · have := first_sleep_period_rem_le _ g hgp
      omega
    · have := first_cycle_ending_waso_le _ g hgc
      omega
  have hcount := lookahead_count_ge stages.length e he thr.def_min_rem_duration_epochs
    (fun e2 => decide ((sleep_period thr stages).getD e2 period_t.undefined = period_t.REM))
  simp only [decide_eq_true_eq] at hcount
  have hcode := sleep_code_rem [] thr stages e hper hend
  rw [if_pos ⟨he0, hprev⟩, if_neg hnotfirst] at hcode
  refine ⟨?_, ?_, ?_⟩
  · rw [hcode, ← hcount]
    split_ifs with h
    · exact ⟨fun _ => h, fun _ => rfl⟩
    · exact ⟨fun h5 => absurd h5 (by decide), fun hc => absurd hc h⟩
  · rw [hcode]
    split_ifs
    · exact Or.inl rfl
    · exact Or.inr rfl
  · intro h1
    have hall : ∀ n, (∀ i, e ≤ i → i ≤ e + n →
          (sleep_period thr stages).getD i period_t.undefined = period_t.REM) →
        (sleep_code_from [] thr stages).getD (e + n) 0 = 1 := by
      intro n
      induction n with
      | zero => intro _; exact h1
      | succ n ih =>
        intro hr
        have hper2 := hr (e + (n + 1)) (by omega) (by omega)
        have hper1 := hr (e + n) (by omega) (by omega)
        have hend2 := rem_run_not_ending thr stages e hper hprev2 (n + 1) hr
        have hc := ih (fun i h1 h2 => hr i h1 (by omega))
        have hidx : e + (n + 1) - 1 = e + n := by omega
        rw [sleep_code_rem [] thr stages _ hper2 hend2, hidx, hper1, hc]
        simp
    intro e2 h2 hrun
    have := hall (e2 - e) (fun i h1 h2 => hrun i h1 (by omega))
    rwa [show e + (e2 - e) = e2 by omega] at this

theorem later_rem_period_code_witness :
    (sleep_code_from [] (thresholds_of (5 / 2))
        ([WAKE] ++ List.replicate 6 NREM2 ++ [REM] ++ List.replicate 6 NREM2 ++ [REM])).getD 14 0
      = 1 ∧
    ¬ ∀ i : Nat, 14 ≤ i →
      (i : Int) ≤ ((14 : Nat) : Int) + (thresholds_of (5 / 2)).def_min_rem_duration_epochs - 1 →
      i < ([WAKE] ++ List.replicate 6 NREM2 ++ [REM] ++ List.replicate 6 NREM2 ++ [REM]).length ∧
        (sleep_period (thresholds_of (5 / 2))
          ([WAKE] ++ List.replicate 6 NREM2 ++ [REM] ++ List.replicate 6 NREM2 ++ [REM])).getD i
            period_t.undefined = period_t.REM :=
  have h := later_rem_period_code (thresholds_of (5 / 2))
    ([WAKE] ++ List.replicate 6 NREM2 ++ [REM] ++ List.replicate 6 NREM2 ++ [REM]) 14
    (by decide) (by decide!) (by decide!) (Or.inl ⟨7, by decide, by decide!⟩)
  have h1 : (sleep_code_from [] (thresholds_of (5 / 2))
      ([WAKE] ++ List.replicate 6 NREM2 ++ [REM] ++ List.replicate 6 NREM2 ++ [REM])).getD 14 0
      = 1 := by decide!
  ⟨h1, fun hall => absurd (h.1.2 hall) (by rw [h1]; decide)⟩

/-! ## Cycle numbers: carry-forward and onsets -/

theorem find_range_eq_some (p : Nat → Bool) (a n L : Nat) (h1 : a ≤ L) (h2 : L < a + n)
    (hp : p L = true) (hmin : ∀ i, a ≤ i → i < L → p i = false) :
    (List.range' a n).find? p = some L := by
  cases hf : (List.range' a n).find? p with
  | none =>
    have := find_range_none p n a hf L h1 h2
    rw [hp] at this
    exact absurd this (by decide)
  | some k =>
    obtain ⟨k1, k2, k3, k4⟩ := find_range_some p n a k hf
    rcases Nat.lt_trichotomy k L with h | h | h
    · have := hmin k k1 h
      rw [k3] at this
      exact absurd this (by decide)
    · rw [h]
    · have := k4 L h1 h
      rw [hp] at this
      exact absurd this (by decide)

theorem find_range_eq_none (p : Nat → Bool) (a n : Nat)
    (hall : ∀ i, a ≤ i → i < a + n → p i = false) :
    (List.range' a n).find? p = none := by
  cases hf : (List.range' a n).find? p with
  | none => rfl
  | some k =>
    obtain ⟨k1, k2, k3, _⟩ := find_range_some p n a k hf
    have := hall k k1 k2
    rw [k3] at this
    exact absurd this (by decide)

/-- C23, as stated, fails: with 30-second epochs, in the night WAKE, 30 NREM2,
2 REM, 3 NREM2, WAKE the epoch 33 (the first NREM2 after the REM epochs) has
`sleep_code` 1 after the code 5 of epoch 32, its forward window holds 3 NREM
epochs, fewer than the 30 required, and no cycle starts there; but its cycle
number is 0, not the cycle number 1 of epoch 32. -/
theorem short_nrem_after_rem_unnumbered :
    (thresholds_of (1 / 2)).def_min_nrem_duration_epochs = 30 ∧
    ∃ h, calc_stats (1 / 2)
        ([WAKE] ++ List.replicate 30 NREM2 ++ [REM, REM, NREM2, NREM2, NREM2, WAKE])
          = Except.ok h ∧
      h.sleep_code.getD 32 0 = 5 ∧ h.sleep_code.getD 33 0 = 1 ∧
      h.sleep_cycle_number.getD 32 0 = 1 ∧ h.sleep_cycle_number.getD 33 0 = 0 := by
  refine ⟨by decide!, ?_⟩
  have hrun : returns_with (calc_stats (1 / 2)
      ([WAKE] ++ List.replicate 30 NREM2 ++ [REM, REM, NREM2, NREM2, NREM2, WAKE])) (fun h =>
      decide (h.sleep_code.getD 32 0 = 5) && decide (h.sleep_code.getD 33 0 = 1)
        && decide (h.sleep_cycle_number.getD 32 0 = 1)
        && decide (h.sleep_cycle_number.getD 33 0 = 0)) = true := by
    decide!
  obtain ⟨h, hok, hp⟩ := returns_with_ok hrun
  simp only [Bool.and_eq_true, decide_eq_true_eq] at hp
  exact ⟨h, hok, hp.1.1.1, hp.1.1.2, hp.1.2, hp.2⟩

/-- C23, amended: on a new hypnogram, at an epoch `e > 0` with
`sleep_code[e] != 0`: if `e` is not a candidate onset (`sleep_code` neither goes
up by 1 nor down by 4 from `e-1` to `e`), `sleep_cycle_number[e]` is
`sleep_cycle_number[e-1]`; if `e` is a candidate onset and the window from `e`
to the first later epoch `L` with code 0 or 5 (or to the last epoch) holds fewer
than `def_min_nrem_duration_epochs` NREM epochs, no number is assigned and
`sleep_cycle_number[e]` is 0. -/
theorem cycle_number_carry_forward (thr : thresholds) (stages : List sleep_stage_t) (e : Nat)
    (he0 : 0 < e) (he : e < stages.length)
    (hcode : (sleep_code_from [] thr stages).getD e 0 ≠ 0) :
    (¬ ((sleep_code_from [] thr stages).getD e 0
            - (sleep_code_from [] thr stages).getD (e - 1) 0 = 1
          ∨ (sleep_code_from [] thr stages).getD (e - 1) 0
            - (sleep_code_from [] thr stages).getD e 0 = 4) →
      (sleep_cycle_number_from [] [] thr stages).getD e 0
        = (sleep_cycle_number_from [] [] thr stages).getD (e - 1) 0) ∧
    (((sleep_code_from [] thr stages).getD e 0
            - (sleep_code_from [] thr stages).getD (e - 1) 0 = 1
          ∨ (sleep_code_from [] thr stages).getD (e - 1) 0
            - (sleep_code_from [] thr stages).getD e 0 = 4) →
      ∀ L, e ≤ L → L < stages.length →
        (∀ i, e ≤ i → i < L → (sleep_code_from [] thr stages).getD i 0 ≠ 0
          ∧ (sleep_code_from [] thr stages).getD i 0 ≠ 5) →
        ((sleep_code_from [] thr stages).getD L 0 = 0
          ∨ (sleep_code_from [] thr stages).getD L 0 = 5 ∨ L = stages.length - 1) →
        ((((List.range' e (L + 1 - e)).filter
            (fun e2 => is_nrem (stage_at stages e2))).length : Nat) : Int)
          < thr.def_min_nrem_duration_epochs →
        (sleep_cycle_number_from [] [] thr stages).getD e 0 = 0) := by
  have h0 : e ≠ 0 := by omega
  constructor
  · intro hnc
    rw [sleep_cycle_number_getD [] [] thr stages e he]
    unfold sleep_cycle_number_from
    rw [getD_map_fst _ _ (0 : Int) (0 : Int)]
    generalize fill_epochs stages.length
      (cycle_number_step thr stages (sleep_code_from [] thr stages)
        (resize_zero [] stages.length)) = pr
    unfold cycle_number_step
    simp only [hcode, h0, if_false, hnc]
  · intro hc L hL1 hL2 hwin hstop hcnt
    have hfind : (List.range' e (stages.length - e)).find?
          (fun e2 => decide ((sleep_code_from [] thr stages).getD e2 0 = 0
            ∨ (sleep_code_from [] thr stages).getD e2 0 = 5)) = some L
        ∨ ((List.range' e (stages.length - e)).find?
          (fun e2 => decide ((sleep_code_from [] thr stages).getD e2 0 = 0
            ∨ (sleep_code_from [] thr stages).getD e2 0 = 5)) = none
          ∧ stages.length - 1 = L) := by
      by_cases hst : (sleep_code_from [] thr stages).getD L 0 = 0
          ∨ (sleep_code_from [] thr stages).getD L 0 = 5
      · left
        exact find_range_eq_some _ e (stages.length - e) L hL1 (by omega)
          (by simpa using hst)
          (fun i h1 h2 => by
            have := hwin i h1 h2
            rw [decide_eq_false_iff_not]
            rintro (h | h)
            · exact this.1 h
            · exact this.2 h)
      · right
        have hlast : L = stages.length - 1 := by
          rcases hstop with h | h | h
          · exact absurd (Or.inl h) hst
          · exact absurd (Or.inr h) hst
          · exact h
        refine ⟨find_range_eq_none _ e (stages.length - e) (fun i h1 h2 => ?_), hlast.symm⟩
        rw [decide_eq_false_iff_not]
        by_cases hi : i < L
        · have := hwin i h1 hi
          rintro (h | h)
          · exact this.1 h
          · exact this.2 h
        · have : i = L := by omega
          rw [this]; exact hst
    rw [sleep_cycle_number_getD [] [] thr stages e he]
    generalize fill_epochs stages.length
      (cycle_number_step thr stages (sleep_code_from [] thr stages)
        (resize_zero [] stages.length)) = pr
    unfold cycle_number_step
    simp only [hcode, h0, if_false, hc, if_true]
    rcases hfind with hf | ⟨hf, hl⟩
    · rw [hf]
      simp only
      rw [if_neg (not_le.mpr hcnt)]
      exact getD_resize_zero_nil _ _
    · rw [hf]
      simp only [hl]
      rw [if_neg (not_le.mpr hcnt)]
      exact getD_resize_zero_nil _ _

theorem cycle_number_carry_forward_witness :
    (sleep_cycle_number_from [] [] (thresholds_of (5 / 2))
        ([WAKE] ++ List.replicate 6 NREM2 ++ [REM, NREM2, NREM2, WAKE])).getD 8 0 = 0 ∧
    (sleep_cycle_number_from [] [] (thresholds_of (5 / 2))
        ([WAKE] ++ List.replicate 6 NREM2 ++ [REM, NREM2, NREM2, WAKE])).getD 7 0 = 1 :=
  ⟨(cycle_number_carry_forward (thresholds_of (5 / 2))
      ([WAKE] ++ List.replicate 6 NREM2 ++ [REM, NREM2, NREM2, WAKE]) 8 (by decide) (by decide)
      (by decide!)).2 (Or.inr (by decide!)) 10 (by decide) (by decide)
      (by
        have h : sleep_code_from [] (thresholds_of (5 / 2))
            ([WAKE] ++ List.replicate 6 NREM2 ++ [REM, NREM2, NREM2, WAKE])
            = [0, 1, 1, 1, 1, 1, 1, 5, 1, 1, 0] := by decide!
        rw [h]
        intro i h1 h2
        interval_cases i <;> decide)
      (Or.inl (by decide!)) (by decide!),
    by decide!⟩

/-- C24 at the night WAKE, 29 NREM2, NREM1 with 30-second epochs: the threshold
`def_min_nrem_duration_epochs` is 30; the last epoch is flagged
`cycle_ending_waso`, keeps `sleep_code` 0 and cycle number 0; the count of the
cycle loop runs from epoch 1 up to and including that epoch and reaches 30, so
cycle 1 is recorded; but its members are the 29 NREM2 epochs only and
`nremc_nrem_duration[1]` is 14.5 minutes. -/
theorem cycle_with_short_nrem :
    (thresholds_of (1 / 2)).def_min_nrem_duration_epochs = 30 ∧
    ∃ h, calc_stats (1 / 2) ([WAKE] ++ List.replicate 29 NREM2 ++ [NREM1]) = Except.ok h ∧
      h.num_nremc = 1 ∧
      h.sleep_cycle_number = [0] ++ List.replicate 29 1 ++ [0] ∧
      h.sleep_code.getD 30 0 = 0 ∧
      ((List.range 31).filter (fun e => decide (h.sleep_cycle_number.getD e 0 = 1)
        && is_nrem (stage_at h.stages e))).length = 29 ∧
      h.nremc_nrem_duration = [(1, 29 / 2)] ∧
      h.nremc_duration = [(1, 29 / 2)] := by
  refine ⟨by decide!, ?_⟩
  have hrun : returns_with (calc_stats (1 / 2) ([WAKE] ++ List.replicate 29 NREM2 ++ [NREM1]))
      (fun h =>
        decide (h.num_nremc = 1)
        && decide (h.sleep_cycle_number = [0] ++ List.replicate 29 1 ++ [0])
        && decide (h.sleep_code.getD 30 0 = 0)
        && decide (((List.range 31).filter (fun e => decide (h.sleep_cycle_number.getD e 0 = 1)
            && is_nrem (stage_at h.stages e))).length = 29)
        && decide (h.nremc_nrem_duration = [(1, 29 / 2)])
        && decide (h.nremc_duration = [(1, 29 / 2)])) = true := by
    decide!
  obtain ⟨h, hok, hp⟩ := returns_with_ok hrun
  simp only [Bool.and_eq_true, decide_eq_true_eq] at hp
  exact ⟨h, hok, hp.1.1.1.1.1, hp.1.1.1.1.2, hp.1.1.1.2, hp.1.1.2, hp.1.2, hp.2⟩

/-! ## Auxiliary facts: key-sorted maps -/

/-- Keys strictly increasing along the list. -/
theorem map_set_sorted {β : Type} (m : List (Int × β)) (k : Int) (v : β)
    (hm : m.Pairwise (fun a b => a.1 < b.1)) :
    (map_set m k v).Pairwise (fun a b => a.1 < b.1) ∧
      ∀ x ∈ map_set m k v, x ∈ m ∨ x = (k, v) := by
  induction m with
  | nil => simp [map_set]
  | cons a rest ih =>
    obtain ⟨k1, v1⟩ := a
    rw [List.pairwise_cons] at hm
    obtain ⟨h1, h2⟩ := hm
    unfold map_set
    by_cases hlt : k < k1
    · rw [if_pos hlt]
      refine ⟨?_, ?_⟩
      · rw [List.pairwise_cons]
        refine ⟨?_, List.pairwise_cons.2 ⟨h1, h2⟩⟩
        intro b hb
        rcases List.mem_cons.1 hb with h | h
        · rw [h]; exact hlt
        · exact lt_trans hlt (h1 b h)
      · intro x hx
        rcases List.mem_cons.1 hx with h | h
        · exact Or.inr h
        · exact Or.inl h
    · rw [if_neg hlt]
      by_cases heq : k = k1
      · rw [if_pos heq]
        refine ⟨?_, ?_⟩
        · rw [List.pairwise_cons]
          refine ⟨?_, h2⟩
          intro b hb
          rw [heq]; exact h1 b hb
        · intro x hx
          rcases List.mem_cons.1 hx with h | h
          · exact Or.inr h
          · exact Or.inl (List.mem_cons_of_mem _ h)
      · rw [if_neg heq]
        obtain ⟨i1, i2⟩ := ih h2
        refine ⟨?_, ?_⟩
        · rw [List.pairwise_cons]
          refine ⟨?_, i1⟩
          intro b hb
          rcases i2 b hb with h | h
          · exact h1 b h
          · rw [h]
            show k1 < k
            omega
        · intro x hx
          rcases List.mem_cons.1 hx with h | h
          · exact Or.inl (by rw [h]; exact List.mem_cons_self _ _)
          · rcases i2 x h with h3 | h3
            · exact Or.inl (List.mem_cons_of_mem _ h3)
            · exact Or.inr h3

/-- The map `cmin` of the cycle loop is key-sorted. -/
theorem cmin_sorted (st : List sleep_stage_t) (number : List Int) :
    (cycle_counts_of st number).cmin.Pairwise (fun a b => a.1 < b.1) := by
  unfold cycle_counts_of
  have key : ∀ m, ((List.range m).foldl (cycle_counts_step st number)
      ⟨0, [], [], [], [], []⟩).cmin.Pairwise (fun a b => a.1 < b.1) := by
    intro m
    induction m with
    | zero => simp
    | succ m ih =>
      rw [List.range_succ, List.foldl_append, List.foldl_cons, List.foldl_nil]
      obtain ⟨f0, f1⟩ := cycle_counts_step_fields st number
        ((List.range m).foldl (cycle_counts_step st number) ⟨0, [], [], [], [], []⟩) m
      by_cases h0 : number.getD m 0 = 0
      · rw [f0 h0]; exact ih
      · rw [(f1 h0).1]
        split_ifs
        · exact (map_set_sorted _ _ _ ih).1
        · exact ih
  exact key st.length

theorem length_sleep_code_from (old : List Int) (thr : thresholds) (st : List sleep_stage_t) :
    (sleep_code_from old thr st).length = st.length :=
  length_fill_epochs _ _

theorem length_assign_where {α : Type} (old : List α) (d : α) (ne : Nat) (guard : Nat → Bool)
    (value : Nat → α) : (assign_where old d ne guard value).length = ne := by
  simp [assign_where]

/-- A record whose cycle maps are replaced by equal maps. -/
theorem with_maps_eq (h : hypnogram_t) (a b c : List (Int × ℚ)) (d e : List (Int × Int))
    (ha : a = h.nremc_duration) (hb : b = h.nremc_nrem_duration)
    (hc : c = h.nremc_rem_duration) (hd : d = h.nremc_start_epoch)
    (he : e = h.nremc_epoch_duration) :
    { h with nremc_duration := a, nremc_nrem_duration := b, nremc_rem_duration := c,
             nremc_start_epoch := d, nremc_epoch_duration := e } = h := by
  subst ha hb hc hd he
  rfl

theorem stage_at_replicate_append (n : Nat) (a b : sleep_stage_t) (e : Nat) :
    (e < n → stage_at (List.replicate n a ++ [b]) e = a) ∧
    stage_at (List.replicate n a ++ [b]) n = b := by
  constructor
  · intro he
    unfold stage_at
    rw [List.getD_eq_getElem?_getD, List.getElem?_append_left (by simpa using he),
      List.getElem?_replicate, if_pos he]
    rfl
  · unfold stage_at
    rw [List.getD_eq_getElem?_getD, List.getElem?_append_right (by simp)]
    simp

theorem length_long_night : long_night.length = 100001 := by
  unfold long_night
  rw [List.length_append, List.length_replicate]
  rfl

theorem stage_at_long_night_lt (e : Nat) (he : e < 100000) : stage_at long_night e = NREM2 :=
  (stage_at_replicate_append 100000 NREM2 REM e).1 he

theorem stage_at_long_night_last : stage_at long_night 100000 = REM :=
  (stage_at_replicate_append 100000 NREM2 REM 0).2

theorem thresholds_half : thresholds_of (1 / 2) = ⟨20, 30, 30, 30, 10⟩ := by
  decide!

theorem sleep_onset_long_night (e : Nat) (he : e ≤ 100000) :
    (sleep_onset long_night).getD e false = true := by
  have hs : is_sleep (stage_at long_night e) = true := by
    rcases Nat.lt_or_ge e 100000 with h | h
    · rw [stage_at_long_night_lt e h]; rfl
    · have : e = 100000 := by omega
      rw [this, stage_at_long_night_last]; rfl
  exact (sleep_onset_getD long_night e (by rw [length_long_night]; omega)).2
    ⟨⟨e, le_refl _, hs⟩, ⟨e, le_refl _, by rw [length_long_night]; omega, hs⟩⟩

/-- Every epoch of `long_night` before the REM epoch is in an NREM period and is
not flagged. -/
theorem long_night_nrem (e : Nat) (he : e < 100000) :
    (sleep_period_pairs (thresholds_of (1 / 2)) long_night).getD e (period_t.undefined, false)
      = (period_t.NREM, false) := by
  induction e with
  | zero =>
    have honset := sleep_onset_long_night 0 (by omega)
    rw [sleep_period_pairs_getD _ _ 0 (by rw [length_long_night]; omega)]
    obtain ⟨p, hp⟩ := sleep_period_step_shape (thresholds_of (1 / 2)) long_night
      (sleep_onset long_night) 0 (sleep_period_pairs (thresholds_of (1 / 2)) long_night) honset
    have hfst := sleep_period_step_fst (thresholds_of (1 / 2)) long_night
      (sleep_onset long_night) 0 (sleep_period_pairs (thresholds_of (1 / 2)) long_night) honset
    have hrem : (lookahead long_night.length 0
        (thresholds_of (1 / 2)).def_min_nrem_duration_epochs).any
        (fun e2 => is_rem (stage_at long_night e2)) = false := by
      rw [List.any_eq_false]
      intro x hx
      rw [mem_lookahead, thresholds_half] at hx
      have hx2 : (x : Int) ≤ ((0 : Nat) : Int) + 30 - 1 := hx.2.2
      rw [stage_at_long_night_lt x (by omega)]
      decide
    have hnear : (lookahead long_night.length 0
        (thresholds_of (1 / 2)).def_terminating_waso_duration_epochs).any
        (fun e2 => is_nrem234 (stage_at long_night e2) || is_rem (stage_at long_night e2))
        = true := by
      rw [List.any_eq_true]
      refine ⟨0, ?_, ?_⟩
      · rw [mem_lookahead, thresholds_half, length_long_night]
        refine ⟨le_refl _, by omega, ?_⟩
        show ((0 : Nat) : Int) ≤ ((0 : Nat) : Int) + 30 - 1
        omega
      · rw [stage_at_long_night_lt 0 (by omega)]; rfl
    rw [hrem, stage_at_long_night_lt 0 (by omega)] at hfst
    rw [hp] at hfst ⊢
    simp only at hfst
    have hpn : p = period_t.NREM := by
      rw [hfst]
      simp [is_rem, is_wake, is_nrem1]
    rw [hpn, hnear]
    simp
  | succ e ih =>
    have hprev := ih (by omega)
    have honset := sleep_onset_long_night (e + 1) (by omega)
    rw [sleep_period_pairs_getD _ _ (e + 1) (by rw [length_long_night]; omega)]
    obtain ⟨p, hp⟩ := sleep_period_step_shape (thresholds_of (1 / 2)) long_night
      (sleep_onset long_night) (e + 1) (sleep_period_pairs (thresholds_of (1 / 2)) long_night)
      honset
    have hfst := sleep_period_step_fst (thresholds_of (1 / 2)) long_night
      (sleep_onset long_night) (e + 1) (sleep_period_pairs (thresholds_of (1 / 2)) long_night)
      honset
    have hnear : (lookahead long_night.length (e + 1)
        (thresholds_of (1 / 2)).def_terminating_waso_duration_epochs).any
        (fun e2 => is_nrem234 (stage_at long_night e2) || is_rem (stage_at long_night e2))
        = true := by
      rw [List.any_eq_true]
      refine ⟨e + 1, ?_, ?_⟩
      · rw [mem_lookahead, thresholds_half, length_long_night]
        refine ⟨le_refl _, by omega, ?_⟩
        show ((e + 1 : Nat) : Int) ≤ ((e + 1 : Nat) : Int) + 30 - 1
        omega
      · rw [stage_at_long_night_lt (e + 1) he]; rfl
    rw [Nat.add_sub_cancel, hprev, stage_at_long_night_lt (e + 1) he] at hfst
    rw [hp] at hfst ⊢
    simp only at hfst
    have hpn : p = period_t.NREM := by
      rw [hfst]
      simp [is_rem, is_wake, is_nrem1]
    rw [hpn, hnear, Nat.add_sub_cancel, hprev]
    simp

theorem long_night_rem :
    (sleep_period (thresholds_of (1 / 2)) long_night).getD 100000 period_t.undefined
      = period_t.REM := by
  have honset := sleep_onset_long_night 100000 (le_refl _)
  have hfst := sleep_period_step_fst (thresholds_of (1 / 2)) long_night
    (sleep_onset long_night) 100000 (sleep_period_pairs (thresholds_of (1 / 2)) long_night)
    honset
  have h9 : (100000 : Nat) - 1 = 99999 := by norm_num
  rw [sleep_period_getD, sleep_period_pairs_getD _ _ 100000 (by rw [length_long_night]; omega),
    hfst, h9, long_night_nrem 99999 (by omega), stage_at_long_night_last]
  simp [is_rem]

theorem long_night_last_not_ending :
    (cycle_ending_waso (thresholds_of (1 / 2)) long_night).getD 100000 false = false := by
  have h9 : (100000 : Nat) - 1 = 99999 := by norm_num
  have hprev : (100000 : Nat) = 0 ∨
      (sleep_period (thresholds_of (1 / 2)) long_night).getD (100000 - 1) period_t.undefined
        ≠ period_t.REM := by
    right
    rw [h9, sleep_period_getD, long_night_nrem 99999 (by omega)]
    decide
  have hendlast := rem_run_not_ending (thresholds_of (1 / 2)) long_night 100000 long_night_rem
    hprev 0 (fun i h1 h2 => by
      have : i = 100000 := by omega
      rw [this]; exact long_night_rem)
  rw [Nat.add_zero] at hendlast
  exact hendlast

theorem length_ending_long_night : (cycle_ending_waso (thresholds_of (1 / 2)) long_night).length = 100001 := by
  unfold cycle_ending_waso
  rw [List.length_map, length_sleep_period_pairs, length_long_night]

theorem long_night_not_ending (i : Nat) (h2 : i < 0 + 100001) :
    (cycle_ending_waso (thresholds_of (1 / 2)) long_night).getD i false = false := by
  rcases Nat.lt_or_ge i 100000 with h | h
  · rw [cycle_ending_waso_getD, long_night_nrem i h]
  · have : i = 100000 := by omega
    rw [this]; exact long_night_last_not_ending

theorem long_night_no_ending_found : (List.range' 0 (cycle_ending_waso (thresholds_of (1 / 2)) long_night).length).find?
      (fun e => (cycle_ending_waso (thresholds_of (1 / 2)) long_night).getD e false) = none := by
  apply find_range_eq_none
  intro i h1 h2
  rw [length_ending_long_night] at h2
  exact long_night_not_ending i h2

theorem first_cycle_ending_waso_none (ending : List Bool)
    (h : (List.range' 0 ending.length).find? (fun e => ending.getD e false) = none) :
    first_cycle_ending_waso ending = 99999 := by
  unfold first_cycle_ending_waso
  rw [List.range_eq_range', h]

theorem long_night_sentinel :
    first_cycle_ending_waso (cycle_ending_waso (thresholds_of (1 / 2)) long_night) = 99999 :=
  first_cycle_ending_waso_none _ long_night_no_ending_found

/-- The count of the look-ahead loop at the REM epoch of `long_night` stays
below the 10 epochs required. -/
theorem long_night_count :
    ¬ ((((lookahead long_night.length 100000
        (thresholds_of (1 / 2)).def_min_rem_duration_epochs).filter
          (fun e2 => decide ((sleep_period (thresholds_of (1 / 2)) long_night).getD e2
            period_t.undefined = period_t.REM))).length : Nat) : Int)
        ≥ (thresholds_of (1 / 2)).def_min_rem_duration_epochs := by
  have hcount := lookahead_count_ge long_night.length 100000
    (by rw [length_long_night]; omega) (thresholds_of (1 / 2)).def_min_rem_duration_epochs
    (fun e2 => decide ((sleep_period (thresholds_of (1 / 2)) long_night).getD e2
      period_t.undefined = period_t.REM))
  intro hge
  have h10 : (thresholds_of (1 / 2)).def_min_rem_duration_epochs = 10 := by
    rw [thresholds_half]
  have := (hcount.1 hge 100001 (by omega) (by rw [h10]; omega)).1
  rw [length_long_night] at this
  omega

/-- C29 at `long_night` with 30-second epochs: epoch 100000 is the first
REM-period epoch and no epoch is flagged `cycle_ending_waso`, but the code of
epoch 100000 is 1, not 5: the value 99999 that stands for "no cycle-ending
WASO" is below the epoch, the test `e <= first_cycle_ending_waso` fails, and the
REM period of one epoch is shorter than `def_min_rem_duration_epochs = 10`. -/
theorem first_rem_after_sentinel :
    long_night.length = 100001 ∧
    (∀ e, e < 100000 →
      (sleep_period (thresholds_of (1 / 2)) long_night).getD e period_t.undefined
        ≠ period_t.REM) ∧
    (sleep_period (thresholds_of (1 / 2)) long_night).getD 100000 period_t.undefined
      = period_t.REM ∧
    (∀ e, e < 100001 →
      (cycle_ending_waso (thresholds_of (1 / 2)) long_night).getD e false = false) ∧
    first_cycle_ending_waso (cycle_ending_waso (thresholds_of (1 / 2)) long_night) = 99999 ∧
    (sleep_code_from [] (thresholds_of (1 / 2)) long_night).getD 100000 0 = 1 := by
  have h9 : (100000 : Nat) - 1 = 99999 := by norm_num
  have hper : ∀ e, e < 100000 →
      (sleep_period (thresholds_of (1 / 2)) long_night).getD e period_t.undefined
        = period_t.NREM := by
    intro e he
    rw [sleep_period_getD, long_night_nrem e he]
  refine ⟨length_long_night, fun e he => by rw [hper e he]; decide, long_night_rem,
    fun e he => long_night_not_ending e (by omega), long_night_sentinel, ?_⟩
  rw [sleep_code_rem [] _ _ 100000 long_night_rem long_night_last_not_ending,
    if_pos ⟨by omega, by rw [h9]; exact hper 99999 (by omega)⟩,
    long_night_sentinel, if_neg (by omega), if_neg long_night_count]

/-- C28, as stated, fails: with 20-minute epochs the threshold
`def_terminating_waso_duration_epochs` is 0, the look-ahead window of the
cycle-ending test is empty, and in the night NREM2, WAKE, on which `calc_stats`
returns, the NREM2 epoch 0 is flagged `cycle_ending_waso`. -/
theorem empty_window_flags_nrem2 :
    (thresholds_of 20).def_terminating_waso_duration_epochs = 0 ∧
    (∃ h, calc_stats 20 [NREM2, WAKE] = Except.ok h) ∧
    stage_at (recode_edges [NREM2, WAKE]) 0 = NREM2 ∧
    (cycle_ending_waso (thresholds_of 20) (recode_edges [NREM2, WAKE])).getD 0 false = true := by
  refine ⟨by decide!, ⟨_, (calc_stats_ok_iff _ _ _).2 ⟨by decide, by decide, by decide!, rfl⟩⟩,
    by decide, by decide!⟩

/-! ## The score of the NREM2 epochs -/

/-- One of the two scans keeps the weight between minus the count and the
count. -/
theorem n2_scan_bound (stages : List sleep_stage_t) (deep : ℚ) (hd : deep = 1 ∨ deep = -1) :
    ∀ (ks : List Nat) (wgt : ℚ) (n : Int), 0 ≤ n → -(n : ℚ) ≤ wgt → wgt ≤ (n : ℚ) →
      0 ≤ (n2_scan stages deep ks wgt n).2 ∧
      -((n2_scan stages deep ks wgt n).2 : ℚ) ≤ (n2_scan stages deep ks wgt n).1 ∧
      (n2_scan stages deep ks wgt n).1 ≤ ((n2_scan stages deep ks wgt n).2 : ℚ) := by
  intro ks
  induction ks with
  | nil => intro wgt n h0 h1 h2; exact ⟨h0, h1, h2⟩
  | cons k ks ih =>
    intro wgt n h0 h1 h2
    have hstep : ∀ (w2 : ℚ) (m2 : Int), 0 ≤ m2 → -(m2 : ℚ) ≤ w2 → w2 ≤ (m2 : ℚ) →
        0 ≤ (if m2 > n2_ascdesc_k then (w2, m2) else n2_scan stages deep ks w2 m2).2 ∧
        -((if m2 > n2_ascdesc_k then (w2, m2) else n2_scan stages deep ks w2 m2).2 : ℚ)
          ≤ (if m2 > n2_ascdesc_k then (w2, m2) else n2_scan stages deep ks w2 m2).1 ∧
        (if m2 > n2_ascdesc_k then (w2, m2) else n2_scan stages deep ks w2 m2).1
          ≤ ((if m2 > n2_ascdesc_k then (w2, m2) else n2_scan stages deep ks w2 m2).2 : ℚ) := by
      intro w2 m2 g0 g1 g2
      split_ifs
      · exact ⟨g0, g1, g2⟩
      · exact ih w2 m2 g0 g1 g2
    rw [n2_scan]
    have hn1 : ((n + 1 : Int) : ℚ) = (n : ℚ) + 1 := by push_cast; ring
    cases hs : stage_at stages k <;>
      simp only [reduceCtorEq, or_self, or_false, false_or, or_true, true_or, if_true,
        if_false] <;>
      apply hstep <;>
      first
        | omega
        | (rcases hd with h | h <;> rw [h] <;> (try rw [hn1]) <;> linarith)
        | assumption

theorem side_average_bound (w : ℚ) (n : Int) (h0 : 0 ≤ n) (h1 : -(n : ℚ) ≤ w) (h2 : w ≤ (n : ℚ)) :
    -1 ≤ (if n > 0 then w / (n : ℚ) else w) ∧ (if n > 0 then w / (n : ℚ) else w) ≤ 1 := by
  split_ifs with hn
  · have hpos : (0 : ℚ) < (n : ℚ) := by exact_mod_cast hn
    constructor
    · rw [le_div_iff₀ hpos]; linarith
    · rw [div_le_iff₀ hpos]; linarith
  · have hz : n = 0 := by omega
    rw [hz] at h1 h2
    simp only [Int.cast_zero, neg_zero] at h1 h2
    constructor <;> linarith

theorem n2_score_bound (stages : List sleep_stage_t) (e : Nat) :
    -1 ≤ n2_score stages e ∧ n2_score stages e ≤ 1 := by
  unfold n2_score
  obtain ⟨a0, a1, a2⟩ := n2_scan_bound stages 1 (Or.inl rfl) (List.range' 0 e).reverse 0 0
    (le_refl _) (by simp) (by simp)
  obtain ⟨b0, b1, b2⟩ := n2_scan_bound stages (-1) (Or.inr rfl)
    (List.range' (e + 1) (stages.length - (e + 1))) 0 0 (le_refl _) (by simp) (by simp)
  obtain ⟨l1, l2⟩ := side_average_bound _ _ a0 a1 a2
  obtain ⟨r1, r2⟩ := side_average_bound _ _ b0 b1 b2
  simp only
  constructor
  · rw [le_div_iff₀ (by norm_num)]; linarith
  · rw [div_le_iff₀ (by norm_num)]; linarith

/-- C39: on a new hypnogram every entry of `n2_ascdesc` lies between -1 and 1
(an index outside the vector reads as 0). -/
theorem n2_ascdesc_bounded (stages : List sleep_stage_t) (e : Nat) :
    -1 ≤ (n2_ascdesc stages).getD e 0 ∧ (n2_ascdesc stages).getD e 0 ≤ 1 := by
  unfold n2_ascdesc n2_ascdesc_from
  by_cases he : e < stages.length
  · rw [getD_assign_where _ _ _ _ _ _ he, getD_resize_nil]
    split_ifs
    · exact n2_score_bound stages e
    · constructor <;> norm_num
  · unfold assign_where
    rw [getD_map_range_ge _ _ _ _ (by omega)]
    constructor <;> norm_num

/-- C33 at the night NREM3, 10 WAKE, NREM2: to the left of the NREM2 epoch 11
the ten nearest qualifying epochs are the WAKE epochs 1 to 10, whose average is
-1, and there is nothing to its right, so that a window of at most 10
qualifying epochs gives the score -1/2; the scan stops only once more than 10
epochs are counted, takes the NREM3 epoch 0 as an eleventh, and
`n2_ascdesc[11]` is (-9/11 + 0) / 2 = -9/22. -/
theorem n2_window_takes_eleven :
    n2_ascdesc_k = 10 ∧
    (∀ i, 1 ≤ i → i ≤ 10 → stage_at ([NREM3] ++ List.replicate 10 WAKE ++ [NREM2]) i = WAKE) ∧
    stage_at ([NREM3] ++ List.replicate 10 WAKE ++ [NREM2]) 11 = NREM2 ∧
    n2_scan ([NREM3] ++ List.replicate 10 WAKE ++ [NREM2]) 1 (List.range' 0 11).reverse 0 0
      = (-9, 11) ∧
    (n2_ascdesc ([NREM3] ++ List.replicate 10 WAKE ++ [NREM2])).getD 11 0 = -9 / 22 := by
  refine ⟨rfl, ?_, by decide, by decide!, by decide!⟩
  intro i h1 h2
  interval_cases i <;> rfl

/-! ## REM periods start inside a period -/

theorem rem_period_has_previous (thr : thresholds) (st : List sleep_stage_t) (e : Nat)
    (hper : (sleep_period thr st).getD e period_t.undefined = period_t.REM) :
    0 < e ∧ ((sleep_period thr st).getD (e - 1) period_t.undefined = period_t.NREM
      ∨ (sleep_period thr st).getD (e - 1) period_t.undefined = period_t.REM) := by
  have he : e < st.length := sleep_period_lt thr st e (by rw [hper]; decide)
  rw [sleep_period_getD] at hper ⊢
  rw [sleep_period_pairs_getD thr st e he] at hper
  cases h1 : (sleep_onset st).getD e false with
  | false => rw [sleep_period_step_outside _ _ _ _ _ h1] at hper; simp at hper
  | true =>
    rw [sleep_period_step_fst thr st _ e _ h1] at hper
    revert hper
    generalize (sleep_period_pairs thr st).getD (e - 1) (period_t.undefined, false) = q
    intro hper
    rcases period_chain_rem _ _ _ _ hper with c1 | c2
    · rw [Bool.and_eq_true] at c1
      obtain ⟨_, hd⟩ := c1
      by_cases h0 : e = 0
      · rw [if_pos h0] at hd
        exact absurd hd (by decide)
      · rw [if_neg h0] at hd
        simp only [ne_eq, decide_eq_true_eq] at hd
        refine ⟨by omega, ?_⟩
        cases hq : q.1 with
        | undefined => exact absurd hq hd
        | NREM => exact Or.inl rfl
        | REM => exact Or.inr rfl
    · simp only [Bool.and_eq_true, decide_eq_true_eq] at c2
      exact ⟨c2.1.1, Or.inr c2.1.2⟩

/-- On a new hypnogram the code 5 is given only inside a REM period. -/
theorem code_five_in_rem_period (thr : thresholds) (st : List sleep_stage_t) (e : Nat)
    (h5 : (sleep_code_from [] thr st).getD e 0 = 5) :
    (sleep_period thr st).getD e period_t.undefined = period_t.REM := by
  have he : e < st.length := by
    by_contra hge
    rw [List.getD_eq_default _ _ (by rw [length_sleep_code_from]; omega)] at h5
    exact absurd h5 (by decide)
  rw [sleep_code_getD [] thr st e he] at h5
  revert h5
  generalize sleep_code_from [] thr st = pr
  intro h5
  unfold sleep_code_step at h5
  simp only [getD_resize_zero_nil] at h5
  by_contra hne
  split_ifs at h5 <;> exact absurd h5 (by decide)

/-- C36: an epoch whose sleep period is REM is not epoch 0 and the period of the
epoch before it is NREM or REM; hence the first epoch with a period is in an
NREM period, and on a new hypnogram an epoch with `sleep_code` 5 is not epoch 0
and the epoch before it has a period. -/
theorem rem_period_starts_in_period (thr : thresholds) (stages : List sleep_stage_t) :
    (∀ e, (sleep_period thr stages).getD e period_t.undefined = period_t.REM →
      0 < e ∧ ((sleep_period thr stages).getD (e - 1) period_t.undefined = period_t.NREM
        ∨ (sleep_period thr stages).getD (e - 1) period_t.undefined = period_t.REM)) ∧
    (∀ e, (sleep_period thr stages).getD e period_t.undefined ≠ period_t.undefined →
      (∀ i, i < e → (sleep_period thr stages).getD i period_t.undefined = period_t.undefined) →
      (sleep_period thr stages).getD e period_t.undefined = period_t.NREM) ∧
    (∀ e, (sleep_code_from [] thr stages).getD e 0 = 5 →
      0 < e ∧ (sleep_period thr stages).getD (e - 1) period_t.undefined
        ≠ period_t.undefined) := by
  refine ⟨fun e h => rem_period_has_previous thr stages e h, ?_, ?_⟩
  · intro e hdef hfirst
    cases hp : (sleep_period thr stages).getD e period_t.undefined with
    | undefined => exact absurd hp hdef
    | NREM => rfl
    | REM =>
      obtain ⟨h0, h1⟩ := rem_period_has_previous thr stages e hp
      have := hfirst (e - 1) (by omega)
      rw [this] at h1
      rcases h1 with h | h <;> exact absurd h (by decide)
  · intro e h5
    obtain ⟨h0, h1⟩ := rem_period_has_previous thr stages e
      (code_five_in_rem_period thr stages e h5)
    refine ⟨h0, ?_⟩
    rcases h1 with h | h <;> rw [h] <;> decide

theorem rem_period_starts_in_period_witness :
    (sleep_code_from [] (thresholds_of (5 / 2))
        ([WAKE] ++ List.replicate 6 NREM2 ++ [REM])).getD 7 0 = 5 ∧
    (sleep_period (thresholds_of (5 / 2))
        ([WAKE] ++ List.replicate 6 NREM2 ++ [REM])).getD (7 - 1) period_t.undefined
      ≠ period_t.undefined :=
  have h5 : (sleep_code_from [] (thresholds_of (5 / 2))
      ([WAKE] ++ List.replicate 6 NREM2 ++ [REM])).getD 7 0 = 5 := by decide!
  ⟨h5, ((rem_period_starts_in_period (thresholds_of (5 / 2))
    ([WAKE] ++ List.replicate 6 NREM2 ++ [REM])).2.2 7 h5).2⟩

/-! ## Time in persistent sleep -/

theorem wata_backward_getD (l : List sleep_stage_t) :
    ∀ k, k < l.length → (∀ j, j ≤ k → is_sleep (stage_at l j) = false) →
      (wata_backward l).getD k false = is_wake_or_lights (stage_at l k) := by
  induction l with
  | nil => intro k hk; simp at hk
  | cons s rest ih =>
    intro k hk hns
    have h0 : is_sleep s = false := by
      have := hns 0 (by omega)
      rwa [stage_at_cons_zero] at this
    unfold wata_backward
    rw [if_neg (by rw [h0]; decide)]
    cases k with
    | zero => rw [List.getD_cons_zero, stage_at_cons_zero]
    | succ k =>
      rw [List.getD_cons_succ, stage_at_cons_succ]
      apply ih k (by simpa using hk)
      intro j hj
      have := hns (j + 1) (by omega)
      rwa [stage_at_cons_succ] at this

theorem length_wata_backward (l : List sleep_stage_t) : (wata_backward l).length = l.length := by
  induction l with
  | nil => rfl
  | cons s rest ih =>
    unfold wata_backward
    split_ifs
    · simp
    · simp [ih]

/-- After the last sleep epoch `wata` flags exactly the WAKE and LIGHTS_ON
epochs. -/
theorem wata_after_last_sleep (st : List sleep_stage_t) (e : Nat) (he : e < st.length)
    (hafter : ∀ i, e ≤ i → i < st.length → is_sleep (stage_at st i) = false) :
    (wata st).getD e false = is_wake_or_lights (stage_at st e) := by
  unfold wata
  rw [getD_reverse _ _ _ (by rw [length_wata_backward, List.length_reverse]; exact he),
    length_wata_backward, List.length_reverse,
    wata_backward_getD _ _ (by rw [List.length_reverse]; omega) (fun j hj => by
      rw [stage_at_reverse _ _ (by omega)]
      exact hafter _ (by omega) (by omega)),
    stage_at_reverse _ _ (by omega)]
  congr 2
  omega

/-- Outside the sleep span an epoch has no period and no flag. -/
theorem sleep_period_pairs_outside (thr : thresholds) (st : List sleep_stage_t) (e : Nat)
    (hout : (∀ i, i ≤ e → is_sleep (stage_at st i) = false)
      ∨ (∀ i, e ≤ i → i < st.length → is_sleep (stage_at st i) = false)) :
    (sleep_period_pairs thr st).getD e (period_t.undefined, false)
      = (period_t.undefined, false) := by
  by_cases he : e < st.length
  · rw [sleep_period_pairs_getD thr st e he]
    apply sleep_period_step_outside
    rw [Bool.eq_false_iff]
    intro hon
    obtain ⟨⟨i, hi, hs⟩, ⟨j, hj1, hj2, hs2⟩⟩ := (sleep_onset_getD st e he).1 hon
    rcases hout with h | h
    · rw [h i hi] at hs; exact absurd hs (by decide)
    · rw [h j hj1 hj2] at hs2; exact absurd hs2 (by decide)
  · exact sleep_period_pairs_ge thr st e (by omega)

/-- The code of an epoch that has no period and no flag. -/
theorem sleep_code_undefined (old : List Int) (thr : thresholds) (st : List sleep_stage_t)
    (e : Nat) (he : e < st.length)
    (hpair : (sleep_period_pairs thr st).getD e (period_t.undefined, false)
      = (period_t.undefined, false)) :
    (sleep_code_from old thr st).getD e 0 =
      if e > 0 ∧ (sleep_period thr st).getD (e - 1) period_t.undefined = period_t.REM
          ∧ (sleep_code_from old thr st).getD (e - 1) 0 = 1 then 1
      else if (wata st).getD e false = true then 0
      else if e > 0 ∧ (sleep_code_from old thr st).getD (e - 1) 0 = 1 then 1
      else 0 := by
  have hper : (sleep_period thr st).getD e period_t.undefined = period_t.undefined := by
    rw [sleep_period_getD, hpair]
  have hend : (cycle_ending_waso thr st).getD e false = false := by
    rw [cycle_ending_waso_getD, hpair]
  rw [sleep_code_getD old thr st e he]
  generalize sleep_code_from old thr st = pr
  unfold sleep_code_step
  simp only [hend, hper, Bool.false_eq_true, if_false, reduceCtorEq, true_and, and_true]

/-- Where the code is 0 the cycle number is 0. -/
theorem cycle_number_of_code_zero (oc onum : List Int) (thr : thresholds)
    (st : List sleep_stage_t) (e : Nat)
    (he : e < st.length) (hcode : (sleep_code_from oc thr st).getD e 0 = 0) :
    (sleep_cycle_number_from oc onum thr st).getD e 0 = 0 := by
  rw [sleep_cycle_number_getD oc onum thr st e he]
  generalize fill_epochs st.length
    (cycle_number_step thr st (sleep_code_from oc thr st) (resize_zero onum st.length)) = pr
  unfold cycle_number_step
  simp only [hcode, if_true]

/-- Before the first sleep epoch the code is 0. -/
theorem sleep_code_before_sleep (oc : List Int) (thr : thresholds) (st : List sleep_stage_t) :
    ∀ e, e < st.length → (∀ i, i ≤ e → is_sleep (stage_at st i) = false) →
      (sleep_code_from oc thr st).getD e 0 = 0 := by
  intro e
  induction e with
  | zero =>
    intro he hb
    rw [sleep_code_undefined oc thr st 0 he (sleep_period_pairs_outside thr st 0 (Or.inl hb))]
    simp
  | succ e ih =>
    intro he hb
    have hprev := ih (by omega) (fun i hi => hb i (by omega))
    rw [sleep_code_undefined oc thr st (e + 1) he
      (sleep_period_pairs_outside thr st (e + 1) (Or.inl hb)), Nat.add_sub_cancel, hprev]
    simp

/-- C35, as stated, fails. With 30-second epochs, in the night of 30 NREM2
epochs followed by UNSCORED, the last epoch comes after the last sleep epoch and
has `sleep_code` 1 and cycle number 1. With 150-second epochs, in the night
WAKE, 6 NREM2, REM, 6 NREM2, REM, WAKE the last epoch is WAKE, comes after the
last sleep epoch, follows a REM-period epoch with code 1 and has `sleep_code` 1
and cycle number 2. -/
theorem code_after_last_sleep :
    is_sleep (stage_at (List.replicate 30 NREM2 ++ [UNSCORED]) 30) = false ∧
    (List.replicate 30 NREM2 ++ [UNSCORED]).length = 31 ∧
    (∃ h, calc_stats (1 / 2) (List.replicate 30 NREM2 ++ [UNSCORED]) = Except.ok h ∧
      h.sleep_code.getD 30 0 = 1 ∧ h.sleep_cycle_number.getD 30 0 = 1) ∧
    stage_at ([WAKE] ++ List.replicate 6 NREM2 ++ [REM] ++ List.replicate 6 NREM2 ++ [REM, WAKE])
      15 = WAKE ∧
    ([WAKE] ++ List.replicate 6 NREM2 ++ [REM] ++ List.replicate 6 NREM2 ++ [REM, WAKE]).length
      = 16 ∧
    (∃ h, calc_stats (5 / 2)
        ([WAKE] ++ List.replicate 6 NREM2 ++ [REM] ++ List.replicate 6 NREM2 ++ [REM, WAKE])
          = Except.ok h ∧
      h.sleep_code.getD 14 0 = 1 ∧ h.sleep_code.getD 15 0 = 1 ∧
      h.sleep_cycle_number.getD 15 0 = 2) := by
  have hrun1 : returns_with (calc_stats (1 / 2) (List.replicate 30 NREM2 ++ [UNSCORED]))
      (fun h => decide (h.sleep_code.getD 30 0 = 1)
        && decide (h.sleep_cycle_number.getD 30 0 = 1)) = true := by
    decide!
  have hrun2 : returns_with (calc_stats (5 / 2)
      ([WAKE] ++ List.replicate 6 NREM2 ++ [REM] ++ List.replicate 6 NREM2 ++ [REM, WAKE]))
      (fun h => decide (h.sleep_code.getD 14 0 = 1) && decide (h.sleep_code.getD 15 0 = 1)
        && decide (h.sleep_cycle_number.getD 15 0 = 2)) = true := by
    decide!
  obtain ⟨h1, hok1, hp1⟩ := returns_with_ok hrun1
  obtain ⟨h2, hok2, hp2⟩ := returns_with_ok hrun2
  simp only [Bool.and_eq_true, decide_eq_true_eq] at hp1 hp2
  exact ⟨by decide, by decide, ⟨h1, hok1, hp1.1, hp1.2⟩, by decide, by decide,
    ⟨h2, hok2, hp2.1.1, hp2.1.2, hp2.2⟩⟩

/-- C35, amended: whatever `sleep_code` and `sleep_cycle_number` held before,
every epoch before the first sleep epoch has `sleep_code` 0 and cycle number 0;
an epoch after the last sleep epoch has `sleep_code` 0 and cycle number 0 if it
is WAKE or LIGHTS_ON and the epoch before it is not a REM-period epoch with
`sleep_code` 1. -/
theorem outside_sleep_span (old_code old_number : List Int) (thr : thresholds)
    (stages : List sleep_stage_t) (e : Nat) (he : e < stages.length) :
    ((∀ i, i ≤ e → is_sleep (stage_at stages i) = false) →
      (sleep_code_from old_code thr stages).getD e 0 = 0 ∧
      (sleep_cycle_number_from old_code old_number thr stages).getD e 0 = 0) ∧
    ((∀ i, e ≤ i → i < stages.length → is_sleep (stage_at stages i) = false) →
      is_wake_or_lights (stage_at stages e) = true →
      ¬ (0 < e ∧ (sleep_period thr stages).getD (e - 1) period_t.undefined = period_t.REM
          ∧ (sleep_code_from old_code thr stages).getD (e - 1) 0 = 1) →
      (sleep_code_from old_code thr stages).getD e 0 = 0 ∧
      (sleep_cycle_number_from old_code old_number thr stages).getD e 0 = 0) := by
  constructor
  · intro hb
    have hc := sleep_code_before_sleep old_code thr stages e he hb
    exact ⟨hc, cycle_number_of_code_zero old_code old_number thr stages e he hc⟩
  · intro ha hwl hnot
    have hc : (sleep_code_from old_code thr stages).getD e 0 = 0 := by
      rw [sleep_code_undefined old_code thr stages e he
        (sleep_period_pairs_outside thr stages e (Or.inr ha)), if_neg hnot,
        wata_after_last_sleep stages e he ha, if_pos hwl]
    exact ⟨hc, cycle_number_of_code_zero old_code old_number thr stages e he hc⟩

theorem outside_sleep_span_witness :
    (sleep_code_from [] (thresholds_of (1 / 2)) short_night).getD 1 0 = 0 ∧
    (sleep_cycle_number_from [] [] (thresholds_of (1 / 2)) short_night).getD 1 0 = 0 :=
  (outside_sleep_span [] [] (thresholds_of (1 / 2)) short_night 1 (by decide)).1
    (by intro i hi; interval_cases i <;> rfl)

/-! ## The WASO flag and the WASO statistic -/

theorem lights_on_epoch_cases (st : List sleep_stage_t) :
    (∃ e, lights_on_epoch st = e + 1 ∧ e < st.length ∧ stage_at st e ≠ LIGHTS_ON) ∨
    (lights_on_epoch st = st.length ∧
      ∀ i, 1 ≤ i → i < st.length → stage_at st i = LIGHTS_ON) := by
  unfold lights_on_epoch
  cases hf : (List.range' 1 (st.length - 1)).reverse.find?
      (fun e => stage_at st e ≠ LIGHTS_ON) with
  | none =>
    right
    refine ⟨rfl, fun i h1 h2 => ?_⟩
    have := rfind_range_none _ _ 1 hf i h1 (by omega)
    simpa using this
  | some e =>
    left
    obtain ⟨h1, h2, h3, _⟩ := rfind_range_some _ _ 1 e hf
    exact ⟨e, rfl, by omega, by simpa using h3⟩

theorem final_wake_epoch_cases (st : List sleep_stage_t) :
    (∃ e, final_wake_epoch st = e + 1 ∧ e < lights_on_epoch st ∧ stage_at st e ≠ WAKE ∧
      ∀ i, e < i → i < lights_on_epoch st → stage_at st i = WAKE) ∨
    (final_wake_epoch st = lights_on_epoch st ∧
      ∀ i, i < lights_on_epoch st → stage_at st i = WAKE) := by
  unfold final_wake_epoch
  rw [List.range_eq_range']
  cases hf : (List.range' 0 (lights_on_epoch st)).reverse.find?
      (fun e => stage_at st e ≠ WAKE) with
  | none =>
    right
    refine ⟨rfl, fun i h2 => ?_⟩
    have := rfind_range_none _ _ 0 hf i (Nat.zero_le _) (by omega)
    simpa using this
  | some e =>
    left
    obtain ⟨h1, h2, h3, h4⟩ := rfind_range_some _ _ 0 e hf
    refine ⟨e, rfl, by omega, by simpa using h3, fun i hi1 hi2 => ?_⟩
    have := h4 i hi1 (by omega)
    simpa using this

/-- An epoch before lights-on that is not WAKE lies before the final wake
epoch. -/
theorem lt_final_wake_of_not_wake (st : List sleep_stage_t) (i : Nat)
    (hi : i < lights_on_epoch st) (hw : stage_at st i ≠ WAKE) : i < final_wake_epoch st := by
  rcases final_wake_epoch_cases st with ⟨e, h1, h2, h3, h4⟩ | ⟨h1, h2⟩
  · rw [h1]
    by_contra hlt
    exact hw (h4 i (by omega) hi)
  · exact absurd (h2 i hi) hw

/-- The number of `true` entries of `is_waso`. -/
theorem count_is_waso_from (st : List sleep_stage_t) (f F : Nat) :
    (is_waso_from [] st f F).count true
      = ((List.range st.length).filter (fun e => decide (stage_at st e = WAKE)
          && decide (e > f) && decide (e < F))).length := by
  unfold is_waso_from assign_where
  rw [List.count_eq_countP, List.countP_map, List.countP_eq_length_filter]
  congr 1
  apply List.filter_congr
  intro e _
  simp only [Function.comp, getD_resize_nil]
  cases (decide (stage_at st e = WAKE) && decide (e > f) && decide (e < F)) <;> rfl

/-- C37, as stated, fails: in the night NREM2, WAKE, UNSCORED, WAKE with
30-second epochs the run returns with WASO = 0, while `is_waso` is true at
epoch 1 (first sleep epoch 0, final wake epoch 3), so that epoch-minutes times
the number of flagged epochs is 1/2. -/
theorem waso_flag_after_last_sleep :
    ∃ h, calc_stats (1 / 2) [NREM2, WAKE, UNSCORED, WAKE] = Except.ok h ∧
      (∃ i, i < [NREM2, WAKE, UNSCORED, WAKE].length ∧
        is_sleep (stage_at [NREM2, WAKE, UNSCORED, WAKE] i) = true) ∧
      h.WASO = 0 ∧ is_waso h = [false, true, false, false] ∧
      (1 / 2 : ℚ) * ((is_waso h).count true : ℕ) = 1 / 2 ∧
      h.WASO ≠ (1 / 2 : ℚ) * ((is_waso h).count true : ℕ) := by
  have hrun : returns_with (calc_stats (1 / 2) [NREM2, WAKE, UNSCORED, WAKE])
      (fun h => decide (h.WASO = 0) && decide (is_waso h = [false, true, false, false])) = true := by
    decide!
  obtain ⟨h, hok, hp⟩ := returns_with_ok hrun
  simp only [Bool.and_eq_true, decide_eq_true_eq] at hp
  refine ⟨h, hok, ⟨0, by decide, by decide⟩, hp.1, hp.2, ?_, ?_⟩
  · rw [hp.2]; norm_num [List.count]
  · rw [hp.1, hp.2]; norm_num [List.count]

/-- C37, amended: on a run that returns, for a night that contains sleep and a
non-negative epoch duration, WASO is at most epoch-minutes times the number of
epochs with `is_waso` true; the two are equal when every epoch after the last
sleep epoch is WAKE or LIGHTS_ON. -/
theorem waso_flag_count (epoch_mins : ℚ) (s : List sleep_stage_t) (h : hypnogram_t)
    (hrun : calc_stats epoch_mins s = Except.ok h)
    (hsleep : ∃ i, i < s.length ∧ is_sleep (stage_at s i) = true) :
    (0 ≤ epoch_mins → h.WASO ≤ epoch_mins * ((is_waso h).count true : ℕ)) ∧
    ((∀ i, i < s.length → (∀ j, i ≤ j → j < s.length → is_sleep (stage_at s j) = false) →
        is_wake_or_lights (stage_at s i) = true) →
      h.WASO = epoch_mins * ((is_waso h).count true : ℕ)) := by
  obtain ⟨hs, hlights, _, hh⟩ := (calc_stats_ok_iff epoch_mins s h).1 hrun
  have hlen := length_recode_edges s
  obtain ⟨i0, hi0, hsi0⟩ := hsleep
  -- the first and the last sleep epoch
  have hex : ∃ i, i < s.length ∧ is_sleep (stage_at s i) = true := ⟨i0, hi0, hsi0⟩
  classical
  obtain ⟨f, ⟨hf, hsf⟩, hfmin⟩ : ∃ f, (f < s.length ∧ is_sleep (stage_at s f) = true) ∧
      ∀ i, i < f → ¬ (i < s.length ∧ is_sleep (stage_at s i) = true) :=
    ⟨Nat.find hex, Nat.find_spec hex, fun i hi => Nat.find_min hex hi⟩
  have hbefore : ∀ i, i < f → is_sleep (stage_at s i) = false := by
    intro i hi
    have := hfmin i hi
    rw [Bool.eq_false_iff]
    intro hc
    exact this ⟨by omega, hc⟩
  obtain ⟨l, ⟨hl, hsl⟩, hlmax⟩ : ∃ l, (l < s.length ∧ is_sleep (stage_at s l) = true) ∧
      ∀ i, l < i → i < s.length → is_sleep (stage_at s i) = false := by
    refine ⟨Nat.findGreatest (fun i => i < s.length ∧ is_sleep (stage_at s i) = true) s.length,
      ?_, ?_⟩
    · exact Nat.findGreatest_spec (P := fun i => i < s.length ∧ is_sleep (stage_at s i) = true)
        (Nat.le_of_lt hi0) ⟨hi0, hsi0⟩
    · intro i hi1 hi2
      have := Nat.findGreatest_is_greatest
        (P := fun i => i < s.length ∧ is_sleep (stage_at s i) = true) hi1 (Nat.le_of_lt hi2)
      rw [Bool.eq_false_iff]
      intro hc
      exact this ⟨hi2, hc⟩
  have hfl : f ≤ l := by
    by_contra hgt
    have := hlmax f (by omega) hf
    rw [hsf] at this; exact absurd this (by simp)
  have hf1 : first_sleep_epoch (recode_edges s) (lps_required epoch_mins) = f := by
    apply first_sleep_epoch_of_first
    · rw [hlen]; exact hf
    · rw [is_sleep_recode_edges s f hf]; exact hsf
    · intro i hi
      rw [is_sleep_recode_edges s i (by omega)]; exact hbefore i hi
  have hl1 : last_sleep_epoch (recode_edges s) = l := by
    apply last_sleep_epoch_of_last
    · rw [hlen]; exact hl
    · rw [is_sleep_recode_edges s l hl]; exact hsl
    · intro i hi1 hi2
      rw [hlen] at hi2
      rw [is_sleep_recode_edges s i hi2]; exact hlmax i hi1 hi2
  have hWASO : h.WASO = (((List.range (recode_edges s).length).filter
      (fun e => decide (f ≤ e) && decide (e ≤ l)
        && decide (stage_at (recode_edges s) e = WAKE))).length : ℕ) * epoch_mins := by
    subst hh
    show ((waso_epochs (recode_edges s)
      (first_sleep_epoch (recode_edges s) (lps_required epoch_mins))
      (last_sleep_epoch (recode_edges s)) : ℕ) : ℚ) * epoch_mins = _
    rw [hf1, hl1, waso_epochs_eq_filter (recode_edges s)
      (fun e => decide (stage_at (recode_edges s) e = WAKE)) f l (recode_edges s).length
      hfl (by rw [hlen]; exact hl) (fun e _ => by simp)]
  have hcount : (is_waso h).count true = ((List.range (recode_edges s).length).filter
      (fun e => decide (stage_at (recode_edges s) e = WAKE) && decide (e > f)
        && decide (e < final_wake_epoch (recode_edges s)))).length := by
    subst hh
    show (is_waso_from [] (recode_edges s)
      (first_sleep_epoch (recode_edges s) (lps_required epoch_mins))
      (final_wake_epoch (recode_edges s))).count true = _
    rw [hf1, count_is_waso_from]
  -- facts on the recoded vector
  have hslr : is_sleep (stage_at (recode_edges s) l) = true := by
    rw [is_sleep_recode_edges s l hl]; exact hsl
  have hsfr : is_sleep (stage_at (recode_edges s) f) = true := by
    rw [is_sleep_recode_edges s f hf]; exact hsf
  have hlF : l < final_wake_epoch (recode_edges s) := by
    apply lt_final_wake_of_not_wake
    · apply lt_lights_on_of_not_lights _ _ (by rw [hlen]; exact hl)
      intro hc; rw [hc] at hslr; exact absurd hslr (by decide)
    · intro hc; rw [hc] at hslr; exact absurd hslr (by decide)
  have himp : ∀ e, (decide (f ≤ e) && decide (e ≤ l)
        && decide (stage_at (recode_edges s) e = WAKE)) = true →
      (decide (stage_at (recode_edges s) e = WAKE) && decide (e > f)
        && decide (e < final_wake_epoch (recode_edges s))) = true := by
    intro e he
    simp only [Bool.and_eq_true, decide_eq_true_eq] at he ⊢
    obtain ⟨⟨h1, h2⟩, h3⟩ := he
    refine ⟨⟨h3, ?_⟩, by omega⟩
    rcases Nat.eq_or_lt_of_le h1 with heq | hlt
    · subst heq; rw [h3] at hsfr; exact absurd hsfr (by decide)
    · exact hlt
  constructor
  · intro hem
    rw [hWASO, hcount, mul_comm]
    apply mul_le_mul_of_nonneg_left _ hem
    rw [← List.countP_eq_length_filter, ← List.countP_eq_length_filter]
    exact_mod_cast List.countP_mono_left (fun e _ => himp e)
  · intro hafter
    rw [hWASO, hcount, mul_comm]
    congr 2
    apply congrArg
    apply List.filter_congr
    intro e he
    rw [List.mem_range, hlen] at he
    rw [Bool.eq_iff_iff]
    refine ⟨himp e, fun hp => ?_⟩
    simp only [Bool.and_eq_true, decide_eq_true_eq] at hp ⊢
    obtain ⟨⟨h1, h2⟩, h3⟩ := hp
    refine ⟨⟨by omega, ?_⟩, h1⟩
    by_contra hgt
    have hel : l < e := by omega
    -- the epoch that fixes the final wake epoch is LIGHTS_ON
    rcases final_wake_epoch_cases (recode_edges s) with ⟨e1, g1, g2, g3, _⟩ | ⟨g1, g2⟩
    · have he1 : e < e1 := by
        rcases Nat.lt_trichotomy e e1 with a | a | a
        · exact a
        · subst a; exact absurd h1 g3
        · omega
      have hlo := lights_on_le_length (recode_edges s)
      have he1len : e1 < s.length := by omega
      have hns : ∀ j, e1 ≤ j → j < s.length → is_sleep (stage_at s j) = false :=
        fun j hj1 hj2 => hlmax j (by omega) hj2
      have hwl := hafter e1 he1len hns
      have hsame : stage_at (recode_edges s) e1 = LIGHTS_ON := by
        rcases stage_at_recode_edges_cases s e1 he1len with hc | ⟨_, hc⟩
        · rw [hc] at g3 ⊢
          cases hst : stage_at s e1 <;> rw [hst] at hwl g3 <;>
            first | rfl | exact absurd hwl (by decide) | exact absurd rfl g3
        · exact hc
      rcases lights_on_epoch_cases (recode_edges s) with ⟨e2, k1, k2, k3⟩ | ⟨k1, k2⟩
      · have he2 : e1 < e2 := by
          rcases Nat.lt_trichotomy e1 e2 with a | a | a
          · exact a
          · subst a; exact absurd hsame k3
          · omega
        have hhalt : lights_check_halts (recode_edges s) = true :=
          (lights_check_halts_iff _).2 ⟨e, e1, e2, he1, he2, k2, hsame,
            by rw [h1]; decide, k3⟩
        rw [hlights] at hhalt
        exact absurd hhalt (by decide)
      · have := k2 e (by omega) (by rw [hlen]; exact he)
        rw [h1] at this
        exact absurd this (by decide)
    · have hlo : l < lights_on_epoch (recode_edges s) := by omega
      have := g2 l hlo
      rw [this] at hslr
      exact absurd hslr (by decide)

theorem waso_flag_count_witness :
    (∃ i, i < short_night.length ∧ is_sleep (stage_at short_night i) = true) ∧
    (calc_stats_body [] [] (1 / 2) (recode_edges short_night)).WASO
      ≤ (1 / 2 : ℚ) *
        ((is_waso (calc_stats_body [] [] (1 / 2) (recode_edges short_night))).count true : ℕ) :=
  ⟨⟨2, by decide, by decide⟩,
    (waso_flag_count (1 / 2) short_night _
      ((calc_stats_ok_iff _ _ _).2 ⟨by decide, by decide, by decide!, rfl⟩)
      ⟨2, by decide, by decide⟩).1 (by norm_num)⟩

/-! ## Cycles as blocks of epochs -/

/-- On a new hypnogram a nonzero cycle number is either handed out afresh, with
the counter going up, or carried over from the epoch before. -/
theorem cycle_pairs_carry (thr : thresholds) (st : List sleep_stage_t) (e : Nat)
    (he : e < st.length) (hne : ((cycle_pairs thr st).getD e (0, 0)).1 ≠ 0) :
    ((cycle_pairs thr st).getD e (0, 0)).2
        = (if e = 0 then 0 else ((cycle_pairs thr st).getD (e - 1) (0, 0)).2) + 1 ∨
    (0 < e ∧ ((cycle_pairs thr st).getD e (0, 0)).1
        = ((cycle_pairs thr st).getD (e - 1) (0, 0)).1) := by
  have hget : ∀ e, e < st.length → (cycle_pairs thr st).getD e (0, 0)
      = cycle_number_step thr st (sleep_code_from [] thr st) (resize_zero [] st.length) e
          (fill_epochs e (cycle_number_step thr st (sleep_code_from [] thr st)
            (resize_zero [] st.length))) := by
    intro e he
    exact getD_fill_epochs _ _ _ _ he
  have hprev : 0 < e →
      (fill_epochs e (cycle_number_step thr st (sleep_code_from [] thr st)
        (resize_zero [] st.length))).getD (e - 1) (0, 0)
      = (cycle_pairs thr st).getD (e - 1) (0, 0) := by
    intro h0
    rw [hget (e - 1) (by omega), getD_fill_epochs _ _ _ _ (by omega)]
  rw [hget e he] at hne ⊢
  by_cases h0 : e = 0
  · subst h0
    rcases cycle_number_step_cases thr st (sleep_code_from [] thr st)
      (resize_zero [] st.length) 0 (fill_epochs 0 _) with h | h | h | h <;>
      rw [h] at hne ⊢ <;> simp only [getD_resize_zero_nil, if_true] at hne ⊢
    · exact absurd rfl hne
    · left; trivial
    · exact absurd rfl hne
    · exact absurd rfl hne
  · have hp := hprev (by omega)
    rcases cycle_number_step_cases thr st (sleep_code_from [] thr st)
      (resize_zero [] st.length) e (fill_epochs e _) with h | h | h | h <;>
      rw [h] at hne ⊢ <;> simp only [getD_resize_zero_nil, h0, if_false, hp] at hne ⊢
    · exact absurd rfl hne
    · left; trivial
    · exact absurd rfl hne
    · right; exact ⟨by omega, trivial⟩

/-- Between two epochs that carry the same nonzero number every epoch carries
that number. -/
theorem counted.block {ne : Nat} {num cnt : Nat → Int} (h : counted ne num cnt)
    (hcarry : ∀ e, e < ne → num e ≠ 0 →
      cnt e = (if e = 0 then 0 else cnt (e - 1)) + 1 ∨ (0 < e ∧ num e = num (e - 1)))
    (a b : Nat) (hab : a ≤ b) (hb : b < ne) (ha0 : num a ≠ 0) (hba : num b = num a) :
    ∀ c, a ≤ c → c ≤ b → num c = num a := by
  have hca : cnt a = num a := by
    rcases h.zero_or_count a (by omega) with h0 | h0
    · exact absurd h0 ha0
    · exact h0.symm
  have hcb : cnt b = num a := by
    rcases h.zero_or_count b hb with h0 | h0
    · rw [hba] at h0; exact absurd h0 ha0
    · rw [← h0, hba]
  have hcc : ∀ c, a ≤ c → c ≤ b → cnt c = num a := by
    intro c h1 h2
    have m1 := h.mono c (by omega) a h1
    have m2 := h.mono b hb c h2
    omega
  have key : ∀ d, d ≤ b - a → num (b - d) = num a := by
    intro d
    induction d with
    | zero => intro _; exact hba
    | succ d ih =>
      intro hd
      have ih1 := ih (by omega)
      have hpos : 0 < b - d := by omega
      rcases hcarry (b - d) (by omega) (by rw [ih1]; exact ha0) with hc | ⟨_, hc⟩
      · rw [if_neg (by omega)] at hc
        have c1 := hcc (b - d) (by omega) (by omega)
        have c2 := hcc (b - d - 1) (by omega) (by omega)
        omega
      · have : b - (d + 1) = b - d - 1 := by omega
        rw [this, ← hc]
        exact ih1
  intro c h1 h2
  have := key (b - c) (by omega)
  have hbc : b - (b - c) = c := by omega
  rw [hbc] at this
  exact this

/-- The number of epochs in an interval. -/
theorem length_filter_interval (q : Nat → Bool) (a b : Nat) :
    ∀ n, (∀ e, e < n → (q e = true ↔ a ≤ e ∧ e ≤ b)) →
      ((List.range n).filter q).length = min n (b + 1) - a := by
  intro n
  induction n with
  | zero => intro _; simp
  | succ n ih =>
    intro hq
    rw [length_filter_range_succ, ih (fun e he => hq e (by omega))]
    have := hq n (by omega)
    by_cases hqn : q n = true
    · rw [if_pos hqn]
      have := this.1 hqn
      omega
    · rw [if_neg hqn]
      have hno : ¬ (a ≤ n ∧ n ≤ b) := fun hc => hqn (this.2 hc)
      omega

/-- The cycle loop changes `cmax` at every epoch with a nonzero number. -/
theorem cycle_counts_step_cmax (st : List sleep_stage_t) (number : List Int)
    (c : cycle_counts) (m : Nat) (h0 : number.getD m 0 ≠ 0) :
    (cycle_counts_step st number c m).cmax = map_set c.cmax (number.getD m 0) m := by
  unfold cycle_counts_step
  simp only [h0, if_false]
  cases hr : is_rem (stage_at st m) <;> cases hn : is_nrem (stage_at st m) <;> simp

/-- After the epochs before `m`, `cmin[k]` is the first epoch numbered `k`. -/
theorem cycle_counts_cmin_prefix (st : List sleep_stage_t) (number : List Int) (k : Int)
    (hk : k ≠ 0) :
    ∀ m v, ((List.range m).foldl (cycle_counts_step st number) ⟨0, [], [], [], [], []⟩).cmin.lookup k
        = some v →
      ∃ e0 : Nat, v = (e0 : Int) ∧ e0 < m ∧ number.getD e0 0 = k ∧
        ∀ i, i < e0 → number.getD i 0 ≠ k := by
  intro m
  induction m with
  | zero => intro v hv; simp [List.lookup] at hv
  | succ m ih =>
    intro v hv
    obtain ⟨_, _, _, p4⟩ := cycle_counts_prefix st number k hk m
    rw [List.range_succ, List.foldl_append, List.foldl_cons, List.foldl_nil] at hv
    generalize (List.range m).foldl (cycle_counts_step st number) ⟨0, [], [], [], [], []⟩ = c
      at ih p4 hv
    obtain ⟨hz, hnz⟩ := cycle_counts_step_fields st number c m
    have hold : c.cmin.lookup k = some v → ∃ e0 : Nat, v = (e0 : Int) ∧ e0 < m + 1 ∧
        number.getD e0 0 = k ∧ ∀ i, i < e0 → number.getD i 0 ≠ k := by
      intro hc
      obtain ⟨e0, g1, g2, g3, g4⟩ := ih v hc
      exact ⟨e0, g1, by omega, g3, g4⟩
    by_cases h0 : number.getD m 0 = 0
    · rw [hz h0] at hv
      exact hold hv
    · rw [(hnz h0).1] at hv
      by_cases hnone : c.cmin.lookup (number.getD m 0) = none
      · rw [if_pos hnone, lookup_map_set] at hv
        by_cases hkm : k = number.getD m 0
        · rw [if_pos hkm] at hv
          refine ⟨m, (Option.some.inj hv).symm, by omega, hkm.symm, fun i hi hik => ?_⟩
          have hsome := p4.2 ⟨i, hi, hik⟩
          rw [hkm, hnone] at hsome
          exact absurd hsome (by simp)
        · rw [if_neg hkm] at hv
          exact hold hv
      · rw [if_neg hnone] at hv
        exact hold hv

/-- After the epochs before `m`, `cmax[k]` is the last epoch numbered `k`. -/
theorem cycle_counts_cmax_prefix (st : List sleep_stage_t) (number : List Int) (k : Int)
    (hk : k ≠ 0) :
    ∀ m, (∃ e, e < m ∧ number.getD e 0 = k) →
      ∃ e1 : Nat,
        ((List.range m).foldl (cycle_counts_step st number) ⟨0, [], [], [], [], []⟩).cmax.lookup k
          = some (e1 : Int) ∧ e1 < m ∧ number.getD e1 0 = k ∧
        ∀ i, e1 < i → i < m → number.getD i 0 ≠ k := by
  intro m
  induction m with
  | zero => rintro ⟨e, he, _⟩; omega
  | succ m ih =>
    rintro ⟨e, he, hek⟩
    rw [List.range_succ, List.foldl_append, List.foldl_cons, List.foldl_nil]
    generalize (List.range m).foldl (cycle_counts_step st number) ⟨0, [], [], [], [], []⟩ = c
      at ih ⊢
    by_cases hkm : number.getD m 0 = k
    · have h0 : number.getD m 0 ≠ 0 := by rw [hkm]; exact hk
      rw [cycle_counts_step_cmax st number c m h0, lookup_map_set, if_pos hkm.symm]
      exact ⟨m, rfl, by omega, hkm, fun i h1 h2 => by omega⟩
    · have hem : e < m := by
        rcases Nat.lt_or_ge e m with h | h
        · exact h
        · have : e = m := by omega
          rw [this] at hek; exact absurd hek hkm
      obtain ⟨e1, g1, g2, g3, g4⟩ := ih ⟨e, hem, hek⟩
      have hlast : ∀ i, e1 < i → i < m + 1 → number.getD i 0 ≠ k := by
        intro i h1 h2
        by_cases him : i = m
        · rw [him]; exact hkm
        · exact g4 i h1 (by omega)
      by_cases h0 : number.getD m 0 = 0
      · rw [(cycle_counts_step_fields st number c m).1 h0]
        exact ⟨e1, g1, by omega, g3, hlast⟩
      · rw [cycle_counts_step_cmax st number c m h0, lookup_map_set,
          if_neg (fun h => hkm h.symm)]
        exact ⟨e1, g1, by omega, g3, hlast⟩

/-- The block of a cycle number that occurs, on a new hypnogram: the epochs
numbered `k` are the epochs from `cmin[k]` to `cmax[k]`, and their number is
`cmax[k] - cmin[k] + 1`. -/
theorem cycle_block_body (thr : thresholds) (st : List sleep_stage_t) (k : Int) (hk : k ≠ 0)
    (hocc : ∃ e, e < st.length ∧ (sleep_cycle_number_from [] [] thr st).getD e 0 = k) :
    ∃ first last : Nat, first ≤ last ∧ last < st.length ∧
      (∀ e, e < st.length →
        ((sleep_cycle_number_from [] [] thr st).getD e 0 = k ↔ first ≤ e ∧ e ≤ last)) ∧
      (cycle_counts_of st (sleep_cycle_number_from [] [] thr st)).cmin.lookup k
        = some (first : Int) ∧
      (cycle_counts_of st (sleep_cycle_number_from [] [] thr st)).cmax.lookup k
        = some (last : Int) ∧
      ((List.range st.length).filter
        (fun e => decide ((sleep_cycle_number_from [] [] thr st).getD e 0 = k))).length
        = last - first + 1 := by
  have hc := cycle_pairs_counted thr st
  have hnum : ∀ e, (sleep_cycle_number_from [] [] thr st).getD e 0
      = ((cycle_pairs thr st).getD e (0, 0)).1 := by
    intro e
    rw [sleep_cycle_number_eq, getD_map_fst _ _ 0 0]
  obtain ⟨_, _, _, p4⟩ := cycle_counts_prefix st (sleep_cycle_number_from [] [] thr st) k hk
    st.length
  have hsome := p4.2 hocc
  obtain ⟨e1, q1, q2, q3, q4⟩ :=
    cycle_counts_cmax_prefix st (sleep_cycle_number_from [] [] thr st) k hk st.length hocc
  cases hlk : ((List.range st.length).foldl
      (cycle_counts_step st (sleep_cycle_number_from [] [] thr st))
      ⟨0, [], [], [], [], []⟩).cmin.lookup k with
  | none => rw [hlk] at hsome; exact absurd hsome (by simp)
  | some v =>
    obtain ⟨e0, r1, r2, r3, r4⟩ :=
      cycle_counts_cmin_prefix st (sleep_cycle_number_from [] [] thr st) k hk st.length v hlk
    have h01 : e0 ≤ e1 := by
      by_contra hgt
      exact q4 e0 (by omega) r2 r3
    have hblock : ∀ e, e < st.length →
        ((sleep_cycle_number_from [] [] thr st).getD e 0 = k ↔ e0 ≤ e ∧ e ≤ e1) := by
      intro e he
      constructor
      · intro hek
        constructor
        · by_contra hlt
          exact r4 e (by omega) hek
        · by_contra hgt
          exact q4 e (by omega) he hek
      · rintro ⟨h1, h2⟩
        have := counted.block hc (fun e he hne => cycle_pairs_carry thr st e he hne) e0 e1 h01 q2
          (by rw [← hnum, r3]; exact hk) (by rw [← hnum, ← hnum, q3, r3]) e h1 h2
        rw [hnum, this, ← hnum, r3]
    refine ⟨e0, e1, h01, q2, hblock, ?_, q1, ?_⟩
    · rw [← r1]; exact hlk
    · rw [length_filter_interval _ e0 e1 st.length (fun e he => by
        rw [decide_eq_true_eq]; exact hblock e he)]
      omega

/-- C34: on a run that returns, for every nonzero cycle number `k` that occurs
there are a first and a last member epoch such that the epochs numbered `k` are
exactly the epochs from the first to the last, and `nremc_epoch_duration[k]` is
last - first + 1. -/
theorem cycle_is_one_block (epoch_mins : ℚ) (s : List sleep_stage_t) (h : hypnogram_t)
    (hrun : calc_stats epoch_mins s = Except.ok h) (k : Int) (hk : k ≠ 0)
    (hocc : ∃ e, e < s.length ∧ h.sleep_cycle_number.getD e 0 = k) :
    ∃ first last : Nat, first ≤ last ∧ last < s.length ∧
      (∀ e, e < s.length → (h.sleep_cycle_number.getD e 0 = k ↔ first ≤ e ∧ e ≤ last)) ∧
      h.nremc_epoch_duration.lookup k = some ((last : Int) - (first : Int) + 1) := by
  obtain ⟨_, _, _, hh⟩ := (calc_stats_ok_iff epoch_mins s h).1 hrun
  have hlen := length_recode_edges s
  subst hh
  rw [← hlen] at hocc ⊢
  obtain ⟨first, last, h1, h2, h3, _, _, h6⟩ :=
    cycle_block_body (thresholds_of epoch_mins) (recode_edges s) k hk hocc
  refine ⟨first, last, h1, h2, h3, ?_⟩
  rw [(cycle_table_body epoch_mins (recode_edges s) k hk hocc).1]
  have h6i : ((((List.range (recode_edges s).length).filter
      (fun e => decide ((sleep_cycle_number_from [] [] (thresholds_of epoch_mins)
        (recode_edges s)).getD e 0 = k))).length : Nat) : Int) = ((last - first + 1 : Nat) : Int) :=
    congrArg _ h6
  rw [h6i]
  congr 1
  omega

theorem cycle_is_one_block_witness :
    (∃ e, e < cycle_scenario.length ∧
      (calc_stats_body [] [] (1 / 2) (recode_edges cycle_scenario)).sleep_cycle_number.getD e 0
        = 1) ∧
    ∃ first last : Nat, first ≤ last ∧ last < cycle_scenario.length ∧
      (∀ e, e < cycle_scenario.length →
        ((calc_stats_body [] [] (1 / 2) (recode_edges cycle_scenario)).sleep_cycle_number.getD e 0
          = 1 ↔ first ≤ e ∧ e ≤ last)) ∧
      (calc_stats_body [] [] (1 / 2) (recode_edges cycle_scenario)).nremc_epoch_duration.lookup 1
        = some ((last : Int) - (first : Int) + 1) :=
  have hocc : ∃ e, e < cycle_scenario.length ∧
      (calc_stats_body [] [] (1 / 2) (recode_edges cycle_scenario)).sleep_cycle_number.getD e 0
        = 1 := ⟨10, by decide, by decide!⟩
  ⟨hocc, cycle_is_one_block (1 / 2) cycle_scenario _
    ((calc_stats_ok_iff _ _ _).2 ⟨by decide, by decide, by decide!, rfl⟩) 1 (by decide) hocc⟩

/-! ## Position within the cycle -/

theorem getElem?_of_getD {α : Type} (l : List α) (e : Nat) (d v : α) (he : e < l.length)
    (h : l.getD e d = v) : l[e]? = some v := by
  rw [List.getD_eq_getElem?_getD, List.getElem?_eq_getElem he] at h
  rw [List.getElem?_eq_getElem he]
  exact congrArg some h

/-- C32: on a run that returns, with a positive epoch duration, an epoch `e`
with a nonzero cycle number `k` has `cycle_pos_absolute[e]` = (e - first) times
epoch-minutes, where `first` is the first epoch numbered `k`, has
`cycle_pos_relative[e]` = `cycle_pos_absolute[e] / nremc_duration[k]`, and
0 <= `cycle_pos_relative[e]` < 1; an epoch with cycle number 0 has both
positions -1. -/
theorem cycle_position (epoch_mins : ℚ) (s : List sleep_stage_t) (h : hypnogram_t)
    (hrun : calc_stats epoch_mins s = Except.ok h) (hem : 0 < epoch_mins) (e : Nat)
    (he : e < s.length) :
    (h.sleep_cycle_number.getD e 0 ≠ 0 →
      ∃ (first : Nat) (a r : ℚ), first ≤ e ∧
        h.sleep_cycle_number.getD first 0 = h.sleep_cycle_number.getD e 0 ∧
        (∀ i, i < first → h.sleep_cycle_number.getD i 0 ≠ h.sleep_cycle_number.getD e 0) ∧
        (cycle_pos_absolute epoch_mins h)[e]? = some a ∧
        (cycle_pos_relative epoch_mins h)[e]? = some r ∧
        a = ((((e : Int) - (first : Int) : Int)) : ℚ) * epoch_mins ∧
        r = a / map_at_double h.nremc_duration (h.sleep_cycle_number.getD e 0) ∧
        0 ≤ r ∧ r < 1) ∧
    (h.sleep_cycle_number.getD e 0 = 0 →
      (cycle_pos_absolute epoch_mins h)[e]? = some (-1 : ℚ) ∧
      (cycle_pos_relative epoch_mins h)[e]? = some (-1 : ℚ)) := by
  obtain ⟨_, _, _, hh⟩ := (calc_stats_ok_iff epoch_mins s h).1 hrun
  have hlen := length_recode_edges s
  subst hh
  rw [← hlen] at he
  have habs : (cycle_pos_absolute epoch_mins
      (calc_stats_body [] [] epoch_mins (recode_edges s))).getD e (-1)
      = if decide ((sleep_cycle_number_from [] [] (thresholds_of epoch_mins)
            (recode_edges s)).getD e 0 ≠ 0) = true
        then cycle_pos_absolute_at epoch_mins (recode_edges s)
          (sleep_cycle_number_from [] [] (thresholds_of epoch_mins) (recode_edges s)) e
        else -1 := by
    show (assign_where [] (-1) (recode_edges s).length _ _).getD e (-1) = _
    rw [getD_assign_where _ _ _ _ _ _ he, getD_resize_nil]
    rfl
  have hrel : (cycle_pos_relative epoch_mins
      (calc_stats_body [] [] epoch_mins (recode_edges s))).getD e (-1)
      = if decide ((sleep_cycle_number_from [] [] (thresholds_of epoch_mins)
            (recode_edges s)).getD e 0 ≠ 0) = true
        then cycle_pos_absolute_at epoch_mins (recode_edges s)
            (sleep_cycle_number_from [] [] (thresholds_of epoch_mins) (recode_edges s)) e
          / map_at_double (calc_stats_body [] [] epoch_mins (recode_edges s)).nremc_duration
            ((sleep_cycle_number_from [] [] (thresholds_of epoch_mins) (recode_edges s)).getD e 0)
        else -1 := by
    show (assign_where [] (-1) (recode_edges s).length _ _).getD e (-1) = _
    rw [getD_assign_where _ _ _ _ _ _ he, getD_resize_nil]
    rfl
  have hla : e < (cycle_pos_absolute epoch_mins
      (calc_stats_body [] [] epoch_mins (recode_edges s))).length := by
    show e < (assign_where [] (-1) (recode_edges s).length _ _).length
    rw [length_assign_where]; exact he
  have hlr : e < (cycle_pos_relative epoch_mins
      (calc_stats_body [] [] epoch_mins (recode_edges s))).length := by
    show e < (assign_where [] (-1) (recode_edges s).length _ _).length
    rw [length_assign_where]; exact he
  have hnumber : (calc_stats_body [] [] epoch_mins (recode_edges s)).sleep_cycle_number
      = sleep_cycle_number_from [] [] (thresholds_of epoch_mins) (recode_edges s) := rfl
  rw [hnumber]
  constructor
  · intro hk
    obtain ⟨first, last, h1, h2, h3, h4, _, h6⟩ :=
      cycle_block_body (thresholds_of epoch_mins) (recode_edges s) _ hk ⟨e, he, rfl⟩
    obtain ⟨hfe, hel⟩ := (h3 e he).1 rfl
    have hdur := (cycle_table_body epoch_mins (recode_edges s) _ hk ⟨e, he, rfl⟩).2.1
    rw [h6] at hdur
    have hd : map_at_double (calc_stats_body [] [] epoch_mins (recode_edges s)).nremc_duration
        ((sleep_cycle_number_from [] [] (thresholds_of epoch_mins) (recode_edges s)).getD e 0)
        = ((last - first + 1 : Nat) : ℚ) * epoch_mins := by
      unfold map_at_double
      rw [hdur]
    have ha : cycle_pos_absolute_at epoch_mins (recode_edges s)
        (sleep_cycle_number_from [] [] (thresholds_of epoch_mins) (recode_edges s)) e
        = ((((e : Int) - (first : Int) : Int)) : ℚ) * epoch_mins := by
      unfold cycle_pos_absolute_at map_at
      rw [h4]
    rw [if_pos (by simpa using hk)] at habs hrel
    refine ⟨first, _, _, hfe, (h3 first (by omega)).2 ⟨le_refl _, h1⟩, ?_,
      getElem?_of_getD _ _ _ _ hla habs, getElem?_of_getD _ _ _ _ hlr hrel, ha, rfl, ?_, ?_⟩
    · intro i hi hik
      have := ((h3 i (by omega)).1 hik).1
      omega
    · rw [ha, hd]
      apply div_nonneg
      · apply mul_nonneg _ (le_of_lt hem)
        have : (0 : Int) ≤ (e : Int) - (first : Int) := by omega
        exact_mod_cast this
      · apply mul_nonneg _ (le_of_lt hem)
        positivity
    · rw [ha, hd]
      have hpos : (0 : ℚ) < ((last - first + 1 : Nat) : ℚ) * epoch_mins := by
        apply mul_pos _ hem
        exact_mod_cast Nat.succ_pos _
      rw [div_lt_one hpos]
      apply mul_lt_mul_of_pos_right _ hem
      have : (e : Int) - (first : Int) < ((last - first + 1 : Nat) : Int) := by omega
      exact_mod_cast this
  · intro hk
    rw [if_neg (by rw [decide_eq_true_eq, not_not]; exact hk)] at habs hrel
    exact ⟨getElem?_of_getD _ _ _ _ hla habs, getElem?_of_getD _ _ _ _ hlr hrel⟩

theorem cycle_position_witness :
    (0 : ℚ) < 1 / 2 ∧ 10 < cycle_scenario.length ∧
    (calc_stats_body [] [] (1 / 2) (recode_edges cycle_scenario)).sleep_cycle_number.getD 10 0
      ≠ 0 ∧
    ∃ (first : Nat) (a r : ℚ), first ≤ 10 ∧
      (calc_stats_body [] [] (1 / 2) (recode_edges cycle_scenario)).sleep_cycle_number.getD first 0
        = (calc_stats_body [] [] (1 / 2) (recode_edges cycle_scenario)).sleep_cycle_number.getD
          10 0 ∧
      (∀ i, i < first →
        (calc_stats_body [] [] (1 / 2) (recode_edges cycle_scenario)).sleep_cycle_number.getD i 0
          ≠ (calc_stats_body [] [] (1 / 2) (recode_edges cycle_scenario)).sleep_cycle_number.getD
            10 0) ∧
      (cycle_pos_absolute (1 / 2)
        (calc_stats_body [] [] (1 / 2) (recode_edges cycle_scenario)))[10]? = some a ∧
      (cycle_pos_relative (1 / 2)
        (calc_stats_body [] [] (1 / 2) (recode_edges cycle_scenario)))[10]? = some r ∧
      a = ((((10 : Nat) : Int) - (first : Int) : Int) : ℚ) * (1 / 2) ∧
      r = a / map_at_double
        (calc_stats_body [] [] (1 / 2) (recode_edges cycle_scenario)).nremc_duration
        ((calc_stats_body [] [] (1 / 2) (recode_edges cycle_scenario)).sleep_cycle_number.getD
          10 0) ∧
      0 ≤ r ∧ r < 1 :=
  have hne : (calc_stats_body [] [] (1 / 2)
      (recode_edges cycle_scenario)).sleep_cycle_number.getD 10 0 ≠ 0 := by decide!
  ⟨by norm_num, by decide, hne,
    (cycle_position (1 / 2) cycle_scenario _
      ((calc_stats_ok_iff _ _ _).2 ⟨by decide, by decide, by decide!, rfl⟩) (by norm_num) 10
      (by decide)).1 hne⟩

/-! ## Mean cycle duration -/

theorem mem_keys_iff_lookup {β : Type} (l : List (Int × β)) (k : Int) :
    k ∈ l.map Prod.fst ↔ (l.lookup k).isSome = true := by
  induction l with
  | nil => simp [List.lookup]
  | cons kv rest ih =>
    obtain ⟨k1, v1⟩ := kv
    rw [List.map_cons, List.mem_cons, lookup_cons_key, ih]
    by_cases h : k = k1
    · simp [h]
    · simp [h]

theorem lookup_of_mem_sorted {β : Type} (l : List (Int × β))
    (hs : l.Pairwise (fun a b => a.1 < b.1)) (kv : Int × β) (hmem : kv ∈ l) :
    l.lookup kv.1 = some kv.2 := by
  induction l with
  | nil => simp at hmem
  | cons a rest ih =>
    obtain ⟨k1, v1⟩ := a
    rw [List.pairwise_cons] at hs
    rw [lookup_cons_key]
    rcases List.mem_cons.1 hmem with h | h
    · rw [h]; simp
    · have hlt : k1 < kv.1 := hs.1 kv h
      rw [if_neg (by omega)]
      exact ih hs.2 h

/-- A strictly increasing list of integers whose members are 1 .. n. -/
theorem sorted_keys_eq_range (l : List Int) (n : Int) (hs : l.Pairwise (fun a b => a < b))
    (hmem : ∀ k, k ∈ l ↔ 1 ≤ k ∧ k ≤ n) :
    l = (List.range n.toNat).map (fun (i : Nat) => (i : Int) + 1) := by
  have hs2 : ((List.range n.toNat).map (fun (i : Nat) => (i : Int) + 1)).Pairwise (fun a b => a < b) := by
    rw [List.pairwise_map]
    exact (List.pairwise_lt_range _).imp (fun h => by omega)
  apply List.eq_of_perm_of_sorted _ hs hs2
  rw [List.perm_ext_iff_of_nodup (hs.imp (fun h => ne_of_lt h)) (hs2.imp (fun h => ne_of_lt h))]
  intro k
  rw [hmem, List.mem_map]
  constructor
  · rintro ⟨h1, h2⟩
    exact ⟨(k - 1).toNat, by rw [List.mem_range]; omega, by omega⟩
  · rintro ⟨i, hi, hik⟩
    rw [List.mem_range] at hi
    omega

/-- The cycle loop never stores the key 0 in `cmin`. -/
theorem cmin_no_zero_key (st : List sleep_stage_t) (number : List Int) :
    ∀ m, ((List.range m).foldl (cycle_counts_step st number) ⟨0, [], [], [], [], []⟩).cmin.lookup 0
      = none := by
  intro m
  induction m with
  | zero => rfl
  | succ m ih =>
    rw [List.range_succ, List.foldl_append, List.foldl_cons, List.foldl_nil]
    generalize (List.range m).foldl (cycle_counts_step st number) ⟨0, [], [], [], [], []⟩ = c
      at ih ⊢
    obtain ⟨hz, hnz⟩ := cycle_counts_step_fields st number c m
    by_cases h0 : number.getD m 0 = 0
    · rw [hz h0]; exact ih
    · rw [(hnz h0).1]
      split_ifs
      · rw [lookup_map_set, if_neg (fun h => h0 h.symm)]; exact ih
      · exact ih

/-- The nonzero cycle numbers that occur on a new hypnogram are 1 .. `num_nremc`. -/
theorem occurs_iff_body (thr : thresholds) (st : List sleep_stage_t) (k : Int) :
    (k ≠ 0 ∧ ∃ e, e < st.length ∧ (sleep_cycle_number_from [] [] thr st).getD e 0 = k) ↔
      (1 ≤ k ∧ k ≤ (cycle_counts_of st (sleep_cycle_number_from [] [] thr st)).num_nremc) := by
  have hc := cycle_pairs_counted thr st
  have hnum : ∀ e, (sleep_cycle_number_from [] [] thr st).getD e 0
      = ((cycle_pairs thr st).getD e (0, 0)).1 := by
    intro e
    rw [sleep_cycle_number_eq, getD_map_fst _ _ 0 0]
  have hmax : (cycle_counts_of st (sleep_cycle_number_from [] [] thr st)).num_nremc
      = (if st.length = 0 then 0
          else ((cycle_pairs thr st).getD (st.length - 1) (0, 0)).2) := by
    unfold cycle_counts_of
    rw [num_nremc_foldl]
    exact num_nremc_is_count hc _ (fun e _ => hnum e) _ (le_refl _)
  have hread := hc.reading.2.2.2 k
  simp only [← hnum] at hread
  rw [← hmax] at hread
  exact hread

/-- The keys of `cmin` on a new hypnogram are 1 .. `num_nremc`. -/
theorem cmin_keys (thr : thresholds) (st : List sleep_stage_t) :
    (cycle_counts_of st (sleep_cycle_number_from [] [] thr st)).cmin.map Prod.fst
      = (List.range (cycle_counts_of st
          (sleep_cycle_number_from [] [] thr st)).num_nremc.toNat).map
          (fun (i : Nat) => (i : Int) + 1) := by
  apply sorted_keys_eq_range
  · rw [List.pairwise_map]
    exact cmin_sorted st _
  · intro k
    rw [mem_keys_iff_lookup, ← occurs_iff_body]
    by_cases hk : k = 0
    · subst hk
      have := cmin_no_zero_key st (sleep_cycle_number_from [] [] thr st) st.length
      unfold cycle_counts_of
      rw [this]
      simp
    · obtain ⟨_, _, _, p4⟩ :=
        cycle_counts_prefix st (sleep_cycle_number_from [] [] thr st) k hk st.length
      unfold cycle_counts_of
      rw [p4]
      exact ⟨fun h => ⟨hk, h⟩, fun h => h.2⟩

/-- C31: on a run that returns with `num_nremc` >= 1, `nremc_mean_duration`
times `num_nremc` is the sum over k = 1 .. `num_nremc` of `nremc_duration[k]`. -/
theorem mean_cycle_duration (epoch_mins : ℚ) (s : List sleep_stage_t) (h : hypnogram_t)
    (hrun : calc_stats epoch_mins s = Except.ok h) (hn : 1 ≤ h.num_nremc) :
    h.nremc_mean_duration * (h.num_nremc : ℚ)
      = ((List.range h.num_nremc.toNat).map
          (fun (i : Nat) => map_at_double h.nremc_duration ((i : Int) + 1))).sum := by
  obtain ⟨_, _, _, hh⟩ := (calc_stats_ok_iff epoch_mins s h).1 hrun
  subst hh
  have hnum : (calc_stats_body [] [] epoch_mins (recode_edges s)).num_nremc
      = (cycle_counts_of (recode_edges s)
          (sleep_cycle_number_from [] [] (thresholds_of epoch_mins) (recode_edges s))).num_nremc :=
    rfl
  rw [hnum] at hn ⊢
  have hmean : (calc_stats_body [] [] epoch_mins (recode_edges s)).nremc_mean_duration
      = ((cycle_counts_of (recode_edges s)
          (sleep_cycle_number_from [] [] (thresholds_of epoch_mins) (recode_edges s))).cmin.map
          (fun kv => (((map_at (cycle_counts_of (recode_edges s)
            (sleep_cycle_number_from [] [] (thresholds_of epoch_mins) (recode_edges s))).cmax kv.1
              - kv.2 + 1 : Int) : ℚ)) * epoch_mins)).sum
        / ((cycle_counts_of (recode_edges s)
          (sleep_cycle_number_from [] [] (thresholds_of epoch_mins)
            (recode_edges s))).num_nremc : ℚ) := by
    show (if _ then _ else _) = _
    rw [if_pos (by omega)]
  have hpos : ((cycle_counts_of (recode_edges s)
      (sleep_cycle_number_from [] [] (thresholds_of epoch_mins)
        (recode_edges s))).num_nremc : ℚ) ≠ 0 := by
    have : (cycle_counts_of (recode_edges s)
      (sleep_cycle_number_from [] [] (thresholds_of epoch_mins)
        (recode_edges s))).num_nremc ≠ 0 := by omega
    exact_mod_cast this
  rw [hmean, div_mul_cancel₀ _ hpos]
  have hterm : ∀ kv ∈ (cycle_counts_of (recode_edges s)
      (sleep_cycle_number_from [] [] (thresholds_of epoch_mins) (recode_edges s))).cmin,
      (((map_at (cycle_counts_of (recode_edges s)
          (sleep_cycle_number_from [] [] (thresholds_of epoch_mins) (recode_edges s))).cmax kv.1
            - kv.2 + 1 : Int) : ℚ)) * epoch_mins
        = map_at_double (calc_stats_body [] [] epoch_mins (recode_edges s)).nremc_duration
            kv.1 := by
    intro kv hkv
    have hlk := lookup_of_mem_sorted _ (cmin_sorted _ _) kv hkv
    have hk : kv.1 ≠ 0 := by
      intro h0
      have := cmin_no_zero_key (recode_edges s)
        (sleep_cycle_number_from [] [] (thresholds_of epoch_mins) (recode_edges s))
        (recode_edges s).length
      rw [h0] at hlk
      unfold cycle_counts_of at hlk
      rw [this] at hlk
      exact absurd hlk (by simp)
    obtain ⟨_, _, _, p4⟩ := cycle_counts_prefix (recode_edges s)
      (sleep_cycle_number_from [] [] (thresholds_of epoch_mins) (recode_edges s)) kv.1 hk
      (recode_edges s).length
    have hocc : ∃ e, e < (recode_edges s).length ∧
        (sleep_cycle_number_from [] [] (thresholds_of epoch_mins) (recode_edges s)).getD e 0
          = kv.1 := by
      apply p4.1
      have hlk2 := hlk
      unfold cycle_counts_of at hlk2
      rw [hlk2]; rfl
    obtain ⟨first, last, h1, _, _, h4, h5, h6⟩ :=
      cycle_block_body (thresholds_of epoch_mins) (recode_edges s) kv.1 hk hocc
    have hdur := (cycle_table_body epoch_mins (recode_edges s) kv.1 hk hocc).2.1
    rw [h6] at hdur
    have hv : kv.2 = (first : Int) := by
      rw [hlk] at h4
      exact Option.some.inj h4
    unfold map_at_double map_at
    rw [hdur, h5, hv]
    congr 1
    have : ((last : Int) - (first : Int) + 1) = ((last - first + 1 : Nat) : Int) := by omega
    show (((last : Int) - (first : Int) + 1 : Int) : ℚ) = _
    rw [this]
    norm_cast
  rw [List.map_congr_left hterm]
  have hcomp : (cycle_counts_of (recode_edges s)
      (sleep_cycle_number_from [] [] (thresholds_of epoch_mins) (recode_edges s))).cmin.map
      (fun kv => map_at_double
        (calc_stats_body [] [] epoch_mins (recode_edges s)).nremc_duration kv.1)
      = ((cycle_counts_of (recode_edges s)
          (sleep_cycle_number_from [] [] (thresholds_of epoch_mins)
            (recode_edges s))).cmin.map Prod.fst).map
          (fun k => map_at_double
            (calc_stats_body [] [] epoch_mins (recode_edges s)).nremc_duration k) := by
    rw [List.map_map]
    rfl
  rw [hcomp, cmin_keys, List.map_map]
  rfl

theorem mean_cycle_duration_witness :
    (1 : Int) ≤ (calc_stats_body [] [] (1 / 2) (recode_edges cycle_scenario)).num_nremc ∧
    (calc_stats_body [] [] (1 / 2) (recode_edges cycle_scenario)).nremc_mean_duration
        * ((calc_stats_body [] [] (1 / 2) (recode_edges cycle_scenario)).num_nremc : ℚ)
      = ((List.range
          (calc_stats_body [] [] (1 / 2) (recode_edges cycle_scenario)).num_nremc.toNat).map
          (fun (i : Nat) => map_at_double
            (calc_stats_body [] [] (1 / 2) (recode_edges cycle_scenario)).nremc_duration
            ((i : Int) + 1))).sum :=
  have hn : (1 : Int) ≤ (calc_stats_body [] [] (1 / 2) (recode_edges cycle_scenario)).num_nremc :=
    by decide!
  ⟨hn, mean_cycle_duration (1 / 2) cycle_scenario _
    ((calc_stats_ok_iff _ _ _).2 ⟨by decide, by decide, by decide!, rfl⟩) hn⟩

/-! ## Index safety -/

theorem mem_up_to (a b x : Int) : x ∈ up_to a b ↔ a ≤ x ∧ x < b := by
  unfold up_to
  rw [List.mem_map]
  constructor
  · rintro ⟨i, hi, rfl⟩
    rw [List.mem_range] at hi
    omega
  · rintro ⟨h1, h2⟩
    exact ⟨(x - a).toNat, by rw [List.mem_range]; omega, by omega⟩

theorem mem_down_to (a b x : Int) : x ∈ down_to a b ↔ b ≤ x ∧ x ≤ a := by
  unfold down_to
  rw [List.mem_map]
  constructor
  · rintro ⟨i, hi, rfl⟩
    rw [List.mem_range] at hi
    omega
  · rintro ⟨h1, h2⟩
    exact ⟨(a - x).toNat, by rw [List.mem_range]; omega, by omega⟩

theorem mem_until_break (brk : Int → Bool) (l : List Int) (x : Int)
    (h : x ∈ until_break brk l) : x ∈ l := by
  induction l with
  | nil => simp [until_break] at h
  | cons y ys ih =>
    unfold until_break at h
    split_ifs at h
    · rw [List.mem_singleton] at h
      rw [h]; exact List.mem_cons_self _ _
    · rcases List.mem_cons.1 h with h1 | h1
      · rw [h1]; exact List.mem_cons_self _ _
      · exact List.mem_cons_of_mem _ (ih h1)

theorem mem_window (ne e d x : Int) (h : x ∈ window ne e d) : e ≤ x ∧ x ≤ ne - 1 := by
  unfold window at h
  simp only at h
  rw [mem_up_to] at h
  split_ifs at h <;> omega

theorem collect_safe (P : Int → Prop) :
    ∀ l : List (Option (List Int)), (∀ o ∈ l, ∃ tr, o = some tr ∧ ∀ i ∈ tr, P i) →
      ∃ tr, collect l = some tr ∧ ∀ i ∈ tr, P i := by
  intro l
  induction l with
  | nil => intro _; exact ⟨[], rfl, fun i hi => by simp at hi⟩
  | cons o rest ih =>
    intro h
    obtain ⟨tr, ho, htr⟩ := h o (List.mem_cons_self _ _)
    obtain ⟨tr2, hc, htr2⟩ := ih (fun o2 ho2 => h o2 (List.mem_cons_of_mem _ ho2))
    subst ho
    refine ⟨tr ++ tr2, by simp [collect, hc], fun i hi => ?_⟩
    rcases List.mem_append.1 hi with h1 | h1
    · exact htr i h1
    · exact htr2 i h1

/-- A loop whose state stays in `I` and whose measure goes down with every pass
ends within as many passes as the measure allows, and its indices are those of
the passes. -/
theorem run_loop_safe {σ : Type} (body : σ → List Int × Option σ) (P : Int → Prop)
    (I : σ → Prop) (μ : σ → Nat)
    (hstep : ∀ s, I s → (∀ i ∈ (body s).1, P i) ∧
      ∀ s1, (body s).2 = some s1 → I s1 ∧ μ s1 < μ s) :
    ∀ fuel s, I s → μ s < fuel → ∃ tr, run_loop body fuel s = some tr ∧ ∀ i ∈ tr, P i := by
  intro fuel
  induction fuel with
  | zero => intro s _ h; omega
  | succ fuel ih =>
    intro s hI hμ
    obtain ⟨h1, h2⟩ := hstep s hI
    unfold run_loop
    rcases hb : body s with ⟨reads, next⟩
    rw [hb] at h1 h2
    cases next with
    | none => exact ⟨reads, rfl, h1⟩
    | some s1 =>
      obtain ⟨g1, g2⟩ := h2 s1 rfl
      obtain ⟨tr, ht, hp⟩ := ih s1 g1 (by omega)
      refine ⟨reads ++ tr, by simp [ht], fun i hi => ?_⟩
      rcases List.mem_append.1 hi with h3 | h3
      · exact h1 i h3
      · exact hp i h3

theorem some_safe (P : Int → Prop) (l : List Int) (h : ∀ i ∈ l, P i) :
    ∃ tr, some l = some tr ∧ ∀ i ∈ tr, P i := ⟨l, rfl, h⟩

theorem recode_accesses_safe (stages : List sleep_stage_t) (hne : stages ≠ []) (fuel : Nat)
    (hfuel : stages.length < fuel) :
    ∃ tr, recode_accesses fuel stages = some tr ∧
      ∀ i ∈ tr, 0 ≤ i ∧ i < (stages.length : Int) := by
  have hpos : 0 < stages.length := List.length_pos.2 hne
  unfold recode_accesses
  apply collect_safe
  intro o ho
  simp only [List.mem_cons, List.mem_singleton, List.not_mem_nil, or_false] at ho
  rcases ho with rfl | rfl
  · apply some_safe
    intro i hi
    have := (mem_up_to _ _ _).1 (mem_until_break _ _ _ hi)
    omega
  · apply run_loop_safe _ _ (fun e => 0 ≤ e ∧ e < (stages.length : Int)) (fun e => e.toNat)
    · intro e he
      constructor
      · intro i hi
        split_ifs at hi <;> simp at hi <;> omega
      · intro s1 hs1
        split_ifs at hs1 <;> simp at hs1 <;> omega
    · omega
    · omega

theorem epoch_loop_accesses_safe (stages : List sleep_stage_t) :
    ∀ i ∈ epoch_loop_accesses stages, 0 ≤ i ∧ i < (stages.length : Int) := by
  intro i hi
  have := (mem_up_to _ _ _).1 hi
  omega

theorem lights_check_accesses_safe (stages : List sleep_stage_t) (fuel : Nat)
    (hfuel : stages.length < fuel) :
    ∃ tr, lights_check_accesses fuel stages = some tr ∧
      ∀ i ∈ tr, 0 ≤ i ∧ i < (stages.length : Int) := by
  unfold lights_check_accesses
  apply run_loop_safe _ _ (fun (s : Int × Bool) => 1 ≤ s.1)
    (fun s => ((stages.length : Int) - s.1).toNat)
  · intro s hs
    constructor
    · intro i hi
      simp only at hi
      split_ifs at hi <;> simp at hi <;> omega
    · intro s1 hs1
      simp only at hs1
      split_ifs at hs1 <;> simp at hs1 <;> subst hs1 <;> simp only <;> omega
  · show (1 : Int) ≤ 1
    omega
  · simp only
    omega

theorem boundary_accesses_safe (stages : List sleep_stage_t) :
    ∀ i ∈ boundary_accesses stages, 0 ≤ i ∧ i < (stages.length : Int) := by
  intro i hi
  unfold boundary_accesses at hi
  simp only [List.mem_append] at hi
  have hlo := lights_on_le_length stages
  rcases hi with ((h | h) | h) | h
  · have := (mem_up_to _ _ _).1 (mem_until_break _ _ _ h)
    omega
  · have := (mem_down_to _ _ _).1 (mem_until_break _ _ _ h)
    omega
  · have := (mem_down_to _ _ _).1 (mem_until_break _ _ _ h)
    omega
  · have := (mem_up_to _ _ _).1 (mem_until_break _ _ _ h)
    omega

theorem first_sleep_accesses_safe (stages : List sleep_stage_t) (lps_req : Int) :
    ∀ i ∈ first_sleep_accesses stages lps_req, 0 ≤ i ∧ i < (stages.length : Int) := by
  intro i hi
  unfold first_sleep_accesses at hi
  simp only [List.mem_flatMap] at hi
  obtain ⟨e, he, hie⟩ := hi
  have hr := (mem_up_to _ _ _).1 (mem_until_break _ _ _ he)
  rcases List.mem_cons.1 hie with h | h
  · omega
  · split_ifs at h
    · have h1 := mem_until_break _ _ _ h
      have h2 := List.mem_takeWhile_imp h1
      have h3 := (mem_up_to _ _ _).1 ((List.takeWhile_sublist _).subset h1)
      simp only [decide_eq_true_eq] at h2
      omega
    · simp at h

theorem last_sleep_accesses_safe (stages : List sleep_stage_t) (hne : stages ≠ []) (fuel : Nat)
    (hfuel : stages.length < fuel) :
    ∃ tr, last_sleep_accesses fuel stages = some tr ∧
      ∀ i ∈ tr, 0 ≤ i ∧ i < (stages.length : Int) := by
  have hpos : 0 < stages.length := List.length_pos.2 hne
  unfold last_sleep_accesses
  apply run_loop_safe _ _ (fun e => 0 ≤ e ∧ e < (stages.length : Int)) (fun e => e.toNat)
  · intro e he
    constructor
    · intro i hi
      split_ifs at hi <;> simp at hi <;> omega
    · intro s1 hs1
      split_ifs at hs1 <;> simp at hs1 <;> omega
  · omega
  · omega

theorem waso_accesses_safe (stages : List sleep_stage_t) (hne : stages ≠ []) (lps_req : Int) :
    ∀ i ∈ waso_accesses stages lps_req, 0 ≤ i ∧ i < (stages.length : Int) := by
  intro i hi
  have hpos : 0 < stages.length := List.length_pos.2 hne
  have hl := last_sleep_epoch_lt stages hpos
  have := (mem_up_to _ _ _).1 hi
  omega

theorem persistent_sleep_accesses_safe (stages : List sleep_stage_t) (P : Int) (hP : 1 ≤ P)
    (fuel : Nat) (hfuel : stages.length < fuel) :
    ∃ tr, persistent_sleep_accesses fuel stages P = some tr ∧
      ∀ i ∈ tr, 0 ≤ i ∧ i < (stages.length : Int) := by
  unfold persistent_sleep_accesses
  apply collect_safe
  intro o ho
  simp only [List.mem_map] at ho
  obtain ⟨e, he, rfl⟩ := ho
  have hr := (mem_up_to _ _ _).1 he
  have hself : ∀ i ∈ [e], 0 ≤ i ∧ i < (stages.length : Int) := by
    intro i hi
    simp only [List.mem_singleton] at hi
    omega
  split_ifs
  · exact some_safe _ _ hself
  · apply collect_safe
    intro o ho
    simp only [List.mem_cons, List.mem_singleton, List.not_mem_nil, or_false] at ho
    rcases ho with rfl | rfl | rfl
    · exact some_safe _ _ hself
    · apply run_loop_safe _ _ (fun ec => ec < e) (fun ec => if ec < 0 then 0 else (e - ec).toNat)
      · intro ec hec
        constructor
        · intro i hi
          split_ifs at hi <;> simp at hi <;> omega
        · intro s1 hs1
          split_ifs at hs1 <;> simp at hs1 <;> subst hs1 <;>
            refine ⟨by omega, ?_⟩ <;> split_ifs <;> omega
      · show e - P < e
        omega
      · show (if e - P < 0 then 0 else (e - (e - P)).toNat) < fuel
        split_ifs <;> omega
    · exact some_safe _ _ hself

theorem from_end_accesses_safe (stages : List sleep_stage_t) :
    ∀ i ∈ from_end_accesses stages, 0 ≤ i ∧ i < (stages.length : Int) := by
  intro i hi
  have := (mem_down_to _ _ _).1 (mem_until_break _ _ _ hi)
  omega

theorem all_inside_nil (ne : Int) : all_inside ne [] ↔ True := by
  simp [all_inside]

theorem all_inside_cons (ne x : Int) (l : List Int) :
    all_inside ne (x :: l) ↔ (0 ≤ x ∧ x < ne) ∧ all_inside ne l := by
  simp [all_inside]

theorem all_inside_append (ne : Int) (a b : List Int) :
    all_inside ne (a ++ b) ↔ all_inside ne a ∧ all_inside ne b := by
  simp only [all_inside, List.mem_append]
  constructor
  · intro h
    exact ⟨fun i hi => h i (Or.inl hi), fun i hi => h i (Or.inr hi)⟩
  · rintro ⟨h1, h2⟩ i (hi | hi)
    · exact h1 i hi
    · exact h2 i hi

theorem all_inside_ite (ne : Int) (c : Prop) [Decidable c] (a b : List Int) :
    all_inside ne (if c then a else b) ↔ (c → all_inside ne a) ∧ (¬ c → all_inside ne b) := by
  split_ifs with h
  · simp [h]
  · simp [h]

theorem all_inside_flatMap (ne : Int) (l : List Int) (f : Int → List Int) :
    all_inside ne (l.flatMap f) ↔ ∀ x ∈ l, all_inside ne (f x) := by
  simp only [all_inside, List.mem_flatMap]
  constructor
  · intro h x hx i hi
    exact h i ⟨x, hx, hi⟩
  · rintro h i ⟨x, hx, hi⟩
    exact h x hx i hi

theorem all_inside_until_break (ne : Int) (brk : Int → Bool) (l : List Int)
    (h : all_inside ne l) : all_inside ne (until_break brk l) :=
  fun i hi => h i (mem_until_break brk l i hi)

theorem all_inside_window (ne e d : Int) (he : 0 ≤ e) : all_inside ne (window ne e d) := by
  intro i hi
  have := mem_window _ _ _ _ hi
  omega

theorem all_inside_up_to (ne a b : Int) (ha : 0 ≤ a) (hb : b ≤ ne) : all_inside ne (up_to a b) := by
  intro i hi
  have := (mem_up_to _ _ _).1 hi
  omega

theorem all_inside_count (ne e : Int) (l : List Int) (brk : Int → Bool) (he : 0 ≤ e)
    (hl : ∀ x ∈ l, x < ne) :
    all_inside ne (up_to e ((match l.find? brk with
      | some e2 => e2
      | none => ne - 1) + 1)) := by
  apply all_inside_up_to _ _ _ he
  cases hf : l.find? brk with
  | none => exact le_of_eq (sub_add_cancel ne 1)
  | some e2 =>
    have := hl e2 (List.mem_of_find?_eq_some hf)
    show e2 + 1 ≤ ne
    omega

theorem sleep_period_accesses_safe (thr : thresholds) (stages : List sleep_stage_t) :
    ∀ i ∈ sleep_period_accesses thr stages, 0 ≤ i ∧ i < (stages.length : Int) := by
  show all_inside _ _
  unfold sleep_period_accesses
  simp only
  rw [all_inside_flatMap]
  intro e he
  have hr := (mem_up_to _ _ _).1 he
  have hw : ∀ (brk : Int → Bool) (d : Int),
      all_inside (stages.length : Int) (until_break brk (window (stages.length : Int) e d)) :=
    fun brk d => all_inside_until_break _ _ _ (all_inside_window _ _ _ hr.1)
  have hself : all_inside (stages.length : Int) [e] :=
    (all_inside_cons _ _ _).2 ⟨hr, (all_inside_nil _).2 trivial⟩
  have hprev : all_inside (stages.length : Int) (if e = 0 then [] else [e - 1]) := by
    simp only [all_inside_ite, all_inside_cons, all_inside_nil]
    exact ⟨fun _ => trivial, fun h => ⟨by omega, trivial⟩⟩
  simp only [all_inside_ite, all_inside_append, hw, hself, hprev, all_inside_nil, implies_true,
    and_self]

theorem first_period_accesses_safe (thr : thresholds) (stages : List sleep_stage_t) :
    ∀ i ∈ first_period_accesses thr stages, 0 ≤ i ∧ i < (stages.length : Int) := by
  intro i hi
  unfold first_period_accesses at hi
  simp only [List.mem_append] at hi
  rcases hi with h | h
  · have := (mem_up_to _ _ _).1 (mem_until_break _ _ _ h)
    omega
  · have := (mem_up_to _ _ _).1 (mem_until_break _ _ _ h)
    omega

theorem sleep_code_accesses_safe (thr : thresholds) (stages : List sleep_stage_t) :
    ∀ i ∈ sleep_code_accesses thr stages, 0 ≤ i ∧ i < (stages.length : Int) := by
  show all_inside _ _
  unfold sleep_code_accesses
  simp only
  rw [all_inside_flatMap]
  intro e he
  have hr := (mem_up_to _ _ _).1 he
  have hw : ∀ (d : Int), all_inside (stages.length : Int) (window (stages.length : Int) e d) :=
    fun d => all_inside_window _ _ _ hr.1
  have hself : all_inside (stages.length : Int) [e] :=
    (all_inside_cons _ _ _).2 ⟨hr, (all_inside_nil _).2 trivial⟩
  have hprev : all_inside (stages.length : Int) (if e > 0 then [e - 1] else []) := by
    simp only [all_inside_ite, all_inside_cons, all_inside_nil]
    exact ⟨fun h => ⟨by omega, trivial⟩, fun _ => trivial⟩
  simp only [all_inside_ite, all_inside_append, hw, hself, hprev, all_inside_nil, implies_true,
    and_self]

theorem cycle_number_accesses_safe (stages : List sleep_stage_t) (code : List Int) :
    ∀ i ∈ cycle_number_accesses stages code, 0 ≤ i ∧ i < (stages.length : Int) := by
  show all_inside _ _
  unfold cycle_number_accesses
  simp only
  rw [all_inside_flatMap]
  intro e he
  have hr := (mem_up_to _ _ _).1 he
  have hself : all_inside (stages.length : Int) [e] :=
    (all_inside_cons _ _ _).2 ⟨hr, (all_inside_nil _).2 trivial⟩
  have hprev : all_inside (stages.length : Int) (if e = 0 then [] else [e - 1]) := by
    simp only [all_inside_ite, all_inside_cons, all_inside_nil]
    exact ⟨fun _ => trivial, fun h => ⟨by omega, trivial⟩⟩
  have hscan : ∀ (brk : Int → Bool),
      all_inside (stages.length : Int) (until_break brk (up_to e (stages.length : Int))) :=
    fun brk => all_inside_until_break _ _ _ (all_inside_up_to _ _ _ hr.1 (le_refl _))
  have hcount := all_inside_count (stages.length : Int) e (up_to e (stages.length : Int))
    (fun e2 => decide (code.getD e2.toNat 0 = 0 ∨ code.getD e2.toNat 0 = 5)) hr.1
    (fun x hx => ((mem_up_to _ _ _).1 hx).2)
  simp only [all_inside_ite, all_inside_append, hself, hprev, hscan, hcount, all_inside_nil,
    implies_true, and_self]

theorem total_accesses_safe (stages : List sleep_stage_t) (hne : stages ≠ []) :
    ∀ i ∈ total_accesses stages, 0 ≤ i ∧ i < (stages.length : Int) := by
  intro i hi
  have hpos : 0 < stages.length := List.length_pos.2 hne
  unfold total_accesses at hi
  rcases List.mem_cons.1 hi with h | h
  · omega
  · have := (mem_up_to _ _ _).1 h
    omega

theorem n2_scan_left_safe (stages : List sleep_stage_t) (fuel : Nat)
    (hfuel : stages.length < fuel) (e : Int) (he : 0 ≤ e ∧ e < (stages.length : Int)) :
    ∃ tr, n2_scan_accesses fuel stages (fun k => decide (k ≥ 0)) (-1) (e - 1) = some tr ∧
      ∀ i ∈ tr, 0 ≤ i ∧ i < (stages.length : Int) := by
  unfold n2_scan_accesses
  apply run_loop_safe _ _ (fun (s : Int × Int) => s.1 < (stages.length : Int))
    (fun s => (s.1 + 1).toNat)
  · intro s hs
    constructor
    · intro i hi
      simp only at hi
      split_ifs at hi <;> simp at hi <;> simp only [decide_eq_true_eq] at * <;> omega
    · intro s1 hs1
      simp only at hs1
      split_ifs at hs1 <;> simp at hs1 <;> subst hs1 <;>
        simp only [decide_eq_true_eq] at * <;> omega
  · show e - 1 < (stages.length : Int)
    omega
  · show (e - 1 + 1).toNat < fuel
    omega

theorem n2_scan_right_safe (stages : List sleep_stage_t) (fuel : Nat)
    (hfuel : stages.length < fuel) (e : Int) (he : 0 ≤ e ∧ e < (stages.length : Int)) :
    ∃ tr, n2_scan_accesses fuel stages (fun k => decide (k < (stages.length : Int))) 1 (e + 1)
        = some tr ∧
      ∀ i ∈ tr, 0 ≤ i ∧ i < (stages.length : Int) := by
  unfold n2_scan_accesses
  apply run_loop_safe _ _ (fun (s : Int × Int) => 0 ≤ s.1)
    (fun s => ((stages.length : Int) - s.1).toNat)
  · intro s hs
    constructor
    · intro i hi
      simp only at hi
      split_ifs at hi <;> simp at hi <;> simp only [decide_eq_true_eq] at * <;> omega
    · intro s1 hs1
      simp only at hs1
      split_ifs at hs1 <;> simp at hs1 <;> subst hs1 <;>
        simp only [decide_eq_true_eq] at * <;> omega
  · show 0 ≤ e + 1
    omega
  · show ((stages.length : Int) - (e + 1)).toNat < fuel
    omega

theorem n2_ascdesc_accesses_safe (stages : List sleep_stage_t) (fuel : Nat)
    (hfuel : stages.length < fuel) :
    ∃ tr, n2_ascdesc_accesses fuel stages = some tr ∧
      ∀ i ∈ tr, 0 ≤ i ∧ i < (stages.length : Int) := by
  unfold n2_ascdesc_accesses
  apply collect_safe
  intro o ho
  simp only [List.mem_map] at ho
  obtain ⟨e, he, rfl⟩ := ho
  have hr := (mem_up_to _ _ _).1 he
  have hself : ∀ i ∈ [e], 0 ≤ i ∧ i < (stages.length : Int) := by
    intro i hi
    simp only [List.mem_singleton] at hi
    omega
  split_ifs
  · exact some_safe _ _ hself
  · apply collect_safe
    intro o ho
    simp only [List.mem_cons, List.mem_singleton, List.not_mem_nil, or_false] at ho
    rcases ho with rfl | rfl | rfl | rfl
    · exact some_safe _ _ hself
    · exact n2_scan_left_safe stages fuel hfuel e hr
    · exact n2_scan_right_safe stages fuel hfuel e hr
    · exact some_safe _ _ hself

theorem mem_flank_passes (ne e : Int) (brk : Int → Bool) (j : Int)
    (h : j ∈ flank_passes ne e brk) : 1 ≤ j ∧ 0 ≤ e - j ∧ e + j < ne := by
  unfold flank_passes at h
  have h1 := mem_until_break _ _ _ h
  have h2 := List.mem_takeWhile_imp h1
  have h3 := (mem_up_to _ _ _).1 ((List.takeWhile_sublist _).subset h1)
  simp only [Bool.not_eq_true', Bool.or_eq_false_iff, decide_eq_false_iff_not] at h2
  omega

theorem flanking_accesses_safe (flanking_3class : Bool) (stages : List sleep_stage_t)
    (fuel : Nat) (hfuel : stages.length < fuel) :
    ∃ tr, flanking_accesses flanking_3class fuel stages = some tr ∧
      ∀ i ∈ tr, 0 ≤ i ∧ i < (stages.length : Int) := by
  unfold flanking_accesses
  apply collect_safe
  intro o ho
  simp only [List.mem_map] at ho
  obtain ⟨e, he, rfl⟩ := ho
  have hr := (mem_up_to _ _ _).1 he
  have hself : ∀ i ∈ [e], 0 ≤ i ∧ i < (stages.length : Int) := by
    intro i hi
    simp only [List.mem_singleton] at hi
    omega
  apply collect_safe
  intro o ho
  simp only [List.mem_cons, List.mem_singleton, List.not_mem_nil, or_false] at ho
  rcases ho with rfl | rfl | rfl | rfl | rfl | rfl | rfl
  · apply some_safe
    intro i hi
    simp only [List.mem_flatMap] at hi
    obtain ⟨j, hj, hij⟩ := hi
    have := mem_flank_passes _ _ _ _ hj
    simp only [List.mem_cons, List.mem_singleton, List.not_mem_nil, or_false] at hij
    omega
  · apply some_safe
    intro i hi
    simp only [List.mem_flatMap] at hi
    obtain ⟨ee, hee, hij⟩ := hi
    have := (mem_up_to _ _ _).1 (mem_until_break _ _ _ hee)
    simp only [List.mem_cons, List.mem_singleton, List.not_mem_nil, or_false] at hij
    omega
  · apply run_loop_safe _ _ (fun ee => -1 ≤ ee ∧ ee < e) (fun ee => (ee + 1).toNat)
    · intro ee hee
      constructor
      · intro i hi
        split_ifs at hi <;> simp at hi <;> omega
      · intro s1 hs1
        split_ifs at hs1 <;> simp at hs1 <;> omega
    · show -1 ≤ e - 1 ∧ e - 1 < e
      omega
    · show (e - 1 + 1).toNat < fuel
      omega
  · exact some_safe _ _ hself
  · apply some_safe
    intro i hi
    split_ifs at hi
    · simp only [List.mem_flatMap] at hi
      obtain ⟨j, hj, hij⟩ := hi
      have := mem_flank_passes _ _ _ _ hj
      simp only [List.mem_cons, List.mem_singleton, List.not_mem_nil, or_false] at hij
      omega
    · simp at hi
  · exact some_safe _ _ hself
  · apply some_safe
    intro i hi
    split_ifs at hi
    · simp only [List.mem_cons, List.mem_singleton, List.not_mem_nil, or_false] at hi
      omega
    · simp at hi

theorem transition_scan_accesses_safe (stages : List sleep_stage_t) (fuel : Nat)
    (hfuel : stages.length < fuel) (source : sleep_stage_t → Bool) (e : Int)
    (he : 0 ≤ e ∧ e < (stages.length : Int)) :
    ∃ tr, transition_scan_accesses fuel stages source e = some tr ∧
      ∀ i ∈ tr, 0 ≤ i ∧ i < (stages.length : Int) := by
  unfold transition_scan_accesses
  apply run_loop_safe _ _ (fun ei => 1 ≤ ei ∧ e + ei ≤ (stages.length : Int))
    (fun ei => ((stages.length : Int) - (e + ei)).toNat)
  · intro ei hei
    constructor
    · intro i hi
      split_ifs at hi <;> simp at hi <;> omega
    · intro s1 hs1
      split_ifs at hs1 <;> simp at hs1 <;> omega
  · show (1 : Int) ≤ 1 ∧ e + 1 ≤ (stages.length : Int)
    omega
  · show ((stages.length : Int) - (e + 1)).toNat < fuel
    omega

theorem transition_accesses_safe (stages : List sleep_stage_t) (fuel : Nat)
    (hfuel : stages.length < fuel) :
    ∃ tr, transition_accesses fuel stages = some tr ∧
      ∀ i ∈ tr, 0 ≤ i ∧ i < (stages.length : Int) := by
  unfold transition_accesses
  apply collect_safe
  intro o ho
  simp only [List.mem_map] at ho
  obtain ⟨e, he, rfl⟩ := ho
  have hr := (mem_up_to _ _ _).1 he
  have hself : ∀ i ∈ [e], 0 ≤ i ∧ i < (stages.length : Int) := by
    intro i hi
    simp only [List.mem_singleton] at hi
    omega
  have hclass : ∀ source : sleep_stage_t → Bool,
      ∃ tr, (if source (stage_int stages e) = true then
          collect [transition_scan_accesses fuel stages source e, some [e],
            transition_scan_accesses fuel stages source e, some [e]]
        else some []) = some tr ∧ ∀ i ∈ tr, 0 ≤ i ∧ i < (stages.length : Int) := by
    intro source
    split_ifs
    · apply collect_safe
      intro o ho
      simp only [List.mem_cons, List.mem_singleton, List.not_mem_nil, or_false] at ho
      rcases ho with rfl | rfl | rfl | rfl
      · exact transition_scan_accesses_safe stages fuel hfuel source e hr
      · exact some_safe _ _ hself
      · exact transition_scan_accesses_safe stages fuel hfuel source e hr
      · exact some_safe _ _ hself
    · exact some_safe _ _ (fun i hi => by simp at hi)
  apply collect_safe
  intro o ho
  simp only [List.mem_cons, List.mem_singleton, List.not_mem_nil, or_false] at ho
  rcases ho with rfl | rfl | rfl | rfl
  · exact some_safe _ _ hself
  · exact hclass is_nrem
  · exact hclass is_rem
  · exact hclass is_wake

/-- With a persistent-sleep threshold of at least one epoch, a call of
`calc_stats` on a non-empty vector ends within `ne + 1` passes of every loop and
indexes inside the vector. -/
theorem calc_stats_accesses_safe (flanking_3class : Bool) (old_code : List Int)
    (epoch_mins : ℚ) (stages : List sleep_stage_t) (hne : stages ≠ [])
    (hP : 1 ≤ (thresholds_of epoch_mins).def_persistent_sleep_epochs) :
    ∃ tr, calc_stats_accesses flanking_3class (stages.length + 1) old_code epoch_mins stages
        = some tr ∧
      ∀ i ∈ tr, 0 ≤ i ∧ i < (stages.length : Int) := by
  have hlen := length_recode_edges stages
  have hne2 : recode_edges stages ≠ [] := by
    intro h
    rw [h] at hlen
    exact hne (List.length_eq_zero.1 hlen.symm)
  have hfuel : (recode_edges stages).length < stages.length + 1 := by omega
  unfold calc_stats_accesses
  simp only
  rw [← hlen]
  apply collect_safe
  intro o ho
  rw [List.mem_append] at ho
  rcases ho with ho | ho
  · simp only [List.mem_cons, List.mem_singleton, List.not_mem_nil, or_false] at ho
    rcases ho with rfl | rfl | rfl
    · have := recode_accesses_safe stages hne ((recode_edges stages).length + 1) (by omega)
      rw [hlen] at this ⊢
      exact this
    · exact some_safe _ _ (epoch_loop_accesses_safe _)
    · exact lights_check_accesses_safe _ _ (by omega)
  · split_ifs at ho
    · simp at ho
    · simp only [List.mem_cons, List.mem_singleton, List.not_mem_nil, or_false] at ho
      rcases ho with rfl | rfl | rfl | rfl | rfl | rfl | rfl | rfl | rfl | rfl | rfl | rfl | rfl
        | rfl | rfl | rfl | rfl | rfl | rfl | rfl | rfl | rfl
      · exact some_safe _ _ (boundary_accesses_safe _)
      · exact some_safe _ _ (first_sleep_accesses_safe _ _)
      · exact last_sleep_accesses_safe _ hne2 _ (by omega)
      · exact some_safe _ _ (waso_accesses_safe _ hne2 _)
      · exact persistent_sleep_accesses_safe _ _ hP _ (by omega)
      · exact some_safe _ _ (epoch_loop_accesses_safe _)
      · exact some_safe _ _ (from_end_accesses_safe _)
      · exact some_safe _ _ (epoch_loop_accesses_safe _)
      · exact some_safe _ _ (epoch_loop_accesses_safe _)
      · exact some_safe _ _ (from_end_accesses_safe _)
      · exact some_safe _ _ (sleep_period_accesses_safe _ _)
      · exact some_safe _ _ (first_period_accesses_safe _ _)
      · exact some_safe _ _ (sleep_code_accesses_safe _ _)
      · exact some_safe _ _ (cycle_number_accesses_safe _ _)
      · exact some_safe _ _ (epoch_loop_accesses_safe _)
      · exact some_safe _ _ (epoch_loop_accesses_safe _)
      · exact some_safe _ _ (epoch_loop_accesses_safe _)
      · exact n2_ascdesc_accesses_safe _ _ (by omega)
      · exact some_safe _ _ (epoch_loop_accesses_safe _)
      · exact flanking_accesses_safe _ _ _ (by omega)
      · exact transition_accesses_safe _ _ (by omega)
      · exact some_safe _ _ (total_accesses_safe _ hne2)

/-- C40: with 30-second epochs, a call of `calc_stats` on a non-empty stage
vector ends within `ne + 1` passes of every loop, and every index it uses for
`stages` and the per-epoch vectors (edge recoding, persistent-sleep look-back,
look-ahead windows, WASO count, flanking and transition scans, and the other
loops) is in 0 .. `ne - 1`. -/
theorem calc_stats_index_safe (flanking_3class : Bool) (old_code : List Int)
    (stages : List sleep_stage_t) (hne : stages ≠ []) :
    ∃ tr, calc_stats_accesses flanking_3class (stages.length + 1) old_code (1 / 2) stages
        = some tr ∧
      ∀ i ∈ tr, 0 ≤ i ∧ i < (stages.length : Int) :=
  calc_stats_accesses_safe flanking_3class old_code (1 / 2) stages hne
    (persistent_threshold_pos (1 / 2) (by norm_num) (by norm_num))

theorem calc_stats_index_safe_witness :
    short_night ≠ [] ∧
    ∃ tr, calc_stats_accesses true (short_night.length + 1) [] (1 / 2) short_night = some tr ∧
      ∀ i ∈ tr, 0 ≤ i ∧ i < (short_night.length : Int) :=
  ⟨by decide, calc_stats_index_safe true [] short_night (by decide)⟩

/-- On an empty vector the backward recoding loop starts at index -1 and never
meets its end test `e != 0`: no amount of fuel ends it. -/
theorem recode_accesses_empty (fuel : Nat) : recode_accesses fuel [] = none := by
  have key : ∀ (fuel : Nat) (e : Int), e < 0 →
      run_loop (fun (e : Int) =>
        if e = 0 then (([] : List Int), (none : Option Int))
        else ([e],
          if (if stage_int (recode_leading []) e = UNKNOWN then LIGHTS_ON
                else stage_int (recode_leading []) e) ≠ UNKNOWN
              ∧ (if stage_int (recode_leading []) e = UNKNOWN then LIGHTS_ON
                else stage_int (recode_leading []) e) ≠ LIGHTS_ON
          then none else some (e - 1))) fuel e = none := by
    intro fuel
    induction fuel with
    | zero => intro e _; rfl
    | succ fuel ih =>
      intro e he
      have hs : stage_int (recode_leading []) e = UNKNOWN := rfl
      have hc : ¬ (LIGHTS_ON ≠ UNKNOWN ∧ LIGHTS_ON ≠ LIGHTS_ON) := by decide
      unfold run_loop
      simp only [hs, if_true, if_neg (show e ≠ 0 by omega), if_neg hc]
      rw [ih (e - 1) (by omega)]
  unfold recode_accesses
  simp only [List.length_nil, Nat.cast_zero, zero_sub]
  have := key fuel (-1) (by omega)
  simp only [collect, this]

/-! ## The statements on rounding, in binary64 -/

theorem double_run_with_ok {r : Except calc_error rounded_t} {p : rounded_t → Bool}
    (h : double_run_with r p = true) : ∃ x, r = Except.ok x ∧ p x = true := by
  cases r with
  | error e => simp [double_run_with] at h
  | ok x => exact ⟨x, rfl, by simpa [double_run_with] using h⟩

/-- The epoch duration of 20-second epochs in binary64 is the number nearest to
1/3, which is below 1/3; the thresholds in epochs are those of exact
arithmetic. -/
theorem epoch_mins_double_twenty :
    epoch_mins_double 20 = 6004799503160661 / 18014398509481984 ∧
    epoch_mins_double 20 < 1 / 3 ∧
    thresholds_double (epoch_mins_double 20) = ⟨30, 45, 45, 45, 15⟩ ∧
    thresholds_of (1 / 3) = ⟨30, 45, 45, 45, 15⟩ := by
  refine ⟨by decide!, by decide!, by decide!, by decide!⟩

/-- C9, as stated, fails for the binary64 numbers the program stores: with
20-second epochs, on the night NREM2, 6 WAKE, NREM2 the run returns with
`WASO = 6 * epoch_mins` rounded to 2, while `TWT`, the sum of six rounded
additions of `epoch_mins`, is 1.9999999999999998. -/
theorem waso_exceeds_wake_time_in_double :
    ∃ d, calc_stats_double 20 ([NREM2] ++ List.replicate 6 WAKE ++ [NREM2]) = Except.ok d ∧
      d.WASO = 2 ∧ d.TWT = 9007199254740991 / 4503599627370496 ∧ d.TWT < d.WASO := by
  have hrun : double_run_with
      (calc_stats_double 20 ([NREM2] ++ List.replicate 6 WAKE ++ [NREM2])) (fun d =>
      decide (d.WASO = 2) && decide (d.TWT = 9007199254740991 / 4503599627370496)
        && decide (d.TWT < d.WASO)) = true := by
    decide!
  obtain ⟨d, hok, hp⟩ := double_run_with_ok hrun
  simp only [Bool.and_eq_true, decide_eq_true_eq] at hp
  exact ⟨d, hok, hp.1.1, hp.1.2, hp.2⟩

/-- C12, as stated, fails for the binary64 numbers the program stores: with
20-second epochs, on the night of 45 NREM2 epochs and one REM epoch the run
returns with all 46 epochs in cycle 1, `nremc_nrem_duration[1] = 45 * epoch_mins`
rounded to 15, `nremc_rem_duration[1] = epoch_mins` and
`nremc_duration[1] = 46 * epoch_mins` rounded to 15.333333333333332, which is
below the sum of the two, both as an exact sum and as a binary64 sum. -/
theorem cycle_parts_exceed_duration_in_double :
    ∃ d, calc_stats_double 20 (List.replicate 45 NREM2 ++ [REM]) = Except.ok d ∧
      d.sleep_cycle_number = List.replicate 46 1 ∧
      d.nremc_epoch_duration.lookup 1 = some 46 ∧
      d.nremc_nrem_duration.lookup 1 = some 15 ∧
      d.nremc_rem_duration.lookup 1 = some (6004799503160661 / 18014398509481984) ∧
      d.nremc_duration.lookup 1 = some (4315949642896725 / 281474976710656) ∧
      (4315949642896725 / 281474976710656 : ℚ) < 15 + 6004799503160661 / 18014398509481984 ∧
      (4315949642896725 / 281474976710656 : ℚ)
        < round_double (15 + 6004799503160661 / 18014398509481984) := by
  have hrun : double_run_with (calc_stats_double 20 (List.replicate 45 NREM2 ++ [REM])) (fun d =>
      decide (d.sleep_cycle_number = List.replicate 46 1)
        && decide (d.nremc_epoch_duration.lookup 1 = some 46)
        && decide (d.nremc_nrem_duration.lookup 1 = some 15)
        && decide (d.nremc_rem_duration.lookup 1 = some (6004799503160661 / 18014398509481984))
        && decide (d.nremc_duration.lookup 1 = some (4315949642896725 / 281474976710656)))
      = true := by
    decide!
  obtain ⟨d, hok, hp⟩ := double_run_with_ok hrun
  simp only [Bool.and_eq_true, decide_eq_true_eq] at hp
  exact ⟨d, hok, hp.1.1.1.1, hp.1.1.1.2, hp.1.1.2, hp.1.2, hp.2, by norm_num, by decide!⟩

end Hypno
